import Mathlib


/-!
Record manager, buffer pool and storage manager: a shallow embedding

The development embeds the C sources `storage_mgr.c`, `hash_table.c`,
`buffer_mgr.c` and `record_mgr.c` as executable Lean definitions and proves
properties of them.

Conventions of the embedding.

* C `int` values are `Int`; the 32-bit width is made explicit only where a
  value is stored in page bytes (`encodeInt`, `decodeInt`) and for the
  `unsigned int` time stamp (`% 4294967296`).
* A C function that mutates global state takes the state and returns the new
  state next to its return value.
* The result type is an `Option`: `none` stands for an execution that leaves
  defined behaviour (a byte access outside the `PAGE_SIZE` bytes of a frame,
  a dereference of a null or freed pointer, an out-of-range array index, a
  division by zero), for a loop that does not terminate within its fuel, and
  for a cast between the catalog page and a data page, which the embedding
  keeps apart.
* A pointer to a frame buffer is the index of the frame; a pointer to a table
  descriptor inside the catalog page is the index of the descriptor.
-/

namespace RecMgr

/-! ## Constants -/

/-- Modelled from the spec: the header that defines PAGE_SIZE is not among the
sources; the spec gives it as a build-time constant, "e.g. 4096". -/
def PAGE_SIZE : Nat := 4096

/-- Modelled from the spec: sentinel value `NO_PAGE = -1`. -/
def NO_PAGE : Int := -1

/-- The value of `UINT_MAX` for the 32-bit `unsigned int` used as `TimeStamp`. -/
def UINT_MAX : Nat := 4294967295

def PAGE_TABLE_SIZE : Int := 256

def ARRAY_LIST_SIZE : Nat := 16

def TABLE_NAME_SIZE : Nat := 16

def ATTR_NAME_SIZE : Nat := 16

def MAX_NUM_ATTR : Int := 8

def MAX_NUM_KEYS : Int := 4

/-- Modelled from the spec: `sizeof(int)`, 4 bytes (the spec's on-disk size of INT). -/
def sizeofInt : Int := 4

/-- Modelled from the spec: `sizeof(float)`, 4 bytes (the spec's on-disk size of FLOAT). -/
def sizeofFloat : Int := 4

/-- Modelled from the spec: `sizeof(bool)`, 1 byte (the spec's on-disk size of BOOL and
of a slot byte); the header declaring `bool` is not among the sources. -/
def sizeofBool : Int := 1

/-- The size of `RM_PageHeader`: three `int` fields. -/
def sizeofPageHeader : Int := 12

/-- The size of `RM_SystemSchema` on an LP64 target:
16 + 4 + 128 + 32 + 32 + 4 + 16 + 4 + 4 + 8 bytes. -/
def sizeofSystemSchema : Nat := 248

/-- The source's `MAX_NUM_TABLES`: `PAGE_SIZE / (sizeof(RM_SystemSchema) + sizeof(int) * 2)`. -/
def MAX_NUM_TABLES : Nat := PAGE_SIZE / (sizeofSystemSchema + 4 * 2)

/-- The size of `RM_SystemCatalog`: three `int` fields, padding to 8, and the table array. -/
def sizeofSystemCatalog : Nat := 16 + sizeofSystemSchema * MAX_NUM_TABLES

/-- Return codes named by the sources (the header that numbers them is not among them). -/
inductive RC where
  | RC_OK
  | RC_FILE_NOT_FOUND
  | RC_FILE_HANDLE_NOT_INIT
  | RC_WRITE_FAILED
  | RC_READ_NON_EXISTING_PAGE
  | RC_RM_NO_MORE_TUPLES
  | RC_IM_KEY_NOT_FOUND
  | RC_IM_NO_MORE_ENTRIES
  deriving DecidableEq

inductive DataType where
  | DT_INT
  | DT_STRING
  | DT_FLOAT
  | DT_BOOL
  deriving DecidableEq

/-- A C string: the characters before the terminating NUL. -/
abbrev CString := List Char

/-! ## Data model -/

/-- The handle `BM_PageHandle`: a page number and the `data` pointer, which points at
the buffer of a frame (`some i` is the buffer of frame `i`, `none` an unset pointer). -/
structure BM_PageHandle where
  pageNum : Int
  data : Option Int
  deriving DecidableEq

/-- The table descriptor `RM_SystemSchema`, field by field. `name` and `attrNames` hold
the C strings stored in their `char` arrays; `handle` is the pointer to the handle of the
open main page (`none` is `NULL`). -/
structure RM_SystemSchema where
  name : CString
  numAttr : Int
  attrNames : List CString
  dataTypes : List DataType
  typeLength : List Int
  keySize : Int
  keyAttrs : List Int
  numTuples : Int
  pageNum : Int
  handle : Option BM_PageHandle
  deriving DecidableEq

structure RM_SystemCatalog where
  totalNumPages : Int
  freePage : Int
  numTables : Int
  tables : List RM_SystemSchema
  deriving DecidableEq

/-- The content of one page of `PAGE_SIZE` bytes: either raw bytes (every data page, and
a page that was never written), or the catalog structure that page 0 holds. -/
inductive PageContent where
  | bytes (b : List Nat)
  | catalog (c : RM_SystemCatalog)
  deriving DecidableEq

/-- A page of `PAGE_SIZE` zero bytes, as `memset(emptyPage, 0, PAGE_SIZE)` builds it. -/
def emptyPage : PageContent := PageContent.bytes (List.replicate PAGE_SIZE 0)

/-- The descriptor all of whose bytes are zero. -/
def zeroSystemSchema : RM_SystemSchema :=
  { name := [], numAttr := 0, attrNames := List.replicate 8 [],
    dataTypes := List.replicate 8 DataType.DT_INT, typeLength := List.replicate 8 0,
    keySize := 0, keyAttrs := List.replicate 4 0, numTuples := 0, pageNum := 0,
    handle := none }

/-- The catalog all of whose bytes are zero. -/
def zeroSystemCatalog : RM_SystemCatalog :=
  { totalNumPages := 0, freePage := 0, numTables := 0,
    tables := List.replicate MAX_NUM_TABLES zeroSystemSchema }

/-- The page viewed through `(RM_SystemCatalog *)`: the catalog it holds; a zero-filled
page is the zero catalog. Other raw pages are not modelled as a catalog. -/
def asCatalog : PageContent → Option RM_SystemCatalog
  | PageContent.catalog c => some c
  | PageContent.bytes b => if b = List.replicate PAGE_SIZE 0 then some zeroSystemCatalog else none

/-- The page viewed as raw bytes (header, slot bytes, tuples); the catalog page is not
modelled as a data page. -/
def asBytes : PageContent → Option (List Nat)
  | PageContent.bytes b => some b
  | PageContent.catalog _ => none

/-! ## Bytes of a page -/

/-- Element `i` of a C array held as a list, `none` when the index is out of range. -/
def getI? {α : Type} (l : List α) (i : Int) : Option α :=
  if 0 ≤ i then l[i.toNat]? else none

/-- The byte at offset `off` of a buffer. -/
def readByte (b : List Nat) (off : Int) : Option Nat :=
  getI? b off

/-- Store one byte at offset `off` of a buffer. -/
def writeByte (b : List Nat) (off : Int) (v : Nat) : Option (List Nat) :=
  if 0 ≤ off ∧ off.toNat < b.length then some (b.set off.toNat v) else none

/-- The `n` bytes from offset `off` of a buffer. -/
def readBytes (b : List Nat) (off : Int) (n : Nat) : Option (List Nat) :=
  if 0 ≤ off ∧ off.toNat + n ≤ b.length then some ((b.drop off.toNat).take n) else none

/-- The effect of `memcpy(b + off, src, src.length)` on the buffer `b`. -/
def writeBytes (b : List Nat) (off : Int) (src : List Nat) : Option (List Nat) :=
  if 0 ≤ off ∧ off.toNat + src.length ≤ b.length then
    some (b.take off.toNat ++ src ++ b.drop (off.toNat + src.length))
  else none

/-- The four bytes of a 32-bit `int`, least significant first (host byte order of the
little-endian targets). -/
def encodeInt (v : Int) : List Nat :=
  let u := (v % 4294967296).toNat
  [u % 256, u / 256 % 256, u / 65536 % 256, u / 16777216 % 256]

/-- The 32-bit two's complement `int` stored in four bytes, least significant first. -/
def decodeInt (b0 b1 b2 b3 : Nat) : Int :=
  let u := b0 + 256 * b1 + 65536 * b2 + 16777216 * b3
  if u < 2147483648 then (u : Int) else (u : Int) - 4294967296

/-- Read an `int` field at byte offset `off`. -/
def readInt (b : List Nat) (off : Int) : Option Int :=
  match readBytes b off 4 with
  | some [b0, b1, b2, b3] => some (decodeInt b0 b1 b2 b3)
  | _ => none

/-- Store an `int` field at byte offset `off`. -/
def writeInt (b : List Nat) (off : Int) (v : Int) : Option (List Nat) :=
  writeBytes b off (encodeInt v)

/-! ## Storage manager (`storage_mgr.c`) -/

/-- The file handle `SM_FileHandle`. `mgmtInfo` is the `FILE *`: `none` is `NULL`, and an
open stream is identified with the sequence of pages of the file it reads and writes. -/
structure SM_FileHandle where
  fileName : String
  totalNumPages : Int
  curPagePos : Int
  mgmtInfo : Option (List PageContent)
  deriving DecidableEq

/-- The page file in the file system: `none` when the file does not exist. -/
abbrev Disk := Option (List PageContent)

def createPageFile (_fileName : String) (_disk : Disk) : RC × Disk :=
  (RC.RC_OK, some [emptyPage])

def openPageFile (fileName : String) (disk : Disk) (fHandle : SM_FileHandle) :
    RC × SM_FileHandle :=
  match disk with
  | none => (RC.RC_FILE_NOT_FOUND, fHandle)
  | some pages =>
    (RC.RC_OK, { fileName := fileName, totalNumPages := (pages.length : Int),
                 curPagePos := 0, mgmtInfo := some pages })

def closePageFile (fHandle : SM_FileHandle) (_disk : Disk) : Option (RC × SM_FileHandle × Disk) :=
  match fHandle.mgmtInfo with
  | none => none
  | some pages => some (RC.RC_OK, { fHandle with mgmtInfo := none }, some pages)

def destroyPageFile (_fileName : String) (disk : Disk) : RC × Disk :=
  match disk with
  | none => (RC.RC_FILE_NOT_FOUND, none)
  | some _ => (RC.RC_OK, none)

def readBlock (pageNum : Int) (fHandle : SM_FileHandle) (memPage : PageContent) :
    Option (RC × PageContent) :=
  if pageNum < 0 ∨ pageNum ≥ fHandle.totalNumPages then
    some (RC.RC_READ_NON_EXISTING_PAGE, memPage)
  else
    match fHandle.mgmtInfo with
    | none => none
    | some pages =>
      match pages[pageNum.toNat]? with
      | some p => some (RC.RC_OK, p)
      | none => some (RC.RC_READ_NON_EXISTING_PAGE, memPage)

/-- The pages of a file after `fwrite` of one page at page position `n`: a position past
the end leaves zero pages in between. -/
def writeAt (pages : List PageContent) (n : Nat) (p : PageContent) : List PageContent :=
  if n < pages.length then pages.set n p
  else pages ++ List.replicate (n - pages.length) emptyPage ++ [p]

def writeBlock (pageNum : Int) (fHandle : SM_FileHandle) (memPage : PageContent) :
    Option (RC × SM_FileHandle) :=
  if pageNum < 0 ∨ pageNum ≥ fHandle.totalNumPages then
    some (RC.RC_READ_NON_EXISTING_PAGE, fHandle)
  else
    match fHandle.mgmtInfo with
    | none => none
    | some pages =>
      some (RC.RC_OK, { fHandle with mgmtInfo := some (writeAt pages pageNum.toNat memPage) })

def appendEmptyBlock (fHandle : SM_FileHandle) : Option (RC × SM_FileHandle) :=
  match fHandle.mgmtInfo with
  | none => none
  | some pages =>
    some (RC.RC_OK, { fHandle with mgmtInfo := some (pages ++ [emptyPage]),
                                   totalNumPages := fHandle.totalNumPages + 1 })

/-- The `while` loop of `ensureCapacity`; `fuel` bounds the number of iterations. -/
def ensureCapacityLoop (numberOfPages : Int) : Nat → SM_FileHandle → Option (RC × SM_FileHandle)
  | 0, fHandle =>
    if fHandle.totalNumPages < numberOfPages then none else some (RC.RC_OK, fHandle)
  | fuel + 1, fHandle =>
    if fHandle.totalNumPages < numberOfPages then
      match appendEmptyBlock fHandle with
      | none => none
      | some (result, fHandle1) =>
        if result ≠ RC.RC_OK then some (result, fHandle1)
        else ensureCapacityLoop numberOfPages fuel fHandle1
    else some (RC.RC_OK, fHandle)

/-- The source's `ensureCapacity`; the fuel is the number of iterations its loop needs,
each of which adds one page. -/
def ensureCapacity (numberOfPages : Int) (fHandle : SM_FileHandle) : Option (RC × SM_FileHandle) :=
  ensureCapacityLoop numberOfPages (numberOfPages - fHandle.totalNumPages).toNat fHandle

/-! ## Hash table (`hash_table.c`) -/

structure HT_KeyValuePair where
  key : Int
  value : Int
  deriving DecidableEq

/-- The array list `HT_ArrayList`; its `size` is the length of `list`. -/
structure HT_ArrayList where
  capacity : Nat
  list : List HT_KeyValuePair
  deriving DecidableEq

/-- The table handle `HT_TableHandle`; `mgmt` is the array of buckets. -/
structure HT_TableHandle where
  size : Int
  mgmt : List HT_ArrayList
  deriving DecidableEq

def AL_push (al : HT_ArrayList) (key value : Int) : HT_ArrayList :=
  let capacity := if al.list.length = al.capacity then al.capacity + ARRAY_LIST_SIZE else al.capacity
  { capacity := capacity, list := al.list ++ [{ key := key, value := value }] }

def AL_remoteAt (al : HT_ArrayList) (i : Nat) : HT_ArrayList :=
  if i < al.list.length then { al with list := al.list.eraseIdx i } else al

def initHashTable (size : Int) : HT_TableHandle :=
  { size := size,
    mgmt := List.replicate size.toNat { capacity := ARRAY_LIST_SIZE, list := [] } }

/-- The bucket index `key % ht->size` (C remainder), `none` when it is not the index of
a bucket or the size is zero. -/
def bucketIndex (ht : HT_TableHandle) (key : Int) : Option Nat :=
  if ht.size = 0 then none
  else
    let i := Int.tmod key ht.size
    if 0 ≤ i ∧ i.toNat < ht.mgmt.length then some i.toNat else none

/-- The result of `getValue`: `some v` for return value 0 with `*value = v`, `none` for
return value 1. -/
def getValue (ht : HT_TableHandle) (key : Int) : Option (Option Int) :=
  match bucketIndex ht key with
  | none => none
  | some i =>
    match ht.mgmt[i]? with
    | none => none
    | some al => some ((al.list.find? (fun p => p.key == key)).map (fun p => p.value))

/-- Overwrite the value of the first pair whose key is `key`. -/
def setFirst (key value : Int) : List HT_KeyValuePair → List HT_KeyValuePair
  | [] => []
  | p :: ps => if p.key = key then { p with value := value } :: ps else p :: setFirst key value ps

def setValue (ht : HT_TableHandle) (key value : Int) : Option (Int × HT_TableHandle) :=
  match bucketIndex ht key with
  | none => none
  | some i =>
    match ht.mgmt[i]? with
    | none => none
    | some al =>
      if al.list.any (fun p => p.key == key) then
        some (0, { ht with mgmt := ht.mgmt.set i { al with list := setFirst key value al.list } })
      else
        some (0, { ht with mgmt := ht.mgmt.set i (AL_push al key value) })

def removePair (ht : HT_TableHandle) (key : Int) : Option (Int × HT_TableHandle) :=
  match bucketIndex ht key with
  | none => none
  | some i =>
    match ht.mgmt[i]? with
    | none => none
    | some al =>
      let j := al.list.findIdx (fun p => p.key == key)
      if j < al.list.length then
        some (0, { ht with mgmt := ht.mgmt.set i (AL_remoteAt al j) })
      else some (1, ht)

/-! ## Buffer pool (`buffer_mgr.c`) -/

/-- Modelled from the spec: the replacement strategies; the header that declares the
enumeration is not among the sources, which use `RS_FIFO` and `RS_LRU`. -/
inductive ReplacementStrategy where
  | RS_FIFO
  | RS_LRU
  deriving DecidableEq

structure BM_PageFrame where
  data : PageContent
  pageNum : Int
  frameIndex : Int
  fixCount : Int
  dirty : Bool
  occupied : Bool
  timeStamp : Nat
  deriving DecidableEq

structure BM_Metadata where
  pageFrames : List BM_PageFrame
  pageTable : HT_TableHandle
  pageFile : SM_FileHandle
  timeStamp : Nat
  queueIndex : Int
  numRead : Int
  numWrite : Int
  deriving DecidableEq

/-- The pointer `bm->mgmtData`: `NULL`, a live `BM_Metadata`, or a pointer to metadata that
`shutdownBufferPool` has freed. -/
inductive MgmtPtr where
  | null
  | live (md : BM_Metadata)
  | freed
  deriving DecidableEq

structure BM_BufferPool where
  pageFile : String
  numPages : Int
  strategy : ReplacementStrategy
  mgmtData : MgmtPtr
  deriving DecidableEq

/-- The source's `getTimeStamp`: return the global time stamp and increment it
(`unsigned int` arithmetic). -/
def getTimeStamp (md : BM_Metadata) : Nat × BM_Metadata :=
  (md.timeStamp, { md with timeStamp := (md.timeStamp + 1) % 4294967296 })

/-- The frame `pageFrames[i]`. -/
def frameAt (md : BM_Metadata) (i : Int) : Option BM_PageFrame :=
  getI? md.pageFrames i

/-- Store into `pageFrames[i]`. -/
def setFrame (md : BM_Metadata) (i : Int) (f : BM_PageFrame) : BM_Metadata :=
  { md with pageFrames := md.pageFrames.set i.toNat f }

/-- The source's `getAfterEviction`: the returned frame pointer is the index passed in, so
only the new metadata is returned. -/
def getAfterEviction (md : BM_Metadata) (frameIndex : Int) : Option BM_Metadata :=
  match frameAt md frameIndex with
  | none => none
  | some f0 =>
    let (ts, md1) := getTimeStamp md
    let f := { f0 with timeStamp := ts }
    let md2 := setFrame md1 frameIndex f
    if f.occupied then
      match removePair md2.pageTable f.pageNum with
      | none => none
      | some (_, pt) =>
        let md3 := { md2 with pageTable := pt }
        if f.dirty then
          match writeBlock f.pageNum md3.pageFile f.data with
          | none => none
          | some (_, fh) => some { md3 with pageFile := fh, numWrite := md3.numWrite + 1 }
        else some md3
    else some md2

/-- The `do ... while` loop of `replacementFIFO`; `fuel` bounds the iterations and `none`
is also the result of running out of it. -/
def fifoLoop (md : BM_Metadata) (numPages firstIndex : Int) : Nat → Int → Option Int
  | 0, _ => none
  | fuel + 1, currentIndex =>
    if numPages = 0 then none
    else
      let currentIndex1 := Int.tmod (currentIndex + 1) numPages
      match frameAt md currentIndex1 with
      | none => none
      | some f =>
        if f.fixCount = 0 then some currentIndex1
        else if currentIndex1 ≠ firstIndex then fifoLoop md numPages firstIndex fuel currentIndex1
        else some currentIndex1

/-- The source's `replacementFIFO`: `some (some i)` is the frame `i` after eviction,
`some none` is `NULL`. -/
def replacementFIFO (numPages : Int) (md : BM_Metadata) : Option (Option Int × BM_Metadata) :=
  match fifoLoop md numPages md.queueIndex (numPages.toNat + 1) md.queueIndex with
  | none => none
  | some currentIndex =>
    let md1 := { md with queueIndex := currentIndex }
    match frameAt md1 currentIndex with
    | none => none
    | some f =>
      if f.fixCount = 0 then
        match getAfterEviction md1 currentIndex with
        | none => none
        | some md2 => some (some currentIndex, md2)
      else some (none, md1)

/-- The `for` loop of `replacementLRU` over the frames `i, i + 1, ...` (`k` of them), with
the running `min` and `minIndex`. -/
def lruLoop (md : BM_Metadata) : Nat → Nat → Nat → Int → Option Int
  | 0, _, _, minIndex => some minIndex
  | k + 1, i, min, minIndex =>
    match md.pageFrames[i]? with
    | none => none
    | some f =>
      if f.fixCount = 0 ∧ f.timeStamp < min then lruLoop md k (i + 1) f.timeStamp (i : Int)
      else lruLoop md k (i + 1) min minIndex

def replacementLRU (numPages : Int) (md : BM_Metadata) : Option (Option Int × BM_Metadata) :=
  match lruLoop md numPages.toNat 0 UINT_MAX (-1) with
  | none => none
  | some minIndex =>
    if minIndex = -1 then some (none, md)
    else
      match getAfterEviction md minIndex with
      | none => none
      | some md1 => some (some minIndex, md1)

/-- The frames `initBufferPool` allocates, for indices `i, i + 1, ...` (`k` of them). A
buffer obtained from `malloc` is taken as zero-filled and the unset `pageNum` as `NO_PAGE`. -/
def initFrames : Nat → Nat → BM_Metadata → BM_Metadata
  | 0, _, md => md
  | k + 1, i, md =>
    let (ts, md1) := getTimeStamp md
    let f : BM_PageFrame :=
      { data := emptyPage, pageNum := NO_PAGE, frameIndex := (i : Int), fixCount := 0,
        dirty := false, occupied := false, timeStamp := ts }
    initFrames k (i + 1) { md1 with pageFrames := md1.pageFrames ++ [f] }

/-- The source's `initBufferPool`. The queue index is taken from `bm->numPages` as the
pool structure holds it on entry. -/
def initBufferPool (bm : BM_BufferPool) (pageFileName : String) (disk : Disk) (numPages : Int)
    (strategy : ReplacementStrategy) : RC × BM_BufferPool :=
  let fh0 : SM_FileHandle := { fileName := "", totalNumPages := 0, curPagePos := 0, mgmtInfo := none }
  let md0 : BM_Metadata :=
    { pageFrames := [], pageTable := { size := 0, mgmt := [] }, pageFile := fh0, timeStamp := 0,
      queueIndex := bm.numPages - 1, numRead := 0, numWrite := 0 }
  match openPageFile pageFileName disk md0.pageFile with
  | (RC.RC_OK, fh) =>
    let md1 := { md0 with pageFile := fh, pageTable := initHashTable PAGE_TABLE_SIZE }
    let md2 := initFrames numPages.toNat 0 md1
    (RC.RC_OK, { pageFile := pageFileName, numPages := numPages, strategy := strategy,
                 mgmtData := MgmtPtr.live md2 })
  | (result, _) => (result, { bm with mgmtData := MgmtPtr.null })

/-- The loop body of `forceFlushPool` for the frames `i, i + 1, ...` (`k` of them). -/
def forceFlushLoop : Nat → Nat → BM_Metadata → Option BM_Metadata
  | 0, _, md => some md
  | k + 1, i, md =>
    match md.pageFrames[i]? with
    | none => none
    | some f =>
      if f.occupied ∧ f.dirty ∧ f.fixCount = 0 then
        match writeBlock f.pageNum md.pageFile f.data with
        | none => none
        | some (_, fh) =>
          let md1 := { md with pageFile := fh, numWrite := md.numWrite + 1 }
          let (ts, md2) := getTimeStamp md1
          forceFlushLoop k (i + 1) (setFrame md2 (i : Int) { f with timeStamp := ts, dirty := false })
      else forceFlushLoop k (i + 1) md

def forceFlushPool (bm : BM_BufferPool) : Option (RC × BM_BufferPool) :=
  match bm.mgmtData with
  | MgmtPtr.null => some (RC.RC_FILE_HANDLE_NOT_INIT, bm)
  | MgmtPtr.freed => none
  | MgmtPtr.live md =>
    match forceFlushLoop bm.numPages.toNat 0 md with
    | none => none
    | some md1 => some (RC.RC_OK, { bm with mgmtData := MgmtPtr.live md1 })

/-- The first loop of `shutdownBufferPool`: is some frame among the first `k` pinned. -/
def anyPinned (md : BM_Metadata) : Nat → Nat → Option Bool
  | 0, _ => some false
  | k + 1, i =>
    match md.pageFrames[i]? with
    | none => none
    | some f => if f.fixCount > 0 then some true else anyPinned md k (i + 1)

/-- The source's `shutdownBufferPool`; on success the pages of the closed file are what
the file system holds from then on, and `bm->mgmtData` is left pointing at freed memory. -/
def shutdownBufferPool (bm : BM_BufferPool) (disk : Disk) : Option (RC × BM_BufferPool × Disk) :=
  match bm.mgmtData with
  | MgmtPtr.null => some (RC.RC_FILE_HANDLE_NOT_INIT, bm, disk)
  | MgmtPtr.freed => none
  | MgmtPtr.live md =>
    match anyPinned md bm.numPages.toNat 0 with
    | none => none
    | some true => some (RC.RC_WRITE_FAILED, bm, disk)
    | some false =>
      match forceFlushPool bm with
      | some (_, { mgmtData := MgmtPtr.live md1, .. }) =>
        if md1.pageFrames.length < bm.numPages.toNat then none
        else
          match closePageFile md1.pageFile disk with
          | none => none
          | some (_, _, disk1) => some (RC.RC_OK, { bm with mgmtData := MgmtPtr.freed }, disk1)
      | _ => none

def markDirty (bm : BM_BufferPool) (page : BM_PageHandle) : Option (RC × BM_BufferPool) :=
  match bm.mgmtData with
  | MgmtPtr.null => some (RC.RC_FILE_HANDLE_NOT_INIT, bm)
  | MgmtPtr.freed => none
  | MgmtPtr.live md =>
    match getValue md.pageTable page.pageNum with
    | none => none
    | some none => some (RC.RC_IM_KEY_NOT_FOUND, bm)
    | some (some frameIndex) =>
      match frameAt md frameIndex with
      | none => none
      | some f =>
        let (ts, md1) := getTimeStamp md
        let f1 := { f with timeStamp := ts, dirty := true }
        some (RC.RC_OK, { bm with mgmtData := MgmtPtr.live (setFrame md1 frameIndex f1) })

def unpinPage (bm : BM_BufferPool) (page : BM_PageHandle) : Option (RC × BM_BufferPool) :=
  match bm.mgmtData with
  | MgmtPtr.null => some (RC.RC_FILE_HANDLE_NOT_INIT, bm)
  | MgmtPtr.freed => none
  | MgmtPtr.live md =>
    match getValue md.pageTable page.pageNum with
    | none => none
    | some none => some (RC.RC_IM_KEY_NOT_FOUND, bm)
    | some (some frameIndex) =>
      match frameAt md frameIndex with
      | none => none
      | some f =>
        let (ts, md1) := getTimeStamp md
        let fixCount := if f.fixCount - 1 < 0 then 0 else f.fixCount - 1
        let f1 := { f with timeStamp := ts, fixCount := fixCount }
        some (RC.RC_OK, { bm with mgmtData := MgmtPtr.live (setFrame md1 frameIndex f1) })

def forcePage (bm : BM_BufferPool) (page : BM_PageHandle) : Option (RC × BM_BufferPool) :=
  match bm.mgmtData with
  | MgmtPtr.null => some (RC.RC_FILE_HANDLE_NOT_INIT, bm)
  | MgmtPtr.freed => none
  | MgmtPtr.live md =>
    match getValue md.pageTable page.pageNum with
    | none => none
    | some none => some (RC.RC_IM_KEY_NOT_FOUND, bm)
    | some (some frameIndex) =>
      match frameAt md frameIndex with
      | none => none
      | some f0 =>
        let (ts, md1) := getTimeStamp md
        let f := { f0 with timeStamp := ts }
        let md2 := setFrame md1 frameIndex f
        if f.fixCount = 0 then
          match writeBlock page.pageNum md2.pageFile f.data with
          | none => none
          | some (_, fh) =>
            let md3 := { md2 with pageFile := fh, numWrite := md2.numWrite + 1 }
            some (RC.RC_OK, { bm with mgmtData := MgmtPtr.live (setFrame md3 frameIndex { f with dirty := false }) })
        else some (RC.RC_WRITE_FAILED, { bm with mgmtData := MgmtPtr.live md2 })

/-- The statements of `pinPage` that follow a successful replacement: map the page to the
frame `i` the strategy returned, grow the file if needed, read the page and set the frame's
metadata. -/
def loadPage (md1 : BM_Metadata) (i : Int) (pageNum : Int) : Option BM_Metadata :=
  match frameAt md1 i with
  | none => none
  | some f =>
    match setValue md1.pageTable pageNum f.frameIndex with
    | none => none
    | some (_, pt) =>
      match ensureCapacity (pageNum + 1) md1.pageFile with
      | none => none
      | some (_, fh) =>
        match readBlock pageNum fh f.data with
        | none => none
        | some (_, data) =>
          let f1 := { f with data := data, dirty := false, fixCount := 1, occupied := true,
                             pageNum := pageNum }
          let md2 := { md1 with pageTable := pt, pageFile := fh, numRead := md1.numRead + 1 }
          some (setFrame md2 i f1)

/-- The source's `pinPage`; the handle passed in is returned unchanged when the call
fails. -/
def pinPage (bm : BM_BufferPool) (page : BM_PageHandle) (pageNum : Int) :
    Option (RC × BM_BufferPool × BM_PageHandle) :=
  match bm.mgmtData with
  | MgmtPtr.null => some (RC.RC_FILE_HANDLE_NOT_INIT, bm, page)
  | MgmtPtr.freed => none
  | MgmtPtr.live md =>
    if pageNum ≥ 0 then
      match getValue md.pageTable pageNum with
      | none => none
      | some (some frameIndex) =>
        match frameAt md frameIndex with
        | none => none
        | some f =>
          let (ts, md1) := getTimeStamp md
          let f1 := { f with timeStamp := ts, fixCount := f.fixCount + 1 }
          some (RC.RC_OK, { bm with mgmtData := MgmtPtr.live (setFrame md1 frameIndex f1) },
            { pageNum := pageNum, data := some frameIndex })
      | some none =>
        match (if bm.strategy = ReplacementStrategy.RS_FIFO then replacementFIFO bm.numPages md
               else replacementLRU bm.numPages md) with
        | none => none
        | some (none, md1) => some (RC.RC_WRITE_FAILED, { bm with mgmtData := MgmtPtr.live md1 }, page)
        | some (some i, md1) =>
          match loadPage md1 i pageNum with
          | none => none
          | some md2 =>
            some (RC.RC_OK, { bm with mgmtData := MgmtPtr.live md2 },
              { pageNum := pageNum, data := some i })
    else some (RC.RC_IM_KEY_NOT_FOUND, bm, page)

/-! ## Record manager (`record_mgr.c`): data -/

structure RID where
  page : Int
  slot : Int
  deriving DecidableEq

/-- A record: its identifier and the buffer `data` points at. -/
structure Record where
  id : RID
  data : List Nat
  deriving DecidableEq

/-- A schema as the caller of `createSchema` owns it: the arrays by value. -/
structure Schema where
  numAttr : Int
  attrNames : List CString
  dataTypes : List DataType
  typeLength : List Int
  keyAttrs : List Int
  keySize : Int
  deriving DecidableEq

/-- The schema `openTable` allocates for `rel->schema`: `numAttr` and `keySize` by value,
while the arrays are pointers into the descriptor `table` of the catalog page. -/
structure SchemaRef where
  numAttr : Int
  keySize : Int
  table : Int
  deriving DecidableEq

/-- The structure `RM_TableData`: `name` and `mgmtData` point at a descriptor of the
catalog page and are held as its index. -/
structure RM_TableData where
  name : Int
  schema : SchemaRef
  mgmtData : Int
  deriving DecidableEq

/-- Modelled from the spec: the expression evaluator is external ("only its evaluation
contract is consumed"); a condition is what `evalExpr` computes for it on a record and a
schema, a status and the boxed boolean. -/
structure Expr where
  eval : Record → Schema → RC × Bool

structure RM_ScanData where
  id : RID
  cond : Option Expr

structure RM_ScanHandle where
  rel : RM_TableData
  mgmtData : RM_ScanData

/-- The global variables of `record_mgr.c` together with the page file in the file
system. -/
structure RMState where
  bufferPool : BM_BufferPool
  catalogPageHandle : BM_PageHandle
  disk : Disk
  deriving DecidableEq

/-- A handle declared without an initialiser. -/
def uninitHandle : BM_PageHandle := { pageNum := 0, data := none }

/-- The process state before the first call: zero-initialised globals. -/
def initialState (disk : Disk) : RMState :=
  { bufferPool := { pageFile := "", numPages := 0, strategy := ReplacementStrategy.RS_FIFO,
                    mgmtData := MgmtPtr.null },
    catalogPageHandle := { pageNum := 0, data := none },
    disk := disk }

/-! ### Access to frame buffers through handles -/

/-- The live metadata of the pool, `none` when there is none to dereference. -/
def liveMetadata (s : RMState) : Option BM_Metadata :=
  match s.bufferPool.mgmtData with
  | MgmtPtr.live md => some md
  | _ => none

/-- The content of the buffer that `handle->data` points at. -/
def handleData (s : RMState) (handle : BM_PageHandle) : Option PageContent :=
  match handle.data, liveMetadata s with
  | some i, some md => (frameAt md i).map (fun f => f.data)
  | _, _ => none

/-- Store into the buffer that `handle->data` points at. -/
def setHandleData (s : RMState) (handle : BM_PageHandle) (d : PageContent) : Option RMState :=
  match handle.data, liveMetadata s with
  | some i, some md =>
    match frameAt md i with
    | none => none
    | some f =>
      some { s with bufferPool :=
        { s.bufferPool with mgmtData := MgmtPtr.live (setFrame md i { f with data := d }) } }
  | _, _ => none

/-- The bytes of the data page behind a handle. -/
def pageBytes (s : RMState) (handle : BM_PageHandle) : Option (List Nat) :=
  (handleData s handle).bind asBytes

/-- Store the bytes of the data page behind a handle. -/
def setPageBytes (s : RMState) (handle : BM_PageHandle) (b : List Nat) : Option RMState :=
  match pageBytes s handle with
  | none => none
  | some _ => setHandleData s handle (PageContent.bytes b)

/-- Pool calls on the global `bufferPool`. -/
def rmPinPage (s : RMState) (handle : BM_PageHandle) (pageNum : Int) :
    Option (RC × RMState × BM_PageHandle) :=
  match pinPage s.bufferPool handle pageNum with
  | none => none
  | some (result, bm, h) => some (result, { s with bufferPool := bm }, h)

def rmUnpinPage (s : RMState) (handle : BM_PageHandle) : Option (RC × RMState) :=
  match unpinPage s.bufferPool handle with
  | none => none
  | some (result, bm) => some (result, { s with bufferPool := bm })

def rmMarkDirty (s : RMState) (handle : BM_PageHandle) : Option (RC × RMState) :=
  match markDirty s.bufferPool handle with
  | none => none
  | some (result, bm) => some (result, { s with bufferPool := bm })

def rmForcePage (s : RMState) (handle : BM_PageHandle) : Option (RC × RMState) :=
  match forcePage s.bufferPool handle with
  | none => none
  | some (result, bm) => some (result, { s with bufferPool := bm })

/-! ### Helpers of `record_mgr.c` -/

def getSystemCatalog (s : RMState) : Option RM_SystemCatalog :=
  (handleData s s.catalogPageHandle).bind asCatalog

/-- Store through the pointer `getSystemCatalog` returns. -/
def setSystemCatalog (s : RMState) (catalog : RM_SystemCatalog) : Option RMState :=
  match getSystemCatalog s with
  | none => none
  | some _ => setHandleData s s.catalogPageHandle (PageContent.catalog catalog)

def markSystemCatalogDirty (s : RMState) : Option (RC × RMState) :=
  rmMarkDirty s s.catalogPageHandle

/-- The descriptor `catalog->tables[i]` behind a descriptor pointer. -/
def getTable (s : RMState) (table : Int) : Option RM_SystemSchema :=
  (getSystemCatalog s).bind (fun catalog => getI? catalog.tables table)

/-- Store through a descriptor pointer. -/
def setTable (s : RMState) (table : Int) (t : RM_SystemSchema) : Option RMState :=
  match getSystemCatalog s with
  | none => none
  | some catalog =>
    match getI? catalog.tables table with
    | none => none
    | some _ => setSystemCatalog s { catalog with tables := catalog.tables.set table.toNat t }

/-- The loop of `getTableByName` over the descriptors `i, i + 1, ...` (`k` of them). -/
def getTableByNameLoop (catalog : RM_SystemCatalog) (name : CString) : Nat → Nat → Option (Option Int)
  | 0, _ => some none
  | k + 1, i =>
    match catalog.tables[i]? with
    | none => none
    | some table => if table.name = name then some (some (i : Int))
                    else getTableByNameLoop catalog name k (i + 1)

/-- The source's `getTableByName`: `some (some i)` points at descriptor `i`, `some none` is
`NULL`. -/
def getTableByName (s : RMState) (name : CString) : Option (Option Int) :=
  match getSystemCatalog s with
  | none => none
  | some catalog => getTableByNameLoop catalog name catalog.numTables.toNat 0

/-- The fields of `RM_PageHeader` at their byte offsets. -/
def headerNextPage (b : List Nat) : Option Int := readInt b 0

def headerPrevPage (b : List Nat) : Option Int := readInt b 4

def headerNumSlots (b : List Nat) : Option Int := readInt b 8

/-- The slot byte `getSlots(handle)[i]`, at offset `sizeof(RM_PageHeader) + i`. -/
def getSlot (b : List Nat) (i : Int) : Option Nat :=
  readByte b (sizeofPageHeader + i)

def setSlot (b : List Nat) (i : Int) (v : Nat) : Option (List Nat) :=
  writeByte b (sizeofPageHeader + i) v

/-- The byte offset of `getTupleDataAt(handle, recordSize, index)`. -/
def tupleOffset (numSlots recordSize index : Int) : Int :=
  sizeofPageHeader + sizeofBool * numSlots + index * recordSize

def getAttrSize (schema : Schema) (attrIndex : Int) : Option Int :=
  match getI? schema.dataTypes attrIndex with
  | none => none
  | some DataType.DT_INT => some sizeofInt
  | some DataType.DT_STRING =>
    match getI? schema.typeLength attrIndex with
    | none => none
    | some l => some (l + 1)
  | some DataType.DT_FLOAT => some sizeofFloat
  | some DataType.DT_BOOL => some sizeofBool

/-- The loop of `getRecordSize` over the attributes `i, i + 1, ...` (`k` of them). -/
def getRecordSizeLoop (schema : Schema) : Nat → Nat → Int → Option Int
  | 0, _, size => some size
  | k + 1, i, size =>
    match getAttrSize schema (i : Int) with
    | none => none
    | some a => getRecordSizeLoop schema k (i + 1) (size + a)

def getRecordSize (schema : Schema) : Option Int :=
  getRecordSizeLoop schema schema.numAttr.toNat 0 0

/-- The schema a `SchemaRef` denotes at this moment: its arrays are read from the
descriptor they point into; the attribute-name pointers are the first `numAttr` names. -/
def derefSchema (s : RMState) (r : SchemaRef) : Option Schema :=
  match getTable s r.table with
  | none => none
  | some t =>
    some { numAttr := r.numAttr, attrNames := t.attrNames.take r.numAttr.toNat,
           dataTypes := t.dataTypes, typeLength := t.typeLength, keyAttrs := t.keyAttrs,
           keySize := r.keySize }

def getSystemSchema (rel : RM_TableData) : Int := rel.mgmtData

/-- Store an `int` field of the page header behind a handle. -/
def writeHeaderField (s : RMState) (handle : BM_PageHandle) (off v : Int) : Option RMState :=
  match pageBytes s handle with
  | none => none
  | some b =>
  match writeInt b off v with
  | none => none
  | some b1 => setPageBytes s handle b1

/-- The tail of `getFreePage` on a non-empty free list, once the head has been detached:
set the `prevPage` of the new head `nextPage` to 0. -/
def getFreePageFixNext (s : RMState) (handle : BM_PageHandle) (newPage nextPage : Int) :
    Option (Int × RMState) :=
  match rmPinPage s handle nextPage with
  | none => none
  | some r8 =>
  if r8.1 ≠ RC.RC_OK then some (NO_PAGE, r8.2.1)
  else
  match writeHeaderField r8.2.1 r8.2.2 4 0 with
  | none => none
  | some s9 =>
  match rmMarkDirty s9 r8.2.2 with
  | none => none
  | some r10 =>
  match rmUnpinPage r10.2 r8.2.2 with
  | none => none
  | some r11 =>
  if r11.1 ≠ RC.RC_OK then some (NO_PAGE, r11.2) else some (newPage, r11.2)

def getFreePage (s : RMState) : Option (Int × RMState) :=
  match getSystemCatalog s with
  | none => none
  | some catalog =>
  if catalog.freePage = NO_PAGE then
    let newPage := catalog.totalNumPages
    match setSystemCatalog s { catalog with totalNumPages := catalog.totalNumPages + 1 } with
    | none => none
    | some s1 =>
    match markSystemCatalogDirty s1 with
    | none => none
    | some r2 =>
    match rmPinPage r2.2 uninitHandle newPage with
    | none => none
    | some r3 =>
    if r3.1 ≠ RC.RC_OK then some (NO_PAGE, r3.2.1)
    else
    match writeHeaderField r3.2.1 r3.2.2 4 NO_PAGE with
    | none => none
    | some s4 =>
    match writeHeaderField s4 r3.2.2 0 NO_PAGE with
    | none => none
    | some s5 =>
    match rmMarkDirty s5 r3.2.2 with
    | none => none
    | some r6 =>
    match rmUnpinPage r6.2 r3.2.2 with
    | none => none
    | some r7 =>
    if r7.1 ≠ RC.RC_OK then some (NO_PAGE, r7.2) else some (newPage, r7.2)
  else
    let newPage := catalog.freePage
    match rmPinPage s uninitHandle newPage with
    | none => none
    | some r1 =>
    if r1.1 ≠ RC.RC_OK then some (NO_PAGE, r1.2.1)
    else
    match (pageBytes r1.2.1 r1.2.2).bind headerNextPage with
    | none => none
    | some nextPage =>
    match writeHeaderField r1.2.1 r1.2.2 4 NO_PAGE with
    | none => none
    | some s2 =>
    match writeHeaderField s2 r1.2.2 0 NO_PAGE with
    | none => none
    | some s3 =>
    match getSystemCatalog s3 with
    | none => none
    | some catalog1 =>
    match setSystemCatalog s3 { catalog1 with freePage := nextPage } with
    | none => none
    | some s4 =>
    match rmMarkDirty s4 r1.2.2 with
    | none => none
    | some r5 =>
    match markSystemCatalogDirty r5.2 with
    | none => none
    | some r6 =>
    match rmUnpinPage r6.2 r1.2.2 with
    | none => none
    | some r7 =>
    if r7.1 ≠ RC.RC_OK then some (NO_PAGE, r7.2)
    else if nextPage = NO_PAGE then some (newPage, r7.2)
    else getFreePageFixNext r7.2 r1.2.2 newPage nextPage

/-- The loop `slots[slotIndex] = FALSE` of `initNewPage` for the slots `0, ..., k - 1`. -/
def clearSlots (b : List Nat) : Nat → Option (List Nat)
  | 0 => some b
  | k + 1 =>
    match clearSlots b k with
    | none => none
    | some b1 => setSlot b1 (k : Int) 0

/-- The body that `initNewPage` runs on the page behind `handle`: set `numSlots` and mark
all the slots as free. -/
def initPageSlots (s : RMState) (handle : BM_PageHandle) (recordsPerPage : Int) :
    Option RMState :=
  match pageBytes s handle with
  | none => none
  | some b =>
  match writeInt b 8 recordsPerPage with
  | none => none
  | some b1 =>
  match clearSlots b1 recordsPerPage.toNat with
  | none => none
  | some b2 => setPageBytes s handle b2

/-- The value `initNewPage` computes for `recordsPerPage`. Its local `pageHeader` is
initialised with `sizeof(pageHeader)`, the size of that `int` variable; `none` is the
division by zero. -/
def recordsPerPageOf (recordSize : Int) : Option Int :=
  let pageHeader := sizeofInt
  let slotSize := sizeofBool
  if recordSize + slotSize = 0 then none
  else some (Int.tdiv ((PAGE_SIZE : Int) - pageHeader) (recordSize + slotSize))

def initNewPage (s : RMState) (table : Int) (schema : Schema) (pageNum : Int) :
    Option (RC × RMState) :=
  match (getRecordSize schema).bind recordsPerPageOf with
  | none => none
  | some recordsPerPage =>
  if recordsPerPage ≤ 0 then some (RC.RC_WRITE_FAILED, s)
  else
  match getTable s table with
  | none => none
  | some t =>
  if pageNum ≠ t.pageNum ∨ t.handle = none then
    match rmPinPage s uninitHandle pageNum with
    | none => none
    | some r1 =>
    if r1.1 ≠ RC.RC_OK then some (RC.RC_WRITE_FAILED, r1.2.1)
    else
    match initPageSlots r1.2.1 r1.2.2 recordsPerPage with
    | none => none
    | some s2 =>
    match rmMarkDirty s2 r1.2.2 with
    | none => none
    | some r3 =>
    if r3.1 ≠ RC.RC_OK then some (r3.1, r3.2)
    else
    match rmUnpinPage r3.2 r1.2.2 with
    | none => none
    | some r4 =>
    if r4.1 ≠ RC.RC_OK then some (RC.RC_WRITE_FAILED, r4.2) else some (RC.RC_OK, r4.2)
  else
    match t.handle with
    | none => none
    | some handle =>
    match initPageSlots s handle recordsPerPage with
    | none => none
    | some s2 =>
    match rmMarkDirty s2 handle with
    | none => none
    | some r3 =>
    if r3.1 ≠ RC.RC_OK then some (r3.1, r3.2) else some (RC.RC_OK, r3.2)

/-! ### Table and manager -/

/-- The part of `initRecordManager` after the catalog page is pinned. -/
def initCatalog (s : RMState) (newSystem : Bool) : Option (RC × RMState) :=
  if newSystem then
    match getSystemCatalog s with
    | none => none
    | some catalog =>
    match setSystemCatalog s
        { catalog with totalNumPages := 1, freePage := NO_PAGE, numTables := 0 } with
    | none => none
    | some s4 =>
    match markSystemCatalogDirty s4 with
    | none => none
    | some r5 => some (RC.RC_OK, r5.2)
  else
    match getSystemCatalog s with
    | none => none
    | some _ => some (RC.RC_OK, s)

/-- The file name `initRecordManager` uses: `mgmtData`, or "DATA.bin" when it is `NULL`. -/
def pageFileName (mgmtData : Option String) : String :=
  match mgmtData with
  | none => "DATA.bin"
  | some n => n

/-- The source's `initRecordManager`; `mgmtData` is the page file name, `none` for `NULL`. -/
def initRecordManager (s : RMState) (mgmtData : Option String) : Option (RC × RMState) :=
  if PAGE_SIZE < sizeofSystemCatalog ∨ MAX_NUM_TABLES ≤ 0 then some (RC.RC_IM_NO_MORE_ENTRIES, s)
  else
    let fileName := pageFileName mgmtData
    let newSystem : Bool := decide (s.disk = none)
    let r0 : RC × Disk := if newSystem then createPageFile fileName s.disk else (RC.RC_OK, s.disk)
    let s1 : RMState := { s with disk := r0.2 }
    if r0.1 ≠ RC.RC_OK then some (r0.1, s1)
    else
      let r2 := initBufferPool s1.bufferPool fileName s1.disk 16 ReplacementStrategy.RS_LRU
      let s2 : RMState := { s1 with bufferPool := r2.2 }
      if r2.1 ≠ RC.RC_OK then some (r2.1, s2)
      else
        match pinPage s2.bufferPool s2.catalogPageHandle 0 with
        | none => none
        | some r3 =>
        let s3 : RMState := { s2 with bufferPool := r3.2.1, catalogPageHandle := r3.2.2 }
        if r3.1 ≠ RC.RC_OK then some (r3.1, s3) else initCatalog s3 newSystem

def shutdownRecordManager (s : RMState) : Option (RC × RMState) :=
  match rmUnpinPage s s.catalogPageHandle with
  | none => none
  | some r1 =>
  if r1.1 ≠ RC.RC_OK then some (r1.1, r1.2)
  else
  match shutdownBufferPool r1.2.bufferPool r1.2.disk with
  | none => none
  | some r2 =>
  let s2 : RMState := { r1.2 with bufferPool := r2.2.1, disk := r2.2.2 }
  if r2.1 ≠ RC.RC_OK then some (r2.1, s2) else some (RC.RC_OK, s2)

/-- The effect of `strncpy(dst, src, size - 1)` on a `char` array of `size` bytes whose
last byte is NUL: the C string left in it. -/
def strncpyBounded (src : CString) (size : Nat) : CString :=
  src.take (size - 1)

/-- The attribute loop of `createTable` for the attributes `i, i + 1, ...` (`k` of them). -/
def copyAttrs (schema : Schema) : Nat → Nat → RM_SystemSchema → Option RM_SystemSchema
  | 0, _, t => some t
  | k + 1, i, t =>
    match schema.attrNames[i]?, schema.dataTypes[i]?, schema.typeLength[i]? with
    | some n, some d, some l =>
      if i < t.attrNames.length ∧ i < t.dataTypes.length ∧ i < t.typeLength.length then
        copyAttrs schema k (i + 1)
          { t with attrNames := t.attrNames.set i (strncpyBounded n ATTR_NAME_SIZE),
                   dataTypes := t.dataTypes.set i d,
                   typeLength := t.typeLength.set i l }
      else none
    | _, _, _ => none

/-- The key loop of `createTable` for the keys `i, i + 1, ...` (`k` of them). -/
def copyKeys (schema : Schema) : Nat → Nat → RM_SystemSchema → Option RM_SystemSchema
  | 0, _, t => some t
  | k + 1, i, t =>
    match schema.keyAttrs[i]? with
    | some a =>
      if i < t.keyAttrs.length then copyKeys schema k (i + 1) { t with keyAttrs := t.keyAttrs.set i a }
      else none
    | none => none

/-- The descriptor `createTable` writes at `catalog->tables[catalog->numTables]`, before
the page number is known. -/
def newDescriptor (t0 : RM_SystemSchema) (name : CString) (schema : Schema) :
    Option RM_SystemSchema :=
  let t1 := { t0 with name := strncpyBounded name TABLE_NAME_SIZE, numTuples := 0, handle := none,
                      numAttr := schema.numAttr }
  match copyAttrs schema t1.numAttr.toNat 0 t1 with
  | none => none
  | some t2 => copyKeys schema schema.keySize.toNat 0 { t2 with keySize := schema.keySize }

/-- The part of `createTable` after the descriptor is filled in and counted: allocate and
initialise the main page. -/
def createTablePage (s : RMState) (table : Int) (schema : Schema) : Option (RC × RMState) :=
  match getFreePage s with
  | none => none
  | some r3 =>
  let pageNum := r3.1
  match getTable r3.2 table with
  | none => none
  | some t4 =>
  match setTable r3.2 table { t4 with pageNum := pageNum } with
  | none => none
  | some s4 =>
  if pageNum = NO_PAGE then some (RC.RC_WRITE_FAILED, s4)
  else
  match initNewPage s4 table schema pageNum with
  | none => none
  | some r5 =>
  if r5.1 ≠ RC.RC_OK then some (r5.1, r5.2)
  else
  match markSystemCatalogDirty r5.2 with
  | none => none
  | some r6 => some (RC.RC_OK, r6.2)

def createTable (s : RMState) (name : CString) (schema : Schema) : Option (RC × RMState) :=
  match getSystemCatalog s with
  | none => none
  | some catalog =>
  match getTableByName s name with
  | none => none
  | some found =>
  if found ≠ none then some (RC.RC_WRITE_FAILED, s)
  else if catalog.numTables ≥ (MAX_NUM_TABLES : Int) ∨ schema.numAttr > MAX_NUM_ATTR
      ∨ schema.keySize > MAX_NUM_KEYS then
    some (RC.RC_IM_NO_MORE_ENTRIES, s)
  else
    let table := catalog.numTables
    match (getTable s table).bind (fun t0 => newDescriptor t0 name schema) with
    | none => none
    | some t3 =>
    match setTable s table t3 with
    | none => none
    | some s1 =>
    match getSystemCatalog s1 with
    | none => none
    | some catalog1 =>
    match setSystemCatalog s1 { catalog1 with numTables := catalog1.numTables + 1 } with
    | none => none
    | some s2 => createTablePage s2 table schema

def openTable (s : RMState) (rel : RM_TableData) (name : CString) :
    Option (RC × RMState × RM_TableData) :=
  match getTableByName s name with
  | none => none
  | some none => some (RC.RC_IM_KEY_NOT_FOUND, s, rel)
  | some (some table) =>
    match getTable s table with
    | none => none
    | some t =>
    if t.handle ≠ none then some (RC.RC_WRITE_FAILED, s, rel)
    else
      let rel1 : RM_TableData :=
        { name := table,
          schema := { numAttr := t.numAttr, keySize := t.keySize, table := table },
          mgmtData := table }
      match setTable s table { t with handle := some uninitHandle } with
      | none => none
      | some s1 =>
      match rmPinPage s1 uninitHandle t.pageNum with
      | none => none
      | some r2 =>
      match getTable r2.2.1 table with
      | none => none
      | some t1 =>
      match setTable r2.2.1 table { t1 with handle := some r2.2.2 } with
      | none => none
      | some s3 => some (r2.1, s3, rel1)

def closeTable (s : RMState) (rel : RM_TableData) : Option (RC × RMState) :=
  let table := getSystemSchema rel
  match (getTable s table).bind (fun t => t.handle) with
  | none => none
  | some handle =>
  match rmUnpinPage s handle with
  | none => none
  | some r1 =>
  if r1.1 ≠ RC.RC_OK then some (r1.1, r1.2)
  else
  match rmForcePage r1.2 handle with
  | none => none
  | some r2 =>
  if r2.1 ≠ RC.RC_OK ∧ r2.1 ≠ RC.RC_IM_KEY_NOT_FOUND then some (r2.1, r2.2)
  else
  match getTable r2.2 table with
  | none => none
  | some t1 =>
  match setTable r2.2 table { t1 with handle := none } with
  | none => none
  | some s3 => some (RC.RC_OK, s3)

def getNumTuples (s : RMState) (rel : RM_TableData) : Option Int :=
  (getTable s (getSystemSchema rel)).map (fun t => t.numTuples)

def getNumPages (s : RMState) : Option Int :=
  (getSystemCatalog s).map (fun c => c.totalNumPages)

def getNumTables (s : RMState) : Option Int :=
  (getSystemCatalog s).map (fun c => c.numTables)

/-! ### Handling records in a table -/

/-- The search of `insertRecordOnPage` for the first slot with `slots[slotIndex] == FALSE`
among the slots `i, i + 1, ...` (`k` of them); `some none` when there is none. -/
def findFreeSlot (b : List Nat) : Nat → Nat → Option (Option Nat)
  | 0, _ => some none
  | k + 1, i =>
    match getSlot b (i : Int) with
    | none => none
    | some v => if v = 0 then some (some i) else findFreeSlot b k (i + 1)

/-- The effect of `memcpy(tupleData, record->data, recordSize)` on the page bytes. -/
def storeTuple (b : List Nat) (numSlots recordSize slotIndex : Int) (data : List Nat) :
    Option (List Nat) :=
  if recordSize < 0 ∨ data.length < recordSize.toNat then none
  else writeBytes b (tupleOffset numSlots recordSize slotIndex) (data.take recordSize.toNat)

/-- The result of `memcpy(record->data, tupleData, recordSize)`: the new content of the
record buffer. -/
def loadTuple (b : List Nat) (numSlots recordSize slotIndex : Int) (data : List Nat) :
    Option (List Nat) :=
  if recordSize < 0 ∨ data.length < recordSize.toNat then none
  else
    match readBytes b (tupleOffset numSlots recordSize slotIndex) recordSize.toNat with
    | none => none
    | some t => some (t ++ data.drop recordSize.toNat)

/-- The source's `insertRecordOnPage`: the slot index for success and -1 for failure. -/
def insertRecordOnPage (s : RMState) (handle : BM_PageHandle) (schema : Schema) (record : Record) :
    Option (Int × RMState × Record) :=
  match pageBytes s handle with
  | none => none
  | some b =>
  match headerNumSlots b with
  | none => none
  | some numSlots =>
  match findFreeSlot b numSlots.toNat 0 with
  | none => none
  | some none => some (-1, s, record)
  | some (some slotIndex) =>
    match getRecordSize schema with
    | none => none
    | some recordSize =>
    match storeTuple b numSlots recordSize (slotIndex : Int) record.data with
    | none => none
    | some b1 =>
    match setSlot b1 (slotIndex : Int) 1 with
    | none => none
    | some b2 =>
    match setPageBytes s handle b2 with
    | none => none
    | some s1 =>
    match rmMarkDirty s1 handle with
    | none => none
    | some r2 =>
    if r2.1 ≠ RC.RC_OK then some (1, r2.2, record)
    else some ((slotIndex : Int), r2.2,
               { record with id := { page := handle.pageNum, slot := (slotIndex : Int) } })

/-- The statements `table->numTuples++; markSystemCatalogDirty(); record->id.page = ...;
record->id.slot = ...; return RC_OK;` that end each successful path of `insertRecord`. -/
def finishInsert (s : RMState) (table : Int) (record : Record) (pageNum slotIndex : Int) :
    Option (RC × RMState × Record) :=
  match getTable s table with
  | none => none
  | some t =>
  match setTable s table { t with numTuples := t.numTuples + 1 } with
  | none => none
  | some s1 =>
  match markSystemCatalogDirty s1 with
  | none => none
  | some r2 => some (RC.RC_OK, r2.2, { record with id := { page := pageNum, slot := slotIndex } })

/-- The loop `while (pageNum != NO_PAGE)` of `insertRecord` over the overflow pages. The
result is either the return of `insertRecord` from inside the loop (`Sum.inl`) or the
values of `prevPage` and the state when the loop is left (`Sum.inr`). -/
def insertOverflowLoop (table : Int) (schema : Schema) :
    Nat → RMState → Record → Int → Int → Option ((RC × RMState × Record) ⊕ (Int × RMState × Record))
  | 0, s, record, prevPage, pageNum =>
    if pageNum ≠ NO_PAGE then none else some (Sum.inr (prevPage, s, record))
  | fuel + 1, s, record, prevPage, pageNum =>
    if pageNum ≠ NO_PAGE then
      match rmPinPage s uninitHandle pageNum with
      | none => none
      | some r1 =>
      if r1.1 ≠ RC.RC_OK then some (Sum.inl (RC.RC_WRITE_FAILED, r1.2.1, record))
      else
      match insertRecordOnPage r1.2.1 r1.2.2 schema record with
      | none => none
      | some r2 =>
      if r2.1 ≥ 0 then
        match rmUnpinPage r2.2.1 r1.2.2 with
        | none => none
        | some r3 =>
        if r3.1 ≠ RC.RC_OK then some (Sum.inl (RC.RC_WRITE_FAILED, r3.2, r2.2.2))
        else
        match finishInsert r3.2 table r2.2.2 pageNum r2.1 with
        | none => none
        | some r4 => some (Sum.inl r4)
      else
        match (pageBytes r2.2.1 r1.2.2).bind headerNextPage with
        | none => none
        | some nextPage =>
        match rmUnpinPage r2.2.1 r1.2.2 with
        | none => none
        | some r3 =>
        if r3.1 ≠ RC.RC_OK then some (Sum.inl (RC.RC_WRITE_FAILED, r3.2, r2.2.2))
        else insertOverflowLoop table schema fuel r3.2 r2.2.2 pageNum nextPage
    else some (Sum.inr (prevPage, s, record))

/-- The statements of `insertRecord` that link the new page behind `prevPage`, after the
record is stored on the new page and that page is unpinned. -/
def linkNewPage (s : RMState) (table : Int) (mainHandle : BM_PageHandle) (record : Record)
    (prevPage newPage slotIndex : Int) : Option (RC × RMState × Record) :=
  match getTable s table with
  | none => none
  | some t =>
  if prevPage = t.pageNum then
    match writeHeaderField s mainHandle 0 newPage with
    | none => none
    | some s1 => finishInsert s1 table record newPage slotIndex
  else
    match rmPinPage s uninitHandle prevPage with
    | none => none
    | some r1 =>
    if r1.1 ≠ RC.RC_OK then some (RC.RC_WRITE_FAILED, r1.2.1, record)
    else
    match writeHeaderField r1.2.1 r1.2.2 0 newPage with
    | none => none
    | some s2 =>
    match rmMarkDirty s2 r1.2.2 with
    | none => none
    | some r3 =>
    if r3.1 ≠ RC.RC_OK then some (r3.1, r3.2, record)
    else
    match rmUnpinPage r3.2 r1.2.2 with
    | none => none
    | some r4 =>
    if r4.1 ≠ RC.RC_OK then some (RC.RC_WRITE_FAILED, r4.2, record)
    else finishInsert r4.2 table record newPage slotIndex

/-- The part of `insertRecord` under the comment "append a new page". -/
def appendNewPage (s : RMState) (table : Int) (mainHandle : BM_PageHandle) (schema : Schema)
    (record : Record) (prevPage : Int) : Option (RC × RMState × Record) :=
  match getFreePage s with
  | none => none
  | some r1 =>
  let newPage := r1.1
  if newPage = NO_PAGE then some (RC.RC_WRITE_FAILED, r1.2, record)
  else
  match initNewPage r1.2 table schema newPage with
  | none => none
  | some r2 =>
  if r2.1 = RC.RC_OK then
    match rmPinPage r2.2 uninitHandle newPage with
    | none => none
    | some r3 =>
    if r3.1 ≠ RC.RC_OK then some (RC.RC_WRITE_FAILED, r3.2.1, record)
    else
    match insertRecordOnPage r3.2.1 r3.2.2 schema record with
    | none => none
    | some r4 =>
    if r4.1 ≥ 0 then
      match writeHeaderField r4.2.1 r3.2.2 4 prevPage with
      | none => none
      | some s5 =>
      match rmMarkDirty s5 r3.2.2 with
      | none => none
      | some r6 =>
      if r6.1 ≠ RC.RC_OK then some (r6.1, r6.2, r4.2.2)
      else
      match rmUnpinPage r6.2 r3.2.2 with
      | none => none
      | some r7 =>
      if r7.1 ≠ RC.RC_OK then some (RC.RC_WRITE_FAILED, r7.2, r4.2.2)
      else linkNewPage r7.2 table mainHandle r4.2.2 prevPage newPage r4.1
    else
      match rmUnpinPage r4.2.1 r3.2.2 with
      | none => none
      | some r5 => some (RC.RC_WRITE_FAILED, r5.2, r4.2.2)
  else some (RC.RC_WRITE_FAILED, r2.2, record)

/-- The source's `insertRecord`; `fuel` bounds the iterations of its `while` loop. -/
def insertRecord (fuel : Nat) (s : RMState) (rel : RM_TableData) (record : Record) :
    Option (RC × RMState × Record) :=
  let table := getSystemSchema rel
  match (getTable s table).bind (fun t => t.handle) with
  | none => none
  | some mainHandle =>
  match derefSchema s rel.schema with
  | none => none
  | some schema =>
  match insertRecordOnPage s mainHandle schema record with
  | none => none
  | some r1 =>
  match getTable r1.2.1 table with
  | none => none
  | some t =>
  if r1.1 ≥ 0 then finishInsert r1.2.1 table r1.2.2 t.pageNum r1.1
  else
  match (pageBytes r1.2.1 mainHandle).bind headerNextPage with
  | none => none
  | some pageNum =>
  match insertOverflowLoop table schema fuel r1.2.1 r1.2.2 t.pageNum pageNum with
  | none => none
  | some (Sum.inl r) => some r
  | some (Sum.inr r) => appendNewPage r.2.1 table mainHandle schema r.2.2 r.1

/-- The macro `BEGIN_USE_TABLE_PAGE_HANDLE_HEADER(id)`: the handle of the open main page
when `id.page` is the main page, a freshly pinned handle otherwise. -/
def beginUseTablePage (s : RMState) (rel : RM_TableData) (id : RID) :
    Option (RC × RMState × BM_PageHandle) :=
  match getTable s (getSystemSchema rel) with
  | none => none
  | some t =>
  if id.page = t.pageNum then
    match t.handle with
    | none => none
    | some h => some (RC.RC_OK, s, h)
  else rmPinPage s uninitHandle id.page

/-- The macro `END_USE_TABLE_PAGE_HANDLE_HEADER()`. -/
def endUseTablePage (s : RMState) (rel : RM_TableData) (id : RID) (handle : BM_PageHandle) :
    Option (RC × RMState) :=
  match getTable s (getSystemSchema rel) with
  | none => none
  | some t =>
  if id.page ≠ t.pageNum then rmUnpinPage s handle else some (RC.RC_OK, s)

def deleteRecord (s : RMState) (rel : RM_TableData) (id : RID) : Option (RC × RMState) :=
  let table := getSystemSchema rel
  match beginUseTablePage s rel id with
  | none => none
  | some r1 =>
  if r1.1 ≠ RC.RC_OK then some (RC.RC_WRITE_FAILED, r1.2.1)
  else
  match pageBytes r1.2.1 r1.2.2 with
  | none => none
  | some b =>
  match headerNumSlots b with
  | none => none
  | some numSlots =>
  if id.slot ≥ numSlots then some (RC.RC_WRITE_FAILED, r1.2.1)
  else
  match getSlot b id.slot with
  | none => none
  | some v =>
  if v = 0 then some (RC.RC_WRITE_FAILED, r1.2.1)
  else
  match (setSlot b id.slot 0).bind (setPageBytes r1.2.1 r1.2.2) with
  | none => none
  | some s2 =>
  match getTable s2 table with
  | none => none
  | some t =>
  match setTable s2 table { t with numTuples := t.numTuples - 1 } with
  | none => none
  | some s3 =>
  match markSystemCatalogDirty s3 with
  | none => none
  | some r4 =>
  match rmMarkDirty r4.2 r1.2.2 with
  | none => none
  | some r5 =>
  if r5.1 ≠ RC.RC_OK then some (RC.RC_WRITE_FAILED, r5.2)
  else
  match endUseTablePage r5.2 rel id r1.2.2 with
  | none => none
  | some r6 =>
  if r6.1 ≠ RC.RC_OK then some (RC.RC_WRITE_FAILED, r6.2) else some (RC.RC_OK, r6.2)

def updateRecord (s : RMState) (rel : RM_TableData) (record : Record) : Option (RC × RMState) :=
  let id := record.id
  match beginUseTablePage s rel id with
  | none => none
  | some r1 =>
  if r1.1 ≠ RC.RC_OK then some (RC.RC_WRITE_FAILED, r1.2.1)
  else
  match pageBytes r1.2.1 r1.2.2 with
  | none => none
  | some b =>
  match headerNumSlots b with
  | none => none
  | some numSlots =>
  if id.slot ≥ numSlots then some (RC.RC_WRITE_FAILED, r1.2.1)
  else
  match getSlot b id.slot with
  | none => none
  | some v =>
  if v = 0 then some (RC.RC_WRITE_FAILED, r1.2.1)
  else
  match (derefSchema r1.2.1 rel.schema).bind getRecordSize with
  | none => none
  | some recordSize =>
  match (storeTuple b numSlots recordSize id.slot record.data).bind
      (setPageBytes r1.2.1 r1.2.2) with
  | none => none
  | some s2 =>
  match rmMarkDirty s2 r1.2.2 with
  | none => none
  | some r3 =>
  if r3.1 ≠ RC.RC_OK then some (RC.RC_WRITE_FAILED, r3.2)
  else
  match endUseTablePage r3.2 rel id r1.2.2 with
  | none => none
  | some r4 =>
  if r4.1 ≠ RC.RC_OK then some (RC.RC_WRITE_FAILED, r4.2) else some (RC.RC_OK, r4.2)

def getRecord (s : RMState) (rel : RM_TableData) (id : RID) (record : Record) :
    Option (RC × RMState × Record) :=
  match beginUseTablePage s rel id with
  | none => none
  | some r1 =>
  if r1.1 ≠ RC.RC_OK then some (RC.RC_WRITE_FAILED, r1.2.1, record)
  else
  match pageBytes r1.2.1 r1.2.2 with
  | none => none
  | some b =>
  match headerNumSlots b with
  | none => none
  | some numSlots =>
  if id.slot ≥ numSlots then some (RC.RC_WRITE_FAILED, r1.2.1, record)
  else
  match getSlot b id.slot with
  | none => none
  | some v =>
  if v = 0 then some (RC.RC_WRITE_FAILED, r1.2.1, record)
  else
  match (derefSchema r1.2.1 rel.schema).bind getRecordSize with
  | none => none
  | some recordSize =>
  match loadTuple b numSlots recordSize id.slot record.data with
  | none => none
  | some data =>
  let record1 : Record := { id := { page := id.page, slot := id.slot }, data := data }
  match endUseTablePage r1.2.1 rel id r1.2.2 with
  | none => none
  | some r2 =>
  if r2.1 ≠ RC.RC_OK then some (RC.RC_WRITE_FAILED, r2.2, record1)
  else some (RC.RC_OK, r2.2, record1)

/-! ### Scans -/

def startScan (s : RMState) (rel : RM_TableData) (cond : Option Expr) :
    Option (RC × RM_ScanHandle) :=
  match (getTable s (getSystemSchema rel)).bind (fun t => t.handle) with
  | none => none
  | some handle =>
    some (RC.RC_OK, { rel := rel,
                      mgmtData := { id := { page := handle.pageNum, slot := -1 }, cond := cond } })

/-- The source's `scanForMatchOnPage`, its loop running over the slots from `slotIndex`
(`fuel` bounds the iterations): 0 for a match, 1 for failure, -1 for no more tuples. -/
def scanForMatchOnPage (rel : RM_TableData) (handle : BM_PageHandle) (cond : Option Expr) :
    Nat → RMState → Int → Record → Option (Int × RMState × Record)
  | 0, s, slotIndex, record =>
    match (pageBytes s handle).bind headerNumSlots with
    | none => none
    | some numSlots => if slotIndex < numSlots then none else some (-1, s, record)
  | fuel + 1, s, slotIndex, record =>
    match pageBytes s handle with
    | none => none
    | some b =>
    match headerNumSlots b with
    | none => none
    | some numSlots =>
    if slotIndex < numSlots then
      match getSlot b slotIndex with
      | none => none
      | some v =>
      if v = 1 then
        match getRecord s rel { page := handle.pageNum, slot := slotIndex } record with
        | none => none
        | some r1 =>
        if r1.1 ≠ RC.RC_OK then some (1, r1.2.1, r1.2.2)
        else
          match cond with
          | none => some (0, r1.2.1, r1.2.2)
          | some e =>
            match derefSchema r1.2.1 rel.schema with
            | none => none
            | some schema =>
            let r2 := e.eval r1.2.2 schema
            if r2.1 ≠ RC.RC_OK then some (1, r1.2.1, r1.2.2)
            else if r2.2 = true then some (0, r1.2.1, r1.2.2)
            else scanForMatchOnPage rel handle cond fuel r1.2.1 (slotIndex + 1) r1.2.2
      else scanForMatchOnPage rel handle cond fuel s (slotIndex + 1) record
    else some (-1, s, record)

/-- The number of iterations the loop of `scanForMatchOnPage` can take from `slotIndex` on
the page behind `handle`. -/
def scanFuel (s : RMState) (handle : BM_PageHandle) (slotIndex : Int) : Nat :=
  match (pageBytes s handle).bind headerNumSlots with
  | none => 0
  | some numSlots => (numSlots - slotIndex).toNat

/-- The loop `while (scanData->id.page != NO_PAGE)` of `next` over the overflow pages;
`fuel` bounds the iterations. -/
def nextOverflowLoop (rel : RM_TableData) :
    Nat → RMState → RM_ScanData → Record → Option (RC × RMState × RM_ScanData × Record)
  | 0, s, scanData, record =>
    if scanData.id.page ≠ NO_PAGE then none
    else some (RC.RC_RM_NO_MORE_TUPLES, s, scanData, record)
  | fuel + 1, s, scanData, record =>
    if scanData.id.page ≠ NO_PAGE then
      match rmPinPage s uninitHandle scanData.id.page with
      | none => none
      | some r1 =>
      if r1.1 ≠ RC.RC_OK then some (RC.RC_WRITE_FAILED, r1.2.1, scanData, record)
      else
      match scanForMatchOnPage rel r1.2.2 scanData.cond
          (scanFuel r1.2.1 r1.2.2 scanData.id.slot) r1.2.1 scanData.id.slot record with
      | none => none
      | some r2 =>
      if r2.1 = 0 then some (RC.RC_OK, r2.2.1, scanData, r2.2.2)
      else if r2.1 = -1 then
        match (pageBytes r2.2.1 r1.2.2).bind headerNextPage with
        | none => none
        | some nextPage =>
        match rmUnpinPage r2.2.1 r1.2.2 with
        | none => none
        | some r3 =>
        let scanData1 : RM_ScanData := { scanData with id := { page := nextPage, slot := 0 } }
        if r3.1 ≠ RC.RC_OK then some (RC.RC_WRITE_FAILED, r3.2, scanData1, r2.2.2)
        else nextOverflowLoop rel fuel r3.2 scanData1 r2.2.2
      else some (RC.RC_WRITE_FAILED, r2.2.1, scanData, r2.2.2)
    else some (RC.RC_RM_NO_MORE_TUPLES, s, scanData, record)

/-- The source's `next`; `fuel` bounds the iterations of its `while` loop. -/
def next (fuel : Nat) (s : RMState) (scan : RM_ScanHandle) (record : Record) :
    Option (RC × RMState × RM_ScanHandle × Record) :=
  let rel := scan.rel
  let table := getSystemSchema rel
  match getTable s table with
  | none => none
  | some t =>
  match t.handle with
  | none => none
  | some mainHandle =>
  let scanData : RM_ScanData :=
    { scan.mgmtData with id := { scan.mgmtData.id with slot := scan.mgmtData.id.slot + 1 } }
  if scanData.id.page = t.pageNum then
    match scanForMatchOnPage rel mainHandle scanData.cond
        (scanFuel s mainHandle scanData.id.slot) s scanData.id.slot record with
    | none => none
    | some r1 =>
    if r1.1 = 0 then some (RC.RC_OK, r1.2.1, { scan with mgmtData := scanData }, r1.2.2)
    else if r1.1 = -1 then
      match (pageBytes r1.2.1 mainHandle).bind headerNextPage with
      | none => none
      | some nextPage =>
      let scanData1 : RM_ScanData := { scanData with id := { page := nextPage, slot := 0 } }
      match nextOverflowLoop rel fuel r1.2.1 scanData1 r1.2.2 with
      | none => none
      | some r2 => some (r2.1, r2.2.1, { scan with mgmtData := r2.2.2.1 }, r2.2.2.2)
    else some (RC.RC_WRITE_FAILED, r1.2.1, { scan with mgmtData := scanData }, r1.2.2)
  else
    match nextOverflowLoop rel fuel s scanData record with
    | none => none
    | some r2 => some (r2.1, r2.2.1, { scan with mgmtData := r2.2.2.1 }, r2.2.2.2)

def closeScan (_scan : RM_ScanHandle) : RC := RC.RC_OK

/-! ## Observations and invariants -/

/-- Well-formedness of the page table: the bucket array has `size` buckets, every pair
sits in the bucket of its key, keys are non-negative and occur once. -/
structure HTInv (ht : HT_TableHandle) : Prop where
  size_pos : 0 < ht.size
  length : (ht.mgmt.length : Int) = ht.size
  keys : ∀ (i : Nat) (al : HT_ArrayList), ht.mgmt[i]? = some al →
    ∀ kv ∈ al.list, 0 ≤ kv.key ∧ kv.key % ht.size = (i : Int)
  nodup : ∀ (i : Nat) (al : HT_ArrayList), ht.mgmt[i]? = some al →
    (al.list.map (fun kv => kv.key)).Nodup

/-- Page `q` of the open file as `readBlock` would deliver it once the file has at least
`q + 1` pages: pages that growth adds are zero-filled. -/
def fhPage (fh : SM_FileHandle) (q : Int) : PageContent :=
  match fh.mgmtInfo with
  | some pages => pages.getD q.toNat emptyPage
  | none => emptyPage

/-- The current image of page `q` as the pool holds it: the buffer of the frame the page
table maps it to, else the page of the file. -/
def viewPage (md : BM_Metadata) (q : Int) : PageContent :=
  match getValue md.pageTable q with
  | some (some i) =>
    match frameAt md i with
    | some f => f.data
    | none => emptyPage
  | _ => fhPage md.pageFile q

/-- The file handle is open and its page count is that of the file. -/
def FileOK (fh : SM_FileHandle) : Prop :=
  ∃ pages, fh.mgmtInfo = some pages ∧ fh.totalNumPages = (pages.length : Int)

/-- Well-formedness of the pool metadata: the page table maps page `p` to frame `i` exactly
when frame `i` is occupied by `p`; an occupied frame holds a page of the file; a frame that
is occupied, unpinned and clean holds the bytes the file holds. -/
structure PoolInv (md : BM_Metadata) : Prop where
  ht : HTInv md.pageTable
  file : FileOK md.pageFile
  lookup : ∀ p i, 0 ≤ p → (getValue md.pageTable p = some (some i) ↔
    ∃ f, frameAt md i = some f ∧ f.occupied = true ∧ f.pageNum = p)
  frames : ∀ i f, frameAt md i = some f →
    f.frameIndex = i ∧ 0 ≤ f.fixCount ∧
    (f.occupied = true → 0 ≤ f.pageNum ∧ f.pageNum < md.pageFile.totalNumPages ∧
      (f.fixCount = 0 → f.dirty = false → fhPage md.pageFile f.pageNum = f.data))

/-- The pool structure points at live, well-formed metadata for `numPages` frames. -/
structure PoolOK (bm : BM_BufferPool) (md : BM_Metadata) : Prop where
  live : bm.mgmtData = MgmtPtr.live md
  numPages : bm.numPages = (md.pageFrames.length : Int)
  inv : PoolInv md

/-- The metadata `md1` differs from `md` in frame `i` only, which held `f` and holds `f1`;
page table and file are the same. -/
structure FrameUpd (md md1 : BM_Metadata) (i : Int) (f f1 : BM_PageFrame) : Prop where
  old : frameAt md i = some f
  new : frameAt md1 i = some f1
  others : ∀ j, j ≠ i → frameAt md1 j = frameAt md j
  len : md1.pageFrames.length = md.pageFrames.length
  table : md1.pageTable = md.pageTable
  file : md1.pageFile = md.pageFile

/-- A frame may be unpinned without losing bytes: it stays pinned, or it is dirty, or it
holds what the file holds. -/
def UnpinSafe (md : BM_Metadata) (f : BM_PageFrame) : Prop :=
  2 ≤ f.fixCount ∨ f.dirty = true ∨ fhPage md.pageFile f.pageNum = f.data

/-- The relation between the metadata before and after a successful `pinPage(p)` that
returned frame `i`, which now holds `f1`. -/
structure PinOK (md md1 : BM_Metadata) (p i : Int) (f1 : BM_PageFrame) : Prop where
  inv : PoolInv md1
  len : md1.pageFrames.length = md.pageFrames.length
  new : frameAt md1 i = some f1
  occ : f1.occupied = true
  pn : f1.pageNum = p
  data : f1.data = viewPage md p
  others : ∀ j, j ≠ i → frameAt md1 j = frameAt md j
  view : ∀ q, 0 ≤ q → viewPage md1 q = viewPage md q
  safe : UnpinSafe md1 f1
  fix : ∃ f, frameAt md i = some f ∧ f1.fixCount = f.fixCount + 1 ∧ f1.frameIndex = f.frameIndex
  file : ∀ q, 0 ≤ q →
    fhPage md1.pageFile q = fhPage md.pageFile q ∨ fhPage md1.pageFile q = viewPage md q
  hitOrMiss : (getValue md.pageTable p = some (some i) ∧
      ∀ q, 0 ≤ q → getValue md1.pageTable q = getValue md.pageTable q)
    ∨ (getValue md.pageTable p = some none ∧ f1.fixCount = 1)
  tableOthers : ∀ q j, 0 ≤ q → getValue md.pageTable q = some (some j) → j ≠ i →
    getValue md1.pageTable q = some (some j)

/-- The record-manager state with the pool metadata replaced. -/
def withMd (s : RMState) (md : BM_Metadata) : RMState :=
  { s with bufferPool := { s.bufferPool with mgmtData := MgmtPtr.live md } }

/-- The frame that caches page `p`, if any. -/
def frameOfPage (md : BM_Metadata) (p : Int) : Option BM_PageFrame :=
  match getValue md.pageTable p with
  | some (some i) => frameAt md i
  | _ => none

/-- The fix count of page `p`: that of its frame, 0 when the page is not cached. -/
def fixOf (md : BM_Metadata) (p : Int) : Int :=
  match frameOfPage md p with
  | some f => f.fixCount
  | none => 0

/-- Page `p`, if cached, may be unpinned without losing bytes. -/
def Safe (md : BM_Metadata) (p : Int) : Prop :=
  ∀ f, frameOfPage md p = some f → UnpinSafe md f

/-- The handle's page number is non-negative and its `data` pointer is the buffer of the
frame that caches that page. -/
def PointsTo (md : BM_Metadata) (h : BM_PageHandle) : Prop :=
  0 ≤ h.pageNum ∧ ∃ i, h.data = some i ∧ getValue md.pageTable h.pageNum = some (some i)

/-- A handle obtained from a pin that is still held: it points at the frame of its page
and the page is pinned. -/
def Held (md : BM_Metadata) (h : BM_PageHandle) : Prop :=
  PointsTo md h ∧ 1 ≤ fixOf md h.pageNum

/-- The content is a data page: `PAGE_SIZE` raw bytes. -/
def IsDataPage (d : PageContent) : Prop :=
  ∃ b, d = PageContent.bytes b ∧ b.length = PAGE_SIZE

/-- Every page but page 0 is a data page, in the pool's current image and in the file. -/
def TypeInv (md : BM_Metadata) : Prop :=
  ∀ q, 0 < q → IsDataPage (viewPage md q) ∧ IsDataPage (fhPage md.pageFile q)

/-- The relation between the pool metadata before and after a step of the record manager
that keeps the pool well formed: every handle that was held still points at its frame, and
the pages of the file stay data pages. -/
structure Step (md md1 : BM_Metadata) : Prop where
  inv : PoolInv md1
  len : md1.pageFrames.length = md.pageFrames.length
  stable : ∀ h, Held md h → PointsTo md1 h
  fileTyped : TypeInv md → ∀ q, 0 < q → IsDataPage (fhPage md1.pageFile q)
  safe : ∀ q, 0 ≤ q → Safe md q → fixOf md1 q = fixOf md q → viewPage md1 q = viewPage md q →
    Safe md1 q

/-- The static part of the pool structure agrees with the metadata: `numPages` frames,
LRU replacement, and the metadata is well formed. -/
structure PoolBase (s : RMState) (md : BM_Metadata) : Prop where
  numPages : s.bufferPool.numPages = (md.pageFrames.length : Int)
  lru : s.bufferPool.strategy = ReplacementStrategy.RS_LRU
  inv : PoolInv md

/-- Page `p` can be pinned: it is cached, or some frame is unpinned and stamped below
`UINT_MAX` (the frames `replacementLRU` can choose). -/
def CanPin (md : BM_Metadata) (p : Int) : Prop :=
  frameOfPage md p ≠ none ∨
    ∃ j f, frameAt md j = some f ∧ f.fixCount = 0 ∧ f.timeStamp < UINT_MAX

/-- A store through a held handle: the image of page `p` becomes `d`; fix counts, page
table, file and the images of the other pages are as before. -/
structure Upd (md md1 : BM_Metadata) (p : Int) (d : PageContent) : Prop where
  step : Step md md1
  view : ∀ q, 0 ≤ q → viewPage md1 q = if q = p then d else viewPage md q
  fix : ∀ q, 0 ≤ q → fixOf md1 q = fixOf md q
  pts : ∀ h, PointsTo md h → PointsTo md1 h
  file : md1.pageFile = md.pageFile
  table : md1.pageTable = md.pageTable
  canPin : ∀ q, CanPin md q → CanPin md1 q

/-- A pool call that leaves the image of every page as it was (`markDirty`, `unpinPage`,
`pinPage`): `k` is what it adds to the fix count of page `p`. -/
structure Touch (md md1 : BM_Metadata) (p : Int) (k : Int) : Prop where
  step : Step md md1
  view : ∀ q, 0 ≤ q → viewPage md1 q = viewPage md q
  fix : ∀ q, 0 ≤ q → fixOf md1 q = fixOf md q + (if q = p then k else 0)

/-- The record manager is initialised: the pool is well formed and the catalog handle
holds a pin on page 0. -/
structure Ctx (s : RMState) (md : BM_Metadata) : Prop where
  base : PoolBase s md
  cat : Held md s.catalogPageHandle
  cat0 : s.catalogPageHandle.pageNum = 0

/-- The catalog as the pool holds it. -/
def catalogOf (md : BM_Metadata) : Option RM_SystemCatalog :=
  asCatalog (viewPage md 0)

/-- The descriptor `catalog->tables[i]` as the pool holds it. -/
def tableOf (md : BM_Metadata) (i : Int) : Option RM_SystemSchema :=
  (catalogOf md).bind (fun c => getI? c.tables i)

/-- The bytes of data page `p` as the pool holds them. -/
def bytesOf (md : BM_Metadata) (p : Int) : Option (List Nat) :=
  asBytes (viewPage md p)

/-- The table behind descriptor pointer `table` is open: its descriptor `t` carries the
handle `hm`, which holds a pin on the table's main page. -/
structure TableOpen (md : BM_Metadata) (table : Int) (t : RM_SystemSchema)
    (hm : BM_PageHandle) : Prop where
  desc : tableOf md table = some t
  handle : t.handle = some hm
  held : Held md hm
  page : hm.pageNum = t.pageNum

/-- The state inside `BEGIN_USE_TABLE_PAGE_HANDLE_HEADER(id)` ... `END_...`: `h` is the
handle in use for page `p`, the main handle `hm` itself when `p` is the main page and a
fresh pin otherwise; page images are those of the state `md` before. -/
structure Using (s : RMState) (md md1 : BM_Metadata) (table : Int) (t : RM_SystemSchema)
    (hm : BM_PageHandle) (p : Int) (h : BM_PageHandle) : Prop where
  ctx : Ctx s md1
  tbl : TableOpen md1 table t hm
  held : Held md1 h
  page : h.pageNum = p
  view : ∀ q, 0 ≤ q → viewPage md1 q = viewPage md q
  fix : ∀ q, 0 ≤ q → fixOf md1 q = fixOf md q + (if q = p ∧ p ≠ t.pageNum then 1 else 0)
  safe : p ≠ t.pageNum → Safe md1 p
  keep : ∀ h1, Held md h1 → Held md1 h1

/-- The state `md2` holds the same page images and fix counts as `md`, and every handle
keeps pointing at its frame. -/
structure Same (md md2 : BM_Metadata) : Prop where
  view : ∀ q, 0 ≤ q → viewPage md2 q = viewPage md q
  fix : ∀ q, 0 ≤ q → fixOf md2 q = fixOf md q
  keep : ∀ h1, Held md h1 → Held md2 h1

/-- The schema a `SchemaRef` denotes, read from the catalog as the pool holds it. -/
def schemaOf (md : BM_Metadata) (r : SchemaRef) : Option Schema :=
  match tableOf md r.table with
  | none => none
  | some t =>
    some { numAttr := r.numAttr, attrNames := t.attrNames.take r.numAttr.toNat,
           dataTypes := t.dataTypes, typeLength := t.typeLength, keyAttrs := t.keyAttrs,
           keySize := r.keySize }

/-- The record size `getRecordSize(rel->schema)` computes in the current state. -/
def recordSizeOf (md : BM_Metadata) (r : SchemaRef) : Option Int :=
  (schemaOf md r).bind getRecordSize

/-- The outcome of the body of `getRecord` on the bytes `b` of the page in use, for the
record size `size`: `none` when an access leaves the page, `some none` for the return of
`RC_WRITE_FAILED`, `some (some data)` for the new content of the record buffer. -/
def getRecordOn (b : List Nat) (size : Option Int) (id : RID) (data : List Nat) :
    Option (Option (List Nat)) :=
  match headerNumSlots b with
  | none => none
  | some numSlots =>
  if id.slot ≥ numSlots then some none
  else
  match getSlot b id.slot with
  | none => none
  | some v =>
  if v = 0 then some none
  else
  match size with
  | none => none
  | some recordSize => (loadTuple b numSlots recordSize id.slot data).map some

/-- The outcome of the body of `updateRecord` on the bytes `b` of the page in use:
`some (some b1)` for the new bytes of the page. -/
def updateRecordOn (b : List Nat) (size : Option Int) (id : RID) (data : List Nat) :
    Option (Option (List Nat)) :=
  match headerNumSlots b with
  | none => none
  | some numSlots =>
  if id.slot ≥ numSlots then some none
  else
  match getSlot b id.slot with
  | none => none
  | some v =>
  if v = 0 then some none
  else
  match size with
  | none => none
  | some recordSize => (storeTuple b numSlots recordSize id.slot data).map some

/-- The outcome of the body of `deleteRecord` on the bytes `b` of the page in use:
`some (some b1)` for the new bytes of the page. -/
def deleteRecordOn (b : List Nat) (id : RID) : Option (Option (List Nat)) :=
  match headerNumSlots b with
  | none => none
  | some numSlots =>
  if id.slot ≥ numSlots then some none
  else
  match getSlot b id.slot with
  | none => none
  | some v =>
  if v = 0 then some none
  else (setSlot b id.slot 0).map some

/-- The state `md2` is `md` with the image of page `p` replaced by `d`: the other page
images and all fix counts are as before, and every handle keeps pointing at its frame. -/
structure PageSet (md md2 : BM_Metadata) (p : Int) (d : PageContent) : Prop where
  view : ∀ q, 0 ≤ q → viewPage md2 q = if q = p then d else viewPage md q
  fix : ∀ q, 0 ≤ q → fixOf md2 q = fixOf md q
  keep : ∀ h1, Held md h1 → Held md2 h1

/-- The state `md2` is `md` with the image of data page `p` replaced by `d` and the
catalog replaced by `c`: the other page images and all fix counts are as before, and every
handle keeps pointing at its frame. -/
structure Stored (md md2 : BM_Metadata) (p : Int) (d : PageContent) (c : RM_SystemCatalog) :
    Prop where
  view : ∀ q, 0 ≤ q → viewPage md2 q =
    if q = p then d else if q = 0 then PageContent.catalog c else viewPage md q
  fix : ∀ q, 0 ≤ q → fixOf md2 q = fixOf md q
  keep : ∀ h1, Held md h1 → Held md2 h1

/-- The catalog with descriptor `i` replaced by `t`. -/
def setDescriptor (c : RM_SystemCatalog) (i : Int) (t : RM_SystemSchema) : RM_SystemCatalog :=
  { c with tables := c.tables.set i.toNat t }

/-- The outcome of `insertRecordOnPage` on the bytes `b` of the page: `none` when an access
leaves the page, `some none` when no slot is free (the return of -1), and
`some (some (k, b1))` for the slot index `k` and the new bytes `b1` of the page. -/
def insertRecordOn (b : List Nat) (size : Option Int) (data : List Nat) :
    Option (Option (Nat × List Nat)) :=
  match headerNumSlots b with
  | none => none
  | some numSlots =>
  match findFreeSlot b numSlots.toNat 0 with
  | none => none
  | some none => some none
  | some (some slotIndex) =>
    match size with
    | none => none
    | some recordSize =>
    match storeTuple b numSlots recordSize (slotIndex : Int) data with
    | none => none
    | some b1 =>
    match setSlot b1 (slotIndex : Int) 1 with
    | none => none
    | some b2 => some (some (slotIndex, b2))

/-- The `nextPage` link of data page `p` as the pool holds it. -/
def nextOf (md : BM_Metadata) (p : Int) : Option Int :=
  (bytesOf md p).bind headerNextPage

/-- Following the `nextPage` links from page `p` visits the pages `pages`, in this order,
and then arrives at `e` (a page number or `NO_PAGE`). -/
def IsChain (md : BM_Metadata) : Int → List Int → Int → Prop
  | p, [], e => p = e
  | p, q :: rest, e => p = q ∧ 0 ≤ q ∧ ∃ nx, nextOf md q = some nx ∧ IsChain md nx rest e

/-- Page `p` belongs to the chain of the table whose main page is `main`. -/
def OnChain (md : BM_Metadata) (main p : Int) : Prop :=
  0 ≤ p ∧ ∃ pre, IsChain md main pre p

/-- No slot of the page is free: every slot byte `0, ..., numSlots - 1` is non-zero. -/
def PageFull (b : List Nat) : Prop :=
  ∃ n, headerNumSlots b = some n ∧ ∀ j : Nat, (j : Int) < n → getSlot b (j : Int) ≠ some 0

/-- Slot `k` is the lowest-numbered free slot of the page. -/
def LowestFree (b : List Nat) (k : Nat) : Prop :=
  ∃ n, headerNumSlots b = some n ∧ (k : Int) < n ∧ getSlot b (k : Int) = some 0
    ∧ ∀ j : Nat, j < k → getSlot b (j : Int) ≠ some 0

/-- The outcome of an insertion that found a free slot on a page of the chain: walking
from `start` over the full pages `pre` arrives at page `P`, whose bytes were `b`; the
record is stored in slot `k`, the bytes of `P` are `b2`, and the descriptor counts one
tuple more. -/
structure InsertFound (s : RMState) (md mdF : BM_Metadata) (i : Int) (t : RM_SystemSchema)
    (hm : BM_PageHandle) (cat : RM_SystemCatalog) (size : Option Int) (data : List Nat)
    (start : Int) (pre : List Int) (P : Int) (b : List Nat) (k : Nat) (b2 : List Nat) :
    Prop where
  chain : IsChain md start pre P
  full : ∀ q ∈ pre, ∃ bq, bytesOf md q = some bq ∧ PageFull bq
  page : 0 ≤ P
  bytes : bytesOf md P = some b
  ins : insertRecordOn b size data = some (some (k, b2))
  ctx : Ctx s mdF
  tbl : TableOpen mdF i { t with numTuples := t.numTuples + 1 } hm
  stored : Stored md mdF P (PageContent.bytes b2)
    (setDescriptor cat i { t with numTuples := t.numTuples + 1 })
  cached : P = t.pageNum ∨ ∃ h, PointsTo mdF h ∧ h.pageNum = P

/-- The outcome of a walk over the chain that found every page full: walking from `start`
over the pages `pages` arrives at `NO_PAGE`, and nothing has changed. -/
structure InsertNone (s : RMState) (md mdF : BM_Metadata) (i : Int) (t : RM_SystemSchema)
    (hm : BM_PageHandle) (start : Int) (pages : List Int) : Prop where
  chain : IsChain md start pages NO_PAGE
  full : ∀ q ∈ pages, ∃ bq, bytesOf md q = some bq ∧ PageFull bq
  ctx : Ctx s mdF
  tbl : TableOpen mdF i t hm
  same : Same md mdF

/-- Page 0 holds the catalog structure. -/
def CatTyped (md : BM_Metadata) : Prop :=
  ∃ c, viewPage md 0 = PageContent.catalog c

/-- The state `mdX` inside `BEGIN_USE_PAGE_HANDLE_HEADER(p)` ... `END_...`, entered from
the state `md`: the handle `hd` holds the extra pin on page `p`. -/
structure Temp (s : RMState) (md mdX : BM_Metadata) (p : Int) (hd : BM_PageHandle) :
    Prop where
  base : PoolBase s mdX
  held : Held mdX hd
  page : hd.pageNum = p
  fix : ∀ q, 0 ≤ q → fixOf mdX q = fixOf md q + (if q = p then 1 else 0)
  pts : ∀ h1, Held md h1 → PointsTo mdX h1

/-- The state after `getFreePage`, entered from `md` with catalog `cat`: the pool is well
formed, fix counts and handles are kept, and the catalog still holds the descriptors and
the table count of `cat`. -/
structure Alloc (s : RMState) (md md1 : BM_Metadata) (cat : RM_SystemCatalog) : Prop where
  ctx : Ctx s md1
  typed : CatTyped md1
  fix : ∀ q, 0 ≤ q → fixOf md1 q = fixOf md q
  keep : ∀ h1, Held md h1 → Held md1 h1
  tables : ∃ cat1, catalogOf md1 = some cat1 ∧ cat1.tables = cat.tables
    ∧ cat1.numTables = cat.numTables

/-- The bytes `b2` are the bytes `b` after `initNewPage`: `numSlots` is `n`, the slots
`0, ..., n - 1` are free, and the links of the header are those of `b`. -/
structure PageInit (b b2 : List Nat) (n : Int) : Prop where
  slots : headerNumSlots b2 = some n
  pos : 0 < n
  free : ∀ j : Nat, (j : Int) < n → getSlot b2 (j : Int) = some 0
  next : headerNextPage b2 = headerNextPage b
  prev : headerPrevPage b2 = headerPrevPage b

/-- Slot `k` of the page bytes `b` is occupied and holds the first `size` bytes of `data`:
`getRecord` into a buffer `out` delivers them. -/
def HoldsRecord (b : List Nat) (k : Int) (size : Int) (data : List Nat) : Prop :=
  ∃ n, headerNumSlots b = some n ∧ 0 ≤ k ∧ k < n ∧ getSlot b k = some 1 ∧ 0 ≤ size
    ∧ size.toNat ≤ data.length
    ∧ ∀ out : List Nat, size.toNat ≤ out.length →
        loadTuple b n size k out = some (data.take size.toNat ++ out.drop size.toNat)

/-- Where `insertRecord` placed the record with id `rid`, relative to the state `md` before
the call of a table whose main page is `main`: on the first page of the chain that had a
free slot, in its lowest free slot; or, when all pages of the chain were full, in slot 0 of
the page that `getFreePage` returned, which the last page of the chain links to in the
state `mdF` after the call. -/
def Placement (s : RMState) (md mdF : BM_Metadata) (main : Int) (rid : RID) : Prop :=
  (∃ (pre : List Int) (b : List Nat) (k : Nat), IsChain md main pre rid.page
      ∧ (∀ q ∈ pre, ∃ bq, bytesOf md q = some bq ∧ PageFull bq)
      ∧ bytesOf md rid.page = some b ∧ LowestFree b k ∧ rid.slot = (k : Int))
  ∨ (∃ (pages : List Int) (last : Int) (mdL : BM_Metadata) (sA : RMState) (bp1 : List Nat),
      IsChain md main pages NO_PAGE
      ∧ (∀ q ∈ pages, ∃ bq, bytesOf md q = some bq ∧ PageFull bq)
      ∧ pages.getLast? = some last
      ∧ Same md mdL ∧ getFreePage (withMd s mdL) = some (rid.page, sA)
      ∧ rid.slot = 0
      ∧ bytesOf mdF last = some bp1
      ∧ (rid.page < 2147483648 → headerNextPage bp1 = some rid.page))

/-- Page `p` of the table whose main page is `main` can be used again without a new frame:
it is the main page, or it is cached, or some cached page is unpinned. -/
def Repin (md : BM_Metadata) (main p : Int) : Prop :=
  p = main ∨ (∃ hx, PointsTo md hx ∧ hx.pageNum = p)
    ∨ ∃ hy, PointsTo md hy ∧ fixOf md hy.pageNum = 0

/-- The state after a successful `createTable(name, schema)`, entered from `md` with
catalog `cat`: the catalog `catF` counts one table more, its descriptor `cat.numTables` is
`tF`, the descriptor `newDescriptor` built with the page number of the new main page, and
that page is cached. -/
structure Created (s : RMState) (md mdF : BM_Metadata) (cat catF : RM_SystemCatalog)
    (name : CString) (schema : Schema) (tF : RM_SystemSchema) : Prop where
  ctx : Ctx s mdF
  typed : CatTyped mdF
  catalog : catalogOf mdF = some catF
  count : catF.numTables = cat.numTables + 1
  index : 0 ≤ cat.numTables ∧ cat.numTables < (MAX_NUM_TABLES : Int)
  tables : catF.tables = cat.tables.set cat.numTables.toNat tF
  absent : getTableByNameLoop cat name cat.numTables.toNat 0 = some none
  desc : ∃ t0 t3, getI? cat.tables cat.numTables = some t0
    ∧ newDescriptor t0 name schema = some t3 ∧ tF = { t3 with pageNum := tF.pageNum }
  page : 0 ≤ tF.pageNum
  cached : ∃ hx, PointsTo mdF hx ∧ hx.pageNum = tF.pageNum
  dirty : Safe mdF 0
  fix : ∀ q, 0 ≤ q → fixOf mdF q = fixOf md q
  keep : ∀ h1, Held md h1 → Held mdF h1

/-- A frame of a pool that `initBufferPool` has just built: unpinned, unoccupied and time
stamped before the current time stamp. -/
def FreeFrame (md : BM_Metadata) (j : Nat) (f : BM_PageFrame) : Prop :=
  f.frameIndex = (j : Int) ∧ f.fixCount = 0 ∧ f.occupied = false ∧ f.timeStamp < md.timeStamp

def emptyMetadata : BM_Metadata :=
  ⟨[], ⟨0, []⟩, ⟨"", 0, 0, none⟩, 0, 0, 0, 0⟩

/-- The metadata of the pool of a state (`emptyMetadata` when the pool has none). -/
def liveMd (s : RMState) : BM_Metadata :=
  match s.bufferPool.mgmtData with
  | MgmtPtr.live md => md
  | _ => emptyMetadata

/-- The schema `a INT, b STRING(1000)` with key `a`: records of 1005 bytes, four to a
page. -/
def testSchema : Schema :=
  ⟨2, ["a".toList, "b".toList], [DataType.DT_INT, DataType.DT_STRING], [0, 1000], [0], 1⟩

def testName : CString := "table".toList

/-- An `RM_TableData` that no call has filled in. -/
def testRel : RM_TableData := ⟨0, ⟨0, 0, 0⟩, 0⟩

/-- A record of the test schema: 1005 bytes `x`. -/
def testRecord (x : Nat) : Record := ⟨⟨0, 0⟩, List.replicate 1005 x⟩

/-- The state (and output) that a call returned, `d` when it returned none. -/
def resultOf {α : Type} (d : α) (x : Option (RC × α)) : α :=
  match x with
  | some r => r.2
  | none => d

/-- The state after `initRecordManager(NULL)` when no page file exists. -/
def freshState : RMState :=
  resultOf (initialState none) (initRecordManager (initialState none) none)

/-- The state after `createTable("table", testSchema)`. -/
def createdState : RMState :=
  resultOf freshState (createTable freshState testName testSchema)

/-- The state and the table data after `openTable(&rel, "table")`. -/
def openedState : RMState × RM_TableData :=
  resultOf (createdState, testRel) (openTable createdState testRel testName)

/-- The state and the record after `insertRecord(&rel, record)`. -/
def insertedState : RMState × Record :=
  resultOf (openedState.1, testRecord 7)
    (insertRecord 4 openedState.1 openedState.2 (testRecord 7))

/-- A state in which a table is open, with the table data `rel` that `openTable` filled. -/
structure OpenState (s : RMState) (rel : RM_TableData) (t : RM_SystemSchema)
    (hm : BM_PageHandle) : Prop where
  live : s.bufferPool.mgmtData = MgmtPtr.live (liveMd s)
  ctx : Ctx s (liveMd s)
  tbl : TableOpen (liveMd s) rel.mgmtData t hm
  rel : rel.schema.table = rel.mgmtData

/-- The bytes of page 1, the main page of the table, after the insertion. -/
def insertedPage : List Nat :=
  match bytesOf (liveMd insertedState.1) 1 with
  | some b => b
  | none => []

/-! ## Further runs on the small database -/

/-- The state after the calls `insertRecord(&rel, r)` for the records `r` of a list. -/
def insertAll (rel : RM_TableData) : RMState → List Record → RMState
  | s, [] => s
  | s, r :: rs => insertAll rel (resultOf (s, r) (insertRecord 4 s rel r)).1 rs

/-- The state after the calls `createTable(n, testSchema)` for the names `n` of a list. -/
def createAll : RMState → List CString → RMState
  | s, [] => s
  | s, n :: ns => createAll (resultOf s (createTable s n testSchema)) ns

/-- The state after the calls `openTable(&rel, n)` for the names `n` of a list. -/
def openAll : RMState → List CString → RMState
  | s, [] => s
  | s, n :: ns => openAll (resultOf (s, testRel) (openTable s testRel n)).1 ns

/-- Fourteen table names. -/
def moreNames : List CString :=
  ["b".toList, "c".toList, "d".toList, "e".toList, "f".toList, "g".toList, "h".toList,
   "i".toList, "j".toList, "k".toList, "l".toList, "m".toList, "n".toList, "o".toList]

/-- The state after five insertions into the open table: four records fill its main page,
page 1, and the fifth is in slot 0 of the overflow page, page 2. -/
def fiveState : RMState :=
  insertAll openedState.2 openedState.1
    [testRecord 1, testRecord 2, testRecord 3, testRecord 4, testRecord 5]

/-- The state after fourteen more tables were created and opened: the catalog page and
the main pages of the fifteen open tables are pinned, which are all sixteen frames. -/
def crowdedState : RMState := openAll (createAll fiveState moreNames) moreNames

/-- The state after two insertions into the open table and the deletion of the first
record: slot 0 of page 1 is free and slot 1 holds a record. -/
def gapState : RMState :=
  resultOf (insertAll openedState.2 openedState.1 [testRecord 1, testRecord 2])
    (deleteRecord (insertAll openedState.2 openedState.1 [testRecord 1, testRecord 2])
      openedState.2 ⟨1, 0⟩)

/-- The scan handle that `startScan(&rel, &scan, NULL)` fills in `gapState`. -/
def gapScan : RM_ScanHandle :=
  resultOf ⟨openedState.2, ⟨⟨0, 0⟩, none⟩⟩ (startScan gapState openedState.2 none)

/-- The return codes and the RIDs of the output record of `n` successive calls of `next`
from a state and a scan handle (the list ends early when a call has no result). -/
def scanIds : Nat → RMState → RM_ScanHandle → Record → List (RC × RID)
  | 0, _, _, _ => []
  | n + 1, s, scan, record =>
    match next 4 s scan record with
    | none => []
    | some r => (r.1, r.2.2.2.id) :: scanIds n r.2.1 r.2.2.1 r.2.2.2

/-- A table name of sixteen characters. -/
def longName : CString := "abcdefghijklmnop".toList

/-- The number of slot bytes of a page that are set, among its first `n` slots. -/
def countSet (b : List Nat) (n : Nat) : Nat :=
  ((List.range n).filter (fun i => getSlot b (i : Int) = some 1)).length

/-- The state after `deleteRecord(&rel, (1, -5))` on the table holding one record. -/
def negState : RMState :=
  resultOf insertedState.1 (deleteRecord insertedState.1 openedState.2 ⟨1, -5⟩)

/-- The state after `deleteRecord(&rel, (1, -5))` on the table that was just opened. -/
def strayState : RMState :=
  resultOf openedState.1 (deleteRecord openedState.1 openedState.2 ⟨1, -5⟩)

/-- The state after `createTable(longName, testSchema)` on the new page file. -/
def longState : RMState := resultOf freshState (createTable freshState longName testSchema)

/-- The state after a second `createTable(longName, testSchema)`. -/
def longState2 : RMState := resultOf longState (createTable longState longName testSchema)

/-- The name that a descriptor of the catalog stores. -/
def storedName (s : RMState) (i : Int) : Option CString :=
  (tableOf (liveMd s) i).map (fun t => t.name)

/-- The tuple count that a descriptor of the catalog stores. -/
def storedNumTuples (s : RMState) (i : Int) : Option Int :=
  (tableOf (liveMd s) i).map (fun t => t.numTuples)

/-! ## Deleting tables and counting free pages (`record_mgr.c`) -/

/-- The loop `while (1)` of `appendToFreeList` over the pages of the chain from `curPage`:
the last page of the chain gets the head of the free list as its `nextPage`. The result is
1 for the error value, else 0 with the last page of the chain; `fuel` bounds the
iterations. -/
def appendWalk : Nat → RMState → Int → Option (Int × RMState × Int)
  | 0, _, _ => none
  | fuel + 1, s, curPage =>
    match rmPinPage s uninitHandle curPage with
    | none => none
    | some r1 =>
    if r1.1 ≠ RC.RC_OK then some (1, r1.2.1, curPage)
    else
    match (pageBytes r1.2.1 r1.2.2).bind headerNextPage with
    | none => none
    | some nextPage =>
    if nextPage = NO_PAGE then
      match getSystemCatalog r1.2.1 with
      | none => none
      | some catalog =>
      match writeHeaderField r1.2.1 r1.2.2 0 catalog.freePage with
      | none => none
      | some s2 =>
      match rmMarkDirty s2 r1.2.2 with
      | none => none
      | some r3 =>
      match rmUnpinPage r3.2 r1.2.2 with
      | none => none
      | some r4 => if r4.1 ≠ RC.RC_OK then some (1, r4.2, curPage) else some (0, r4.2, curPage)
    else
      match rmUnpinPage r1.2.1 r1.2.2 with
      | none => none
      | some r4 =>
      if r4.1 ≠ RC.RC_OK then some (1, r4.2, nextPage) else appendWalk fuel r4.2 nextPage

/-- The block of `appendToFreeList` that makes `pageNum` the head of the free list: its
`prevPage` becomes 0 and `catalog->freePage` becomes `pageNum`. -/
def appendHead (s : RMState) (pageNum : Int) : Option (Int × RMState) :=
  match rmPinPage s uninitHandle pageNum with
  | none => none
  | some r1 =>
  if r1.1 ≠ RC.RC_OK then some (1, r1.2.1)
  else
  match writeHeaderField r1.2.1 r1.2.2 4 0 with
  | none => none
  | some s2 =>
  match getSystemCatalog s2 with
  | none => none
  | some catalog =>
  match setSystemCatalog s2 { catalog with freePage := pageNum } with
  | none => none
  | some s3 =>
  match rmMarkDirty s3 r1.2.2 with
  | none => none
  | some r4 =>
  match markSystemCatalogDirty r4.2 with
  | none => none
  | some r5 =>
  match rmUnpinPage r5.2 r1.2.2 with
  | none => none
  | some r6 => if r6.1 ≠ RC.RC_OK then some (1, r6.2) else some (0, r6.2)

/-- The source's `appendToFreeList`: 0 for success and 1 for failure; `fuel` bounds the
iterations of its loop. -/
def appendToFreeList (fuel : Nat) (s : RMState) (pageNum : Int) : Option (Int × RMState) :=
  match getSystemCatalog s with
  | none => none
  | some catalog =>
  if catalog.freePage = NO_PAGE then appendHead s pageNum
  else
    match appendWalk fuel s pageNum with
    | none => none
    | some w =>
    if w.1 ≠ 0 then some (1, w.2.1)
    else
    match getSystemCatalog w.2.1 with
    | none => none
    | some catalog1 =>
    match rmPinPage w.2.1 uninitHandle catalog1.freePage with
    | none => none
    | some r1 =>
    if r1.1 ≠ RC.RC_OK then some (1, r1.2.1)
    else
    match writeHeaderField r1.2.1 r1.2.2 4 w.2.2 with
    | none => none
    | some s2 =>
    match rmMarkDirty s2 r1.2.2 with
    | none => none
    | some r3 =>
    match rmUnpinPage r3.2 r1.2.2 with
    | none => none
    | some r4 => if r4.1 ≠ RC.RC_OK then some (1, r4.2) else appendHead r4.2 pageNum

/-- The loop of `deleteTable` that shifts the descriptors down: `tables[r] = tables[r + 1]`
for `r, r + 1, ...` (`k` of them). -/
def shiftDown : Nat → Nat → List RM_SystemSchema → Option (List RM_SystemSchema)
  | 0, _, tables => some tables
  | k + 1, r, tables =>
    match tables[r + 1]? with
    | none => none
    | some t => shiftDown k (r + 1) (tables.set r t)

/-- The body of `deleteTable` for the descriptor `tableIndex` whose name matched. -/
def deleteTableAt (fuel : Nat) (s : RMState) (tableIndex : Nat) (table : RM_SystemSchema) :
    Option (RC × RMState) :=
  match appendToFreeList fuel s table.pageNum with
  | none => none
  | some r1 =>
  if r1.1 = 1 then some (RC.RC_WRITE_FAILED, r1.2)
  else
  match getSystemCatalog r1.2 with
  | none => none
  | some catalog =>
  let numTables := catalog.numTables - 1
  match shiftDown (numTables - (tableIndex : Int)).toNat tableIndex catalog.tables with
  | none => none
  | some tables =>
  match setSystemCatalog r1.2 { catalog with numTables := numTables, tables := tables } with
  | none => none
  | some s2 =>
  match markSystemCatalogDirty s2 with
  | none => none
  | some r3 => some (RC.RC_OK, r3.2)

/-- The loop of `deleteTable` over the descriptors `i, i + 1, ...` (`k` of them). -/
def deleteTableLoop (fuel : Nat) (s : RMState) (catalog : RM_SystemCatalog) (name : CString) :
    Nat → Nat → Option (RC × RMState)
  | 0, _ => some (RC.RC_IM_KEY_NOT_FOUND, s)
  | k + 1, i =>
    match catalog.tables[i]? with
    | none => none
    | some table =>
      if table.name = name then deleteTableAt fuel s i table
      else deleteTableLoop fuel s catalog name k (i + 1)

/-- The source's `deleteTable`; `fuel` bounds the walk along the table's page chain. -/
def deleteTable (fuel : Nat) (s : RMState) (name : CString) : Option (RC × RMState) :=
  match getSystemCatalog s with
  | none => none
  | some catalog => deleteTableLoop fuel s catalog name catalog.numTables.toNat 0

/-- The loop `while (1)` of `getNumFreePages` from `curPage` with the running `count`;
`fuel` bounds the iterations. -/
def countFreeLoop : Nat → RMState → Int → Int → Option (Int × RMState)
  | 0, _, _, _ => none
  | fuel + 1, s, curPage, count =>
    match rmPinPage s uninitHandle curPage with
    | none => none
    | some r1 =>
    if r1.1 ≠ RC.RC_OK then some (0, r1.2.1)
    else
    match (pageBytes r1.2.1 r1.2.2).bind headerNextPage with
    | none => none
    | some nextPage =>
    match rmUnpinPage r1.2.1 r1.2.2 with
    | none => none
    | some r2 =>
    if r2.1 ≠ RC.RC_OK then some (0, r2.2)
    else if nextPage = NO_PAGE then some (count + 1, r2.2)
    else countFreeLoop fuel r2.2 nextPage count

/-- The source's `getNumFreePages`; `fuel` bounds the iterations of its loop. -/
def getNumFreePages (fuel : Nat) (s : RMState) : Option (Int × RMState) :=
  match getSystemCatalog s with
  | none => none
  | some catalog =>
  if catalog.freePage = NO_PAGE then some (0, s) else countFreeLoop fuel s catalog.freePage 1

/-! ### Runs that delete tables -/

/-- The state after the calls `deleteTable(n)` for the names `n` of a list. -/
def deleteAll : RMState → List CString → RMState
  | s, [] => s
  | s, n :: ns => deleteAll (resultOf s (deleteTable 4 s n)) ns

/-- The state after `createTable("table", testSchema)` and `deleteTable("table")` on the
new page file: page 1 is the only page of the free list. -/
def oneFreeState : RMState := resultOf createdState (deleteTable 4 createdState testName)

/-- The state after four tables were created on the new page file. -/
def fourTables : RMState :=
  createAll freshState ["b".toList, "c".toList, "d".toList, "e".toList]

/-- The state after the first and the third of the four tables were deleted. -/
def twoDeleted : RMState := deleteAll fourTables ["b".toList, "d".toList]

/-- The state after the two tables were created again. -/
def recreated : RMState := createAll twoDeleted ["b".toList, "d".toList]

/-- The names of the first `numTables` descriptors of the catalog. -/
def tableNames (s : RMState) : Option (List CString) :=
  (catalogOf (liveMd s)).map (fun c => (c.tables.take c.numTables.toNat).map (fun t => t.name))

/-- The head of the free list. -/
def freeHead (s : RMState) : Option Int := (catalogOf (liveMd s)).map (fun c => c.freePage)

/-! ## Attribute values (`record_mgr.c`: `getAttr`, `setAttr`) -/

/-- Modelled from the spec: the tagged union `Value`, whose declaration is not among the
sources ("INT, FLOAT, BOOL, STRING" values). The tag `dt` is the constructor. A string
value is the bytes of the buffer `v.stringV` points at, a float value the four bytes of
its object representation. -/
inductive Value where
  | intV (v : Int)
  | stringV (buf : List Nat)
  | floatV (bits : List Nat)
  | boolV (b : Bool)
  deriving DecidableEq

/-- The bytes at the address `setAttr` passes to `memcpy` for a value: the member of the
union, or the string buffer. -/
def Value.bytes : Value → List Nat
  | Value.intV v => encodeInt v
  | Value.stringV buf => buf
  | Value.floatV bits => bits
  | Value.boolV b => [if b then 1 else 0]

/-- A call of a client on the pool, or the client's store into the buffer of a page it
holds pinned. -/
inductive PoolOp where
  | pin (p : Int)
  | unpin (p : Int)
  | dirty (p : Int)
  | force (p : Int)
  | flush
  | store (p : Int) (d : PageContent)

/-- A client stores `d` into the buffer of page `p` through the handle of a pin it holds:
the page is cached and its fix count is positive (`none` otherwise, when the client has no
buffer to store into). -/
def storePage (bm : BM_BufferPool) (p : Int) (d : PageContent) : Option BM_BufferPool :=
  match bm.mgmtData with
  | MgmtPtr.live md =>
    match getValue md.pageTable p with
    | some (some i) =>
      match frameAt md i with
      | some f =>
        if 1 ≤ f.fixCount then
          some { bm with mgmtData := MgmtPtr.live (setFrame md i { f with data := d }) }
        else none
      | none => none
    | _ => none
  | _ => none

/-- The pool after one call, whatever the call returns. -/
def applyOp (bm : BM_BufferPool) : PoolOp → Option BM_BufferPool
  | PoolOp.pin p => (pinPage bm uninitHandle p).map (fun r => r.2.1)
  | PoolOp.unpin p => (unpinPage bm ⟨p, none⟩).map (fun r => r.2)
  | PoolOp.dirty p => (markDirty bm ⟨p, none⟩).map (fun r => r.2)
  | PoolOp.force p => (forcePage bm ⟨p, none⟩).map (fun r => r.2)
  | PoolOp.flush => (forceFlushPool bm).map (fun r => r.2)
  | PoolOp.store p d => storePage bm p d

/-- The pool after a sequence of calls. -/
def runOps : BM_BufferPool → List PoolOp → Option BM_BufferPool
  | bm, [] => some bm
  | bm, op :: ops =>
    match applyOp bm op with
    | none => none
    | some bm1 => runOps bm1 ops

/-- The discipline of a client: a page it has stored into is not unpinned before it was
marked dirty. The list holds the pages stored into and not yet marked. -/
def Disciplined : List Int → List PoolOp → Prop
  | _, [] => True
  | t, PoolOp.store p _ :: ops => Disciplined (p :: t) ops
  | t, PoolOp.dirty p :: ops => Disciplined (t.filter (fun q => q ≠ p)) ops
  | t, PoolOp.unpin p :: ops => p ∉ t ∧ Disciplined t ops
  | t, _ :: ops => Disciplined t ops

/-- The pages stored into and not yet marked dirty after a sequence of calls. -/
def pendingAfter : List Int → List PoolOp → List Int
  | t, [] => t
  | t, PoolOp.store p _ :: ops => pendingAfter (p :: t) ops
  | t, PoolOp.dirty p :: ops => pendingAfter (t.filter (fun q => q ≠ p)) ops
  | t, _ :: ops => pendingAfter t ops

/-- The most recent in-memory image of every page after a sequence of calls, from the
images `img` before it: a store replaces the image of its page. -/
def imageAfter (img : Int → PageContent) : List PoolOp → Int → PageContent
  | [], q => img q
  | PoolOp.store p d :: ops, q => imageAfter (fun x => if x = p then d else img x) ops q
  | _ :: ops, q => imageAfter img ops q

/-- A frame whose buffer holds what the client last stored or the pool last read: it is
dirty, or it holds the bytes of the file, unless a store into it is not yet marked. -/
def Settled (md : BM_Metadata) (t : List Int) : Prop :=
  (∀ i f, frameAt md i = some f → f.occupied = true → f.pageNum ∉ t →
      f.dirty = true ∨ fhPage md.pageFile f.pageNum = f.data)
    ∧ ∀ p ∈ t, 0 ≤ p ∧ 1 ≤ fixOf md p

/-- The invariant of a run of a disciplined client: the pool is well formed, the pool's
current image of every page is the image `img` the client has produced, and the frames
are settled but for the pages `t` stored into and not yet marked dirty. -/
structure RunInv (bm : BM_BufferPool) (md : BM_Metadata) (img : Int → PageContent)
    (t : List Int) : Prop where
  ok : PoolOK bm md
  view : ∀ q, 0 ≤ q → viewPage md q = img q
  settled : Settled md t

/-- The candidate `k` of `replacementFIFO` for the cursor `c` and `n` frames: the frames
are visited in the circular order `c + 1, c + 2, ...`. -/
def circular (c n : Int) (k : Nat) : Int := (c + 1 + (k : Int)) % n

/-- Frame `i` is the first frame without a pin in the circular order from the cursor. -/
def FirstUnpinned (md : BM_Metadata) (n : Int) (i : Int) : Prop :=
  ∃ k : Nat, (k : Int) < n ∧ i = circular md.queueIndex n k
    ∧ (∃ f, frameAt md i = some f ∧ f.fixCount = 0)
    ∧ ∀ k1 : Nat, k1 < k → ∃ f, frameAt md (circular md.queueIndex n k1) = some f ∧ f.fixCount ≠ 0

/-! ### Pools for the examples -/

/-- A pool structure holding zero bytes, as a global or `calloc` provides it. -/
def zeroPool : BM_BufferPool := ⟨"", 0, ReplacementStrategy.RS_FIFO, MgmtPtr.null⟩

/-- A pool structure whose `numPages` holds 3 before `initBufferPool` is called. -/
def threePool : BM_BufferPool := ⟨"", 3, ReplacementStrategy.RS_FIFO, MgmtPtr.null⟩

/-- The pool `initBufferPool` sets up on a file of one page. -/
def newPool (bm : BM_BufferPool) (numPages : Int) (strategy : ReplacementStrategy) :
    BM_BufferPool :=
  (initBufferPool bm "file" (some [emptyPage]) numPages strategy).2

/-- The pool after a sequence of calls, the pool itself when the run has no result. -/
def poolAfter (bm : BM_BufferPool) (ops : List PoolOp) : BM_BufferPool :=
  match runOps bm ops with
  | some bm1 => bm1
  | none => bm

/-- The metadata of a pool (`emptyMetadata` when it has none). -/
def poolMd (bm : BM_BufferPool) : BM_Metadata :=
  match bm.mgmtData with
  | MgmtPtr.live md => md
  | _ => emptyMetadata

/-- The page numbers, fix counts and time stamps the frames of a pool hold. -/
def frameInfo (bm : BM_BufferPool) : List (Int × Int × Nat) :=
  match bm.mgmtData with
  | MgmtPtr.live md => md.pageFrames.map (fun f => (f.pageNum, f.fixCount, f.timeStamp))
  | _ => []

/-- The page numbers the frames of a pool hold. -/
def framePages (bm : BM_BufferPool) : List Int := (frameInfo bm).map (fun x => x.1)

/-- The pool with its time stamp counter set to `ts`, as after that many stamps. -/
def withStamp (bm : BM_BufferPool) (ts : Nat) : BM_BufferPool :=
  match bm.mgmtData with
  | MgmtPtr.live md => { bm with mgmtData := MgmtPtr.live { md with timeStamp := ts } }
  | _ => bm

/-- A pool of one frame under LRU that holds page 0 pinned when the time stamp counter
has reached `UINT_MAX`. -/
def latePool : BM_BufferPool :=
  withStamp (poolAfter (newPool zeroPool 1 ReplacementStrategy.RS_LRU) [PoolOp.pin 0]) UINT_MAX

/-- The pool after page 0 is unpinned: the frame is stamped `UINT_MAX`. -/
def wrapPool : BM_BufferPool := poolAfter latePool [PoolOp.unpin 0]

/-- A page a client writes. -/
def somePage : PageContent := PageContent.bytes [1, 2, 3]

/-- A run of a client on three frames: page 1 is pinned, stored into, marked dirty and
unpinned; then pages 2, 3 and 4 pass through the pool, so that page 1 is evicted. -/
def clientRun : List PoolOp :=
  [PoolOp.pin 1, PoolOp.store 1 somePage, PoolOp.dirty 1, PoolOp.unpin 1, PoolOp.pin 2,
   PoolOp.unpin 2, PoolOp.pin 3, PoolOp.unpin 3, PoolOp.pin 4, PoolOp.unpin 4, PoolOp.flush,
   PoolOp.force 2]

/-- A pool of three frames under FIFO that holds page 1 pinned. -/
def onePinned : BM_BufferPool :=
  poolAfter (newPool zeroPool 3 ReplacementStrategy.RS_FIFO) [PoolOp.pin 1]

/-- A pool of three frames under FIFO after pages 1, 2, 3 were pinned and unpinned. -/
def fifoPool (bm : BM_BufferPool) : BM_BufferPool :=
  poolAfter (newPool bm 3 ReplacementStrategy.RS_FIFO)
    [PoolOp.pin 1, PoolOp.unpin 1, PoolOp.pin 2, PoolOp.unpin 2, PoolOp.pin 3, PoolOp.unpin 3]

/-- The same with the three pins before the three unpins. -/
def fifoPool2 (bm : BM_BufferPool) : BM_BufferPool :=
  poolAfter (newPool bm 3 ReplacementStrategy.RS_FIFO)
    [PoolOp.pin 1, PoolOp.pin 2, PoolOp.pin 3, PoolOp.unpin 1, PoolOp.unpin 2, PoolOp.unpin 3]

/-! ## Deleting a table: invariants -/

/-- The pages of the list are data pages that hold a page header. -/
def Typed (md : BM_Metadata) (l : List Int) : Prop :=
  ∀ q ∈ l, ∃ b, bytesOf md q = some b ∧ 12 ≤ b.length

/-- The state `md1` after a step of `appendToFreeList` entered from `md`: the record
manager is still initialised, the catalog is `cat1`, and every data page is a data page of
the same size. -/
structure FreeStep (s : RMState) (md md1 : BM_Metadata) (cat1 : RM_SystemCatalog) : Prop where
  ctx : Ctx s md1
  typed : CatTyped md1
  catalog : catalogOf md1 = some cat1
  pages : ∀ q b, 0 ≤ q → bytesOf md q = some b →
    ∃ b1, bytesOf md1 q = some b1 ∧ b1.length = b.length

/-- The descriptors of a catalog after descriptor `i` was removed from the first
`numTables` ones: those before `i` stay, those behind move down by one. -/
def RemovedAt (cat cat1 : RM_SystemCatalog) (i : Nat) : Prop :=
  cat1.numTables = cat.numTables - 1
    ∧ cat1.totalNumPages = cat.totalNumPages
    ∧ (∀ j : Nat, j < i → cat1.tables[j]? = cat.tables[j]?)
    ∧ ∀ j : Nat, i ≤ j → (j : Int) < cat.numTables - 1 → cat1.tables[j]? = cat.tables[j + 1]?

/-- The catalog of `createdState`. -/
def createdCatalog : RM_SystemCatalog :=
  match catalogOf (liveMd createdState) with
  | some c => c
  | none => zeroSystemCatalog

/-- The descriptor of the table of `createdState`. -/
def createdTable : RM_SystemSchema :=
  match createdCatalog.tables[0]? with
  | some t => t
  | none => zeroSystemSchema

/-- The schema `sch` that `openTable` exposes agrees with the schema `schema` handed to
`createTable`: the same `numAttr` and `keySize`, and entry for entry the same attribute
names, data types and type lengths (`numAttr` of each) and key attributes (`keySize`). -/
def SameSchema (schema sch : Schema) : Prop :=
  sch.numAttr = schema.numAttr ∧ sch.keySize = schema.keySize
    ∧ (∀ j : Nat, (j : Int) < schema.numAttr → ∃ n d l,
        schema.attrNames[j]? = some n ∧ sch.attrNames[j]? = some n
          ∧ schema.dataTypes[j]? = some d ∧ sch.dataTypes[j]? = some d
          ∧ schema.typeLength[j]? = some l ∧ sch.typeLength[j]? = some l)
    ∧ ∀ j : Nat, (j : Int) < schema.keySize → ∃ a,
        schema.keyAttrs[j]? = some a ∧ sch.keyAttrs[j]? = some a

/-- The attribute names of the first `numAttr` attributes have at most 15 characters. -/
def ShortNames (schema : Schema) : Prop :=
  ∀ (j : Nat) (n : CString), (j : Int) < schema.numAttr → schema.attrNames[j]? = some n →
    n.length ≤ 15

/-- The catalog of `freshState`. -/
def freshCatalog : RM_SystemCatalog :=
  match catalogOf (liveMd freshState) with
  | some c => c
  | none => zeroSystemCatalog

/-- The state after `shutdownRecordManager()` in `createdState`. -/
def closedState : RMState := resultOf createdState (shutdownRecordManager createdState)

/-! ## Scans: what `next` returns -/

/-- The frame of page `p`, when the page is cached, is dirty or holds the bytes the file
holds. -/
def CleanPage (md : BM_Metadata) (p : Int) : Prop :=
  ∀ f, frameOfPage md p = some f → f.dirty = true ∨ fhPage md.pageFile f.pageNum = f.data

/-- The record `r` is what its slot of the page bytes `b` holds: the slot `r.id.slot` is a
slot of the page and occupied, and the first `size` bytes of the record's buffer are the
bytes of the tuple stored in that slot. -/
def StoredAt (b : List Nat) (size : Int) (r : Record) : Prop :=
  ∃ n tuple, headerNumSlots b = some n ∧ 0 ≤ r.id.slot ∧ r.id.slot < n
    ∧ getSlot b r.id.slot = some 1 ∧ 0 ≤ size
    ∧ readBytes b (tupleOffset n size r.id.slot) size.toNat = some tuple
    ∧ r.data.take size.toNat = tuple

/-- The condition of a scan holds of the record `r`: when it is not `NULL`, `evalExpr`
returns `RC_OK` and the boolean true. -/
def CondHolds (cond : Option Expr) (schema : Option Schema) (r : Record) : Prop :=
  ∀ e, cond = some e → ∃ sc, schema = some sc ∧ e.eval r sc = (RC.RC_OK, true)

/-- The position of a scan of the table whose main page is `main`: the slot is -1 or a slot
index, and the page, when it is a page number, belongs to the chain of the table. -/
def ScanOK (md : BM_Metadata) (main : Int) (d : RM_ScanData) : Prop :=
  -1 ≤ d.id.slot ∧ (0 ≤ d.id.page → OnChain md main d.id.page)

/-- A condition: the first byte of the record is `x`. -/
def firstByteIs (x : Nat) : Expr :=
  ⟨fun r _ => (RC.RC_OK, decide (r.data.head? = some x))⟩

/-- The scan handle `startScan` fills in for the open table of `insertedState`. -/
def startedScan : RM_ScanHandle :=
  match startScan insertedState.1 openedState.2 (some (firstByteIs 7)) with
  | some r => r.2
  | none => ⟨openedState.2, ⟨⟨NO_PAGE, 0⟩, none⟩⟩

/-- The state, scan handle and record after the first `next` of `startedScan`. -/
def scannedState : RMState × RM_ScanHandle × Record :=
  resultOf (insertedState.1, startedScan, testRecord 0)
    (next 4 insertedState.1 startedScan (testRecord 0))

/-! ## Storage blocks and single calls of the pool -/

/-- An open handle on a file of two zero pages. -/
def twoPageFile : SM_FileHandle :=
  { fileName := "file", totalNumPages := 2, curPagePos := 0,
    mgmtInfo := some [emptyPage, emptyPage] }

/-- A run of a client on three frames: page 1 is stored into, marked dirty and unpinned,
page 2 is stored into and marked dirty and stays pinned. -/
def dirtyRun : List PoolOp :=
  [PoolOp.pin 1, PoolOp.store 1 somePage, PoolOp.dirty 1, PoolOp.unpin 1, PoolOp.pin 2,
   PoolOp.store 2 somePage, PoolOp.dirty 2]

/-- The pool of three frames under LRU after `dirtyRun`: frame 0 holds page 1, dirty and
unpinned; frame 1 holds page 2, dirty and pinned; frame 2 is unused. -/
def dirtyPool : BM_BufferPool :=
  poolAfter (newPool zeroPool 3 ReplacementStrategy.RS_LRU) dirtyRun

/-- The pool after `dirtyRun` and the unpin of page 2: two dirty frames, none pinned. -/
def idlePool : BM_BufferPool :=
  poolAfter (newPool zeroPool 3 ReplacementStrategy.RS_LRU) (dirtyRun ++ [PoolOp.unpin 2])

/-- A pool of three frames under LRU after pages 1, 2, 3 were pinned, then unpinned, and
page 1 was pinned again. -/
def lruPool : BM_BufferPool :=
  poolAfter (newPool zeroPool 3 ReplacementStrategy.RS_LRU)
    [PoolOp.pin 1, PoolOp.pin 2, PoolOp.pin 3, PoolOp.unpin 1, PoolOp.unpin 2, PoolOp.unpin 3,
     PoolOp.pin 1]

/-- The page numbers, dirty flags and fix counts the frames of a pool hold. -/
def frameFlags (bm : BM_BufferPool) : List (Int × Bool × Int) :=
  (poolMd bm).pageFrames.map (fun f => (f.pageNum, f.dirty, f.fixCount))

/-- The pool a call returned, `d` when the call has no result. -/
def poolOf (d : BM_BufferPool) (x : Option (RC × BM_BufferPool)) : BM_BufferPool :=
  match x with
  | some r => r.2
  | none => d

/-- The metadata of a pool without its time stamps: the counter and the stamp of every
frame are set to 0, everything else is kept. -/
def eraseStamps (md : BM_Metadata) : BM_Metadata :=
  { md with timeStamp := 0,
            pageFrames := md.pageFrames.map (fun f => { f with timeStamp := 0 }) }

/-- The frame is one that `forceFlushPool` writes back: occupied, dirty and unpinned. -/
def flushable (f : BM_PageFrame) : Bool :=
  f.occupied && f.dirty && decide (f.fixCount = 0)

/-- The number of frames of the pool that `forceFlushPool` writes back. -/
def flushCount (md : BM_Metadata) : Nat := md.pageFrames.countP flushable

/-! ## The hash table as a finite map -/

/-- A call that changes the table: `setValue(key, value)` or `removePair(key)`. -/
inductive HTOp where
  | set (key value : Int)
  | remove (key : Int)
  deriving DecidableEq

/-- The key of a call. -/
def HTOp.key : HTOp → Int
  | HTOp.set k _ => k
  | HTOp.remove k => k

/-- The table after one call, whatever the call returns. -/
def applyHT (ht : HT_TableHandle) : HTOp → Option HT_TableHandle
  | HTOp.set k v => (setValue ht k v).map Prod.snd
  | HTOp.remove k => (removePair ht k).map Prod.snd

/-- The table after a sequence of calls. -/
def runHT : HT_TableHandle → List HTOp → Option HT_TableHandle
  | ht, [] => some ht
  | ht, op :: ops =>
    match applyHT ht op with
    | none => none
    | some ht1 => runHT ht1 ops

/-- Following the spec's words, the dictionary with `set(key, value)` (insert or
overwrite) and `remove(key)`: the finite map after one call. -/
def mapStep (m : Int → Option Int) : HTOp → Int → Option Int
  | HTOp.set k v => fun x => if x = k then some v else m x
  | HTOp.remove k => fun x => if x = k then none else m x

/-- Following the spec's words: the finite map after a sequence of calls, from the map `m`;
a key maps to the value of the most recent `set` of it that no `remove` of it follows. -/
def mapAfter (m : Int → Option Int) : List HTOp → Int → Option Int
  | [] => m
  | op :: ops => mapAfter (mapStep m op) ops

/-- The empty dictionary. -/
def emptyMap : Int → Option Int := fun _ => none

/-- Eighteen keys of bucket 0 of a table of two buckets are set, key 4 is overwritten, key 6
is removed, and a key of bucket 1 is set. -/
def bucketRun : List HTOp :=
  (List.range 18).map (fun i => HTOp.set (2 * (i : Int)) (i : Int))
    ++ [HTOp.set 4 100, HTOp.remove 6, HTOp.set 7 70]

/-! ## Pins of the record calls

The fix counts that the record calls leave in the pool of `fiveState`, whose file has the
catalog page 0, the main page 1 of the open table and its overflow page 2. -/

/-- The fix counts of pages 0, 1 and 2 in the pool of a state. -/
def pinCounts (s : RMState) : List Int :=
  [fixOf (liveMd s) 0, fixOf (liveMd s) 1, fixOf (liveMd s) 2]

/-- The state after `getRecord(&rel, (2, 1), &record)` in `fiveState`; slot 1 of page 2
is free. -/
def leakState : RMState :=
  (resultOf (fiveState, testRecord 0)
    (getRecord fiveState openedState.2 ⟨2, 1⟩ (testRecord 0))).1

/-- The scan handle that `startScan(&rel, &scan, NULL)` fills in `fiveState`. -/
def fiveScan : RM_ScanHandle :=
  resultOf ⟨openedState.2, ⟨⟨0, 0⟩, none⟩⟩ (startScan fiveState openedState.2 none)

/-- The return codes of `n` successive calls of `next`, each with the RID of the output
record and the fix counts the call leaves (the list ends early when a call has no
result). -/
def scanPins : Nat → RMState → RM_ScanHandle → Record → List (RC × RID × List Int)
  | 0, _, _, _ => []
  | n + 1, s, scan, record =>
    match next 4 s scan record with
    | none => []
    | some r => (r.1, r.2.2.2.id, pinCounts r.2.1) :: scanPins n r.2.1 r.2.2.1 r.2.2.2

/-- The return code of `shutdownRecordManager` after `closeTable(&rel)` returned `RC_OK`
in a state. -/
def closeAndShutdown (s : RMState) (rel : RM_TableData) : Option RC :=
  match closeTable s rel with
  | some (RC.RC_OK, s1) => (shutdownRecordManager s1).map Prod.fst
  | _ => none

/-! ## Page layout, allocation and the free list: further runs -/

/-- The schema `a STRING(1021)`: records of 1022 bytes. -/
def edgeSchema : Schema := ⟨1, ["a".toList], [DataType.DT_STRING], [1021], [0], 1⟩

/-- The schema `a STRING(4090)`: records of 4091 bytes. -/
def wideSchema : Schema := ⟨1, ["a".toList], [DataType.DT_STRING], [4090], [0], 1⟩

/-- The schema `a STRING(5000)`: records of 5001 bytes, more than a page. -/
def hugeSchema : Schema := ⟨1, ["a".toList], [DataType.DT_STRING], [5000], [0], 1⟩

/-- The `prevPage` link of data page `p` as the pool holds it. -/
def prevOf (md : BM_Metadata) (p : Int) : Option Int :=
  (bytesOf md p).bind headerPrevPage

/-- The `numSlots` field of data page `p` as the pool holds it. -/
def slotsOf (md : BM_Metadata) (p : Int) : Option Int :=
  (bytesOf md p).bind headerNumSlots

/-- The catalog's `totalNumPages`, `freePage` and `numTables`, and the number of pages of
the page file as the pool's file handle counts them. -/
def pageCounts (s : RMState) : Option (Int × Int × Int × Int) :=
  (catalogOf (liveMd s)).map
    (fun c => (c.totalNumPages, c.freePage, c.numTables, (liveMd s).pageFile.totalNumPages))

/-- The state after `createTable("table", edgeSchema)` on the new page file. -/
def edgeState : RMState := resultOf freshState (createTable freshState testName edgeSchema)

/-- The state after `createTable("table", wideSchema)` on the new page file. -/
def wideState : RMState := resultOf freshState (createTable freshState testName wideSchema)

/-- The state and the table data after `openTable(&rel, "table")` in `wideState`. -/
def wideOpen : RMState × RM_TableData :=
  resultOf (wideState, testRel) (openTable wideState testRel testName)

/-- A record of `wideSchema`: 4091 bytes `x`. -/
def wideRecord (x : Nat) : Record := ⟨⟨0, 0⟩, List.replicate 4091 x⟩

/-- The state after `createTable("table", hugeSchema)` on the new page file. -/
def hugeState : RMState := resultOf freshState (createTable freshState testName hugeSchema)

/-- The state after `createTable("p", testSchema)` in `crowdedState`, where all sixteen
frames are pinned. -/
def fullState : RMState :=
  resultOf crowdedState (createTable crowdedState "p".toList testSchema)

/-- The state after `getRecord(&rel, (5, 0), &record)` on the table that was just opened;
the file has two pages. -/
def farState : RMState :=
  (resultOf (openedState.1, testRecord 0)
    (getRecord openedState.1 openedState.2 ⟨5, 0⟩ (testRecord 0))).1

/-- The state after the calls `deleteRecord(&rel, id)` for the ids of a list. -/
def deleteSlots (rel : RM_TableData) : RMState → List RID → RMState
  | s, [] => s
  | s, id :: ids => deleteSlots rel (resultOf s (deleteRecord s rel id)) ids

/-- The return codes of the calls `deleteRecord(&rel, id)` for the ids of a list. -/
def deleteCodes (rel : RM_TableData) : RMState → List RID → List (Option RC)
  | _, [] => []
  | s, id :: ids =>
    (deleteRecord s rel id).map Prod.fst
      :: deleteCodes rel (resultOf s (deleteRecord s rel id)) ids

/-- The slots -12, ..., -9 of page 1: the four bytes of the header's `nextPage`. -/
def linkSlots : List RID := [⟨1, -12⟩, ⟨1, -11⟩, ⟨1, -10⟩, ⟨1, -9⟩]

/-- The state after `deleteRecord` of the four `linkSlots` on the table that was just
opened. -/
def loopState : RMState := deleteSlots openedState.2 openedState.1 linkSlots

/-- The state after the tables "a" and "b" were created on the new page file: their main
pages are pages 1 and 2. -/
def twoState : RMState := createAll freshState ["a".toList, "b".toList]

/-- The state after `deleteTable("b")` in `twoState`: page 2 is the free list. -/
def freedState : RMState := resultOf twoState (deleteTable 4 twoState "b".toList)

/-- The state and the table data after `openTable(&rel, "a")` in `freedState`. -/
def freedOpen : RMState × RM_TableData :=
  resultOf (freedState, testRel) (openTable freedState testRel "a".toList)

/-- The state after `deleteRecord(&rel, (2, -12))` through the open table "a": page 2 is
the page on the free list. -/
def brokenState : RMState :=
  resultOf freedOpen.1 (deleteRecord freedOpen.1 freedOpen.2 ⟨2, -12⟩)

/-! ## Invariants of the pool along a run -/

/-- The operation is one of the five calls `pinPage`, `unpinPage`, `markDirty`,
`forcePage`, `forceFlushPool` (not a store of the client). -/
def PoolOp.isCall : PoolOp → Bool
  | PoolOp.store _ _ => false
  | _ => true

/-- A run of the five calls on three frames, with an eviction. -/
def touchRun : List PoolOp :=
  [PoolOp.pin 1, PoolOp.pin 2, PoolOp.pin 3, PoolOp.unpin 1, PoolOp.unpin 2, PoolOp.unpin 3,
   PoolOp.pin 1, PoolOp.dirty 1, PoolOp.force 2, PoolOp.flush, PoolOp.pin 4, PoolOp.unpin 9]

/-- The most time stamps a sequence of calls can draw in a pool of `n` frames: one for
each `pinPage`, `unpinPage`, `markDirty` and `forcePage`, one per frame for each
`forceFlushPool`. -/
def drawBound (n : Nat) : List PoolOp → Nat
  | [] => 0
  | PoolOp.flush :: ops => n + drawBound n ops
  | PoolOp.store _ _ :: ops => drawBound n ops
  | PoolOp.pin _ :: ops => 1 + drawBound n ops
  | PoolOp.unpin _ :: ops => 1 + drawBound n ops
  | PoolOp.dirty _ :: ops => 1 + drawBound n ops
  | PoolOp.force _ :: ops => 1 + drawBound n ops

/-- The time stamps of the frames, in the order of the frames. -/
def stampsOf (md : BM_Metadata) : List Nat := md.pageFrames.map (fun f => f.timeStamp)

/-- The time stamps of the frames are pairwise distinct and lie below the counter. -/
def StampInv (md : BM_Metadata) : Prop :=
  (∀ t ∈ stampsOf md, t < md.timeStamp) ∧ (stampsOf md).Nodup

/-- The step from `md` to `md1` draws no time stamp: frames and counter carry the stamps
they had. -/
def SameStamps (md md1 : BM_Metadata) : Prop :=
  stampsOf md1 = stampsOf md ∧ md1.timeStamp = md.timeStamp

/-- The step from `md` to `md1` draws one time stamp: one frame is stamped with the
counter and the counter is incremented in `unsigned int` arithmetic. -/
def Drawn (md md1 : BM_Metadata) : Prop :=
  ∃ i : Nat, i < md.pageFrames.length ∧ stampsOf md1 = (stampsOf md).set i md.timeStamp
    ∧ md1.timeStamp = (md.timeStamp + 1) % 4294967296

/-- The pool of two frames under LRU after `pinPage` of page 0: frame 0 holds page 0 with
the stamp 2, frame 1 is free with the stamp 1, and the counter is 3. -/
def pinnedPair : BM_BufferPool :=
  poolAfter (newPool zeroPool 2 ReplacementStrategy.RS_LRU) [PoolOp.pin 0]

/-- The content is a catalog structure, not raw bytes. -/
def isCatalog : PageContent → Bool
  | PageContent.catalog _ => true
  | PageContent.bytes _ => false

/-! ## The result of `getFreePage` -/

/-- The state `md1` after `getFreePage` took the new page `cat.totalNumPages` at the end of
the file, entered from `md` with catalog `cat`, where that page held the bytes `b`: the
catalog counts one page more, the header of the page has `nextPage = prevPage = NO_PAGE`
and its other bytes are those of `b`, and every other data page and every fix count is as
before. -/
structure FreshTaken (md md1 : BM_Metadata) (cat : RM_SystemCatalog) (b : List Nat) :
    Prop where
  catalog : catalogOf md1 = some { cat with totalNumPages := cat.totalNumPages + 1 }
  page : ∃ b0 b1, writeInt b 4 NO_PAGE = some b0 ∧ writeInt b0 0 NO_PAGE = some b1
    ∧ bytesOf md1 cat.totalNumPages = some b1
  next : nextOf md1 cat.totalNumPages = some NO_PAGE
  prev : prevOf md1 cat.totalNumPages = some NO_PAGE
  others : ∀ q, 0 ≤ q → q ≠ 0 → q ≠ cat.totalNumPages → viewPage md1 q = viewPage md q
  fix : ∀ q, 0 ≤ q → fixOf md1 q = fixOf md q

/-- The state `md1` after `getFreePage` took the head `cat.freePage` of the free list,
whose `nextPage` was `nx`, entered from `md` with catalog `cat`: the catalog's `freePage`
is `nx` and its other fields are unchanged, the header of the page taken has
`nextPage = prevPage = NO_PAGE`, the new head `nx`, if there is one, has `prevPage = 0`
and keeps its `nextPage`, every other data page and every fix count is as before, and
the pages that followed the head in the free list form the free list. -/
structure HeadTaken (md md1 : BM_Metadata) (cat : RM_SystemCatalog) (nx : Int) : Prop where
  catalog : catalogOf md1 = some { cat with freePage := nx }
  next : nextOf md1 cat.freePage = some NO_PAGE
  prev : prevOf md1 cat.freePage = some NO_PAGE
  newHead : nx ≠ NO_PAGE → prevOf md1 nx = some 0 ∧ nextOf md1 nx = nextOf md nx
  others : ∀ q, 0 ≤ q → q ≠ 0 → q ≠ cat.freePage → q ≠ nx → viewPage md1 q = viewPage md q
  fix : ∀ q, 0 ≤ q → fixOf md1 q = fixOf md q
  list : ∀ rest, IsChain md nx rest NO_PAGE → cat.freePage ∉ rest →
    IsChain md1 nx rest NO_PAGE

/-! ## Bytes -/

theorem getI?_eq_some {α : Type} {l : List α} {i : Int} {a : α} (h : getI? l i = some a) :
    0 ≤ i ∧ l[i.toNat]? = some a := by
  unfold getI? at h
  split at h
  · exact ⟨by assumption, h⟩
  · cases h

theorem getI?_ofNat {α : Type} (l : List α) (i : Nat) : getI? l (i : Int) = l[i]? := by
  simp [getI?]

theorem writeBytes_length {b : List Nat} {off : Int} {src b1 : List Nat}
    (h : writeBytes b off src = some b1) : b1.length = b.length := by
  unfold writeBytes at h
  split at h
  · rename_i hc
    cases h
    simp
    omega
  · cases h

theorem writeByte_length {b : List Nat} {off : Int} {v : Nat} {b1 : List Nat}
    (h : writeByte b off v = some b1) : b1.length = b.length := by
  unfold writeByte at h
  split at h
  · cases h; simp
  · cases h

theorem writeInt_length {b : List Nat} {off v : Int} {b1 : List Nat}
    (h : writeInt b off v = some b1) : b1.length = b.length :=
  writeBytes_length h

theorem encodeInt_length (v : Int) : (encodeInt v).length = 4 := by
  simp [encodeInt]

/-- Reading a byte range that a `memcpy` did not touch. -/
theorem readBytes_writeBytes_disjoint {b : List Nat} {off : Int} {src b1 : List Nat}
    (h : writeBytes b off src = some b1) (o : Int) (n : Nat)
    (hd : o + n ≤ off ∨ off + src.length ≤ o) : readBytes b1 o n = readBytes b o n := by
  have hl := writeBytes_length h
  unfold writeBytes at h
  split at h
  · rename_i hc
    cases h
    unfold readBytes
    by_cases ho : 0 ≤ o ∧ o.toNat + n ≤ b.length
    · rw [if_pos (by simpa using (by simp at hl ⊢; omega)), if_pos ho]
      congr 1
      apply List.ext_getElem?
      intro k
      simp only [List.getElem?_take, List.getElem?_drop]
      by_cases hk : k < n
      · simp only [hk, if_true]
        rcases hd with hd | hd
        · have h1 : o.toNat + k < off.toNat := by omega
          rw [List.append_assoc, List.getElem?_append_left (by simp; omega)]
          simp [List.getElem?_take, h1]
        · have h1 : off.toNat + src.length ≤ o.toNat + k := by omega
          rw [List.getElem?_append_right (by simp; omega)]
          simp only [List.length_append, List.length_take, List.getElem?_drop]
          congr 1
          omega
      · simp [hk]
    · rw [if_neg (by simp at hl ⊢; omega), if_neg ho]
  · cases h

/-- Reading back exactly the bytes a `memcpy` stored. -/
theorem readBytes_writeBytes_same {b : List Nat} {off : Int} {src b1 : List Nat}
    (h : writeBytes b off src = some b1) : readBytes b1 off src.length = some src := by
  have hl := writeBytes_length h
  unfold writeBytes at h
  split at h
  · rename_i hc
    cases h
    unfold readBytes
    rw [if_pos (by simp at hl ⊢; omega)]
    congr 1
    have h1 : (List.take off.toNat b).length = off.toNat := by simp; omega
    rw [List.append_assoc, List.drop_append_of_le_length (by omega)]
    rw [List.drop_of_length_le (by omega), List.nil_append, List.take_append_of_le_length (by omega)]
    simp
  · cases h

theorem readByte_eq_readBytes (b : List Nat) (o : Int) :
    readByte b o = (readBytes b o 1).bind (fun l => l.head?) := by
  unfold readByte getI? readBytes
  by_cases h0 : 0 ≤ o
  · by_cases h1 : o.toNat < b.length
    · rw [if_pos h0, if_pos ⟨h0, by omega⟩]
      simp [List.getElem?_eq_getElem h1, List.head?_take, List.head?_drop]
    · rw [if_pos h0, if_neg (by omega)]
      simp; omega
  · simp [h0]

theorem readByte_writeBytes_disjoint {b : List Nat} {off : Int} {src b1 : List Nat}
    (h : writeBytes b off src = some b1) (o : Int)
    (hd : o < off ∨ off + src.length ≤ o) : readByte b1 o = readByte b o := by
  rw [readByte_eq_readBytes, readByte_eq_readBytes,
    readBytes_writeBytes_disjoint h o 1 (by rcases hd with hd | hd <;> [left; right] <;> omega)]

theorem writeByte_eq_writeBytes (b : List Nat) (o : Int) (v : Nat) :
    writeByte b o v = writeBytes b o [v] := by
  unfold writeByte writeBytes
  by_cases h : 0 ≤ o ∧ o.toNat < b.length
  · rw [if_pos h, if_pos ⟨h.1, by simp; omega⟩]
    congr 1
    apply List.ext_getElem?
    intro k
    rw [List.getElem?_set]
    by_cases hk : k < o.toNat
    · rw [List.append_assoc, List.getElem?_append_left (by simp; omega)]
      simp [List.getElem?_take, hk]; omega
    · by_cases hk2 : k = o.toNat
      · subst hk2
        rw [List.append_assoc, List.getElem?_append_right (by simp)]
        simp [h.2]
        have : (o.toNat - min o.toNat b.length) = 0 := by omega
        simp [this]
      · rw [List.getElem?_append_right (by simp; omega)]
        simp
        rw [if_neg (by omega)]
        congr 1
        omega
  · rw [if_neg h, if_neg (by simp; omega)]

theorem readByte_writeByte_same {b : List Nat} {o : Int} {v : Nat} {b1 : List Nat}
    (h : writeByte b o v = some b1) : readByte b1 o = some v := by
  rw [writeByte_eq_writeBytes] at h
  rw [readByte_eq_readBytes]
  have := readBytes_writeBytes_same h
  simp at this
  simp [this]

theorem readByte_writeByte_other {b : List Nat} {o : Int} {v : Nat} {b1 : List Nat}
    (h : writeByte b o v = some b1) (o1 : Int) (hne : o1 ≠ o) : readByte b1 o1 = readByte b o1 := by
  rw [writeByte_eq_writeBytes] at h
  exact readByte_writeBytes_disjoint h o1 (by simp; omega)

theorem readBytes_writeByte_disjoint {b : List Nat} {o : Int} {v : Nat} {b1 : List Nat}
    (h : writeByte b o v = some b1) (o1 : Int) (n : Nat) (hd : o1 + n ≤ o ∨ o < o1) :
    readBytes b1 o1 n = readBytes b o1 n := by
  rw [writeByte_eq_writeBytes] at h
  exact readBytes_writeBytes_disjoint h o1 n (by simp; omega)

theorem readInt_writeBytes_disjoint {b : List Nat} {off : Int} {src b1 : List Nat}
    (h : writeBytes b off src = some b1) (o : Int)
    (hd : o + 4 ≤ off ∨ off + src.length ≤ o) : readInt b1 o = readInt b o := by
  unfold readInt
  rw [readBytes_writeBytes_disjoint h o 4 (by simpa using hd)]

theorem readInt_writeByte_disjoint {b : List Nat} {o : Int} {v : Nat} {b1 : List Nat}
    (h : writeByte b o v = some b1) (o1 : Int) (hd : o1 + 4 ≤ o ∨ o < o1) :
    readInt b1 o1 = readInt b o1 := by
  unfold readInt
  rw [readBytes_writeByte_disjoint h o1 4 (by simpa using hd)]

theorem decodeInt_encodeInt (v : Int) (h1 : -2147483648 ≤ v) (h2 : v < 2147483648) :
    (match encodeInt v with
     | [b0, b1, b2, b3] => some (decodeInt b0 b1 b2 b3)
     | _ => none) = some v := by
  simp only [encodeInt, decodeInt]
  congr 1
  have hu : ((v % 4294967296).toNat : Int) = v % 4294967296 :=
    Int.toNat_of_nonneg (Int.emod_nonneg _ (by norm_num))
  generalize hU : (v % 4294967296).toNat = u at hu
  have hlt : u < 4294967296 := by
    have := Int.emod_lt_of_pos v (show (0 : Int) < 4294967296 by norm_num)
    omega
  have hsum : u % 256 + 256 * (u / 256 % 256) + 65536 * (u / 65536 % 256)
      + 16777216 * (u / 16777216 % 256) = u := by omega
  rw [hsum]
  split
  · rename_i hlt2
    omega
  · rename_i hge
    omega

theorem readInt_writeInt_same {b : List Nat} {off v : Int} {b1 : List Nat}
    (h : writeInt b off v = some b1) (h1 : -2147483648 ≤ v) (h2 : v < 2147483648) :
    readInt b1 off = some v := by
  unfold writeInt at h
  have := readBytes_writeBytes_same h
  rw [encodeInt_length] at this
  unfold readInt
  rw [this]
  have hd := decodeInt_encodeInt v h1 h2
  revert hd
  generalize encodeInt v = l
  intro hd
  split at hd
  · simpa using hd
  · cases hd

theorem readInt_writeInt_other {b : List Nat} {off v : Int} {b1 : List Nat}
    (h : writeInt b off v = some b1) (o : Int) (hd : o + 4 ≤ off ∨ off + 4 ≤ o) :
    readInt b1 o = readInt b o :=
  readInt_writeBytes_disjoint h o (by rw [encodeInt_length]; simpa using hd)

theorem readByte_writeInt_other {b : List Nat} {off v : Int} {b1 : List Nat}
    (h : writeInt b off v = some b1) (o : Int) (hd : o < off ∨ off + 4 ≤ o) :
    readByte b1 o = readByte b o :=
  readByte_writeBytes_disjoint h o (by rw [encodeInt_length]; simpa using hd)

theorem readBytes_writeInt_other {b : List Nat} {off v : Int} {b1 : List Nat}
    (h : writeInt b off v = some b1) (o : Int) (n : Nat) (hd : o + n ≤ off ∨ off + 4 ≤ o) :
    readBytes b1 o n = readBytes b o n :=
  readBytes_writeBytes_disjoint h o n (by rw [encodeInt_length]; simpa using hd)

theorem writeBytes_isSome {b : List Nat} {off : Int} {src : List Nat}
    (h0 : 0 ≤ off) (h1 : off + src.length ≤ b.length) : ∃ b1, writeBytes b off src = some b1 := by
  unfold writeBytes
  rw [if_pos ⟨h0, by omega⟩]
  exact ⟨_, rfl⟩

theorem writeInt_isSome {b : List Nat} {off v : Int}
    (h0 : 0 ≤ off) (h1 : off + 4 ≤ b.length) : ∃ b1, writeInt b off v = some b1 := by
  unfold writeInt
  exact writeBytes_isSome h0 (by rw [encodeInt_length]; simpa using h1)

theorem readBytes_isSome {b : List Nat} {off : Int} {n : Nat}
    (h0 : 0 ≤ off) (h1 : off + n ≤ b.length) : ∃ l, readBytes b off n = some l ∧ l.length = n := by
  unfold readBytes
  rw [if_pos ⟨h0, by omega⟩]
  refine ⟨_, rfl, ?_⟩
  simp
  omega

theorem readInt_isSome {b : List Nat} {off : Int}
    (h0 : 0 ≤ off) (h1 : off + 4 ≤ b.length) : ∃ v, readInt b off = some v := by
  obtain ⟨l, hl, hlen⟩ := readBytes_isSome (n := 4) h0 (by simpa using h1)
  unfold readInt
  rw [hl]
  match l, hlen with
  | [a, b, c, d], _ => exact ⟨_, rfl⟩

theorem readByte_isSome {b : List Nat} {off : Int}
    (h0 : 0 ≤ off) (h1 : off < b.length) : ∃ v, readByte b off = some v := by
  unfold readByte getI?
  rw [if_pos h0]
  have : off.toNat < b.length := by omega
  exact ⟨_, List.getElem?_eq_getElem this⟩

/-! ## Hash table -/

theorem find?_setFirst_same (k v : Int) (l : List HT_KeyValuePair)
    (h : l.any (fun p => p.key == k) = true) :
    ((setFirst k v l).find? (fun p => p.key == k)).map (fun p => p.value) = some v := by
  induction l with
  | nil => simp at h
  | cons p ps ih =>
    simp only [setFirst]
    by_cases hp : p.key = k
    · simp [hp]
    · simp only [hp, if_false]
      have : (p.key == k) = false := by simpa using hp
      rw [List.find?_cons, this]
      simp only [List.any_cons, this, Bool.false_or] at h
      exact ih h

theorem find?_setFirst_other (k v k1 : Int) (hne : k1 ≠ k) (l : List HT_KeyValuePair) :
    ((setFirst k v l).find? (fun p => p.key == k1)).map (fun p => p.value)
      = (l.find? (fun p => p.key == k1)).map (fun p => p.value) := by
  induction l with
  | nil => simp [setFirst]
  | cons p ps ih =>
    simp only [setFirst]
    by_cases hp : p.key = k
    · have : (p.key == k1) = false := by simp [hp]; exact fun h => hne h.symm
      simp [hp, List.find?_cons, this]
      rw [hp] at this
      simp [this]
    · simp only [hp, if_false, List.find?_cons]
      split
      · rfl
      · exact ih

theorem map_key_setFirst (k v : Int) (l : List HT_KeyValuePair) :
    (setFirst k v l).map (fun kv => kv.key) = l.map (fun kv => kv.key) := by
  induction l with
  | nil => simp [setFirst]
  | cons p ps ih =>
    simp only [setFirst]
    split
    · simp
    · simp [ih]

theorem mem_setFirst {k v : Int} {l : List HT_KeyValuePair} {kv : HT_KeyValuePair}
    (h : kv ∈ setFirst k v l) : ∃ kv1 ∈ l, kv1.key = kv.key := by
  have : kv.key ∈ (setFirst k v l).map (fun kv => kv.key) := List.mem_map_of_mem _ h
  rw [map_key_setFirst] at this
  obtain ⟨kv1, h1, h2⟩ := List.mem_map.1 this
  exact ⟨kv1, h1, h2⟩

theorem find?_key_none_iff (k : Int) (l : List HT_KeyValuePair) :
    l.find? (fun p => p.key == k) = none ↔ k ∉ l.map (fun kv => kv.key) := by
  simp [List.find?_eq_none]

theorem any_key_iff (k : Int) (l : List HT_KeyValuePair) :
    l.any (fun p => p.key == k) = true ↔ k ∈ l.map (fun kv => kv.key) := by
  simp

theorem find?_eraseIdx_same (k : Int) (l : List HT_KeyValuePair)
    (hnd : (l.map (fun kv => kv.key)).Nodup) :
    (l.eraseIdx (l.findIdx (fun p => p.key == k))).find? (fun p => p.key == k) = none := by
  induction l with
  | nil => simp
  | cons p ps ih =>
    rw [List.findIdx_cons]
    simp only [List.map_cons, List.nodup_cons] at hnd
    by_cases hp : p.key = k
    · simp only [hp, beq_self_eq_true, cond_true, List.eraseIdx_cons_zero]
      rw [find?_key_none_iff]
      rw [hp] at hnd
      exact hnd.1
    · have : (p.key == k) = false := by simpa using hp
      simp only [this, cond_false, List.eraseIdx_cons_succ, List.find?_cons]
      exact ih hnd.2

theorem find?_eraseIdx_other (k k1 : Int) (hne : k1 ≠ k) (l : List HT_KeyValuePair) :
    (l.eraseIdx (l.findIdx (fun p => p.key == k))).find? (fun p => p.key == k1)
      = l.find? (fun p => p.key == k1) := by
  induction l with
  | nil => simp
  | cons p ps ih =>
    rw [List.findIdx_cons]
    by_cases hp : p.key = k
    · have : (p.key == k1) = false := by simp [hp]; exact fun h => hne h.symm
      simp [hp, List.find?_cons]
      rw [hp] at this
      simp [this]
    · have : (p.key == k) = false := by simpa using hp
      simp only [this, cond_false, List.eraseIdx_cons_succ, List.find?_cons]
      split
      · rfl
      · exact ih

theorem bucketIndex_of_inv {ht : HT_TableHandle} (hi : HTInv ht) {k : Int} (hk : 0 ≤ k) :
    bucketIndex ht k = some (k % ht.size).toNat
      ∧ (k % ht.size).toNat < ht.mgmt.length ∧ ((k % ht.size).toNat : Int) = k % ht.size := by
  have hpos := hi.size_pos
  have hlen := hi.length
  have h1 : Int.tmod k ht.size = k % ht.size := Int.tmod_eq_emod hk (le_of_lt hpos)
  have h2 : 0 ≤ k % ht.size := Int.emod_nonneg _ (ne_of_gt hpos)
  have h3 : k % ht.size < ht.size := Int.emod_lt_of_pos _ hpos
  have h4 : (k % ht.size).toNat < ht.mgmt.length := by omega
  refine ⟨?_, h4, Int.toNat_of_nonneg h2⟩
  unfold bucketIndex
  rw [if_neg (ne_of_gt hpos)]
  simp only [h1]
  rw [if_pos ⟨h2, h4⟩]

/-- The bucket of a non-negative key exists, and `getValue` is the search in it. -/
theorem getValue_of_inv {ht : HT_TableHandle} (hi : HTInv ht) {k : Int} (hk : 0 ≤ k) :
    ∃ al, ht.mgmt[(k % ht.size).toNat]? = some al
      ∧ getValue ht k = some ((al.list.find? (fun p => p.key == k)).map (fun p => p.value)) := by
  obtain ⟨hb, hlt, _⟩ := bucketIndex_of_inv hi hk
  refine ⟨ht.mgmt[(k % ht.size).toNat], List.getElem?_eq_getElem hlt, ?_⟩
  unfold getValue
  rw [hb]
  simp only [List.getElem?_eq_getElem hlt]

theorem getValue_isSome {ht : HT_TableHandle} (hi : HTInv ht) {k : Int} (hk : 0 ≤ k) :
    ∃ r, getValue ht k = some r := by
  obtain ⟨al, _, h⟩ := getValue_of_inv hi hk
  exact ⟨_, h⟩

/-- An entry found by `getValue` is a pair stored in the bucket of the key. -/
theorem getValue_some_mem {ht : HT_TableHandle} (hi : HTInv ht) {k v : Int} (hk : 0 ≤ k)
    (h : getValue ht k = some (some v)) :
    ∃ al, ht.mgmt[(k % ht.size).toNat]? = some al ∧ (⟨k, v⟩ : HT_KeyValuePair) ∈ al.list := by
  obtain ⟨al, hal, hg⟩ := getValue_of_inv hi hk
  rw [hg] at h
  refine ⟨al, hal, ?_⟩
  simp only [Option.some.injEq, Option.map_eq_some'] at h
  obtain ⟨kv, hf, hv⟩ := h
  have hm := List.mem_of_find?_eq_some hf
  have hkk := List.find?_some hf
  simp at hkk
  have : kv = ⟨k, v⟩ := by cases kv; simp_all
  rw [← this]; exact hm

/-- Conversely, a stored pair is what `getValue` finds for its key. -/
theorem getValue_of_mem {ht : HT_TableHandle} (hi : HTInv ht) {i : Nat} {al : HT_ArrayList}
    (hal : ht.mgmt[i]? = some al) {kv : HT_KeyValuePair} (hm : kv ∈ al.list) :
    getValue ht kv.key = some (some kv.value) := by
  obtain ⟨hk0, hki⟩ := hi.keys i al hal kv hm
  obtain ⟨al1, hal1, hg⟩ := getValue_of_inv hi hk0
  have hidx : (kv.key % ht.size).toNat = i := by omega
  rw [hidx, hal] at hal1
  cases hal1
  rw [hg]
  congr 1
  have hnd := hi.nodup i al hal
  clear hg hal hki
  generalize al.list = l at hm hnd
  induction l with
  | nil => cases hm
  | cons p ps ih =>
    simp only [List.map_cons, List.nodup_cons] at hnd
    rw [List.find?_cons]
    rcases List.mem_cons.1 hm with h | h
    · subst h; simp
    · have hne : p.key ≠ kv.key := by
        intro he
        exact hnd.1 (he ▸ List.mem_map_of_mem _ h)
      have : (p.key == kv.key) = false := by simpa using hne
      rw [this]
      exact ih h hnd.2

theorem HTInv_set {ht : HT_TableHandle} (hi : HTInv ht) (i : Nat) (al1 : HT_ArrayList)
    (hk : ∀ kv ∈ al1.list, 0 ≤ kv.key ∧ kv.key % ht.size = (i : Int))
    (hn : (al1.list.map (fun kv => kv.key)).Nodup) :
    HTInv { ht with mgmt := ht.mgmt.set i al1 } := by
  refine ⟨hi.size_pos, by simpa using hi.length, ?_, ?_⟩
  · intro j al hj
    simp only [List.getElem?_set] at hj
    split at hj
    · rename_i hij
      split at hj
      · cases hj; subst hij; exact hk
      · cases hj
    · exact hi.keys j al hj
  · intro j al hj
    simp only [List.getElem?_set] at hj
    split at hj
    · split at hj
      · cases hj; exact hn
      · cases hj
    · exact hi.nodup j al hj

/-- The value `getValue` returns for a non-negative key after the bucket of another
non-negative key was replaced, in terms of the searches in the buckets. -/
theorem getValue_set_bucket {ht : HT_TableHandle} (hi : HTInv ht) {k : Int} (hk : 0 ≤ k)
    (al al1 : HT_ArrayList) (hal : ht.mgmt[(k % ht.size).toNat]? = some al)
    (hi1 : HTInv { ht with mgmt := ht.mgmt.set (k % ht.size).toNat al1 })
    (hsame : ∀ p, p ≠ k → (al1.list.find? (fun q => q.key == p)).map (fun q => q.value)
        = (al.list.find? (fun q => q.key == p)).map (fun q => q.value))
    (p : Int) (hp : 0 ≤ p) (hpk : p ≠ k) :
    getValue { ht with mgmt := ht.mgmt.set (k % ht.size).toNat al1 } p = getValue ht p := by
  obtain ⟨a, ha, hg⟩ := getValue_of_inv hi hp
  obtain ⟨a1, ha1, hg1⟩ := getValue_of_inv hi1 hp
  rw [hg, hg1]
  simp only [List.getElem?_set] at ha1
  split at ha1
  · rename_i heq
    rw [← heq, hal] at ha
    cases ha
    split at ha1
    · cases ha1
      rw [hsame p hpk]
    · cases ha1
  · rw [ha] at ha1
    cases ha1
    rfl

theorem setValue_spec {ht : HT_TableHandle} (hi : HTInv ht) {k : Int} (hk : 0 ≤ k) (v : Int) :
    ∃ ht1, setValue ht k v = some (0, ht1) ∧ HTInv ht1 ∧ ht1.size = ht.size
      ∧ ∀ p, 0 ≤ p → getValue ht1 p = if p = k then some (some v) else getValue ht p := by
  obtain ⟨hb, hlt, hcast⟩ := bucketIndex_of_inv hi hk
  have hal : ht.mgmt[(k % ht.size).toNat]? = some ht.mgmt[(k % ht.size).toNat] :=
    List.getElem?_eq_getElem hlt
  generalize ht.mgmt[(k % ht.size).toNat] = al at hal
  have hkeys := hi.keys _ al hal
  have hnd := hi.nodup _ al hal
  unfold setValue
  rw [hb]
  simp only [hal]
  by_cases hany : al.list.any (fun p => p.key == k) = true
  · rw [if_pos hany]
    have hi1 : HTInv ⟨ht.size,
        ht.mgmt.set (k % ht.size).toNat ({ al with list := setFirst k v al.list })⟩ := by
      apply HTInv_set hi
      · intro kv hkv
        obtain ⟨kv1, hm, he⟩ := mem_setFirst hkv
        rw [← he]; exact hkeys kv1 hm
      · simpa [map_key_setFirst] using hnd
    refine ⟨_, rfl, hi1, rfl, ?_⟩
    intro p hp
    by_cases hpk : p = k
    · subst hpk
      rw [if_pos rfl]
      obtain ⟨a1, ha1, hg1⟩ := getValue_of_inv hi1 hp
      rw [hg1]
      simp only [List.getElem?_set, if_true] at ha1
      rw [if_pos hlt] at ha1
      cases ha1
      rw [find?_setFirst_same p v al.list hany]
    · rw [if_neg hpk]
      exact getValue_set_bucket hi hk al _ hal hi1
        (fun q hq => find?_setFirst_other k v q hq al.list) p hp hpk
  · rw [if_neg hany]
    have hnot : k ∉ al.list.map (fun kv => kv.key) := by
      rw [← any_key_iff]; exact hany
    have hi1 : HTInv { ht with mgmt := ht.mgmt.set (k % ht.size).toNat (AL_push al k v) } := by
      apply HTInv_set hi
      · intro kv hkv
        simp only [AL_push, List.mem_append, List.mem_singleton] at hkv
        rcases hkv with h | h
        · exact hkeys kv h
        · subst h; exact ⟨hk, hcast.symm⟩
      · simp only [AL_push, List.map_append, List.map_cons, List.map_nil]
        rw [List.nodup_append]
        refine ⟨hnd, by simp, ?_⟩
        intro a ha hb
        simp at hb
        subst hb
        exact hnot ha
    refine ⟨_, rfl, hi1, rfl, ?_⟩
    intro p hp
    by_cases hpk : p = k
    · subst hpk
      rw [if_pos rfl]
      obtain ⟨a1, ha1, hg1⟩ := getValue_of_inv hi1 hp
      rw [hg1]
      simp only [List.getElem?_set, if_true] at ha1
      rw [if_pos hlt] at ha1
      cases ha1
      simp only [AL_push, List.find?_append]
      rw [(find?_key_none_iff p al.list).2 hnot]
      simp
    · rw [if_neg hpk]
      apply getValue_set_bucket hi hk al _ hal hi1 _ p hp hpk
      intro q hq
      simp only [AL_push, List.find?_append]
      have : (k == q) = false := by simpa using fun h => hq h.symm
      simp [List.find?_cons, this]

theorem removePair_spec {ht : HT_TableHandle} (hi : HTInv ht) {k : Int} (hk : 0 ≤ k) :
    ∃ r ht1, removePair ht k = some (r, ht1) ∧ HTInv ht1 ∧ ht1.size = ht.size
      ∧ ∀ p, 0 ≤ p → getValue ht1 p = if p = k then some none else getValue ht p := by
  obtain ⟨hb, hlt, hcast⟩ := bucketIndex_of_inv hi hk
  have hal : ht.mgmt[(k % ht.size).toNat]? = some ht.mgmt[(k % ht.size).toNat] :=
    List.getElem?_eq_getElem hlt
  generalize ht.mgmt[(k % ht.size).toNat] = al at hal
  have hkeys := hi.keys _ al hal
  have hnd := hi.nodup _ al hal
  unfold removePair
  rw [hb]
  simp only [hal]
  by_cases hj : al.list.findIdx (fun p => p.key == k) < al.list.length
  · rw [if_pos hj]
    have hsub : (al.list.eraseIdx (al.list.findIdx (fun p => p.key == k))).Sublist al.list :=
      List.eraseIdx_sublist _ _
    have hi1 : HTInv ⟨ht.size,
        ht.mgmt.set (k % ht.size).toNat (AL_remoteAt al (al.list.findIdx (fun p => p.key == k)))⟩ := by
      apply HTInv_set hi
      · intro kv hkv
        simp only [AL_remoteAt, hj, if_true] at hkv
        exact hkeys kv (hsub.subset hkv)
      · simp only [AL_remoteAt, hj, if_true]
        exact hnd.sublist (hsub.map _)
    refine ⟨0, _, rfl, hi1, rfl, ?_⟩
    intro p hp
    by_cases hpk : p = k
    · subst hpk
      rw [if_pos rfl]
      obtain ⟨a1, ha1, hg1⟩ := getValue_of_inv hi1 hp
      rw [hg1]
      simp only [List.getElem?_set, if_true] at ha1
      rw [if_pos hlt] at ha1
      cases ha1
      simp only [AL_remoteAt, hj, if_true]
      rw [find?_eraseIdx_same p al.list hnd]
      rfl
    · rw [if_neg hpk]
      apply getValue_set_bucket hi hk al _ hal hi1 _ p hp hpk
      intro q hq
      simp only [AL_remoteAt, hj, if_true]
      rw [find?_eraseIdx_other k q hq]
  · rw [if_neg hj]
    refine ⟨1, ht, rfl, hi, rfl, ?_⟩
    intro p hp
    by_cases hpk : p = k
    · subst hpk
      rw [if_pos rfl]
      obtain ⟨a1, ha1, hg1⟩ := getValue_of_inv hi hp
      rw [hal] at ha1
      cases ha1
      rw [hg1]
      have : al.list.find? (fun q => q.key == p) = none := by
        rw [List.find?_eq_none]
        intro x hx hxp
        apply hj
        exact List.findIdx_lt_length_of_exists ⟨x, hx, hxp⟩
      rw [this]; rfl
    · rw [if_neg hpk]

theorem HTInv_initHashTable : HTInv (initHashTable PAGE_TABLE_SIZE) := by
  refine ⟨by decide, ?_, ?_, ?_⟩
  · show ((List.replicate _ _).length : Int) = _
    rw [List.length_replicate]
    rfl
  · intro i al h
    simp only [initHashTable] at h
    rw [List.getElem?_replicate] at h
    split at h
    · cases h; simp
    · cases h
  · intro i al h
    simp only [initHashTable] at h
    rw [List.getElem?_replicate] at h
    split at h
    · cases h; simp
    · cases h

theorem getValue_initHashTable {k : Int} (hk : 0 ≤ k) :
    getValue (initHashTable PAGE_TABLE_SIZE) k = some none := by
  obtain ⟨al, hal, hg⟩ := getValue_of_inv HTInv_initHashTable hk
  rw [hg]
  simp only [initHashTable] at hal
  rw [List.getElem?_replicate] at hal
  split at hal
  · cases hal; rfl
  · cases hal

/-! ## Storage manager -/

theorem fhPage_writeBlock {fh : SM_FileHandle} (hf : FileOK fh) {n : Int} (h0 : 0 ≤ n)
    (h1 : n < fh.totalNumPages) (d : PageContent) :
    ∃ fh1, writeBlock n fh d = some (RC.RC_OK, fh1) ∧ FileOK fh1
      ∧ fh1.totalNumPages = fh.totalNumPages
      ∧ ∀ q, 0 ≤ q → fhPage fh1 q = if q = n then d else fhPage fh q := by
  obtain ⟨pages, hp, ht⟩ := hf
  unfold writeBlock
  rw [if_neg (by omega)]
  simp only [hp]
  have hlt : n.toNat < pages.length := by omega
  refine ⟨_, rfl, ⟨_, rfl, ?_⟩, rfl, ?_⟩
  · simp [writeAt, hlt]; exact ht
  · intro q hq
    simp only [fhPage, hp, writeAt, hlt, if_true]
    rw [List.getD_eq_getElem?_getD, List.getD_eq_getElem?_getD, List.getElem?_set]
    by_cases hqn : q = n
    · subst hqn; simp [hlt]
    · have : n.toNat ≠ q.toNat := by omega
      simp [this, hqn]

theorem ensureCapacityLoop_spec (k : Int) (fuel : Nat) (fh : SM_FileHandle) (hf : FileOK fh)
    (hfuel : (k - fh.totalNumPages).toNat ≤ fuel) :
    ∃ fh1, ensureCapacityLoop k fuel fh = some (RC.RC_OK, fh1) ∧ FileOK fh1
      ∧ fh.totalNumPages ≤ fh1.totalNumPages ∧ k ≤ fh1.totalNumPages
      ∧ (k ≤ fh.totalNumPages → fh1 = fh)
      ∧ ∀ q, fhPage fh1 q = fhPage fh q := by
  induction fuel generalizing fh with
  | zero =>
    unfold ensureCapacityLoop
    rw [if_neg (by omega)]
    exact ⟨fh, rfl, hf, le_refl _, by omega, fun _ => rfl, fun _ => rfl⟩
  | succ fuel ih =>
    unfold ensureCapacityLoop
    by_cases hlt : fh.totalNumPages < k
    · rw [if_pos hlt]
      obtain ⟨pages, hp, ht⟩ := hf
      have happ : appendEmptyBlock fh = some (RC.RC_OK, { fh with
          mgmtInfo := some (pages ++ [emptyPage]), totalNumPages := fh.totalNumPages + 1 }) := by
        simp [appendEmptyBlock, hp]
      rw [happ]
      simp only [ne_eq, not_true_eq_false, if_false]
      have hf1 : FileOK { fh with mgmtInfo := some (pages ++ [emptyPage]),
                                  totalNumPages := fh.totalNumPages + 1 } :=
        ⟨_, rfl, by simp; omega⟩
      obtain ⟨fh1, h1, h2, h3, h4, _, h6⟩ := ih _ hf1 (by simp; omega)
      have h3a : fh.totalNumPages + 1 ≤ fh1.totalNumPages := h3
      refine ⟨fh1, h1, h2, by omega, h4, fun h => by omega, ?_⟩
      intro q
      rw [h6 q]
      simp only [fhPage, hp]
      rw [List.getD_eq_getElem?_getD, List.getD_eq_getElem?_getD]
      by_cases hq : q.toNat < pages.length
      · rw [List.getElem?_append_left hq]
      · rw [List.getElem?_append_right (by omega), List.getElem?_eq_none (n := q.toNat) (by omega)]
        by_cases hq0 : q.toNat - pages.length = 0
        · simp [hq0, emptyPage]
        · rw [List.getElem?_eq_none (by simp; omega)]
    · rw [if_neg hlt]
      exact ⟨fh, rfl, hf, le_refl _, by omega, fun _ => rfl, fun _ => rfl⟩

theorem ensureCapacity_spec (k : Int) (fh : SM_FileHandle) (hf : FileOK fh) :
    ∃ fh1, ensureCapacity k fh = some (RC.RC_OK, fh1) ∧ FileOK fh1
      ∧ fh.totalNumPages ≤ fh1.totalNumPages ∧ k ≤ fh1.totalNumPages
      ∧ (k ≤ fh.totalNumPages → fh1 = fh)
      ∧ ∀ q, fhPage fh1 q = fhPage fh q :=
  ensureCapacityLoop_spec k _ fh hf (le_refl _)

theorem readBlock_spec {fh : SM_FileHandle} (hf : FileOK fh) {n : Int} (h0 : 0 ≤ n)
    (h1 : n < fh.totalNumPages) (d : PageContent) :
    readBlock n fh d = some (RC.RC_OK, fhPage fh n) := by
  obtain ⟨pages, hp, ht⟩ := hf
  unfold readBlock
  rw [if_neg (by omega)]
  simp only [hp, fhPage]
  have hlt : n.toNat < pages.length := by omega
  rw [List.getElem?_eq_getElem hlt, List.getD_eq_getElem?_getD, List.getElem?_eq_getElem hlt]
  rfl

/-! ## Frames -/

theorem frameAt_eq_some {md : BM_Metadata} {i : Int} {f : BM_PageFrame}
    (h : frameAt md i = some f) : 0 ≤ i ∧ i.toNat < md.pageFrames.length
      ∧ md.pageFrames[i.toNat]? = some f := by
  obtain ⟨h0, h1⟩ := getI?_eq_some h
  refine ⟨h0, ?_, h1⟩
  by_contra hc
  rw [List.getElem?_eq_none (by omega)] at h1
  cases h1

theorem frameAt_setFrame {md : BM_Metadata} {i : Int} {f : BM_PageFrame}
    (h : frameAt md i = some f) (f1 : BM_PageFrame) (j : Int) :
    frameAt (setFrame md i f1) j = if j = i then some f1 else frameAt md j := by
  obtain ⟨h0, h1, _⟩ := frameAt_eq_some h
  unfold frameAt getI? setFrame
  by_cases hj : 0 ≤ j
  · simp only [hj, if_true, List.getElem?_set]
    by_cases hji : j = i
    · subst hji; simp [h1]
    · have : i.toNat ≠ j.toNat := by omega
      simp [this, hji]
  · have : j ≠ i := by omega
    simp [hj, this]

@[simp]
theorem setFrame_pageTable (md : BM_Metadata) (i : Int) (f : BM_PageFrame) :
    (setFrame md i f).pageTable = md.pageTable := rfl

@[simp]
theorem setFrame_pageFile (md : BM_Metadata) (i : Int) (f : BM_PageFrame) :
    (setFrame md i f).pageFile = md.pageFile := rfl

@[simp]
theorem setFrame_timeStamp (md : BM_Metadata) (i : Int) (f : BM_PageFrame) :
    (setFrame md i f).timeStamp = md.timeStamp := rfl

@[simp]
theorem setFrame_numRead (md : BM_Metadata) (i : Int) (f : BM_PageFrame) :
    (setFrame md i f).numRead = md.numRead := rfl

@[simp]
theorem setFrame_numWrite (md : BM_Metadata) (i : Int) (f : BM_PageFrame) :
    (setFrame md i f).numWrite = md.numWrite := rfl

@[simp]
theorem setFrame_queueIndex (md : BM_Metadata) (i : Int) (f : BM_PageFrame) :
    (setFrame md i f).queueIndex = md.queueIndex := rfl

@[simp]
theorem setFrame_pageFrames (md : BM_Metadata) (i : Int) (f : BM_PageFrame) :
    (setFrame md i f).pageFrames = md.pageFrames.set i.toNat f := rfl

/-- The frames of metadata whose frame list is that of `md` with frame `i` replaced. -/
theorem frameAt_of_set {md mdx : BM_Metadata} {i : Int} {f : BM_PageFrame}
    (hf : frameAt md i = some f) (g : BM_PageFrame)
    (hx : mdx.pageFrames = md.pageFrames.set i.toNat g) (j : Int) :
    frameAt mdx j = if j = i then some g else frameAt md j := by
  have : frameAt mdx j = frameAt (setFrame md i g) j := by
    unfold frameAt; rw [hx]; rfl
  rw [this, frameAt_setFrame hf]

/-- Storing into frame `i` of metadata whose frames are those of `md`. -/
theorem FrameUpd_setFrame {md md0 : BM_Metadata} {i : Int} {f : BM_PageFrame}
    (h : frameAt md i = some f) (f1 : BM_PageFrame)
    (hfr : md0.pageFrames = md.pageFrames) (htb : md0.pageTable = md.pageTable)
    (hfl : md0.pageFile = md.pageFile) :
    FrameUpd md (setFrame md0 i f1) i f f1 := by
  have h0 : frameAt md0 i = some f := by unfold frameAt at h ⊢; rw [hfr]; exact h
  have hall : ∀ j, frameAt md0 j = frameAt md j := by
    intro j; unfold frameAt; rw [hfr]
  refine ⟨h, ?_, ?_, ?_, htb, hfl⟩
  · rw [frameAt_setFrame h0]; simp
  · intro j hj; rw [frameAt_setFrame h0, if_neg hj]; exact hall j
  · simp [setFrame, hfr]

theorem FrameUpd.frameAt {md md1 : BM_Metadata} {i : Int} {f f1 : BM_PageFrame}
    (u : FrameUpd md md1 i f f1) (j : Int) :
    frameAt md1 j = if j = i then some f1 else frameAt md j := by
  by_cases h : j = i
  · subst h; simp [u.new]
  · simp [h, u.others j h]

/-- A single-frame update that keeps the frame's identity (index, page, occupancy) keeps
the pool invariant, if the new frame satisfies the clause on unpinned clean frames. -/
theorem PoolInv_FrameUpd {md md1 : BM_Metadata} {i : Int} {f f1 : BM_PageFrame}
    (hi : PoolInv md) (u : FrameUpd md md1 i f f1)
    (hidx : f1.frameIndex = f.frameIndex) (hocc : f1.occupied = f.occupied)
    (hpn : f1.pageNum = f.pageNum) (hfix : 0 ≤ f1.fixCount)
    (hclean : f1.occupied = true → f1.fixCount = 0 → f1.dirty = false →
      fhPage md.pageFile f1.pageNum = f1.data) :
    PoolInv md1 := by
  refine ⟨by rw [u.table]; exact hi.ht, by rw [u.file]; exact hi.file, ?_, ?_⟩
  · intro p j hp
    rw [u.table, hi.lookup p j hp, u.frameAt]
    by_cases hji : j = i
    · subst hji
      simp only [if_true, u.old]
      constructor
      · rintro ⟨g, hg, ho, hpg⟩
        cases hg
        exact ⟨f1, rfl, by rw [hocc]; exact ho, by rw [hpn]; exact hpg⟩
      · rintro ⟨g, hg, ho, hpg⟩
        cases hg
        exact ⟨f, rfl, by rw [← hocc]; exact ho, by rw [← hpn]; exact hpg⟩
    · simp only [hji, if_false]
  · intro j g hg
    rw [u.frameAt] at hg
    by_cases hji : j = i
    · subst hji
      simp only [if_true] at hg
      cases hg
      obtain ⟨h1, _, h3⟩ := hi.frames j f u.old
      refine ⟨by rw [hidx]; exact h1, hfix, ?_⟩
      intro ho
      rw [hocc] at ho
      obtain ⟨h4, h5, _⟩ := h3 ho
      rw [u.file, hpn]
      refine ⟨h4, h5, ?_⟩
      intro hz hd
      have := hclean (by rw [hocc]; exact ho) hz hd
      rw [hpn] at this
      exact this
    · simp only [hji, if_false] at hg
      rw [u.file]
      exact hi.frames j g hg

theorem viewPage_FrameUpd {md md1 : BM_Metadata} {i : Int} {f f1 : BM_PageFrame}
    (hi : PoolInv md) (u : FrameUpd md md1 i f f1) (q : Int) (hq : 0 ≤ q) :
    viewPage md1 q = if f.occupied = true ∧ f.pageNum = q then f1.data else viewPage md q := by
  unfold viewPage
  rw [u.table, u.file]
  obtain ⟨r, hr⟩ := getValue_isSome hi.ht hq
  rw [hr]
  cases r with
  | none =>
    have : ¬ (f.occupied = true ∧ f.pageNum = q) := by
      rintro ⟨ho, hp⟩
      have := (hi.lookup q i hq).2 ⟨f, u.old, ho, hp⟩
      rw [hr] at this
      cases this
    simp [this]
  | some j =>
    obtain ⟨g, hg, hgo, hgp⟩ := (hi.lookup q j hq).1 hr
    simp only [u.frameAt j]
    by_cases hji : j = i
    · subst hji
      rw [u.old] at hg
      cases hg
      simp [hgo, hgp]
    · have : ¬ (f.occupied = true ∧ f.pageNum = q) := by
        rintro ⟨ho, hp⟩
        have := (hi.lookup q i hq).2 ⟨f, u.old, ho, hp⟩
        rw [hr] at this
        simp at this
        exact hji this
      simp [hji, this]

/-- The frame a cached page sits in holds its current image. -/
theorem viewPage_of_frame {md : BM_Metadata} (hi : PoolInv md) {i : Int} {f : BM_PageFrame}
    (hf : frameAt md i = some f) (ho : f.occupied = true) (hp : 0 ≤ f.pageNum) :
    viewPage md f.pageNum = f.data := by
  have := (hi.lookup f.pageNum i hp).2 ⟨f, hf, ho, rfl⟩
  unfold viewPage
  rw [this]
  simp [hf]

/-! ## Buffer pool: `markDirty` and `unpinPage` -/

theorem markDirty_spec {bm : BM_BufferPool} {md : BM_Metadata} (hok : PoolOK bm md)
    (page : BM_PageHandle) {i : Int} {f : BM_PageFrame} (hp : 0 ≤ page.pageNum)
    (hf : frameAt md i = some f) (ho : f.occupied = true) (hpn : f.pageNum = page.pageNum) :
    ∃ md1, markDirty bm page = some (RC.RC_OK, { bm with mgmtData := MgmtPtr.live md1 })
      ∧ PoolOK { bm with mgmtData := MgmtPtr.live md1 } md1
      ∧ FrameUpd md md1 i f { f with timeStamp := md.timeStamp, dirty := true } := by
  have hl := (hok.inv.lookup page.pageNum i hp).2 ⟨f, hf, ho, hpn⟩
  unfold markDirty
  rw [hok.live]
  simp only [hl, hf, getTimeStamp]
  have u : FrameUpd md (setFrame { md with timeStamp := (md.timeStamp + 1) % 4294967296 } i
      { f with timeStamp := md.timeStamp, dirty := true }) i f
      { f with timeStamp := md.timeStamp, dirty := true } :=
    FrameUpd_setFrame hf _ rfl rfl rfl
  refine ⟨_, rfl, ⟨rfl, ?_, ?_⟩, u⟩
  · rw [u.len]; exact hok.numPages
  · exact PoolInv_FrameUpd hok.inv u rfl rfl rfl (hok.inv.frames i f hf).2.1 (by intro _ _ h; cases h)

theorem unpinPage_spec {bm : BM_BufferPool} {md : BM_Metadata} (hok : PoolOK bm md)
    (page : BM_PageHandle) {i : Int} {f : BM_PageFrame} (hp : 0 ≤ page.pageNum)
    (hf : frameAt md i = some f) (ho : f.occupied = true) (hpn : f.pageNum = page.pageNum)
    (hsafe : UnpinSafe md f) :
    ∃ md1, unpinPage bm page = some (RC.RC_OK, { bm with mgmtData := MgmtPtr.live md1 })
      ∧ PoolOK { bm with mgmtData := MgmtPtr.live md1 } md1
      ∧ FrameUpd md md1 i f { f with timeStamp := md.timeStamp, fixCount := if f.fixCount - 1 < 0 then 0 else f.fixCount - 1 } := by
  have hl := (hok.inv.lookup page.pageNum i hp).2 ⟨f, hf, ho, hpn⟩
  unfold unpinPage
  rw [hok.live]
  simp only [hl, hf, getTimeStamp]
  have u := @FrameUpd_setFrame md { md with timeStamp := (md.timeStamp + 1) % 4294967296 } _ _ hf
    { f with timeStamp := md.timeStamp, fixCount := if f.fixCount - 1 < 0 then 0 else f.fixCount - 1 }
    rfl rfl rfl
  refine ⟨_, rfl, ⟨rfl, ?_, ?_⟩, u⟩
  · rw [u.len]; exact hok.numPages
  · apply PoolInv_FrameUpd hok.inv u rfl rfl rfl
    · show 0 ≤ (if f.fixCount - 1 < 0 then 0 else f.fixCount - 1)
      split <;> omega
    · intro _ hz hd
      have hz1 : (if f.fixCount - 1 < 0 then 0 else f.fixCount - 1) = 0 := hz
      have hd1 : f.dirty = false := hd
      rcases hsafe with h | h | h
      · split at hz1 <;> omega
      · rw [h] at hd1; cases hd1
      · exact h

/-- Storing into the buffer of a pinned frame keeps the pool invariant. -/
theorem PoolInv_setData {md : BM_Metadata} (hi : PoolInv md) {i : Int} {f : BM_PageFrame}
    (hf : frameAt md i = some f) (hpin : 1 ≤ f.fixCount) (d : PageContent) :
    PoolInv (setFrame md i { f with data := d })
      ∧ FrameUpd md (setFrame md i { f with data := d }) i f { f with data := d } := by
  have u : FrameUpd md (setFrame md i { f with data := d }) i f { f with data := d } :=
    FrameUpd_setFrame hf _ rfl rfl rfl
  refine ⟨?_, u⟩
  apply PoolInv_FrameUpd hi u rfl rfl rfl (hi.frames i f hf).2.1
  intro _ hz _
  have : f.fixCount = 0 := hz
  omega

/-! ## Buffer pool: replacement and `pinPage` -/

theorem lruLoop_spec (md : BM_Metadata) (k : Nat) :
    ∀ (i min : Nat) (minIndex : Int), i + k ≤ md.pageFrames.length →
    ∃ r, lruLoop md k i min minIndex = some r ∧
      ((r = minIndex ∧ ∀ j f, i ≤ j → j < i + k → md.pageFrames[j]? = some f →
          ¬ (f.fixCount = 0 ∧ f.timeStamp < min))
       ∨ (∃ (j : Nat) (f : BM_PageFrame), r = (j : Int) ∧ i ≤ j ∧ j < i + k ∧ md.pageFrames[j]? = some f
          ∧ f.fixCount = 0 ∧ f.timeStamp < min)) := by
  induction k with
  | zero =>
    intro i min minIndex _
    exact ⟨minIndex, rfl, Or.inl ⟨rfl, fun j f h1 h2 => by omega⟩⟩
  | succ k ih =>
    intro i min minIndex hlen
    have hlt : i < md.pageFrames.length := by omega
    unfold lruLoop
    rw [List.getElem?_eq_getElem hlt]
    simp only
    generalize hfi : md.pageFrames[i] = fi
    by_cases hc : fi.fixCount = 0 ∧ fi.timeStamp < min
    · rw [if_pos hc]
      obtain ⟨r, hr, h⟩ := ih (i + 1) fi.timeStamp i (by omega)
      refine ⟨r, hr, Or.inr ?_⟩
      rcases h with ⟨h1, _⟩ | ⟨j, f, h1, h2, h3, h4, h5, h6⟩
      · exact ⟨i, fi, h1, le_refl _, by omega,
          by rw [List.getElem?_eq_getElem hlt, hfi], hc.1, hc.2⟩
      · exact ⟨j, f, h1, by omega, by omega, h4, h5, by omega⟩
    · rw [if_neg hc]
      obtain ⟨r, hr, h⟩ := ih (i + 1) min minIndex (by omega)
      refine ⟨r, hr, ?_⟩
      rcases h with ⟨h1, h2⟩ | ⟨j, f, h1, h2, h3, h4, h5, h6⟩
      · left
        refine ⟨h1, ?_⟩
        intro j f hj1 hj2 hjf
        by_cases hji : j = i
        · subst hji
          rw [List.getElem?_eq_getElem hlt, hfi] at hjf
          cases hjf
          exact hc
        · exact h2 j f (by omega) (by omega) hjf
      · right
        exact ⟨j, f, h1, by omega, by omega, h4, h5, h6⟩

theorem getAfterEviction_spec {md : BM_Metadata} (hi : PoolInv md) {i : Int} {f : BM_PageFrame}
    (hf : frameAt md i = some f) :
    ∃ md1, getAfterEviction md i = some md1
      ∧ (∀ j, frameAt md1 j = if j = i then some { f with timeStamp := md.timeStamp }
                              else frameAt md j)
      ∧ md1.pageFrames.length = md.pageFrames.length
      ∧ HTInv md1.pageTable
      ∧ (∀ q, 0 ≤ q → getValue md1.pageTable q =
          if f.occupied = true ∧ q = f.pageNum then some none else getValue md.pageTable q)
      ∧ FileOK md1.pageFile
      ∧ md1.pageFile.totalNumPages = md.pageFile.totalNumPages
      ∧ (∀ q, 0 ≤ q → fhPage md1.pageFile q =
          if f.occupied = true ∧ f.dirty = true ∧ q = f.pageNum then f.data
          else fhPage md.pageFile q) := by
  unfold getAfterEviction
  rw [hf]
  simp only [getTimeStamp, setFrame_pageTable, setFrame_pageFile, setFrame_numWrite]
  by_cases ho : f.occupied = true
  · obtain ⟨hp0, hplt, _⟩ := (hi.frames i f hf).2.2 ho
    obtain ⟨r, pt, hrm, hpt, _, hget⟩ := removePair_spec hi.ht hp0
    rw [if_pos ho, hrm]
    simp only
    by_cases hd : f.dirty = true
    · obtain ⟨fh1, hw, hfo, htot, hpg⟩ := fhPage_writeBlock hi.file hp0 hplt f.data
      rw [if_pos hd, hw]
      refine ⟨_, rfl, ?_, ?_, hpt, ?_, hfo, htot, ?_⟩
      · intro j; exact frameAt_of_set hf _ rfl j
      · simp
      · intro q hq
        rw [hget q hq]
        simp [ho]
      · intro q hq
        rw [hpg q hq]
        simp [ho, hd]
    · rw [if_neg hd]
      refine ⟨_, rfl, ?_, ?_, hpt, ?_, hi.file, rfl, ?_⟩
      · intro j; exact frameAt_of_set hf _ rfl j
      · simp
      · intro q hq
        rw [hget q hq]
        simp [ho]
      · intro q _
        simp [hd]
  · rw [if_neg ho]
    refine ⟨_, rfl, ?_, ?_, hi.ht, ?_, hi.file, rfl, ?_⟩
    · intro j; exact frameAt_of_set hf _ rfl j
    · simp
    · intro q _; simp [ho]
    · intro q _; simp [ho]


/-- Eviction of an unpinned frame followed by the load of a page that is not cached. -/
theorem evictLoad_spec {md : BM_Metadata} (hi : PoolInv md) {i : Int} {f : BM_PageFrame}
    (hf : frameAt md i = some f) (hfix : f.fixCount = 0) {p : Int} (hp : 0 ≤ p)
    (hmiss : getValue md.pageTable p = some none) :
    ∃ md1 md2 f1, getAfterEviction md i = some md1 ∧ loadPage md1 i p = some md2
      ∧ PinOK md md2 p i f1 := by
  obtain ⟨md1, hev, hfr1, hlen1, hht1, hget1, hfile1, htot1, hpg1⟩ := getAfterEviction_spec hi hf
  obtain ⟨hidx, _, hocc⟩ := hi.frames i f hf
  have hf1 : frameAt md1 i = some { f with timeStamp := md.timeStamp } := by
    rw [hfr1]; simp
  obtain ⟨pt, hsv, hpt, _, hget2⟩ := setValue_spec hht1 hp i
  obtain ⟨fh, hec, hfo, hge, hpl, _, hpg2⟩ := ensureCapacity_spec (p + 1) md1.pageFile hfile1
  have hrd := readBlock_spec hfo hp (by omega) f.data
  -- the final frame and metadata
  have hload : loadPage md1 i p = some (setFrame
      { md1 with pageTable := pt, pageFile := fh, numRead := md1.numRead + 1 } i
      { f with timeStamp := md.timeStamp, data := fhPage fh p, dirty := false, fixCount := 1,
               occupied := true, pageNum := p }) := by
    unfold loadPage
    rw [hf1]
    simp only [hidx, hsv, hec, hrd]
  refine ⟨md1, _,
    { f with timeStamp := md.timeStamp, data := fhPage fh p, dirty := false,
             fixCount := 1, occupied := true, pageNum := p }, hev, hload, ?_⟩
  have hfr2 : ∀ j, frameAt (setFrame
      { md1 with pageTable := pt, pageFile := fh, numRead := md1.numRead + 1 } i
      { f with timeStamp := md.timeStamp, data := fhPage fh p, dirty := false, fixCount := 1,
               occupied := true, pageNum := p }) j
      = if j = i then some { f with timeStamp := md.timeStamp, data := fhPage fh p, dirty := false,
                                    fixCount := 1, occupied := true, pageNum := p }
        else frameAt md j := by
    intro j
    rw [frameAt_of_set hf1 _ rfl j]
    split
    · rfl
    · rename_i hji; rw [hfr1, if_neg hji]
  -- the page table after the load
  have hget : ∀ q, 0 ≤ q → getValue pt q =
      if q = p then some (some i)
      else if f.occupied = true ∧ q = f.pageNum then some none else getValue md.pageTable q := by
    intro q hq
    rw [hget2 q hq]
    split
    · rfl
    · exact hget1 q hq
  -- the file after the load
  have hpg : ∀ q, 0 ≤ q → fhPage fh q =
      if f.occupied = true ∧ f.dirty = true ∧ q = f.pageNum then f.data
      else fhPage md.pageFile q := by
    intro q hq
    rw [hpg2 q, hpg1 q hq]
  -- the page that is loaded is not the page that is evicted
  have hpne : f.occupied = true → f.pageNum ≠ p := by
    intro ho he
    have := (hi.lookup p i hp).2 ⟨f, hf, ho, he⟩
    rw [hmiss] at this
    cases this
  have hdata : fhPage fh p = viewPage md p := by
    rw [hpg p hp]
    unfold viewPage
    rw [hmiss]
    split
    · rename_i h; exact absurd h.2.2.symm (hpne h.1)
    · rfl
  -- the image of every page is kept
  have hview : ∀ q, 0 ≤ q → viewPage (setFrame
      { md1 with pageTable := pt, pageFile := fh, numRead := md1.numRead + 1 } i
      { f with timeStamp := md.timeStamp, data := fhPage fh p, dirty := false, fixCount := 1,
               occupied := true, pageNum := p }) q = viewPage md q := by
    intro q hq
    unfold viewPage
    simp only [setFrame_pageTable, setFrame_pageFile, hfr2]
    rw [hget q hq]
    by_cases hqp : q = p
    · subst hqp
      simp only [if_true]
      rw [hmiss, hpg q hq]
      split
      · rename_i h; exact absurd h.2.2.symm (hpne h.1)
      · rfl
    · rw [if_neg hqp]
      by_cases hvq : f.occupied = true ∧ q = f.pageNum
      · rw [if_pos hvq]
        have hl := (hi.lookup q i hq).2 ⟨f, hf, hvq.1, hvq.2.symm⟩
        simp only [hl, hf]
        rw [hpg q hq]
        by_cases hd : f.dirty = true
        · rw [if_pos ⟨hvq.1, hd, hvq.2⟩]
        · rw [if_neg (fun h => hd h.2.1)]
          have := (hocc hvq.1).2.2 hfix (by simpa using hd)
          rw [hvq.2]; exact this
      · rw [if_neg hvq]
        obtain ⟨r, hr⟩ := getValue_isSome hi.ht hq
        rw [hr]
        cases r with
        | none =>
          simp only
          rw [hpg q hq, if_neg (fun h => hvq ⟨h.1, h.2.2⟩)]
        | some j =>
          simp only
          have hji : j ≠ i := by
            intro he
            subst he
            obtain ⟨g, hg, hgo, hgp⟩ := (hi.lookup q j hq).1 hr
            rw [hf] at hg
            cases hg
            exact hvq ⟨hgo, hgp.symm⟩
          rw [if_neg hji]
  refine ⟨⟨hpt, hfo, ?_, ?_⟩, ?_, ?_, rfl, rfl, hdata, ?_, hview, ?_, ⟨f, hf, by simp [hfix], rfl⟩,
    ?_, Or.inr ⟨hmiss, rfl⟩, ?_⟩
  · -- lookup
    intro q j hq
    simp only [setFrame_pageTable, hfr2]
    rw [hget q hq]
    by_cases hqp : q = p
    · subst hqp
      simp only [if_true]
      constructor
      · intro h
        have : j = i := by simpa using h.symm
        subst this
        exact ⟨_, if_pos rfl, rfl, rfl⟩
      · rintro ⟨g, hg, hgo, hgp⟩
        by_cases hji : j = i
        · subst hji; rfl
        · rw [if_neg hji] at hg
          have := (hi.lookup q j hq).2 ⟨g, hg, hgo, hgp⟩
          rw [hmiss] at this
          cases this
    · rw [if_neg hqp]
      by_cases hvq : f.occupied = true ∧ q = f.pageNum
      · rw [if_pos hvq]
        constructor
        · intro h; cases h
        · rintro ⟨g, hg, hgo, hgp⟩
          exfalso
          by_cases hji : j = i
          · subst hji
            simp only [if_true] at hg
            cases hg
            exact hqp hgp.symm
          · rw [if_neg hji] at hg
            have h1 := (hi.lookup q j hq).2 ⟨g, hg, hgo, hgp⟩
            have h2 := (hi.lookup q i hq).2 ⟨f, hf, hvq.1, hvq.2.symm⟩
            rw [h1] at h2
            simp at h2
            exact hji h2
      · rw [if_neg hvq, hi.lookup q j hq]
        by_cases hji : j = i
        · subst hji
          simp only [if_true, hf]
          constructor
          · rintro ⟨g, hg, hgo, hgp⟩
            cases hg
            exact absurd ⟨hgo, hgp.symm⟩ hvq
          · rintro ⟨g, hg, hgo, hgp⟩
            cases hg
            exact absurd hgp.symm hqp
        · rw [if_neg hji]
  · -- frames
    intro j g hg
    simp only [setFrame_pageFile]
    rw [hfr2] at hg
    by_cases hji : j = i
    · subst hji
      simp only [if_true] at hg
      cases hg
      refine ⟨hidx, by simp, fun _ => ⟨hp, by simp; omega, ?_⟩⟩
      intro h; simp at h
    · rw [if_neg hji] at hg
      obtain ⟨h1, h2, h3⟩ := hi.frames j g hg
      refine ⟨h1, h2, fun ho => ?_⟩
      obtain ⟨h4, h5, h6⟩ := h3 ho
      refine ⟨h4, by rw [← htot1] at h5; omega, ?_⟩
      intro hz hd
      rw [hpg g.pageNum h4, if_neg]
      · exact h6 hz hd
      · rintro ⟨ho1, _, he⟩
        have h7 := (hi.lookup g.pageNum j h4).2 ⟨g, hg, ho, rfl⟩
        have h8 := (hi.lookup g.pageNum i h4).2 ⟨f, hf, ho1, he.symm⟩
        rw [h7] at h8
        simp at h8
        exact hji h8
  · simp; rw [← hlen1]
  · rw [hfr2]; simp
  · intro j hj
    rw [hfr2, if_neg hj]
  · right; right
    simp
  · intro q hq
    simp only [setFrame_pageFile]
    rw [hpg q hq]
    by_cases hc : f.occupied = true ∧ f.dirty = true ∧ q = f.pageNum
    · rw [if_pos hc]
      right
      rw [hc.2.2]
      exact (viewPage_of_frame hi hf hc.1 (hocc hc.1).1).symm
    · rw [if_neg hc]; left; rfl
  · intro q j hq hqj hji
    simp only [setFrame_pageTable]
    rw [hget q hq]
    have hqp : q ≠ p := by
      intro he; subst he; rw [hmiss] at hqj; cases hqj
    rw [if_neg hqp, if_neg, hqj]
    rintro ⟨ho, he⟩
    have := (hi.lookup q i hq).2 ⟨f, hf, ho, he.symm⟩
    rw [hqj] at this
    simp at this
    exact hji this


theorem pinHit_spec {md : BM_Metadata} (hi : PoolInv md) {i : Int} {p : Int} (hp : 0 ≤ p)
    (hhit : getValue md.pageTable p = some (some i)) :
    ∃ f, frameAt md i = some f ∧
      PinOK md (setFrame (getTimeStamp md).2 i
          { f with timeStamp := md.timeStamp, fixCount := f.fixCount + 1 }) p i
        { f with timeStamp := md.timeStamp, fixCount := f.fixCount + 1 } := by
  obtain ⟨f, hf, ho, hpn⟩ := (hi.lookup p i hp).1 hhit
  refine ⟨f, hf, ?_⟩
  have u := @FrameUpd_setFrame md (getTimeStamp md).2 _ _ hf
    { f with timeStamp := md.timeStamp, fixCount := f.fixCount + 1 } rfl rfl rfl
  obtain ⟨hidx, hfix, hocc⟩ := hi.frames i f hf
  obtain ⟨_, _, hclean⟩ := hocc ho
  have hinv : PoolInv (setFrame (getTimeStamp md).2 i
      { f with timeStamp := md.timeStamp, fixCount := f.fixCount + 1 }) := by
    apply PoolInv_FrameUpd hi u rfl rfl rfl
    · show 0 ≤ f.fixCount + 1
      omega
    · intro _ hz _
      have : f.fixCount + 1 = 0 := hz
      omega
  refine ⟨hinv, u.len, u.new, ho, hpn, ?_, u.others, ?_, ?_, ⟨f, hf, rfl, rfl⟩, ?_,
    Or.inl ⟨hhit, fun q _ => by rw [u.table]⟩, ?_⟩
  · rw [← hpn]; exact (viewPage_of_frame hi hf ho (by rw [hpn]; exact hp)).symm
  · intro q hq
    rw [viewPage_FrameUpd hi u q hq]
    split
    · rename_i h
      rw [← h.2]
      exact (viewPage_of_frame hi hf ho (by rw [hpn]; exact hp)).symm
    · rfl
  · show 2 ≤ f.fixCount + 1 ∨ f.dirty = true ∨ _
    by_cases hz : f.fixCount = 0
    · by_cases hd : f.dirty = true
      · right; left; exact hd
      · right; right
        rw [u.file]
        exact hclean hz (by simpa using hd)
    · left; omega
  · intro q _; left; rw [u.file]
  · intro q j _ hqj _; rw [u.table]; exact hqj

/-- The source's `pinPage` under the LRU strategy, for a non-negative page number on a
well-formed pool: it returns, either with the page pinned in a frame, or with
`RC_WRITE_FAILED` when the page is not cached and no frame is both unpinned and stamped
below `UINT_MAX`. -/
theorem pinPage_spec {bm : BM_BufferPool} {md : BM_Metadata} (hok : PoolOK bm md)
    (hs : bm.strategy = ReplacementStrategy.RS_LRU) (page : BM_PageHandle) {p : Int}
    (hp : 0 ≤ p) :
    (∃ md1 i f1, pinPage bm page p
        = some (RC.RC_OK, { bm with mgmtData := MgmtPtr.live md1 }, { pageNum := p, data := some i })
      ∧ PinOK md md1 p i f1 ∧ PoolOK { bm with mgmtData := MgmtPtr.live md1 } md1)
    ∨ (pinPage bm page p = some (RC.RC_WRITE_FAILED, bm, page)
      ∧ getValue md.pageTable p = some none
      ∧ ∀ j f, frameAt md j = some f → ¬ (f.fixCount = 0 ∧ f.timeStamp < UINT_MAX)) := by
  obtain ⟨r, hr⟩ := getValue_isSome hok.inv.ht hp
  unfold pinPage
  rw [hok.live]
  simp only [ge_iff_le, hp, if_true, hr]
  cases r with
  | some i =>
    left
    obtain ⟨f, hf, hpin⟩ := pinHit_spec hok.inv hp hr
    simp only [hf]
    refine ⟨_, i, _, rfl, hpin, ⟨rfl, ?_, hpin.inv⟩⟩
    show bm.numPages = _
    simp only [setFrame_pageFrames, List.length_set]
    exact hok.numPages
  | none =>
    rw [if_neg (show ¬ (bm.strategy = ReplacementStrategy.RS_FIFO) by rw [hs]; decide)]
    unfold replacementLRU
    obtain ⟨k, hk, hcases⟩ := lruLoop_spec md bm.numPages.toNat 0 UINT_MAX (-1)
      (by rw [hok.numPages]; simp)
    rw [hk]
    rcases hcases with ⟨hk1, hnone⟩ | ⟨j, f, hkj, _, hjlt, hjf, hfix, _⟩
    · right
      subst hk1
      simp only [if_true]
      have hb : ({ bm with mgmtData := MgmtPtr.live md } : BM_BufferPool) = bm := by
        have := hok.live
        cases bm
        simp_all
      rw [hb]
      refine ⟨rfl, trivial, ?_⟩
      · intro j f hjf
        obtain ⟨h0, h1, h2⟩ := frameAt_eq_some hjf
        exact hnone j.toNat f (Nat.zero_le _) (by rw [hok.numPages]; simpa using h1) h2
    · left
      subst hkj
      have hne : ¬ ((j : Int) = -1) := by omega
      simp only [hne, if_false]
      have hjf' : frameAt md (j : Int) = some f := by
        unfold frameAt; rw [getI?_ofNat]; exact hjf
      obtain ⟨md1, md2, f1, hev, hload, hpin⟩ := evictLoad_spec hok.inv hjf' hfix hp hr
      simp only [hev, hload]
      exact ⟨md2, j, f1, rfl, hpin, ⟨rfl, by rw [hpin.len]; exact hok.numPages, hpin.inv⟩⟩

/-! ## Pages, fix counts and handles -/

@[simp]
theorem withMd_withMd (s : RMState) (md md1 : BM_Metadata) :
    withMd (withMd s md) md1 = withMd s md1 := rfl

@[simp]
theorem withMd_catalogPageHandle (s : RMState) (md : BM_Metadata) :
    (withMd s md).catalogPageHandle = s.catalogPageHandle := rfl

@[simp]
theorem withMd_disk (s : RMState) (md : BM_Metadata) : (withMd s md).disk = s.disk := rfl

@[simp]
theorem liveMetadata_withMd (s : RMState) (md : BM_Metadata) :
    liveMetadata (withMd s md) = some md := rfl

theorem withMd_self {s : RMState} {md : BM_Metadata} (h : s.bufferPool.mgmtData = MgmtPtr.live md) :
    withMd s md = s := by
  cases s with
  | mk bp ch d =>
    cases bp
    simp only [withMd] at h ⊢
    simp_all

theorem PoolBase_withMd {s : RMState} {md md0 : BM_Metadata} :
    PoolBase (withMd s md0) md ↔ PoolBase s md :=
  ⟨fun h => ⟨h.numPages, h.lru, h.inv⟩, fun h => ⟨h.numPages, h.lru, h.inv⟩⟩

theorem PoolBase.poolOK {s : RMState} {md : BM_Metadata} (hb : PoolBase s md) :
    PoolOK (withMd s md).bufferPool md :=
  ⟨rfl, hb.numPages, hb.inv⟩

theorem PoolBase.step {s : RMState} {md md1 : BM_Metadata} (hb : PoolBase s md)
    (st : Step md md1) : PoolBase s md1 :=
  ⟨by rw [st.len]; exact hb.numPages, hb.lru, st.inv⟩

theorem frameOfPage_some {md : BM_Metadata} (hi : PoolInv md) {p : Int} (hp : 0 ≤ p)
    {f : BM_PageFrame} (h : frameOfPage md p = some f) :
    ∃ i, getValue md.pageTable p = some (some i) ∧ frameAt md i = some f
      ∧ f.occupied = true ∧ f.pageNum = p := by
  unfold frameOfPage at h
  split at h
  · rename_i i hg
    obtain ⟨g, hg1, hg2, hg3⟩ := (hi.lookup p i hp).1 hg
    rw [h] at hg1
    cases hg1
    exact ⟨i, hg, h, hg2, hg3⟩
  · cases h

theorem frameOfPage_of_frame {md : BM_Metadata} (hi : PoolInv md) {i : Int} {f : BM_PageFrame}
    (hf : frameAt md i = some f) (ho : f.occupied = true) (hp : 0 ≤ f.pageNum) :
    frameOfPage md f.pageNum = some f := by
  have := (hi.lookup f.pageNum i hp).2 ⟨f, hf, ho, rfl⟩
  unfold frameOfPage
  rw [this]
  exact hf

theorem frameOfPage_none {md : BM_Metadata} (hi : PoolInv md) {p : Int} (hp : 0 ≤ p)
    (h : frameOfPage md p = none) : getValue md.pageTable p = some none := by
  obtain ⟨r, hr⟩ := getValue_isSome hi.ht hp
  cases r with
  | none => exact hr
  | some i =>
    obtain ⟨g, hg1, _, _⟩ := (hi.lookup p i hp).1 hr
    unfold frameOfPage at h
    rw [hr] at h
    simp only at h
    rw [hg1] at h
    cases h

theorem viewPage_of_frameOfPage {md : BM_Metadata} {p : Int} {f : BM_PageFrame}
    (h : frameOfPage md p = some f) : viewPage md p = f.data := by
  unfold frameOfPage at h
  unfold viewPage
  split at h
  · rename_i i hg
    simp only [h]
  · cases h

theorem viewPage_of_not_cached {md : BM_Metadata} (hi : PoolInv md) {p : Int} (hp : 0 ≤ p)
    (h : frameOfPage md p = none) : viewPage md p = fhPage md.pageFile p := by
  have := frameOfPage_none hi hp h
  unfold viewPage
  rw [this]

theorem fixOf_of_frameOfPage {md : BM_Metadata} {p : Int} {f : BM_PageFrame}
    (h : frameOfPage md p = some f) : fixOf md p = f.fixCount := by
  unfold fixOf; rw [h]

theorem fixOf_nonneg {md : BM_Metadata} (hi : PoolInv md) {p : Int} (hp : 0 ≤ p) :
    0 ≤ fixOf md p := by
  unfold fixOf
  cases h : frameOfPage md p with
  | none => simp
  | some f =>
    obtain ⟨i, _, hf, _, _⟩ := frameOfPage_some hi hp h
    exact (hi.frames i f hf).2.1

theorem frameOfPage_of_fixOf_pos {md : BM_Metadata} {p : Int} (h : 1 ≤ fixOf md p) :
    ∃ f, frameOfPage md p = some f ∧ 1 ≤ f.fixCount := by
  unfold fixOf at h
  cases hf : frameOfPage md p with
  | none => rw [hf] at h; simp at h
  | some f => rw [hf] at h; exact ⟨f, rfl, h⟩

/-- The frame behind a handle that points at its page. -/
theorem PointsTo.frame {md : BM_Metadata} (hi : PoolInv md) {h : BM_PageHandle}
    (hpt : PointsTo md h) :
    ∃ i f, h.data = some i ∧ frameAt md i = some f ∧ f.occupied = true
      ∧ f.pageNum = h.pageNum ∧ frameOfPage md h.pageNum = some f := by
  obtain ⟨hp, i, hd, hg⟩ := hpt
  obtain ⟨f, hf, ho, hpn⟩ := (hi.lookup h.pageNum i hp).1 hg
  refine ⟨i, f, hd, hf, ho, hpn, ?_⟩
  unfold frameOfPage
  rw [hg]
  exact hf

theorem handleData_of_pointsTo {s : RMState} {md : BM_Metadata} (hi : PoolInv md)
    {h : BM_PageHandle} (hpt : PointsTo md h) :
    handleData (withMd s md) h = some (viewPage md h.pageNum) := by
  obtain ⟨i, f, hd, hf, _, _, hfp⟩ := hpt.frame hi
  unfold handleData
  rw [hd, liveMetadata_withMd]
  simp only [hf, Option.map_some']
  rw [viewPage_of_frameOfPage hfp]

theorem frameOfPage_FrameUpd {md md1 : BM_Metadata} {i : Int} {f f1 : BM_PageFrame}
    (hi : PoolInv md) (u : FrameUpd md md1 i f f1) (ho : f.occupied = true)
    (hp : 0 ≤ f.pageNum) (q : Int) (hq : 0 ≤ q) :
    frameOfPage md1 q = if q = f.pageNum then some f1 else frameOfPage md q := by
  have hfi := (hi.lookup f.pageNum i hp).2 ⟨f, u.old, ho, rfl⟩
  unfold frameOfPage
  rw [u.table]
  by_cases hqp : q = f.pageNum
  · subst hqp
    rw [hfi]
    simp [u.new]
  · rw [if_neg hqp]
    obtain ⟨r, hr⟩ := getValue_isSome hi.ht hq
    rw [hr]
    cases r with
    | none => rfl
    | some j =>
      simp only
      have hji : j ≠ i := by
        intro he
        subst he
        obtain ⟨g, hg, _, hgp⟩ := (hi.lookup q j hq).1 hr
        rw [u.old] at hg
        cases hg
        exact hqp hgp.symm
      exact u.others j hji

/-- A single-frame update of the frame of a cached page, keeping index, page and
occupancy, never clearing the dirty flag: a step of the pool. -/
theorem Step_FrameUpd {md md1 : BM_Metadata} {i : Int} {f f1 : BM_PageFrame}
    (hi : PoolInv md) (u : FrameUpd md md1 i f f1) (ho : f.occupied = true)
    (hp : 0 ≤ f.pageNum)
    (hidx : f1.frameIndex = f.frameIndex) (hocc : f1.occupied = f.occupied)
    (hpn : f1.pageNum = f.pageNum) (hfix : 0 ≤ f1.fixCount)
    (hclean : f1.fixCount = 0 → f1.dirty = false → fhPage md.pageFile f1.pageNum = f1.data)
    (hd : f.dirty = true → f1.dirty = true) :
    Step md md1 := by
  have hfo := frameOfPage_FrameUpd hi u ho hp
  refine ⟨PoolInv_FrameUpd hi u hidx hocc hpn hfix (fun _ => hclean), u.len, ?_, ?_, ?_⟩
  · intro h hh
    obtain ⟨hp0, j, hd1, hg⟩ := hh.1
    exact ⟨hp0, j, hd1, by rw [u.table]; exact hg⟩
  · intro ht q hq
    rw [u.file]; exact (ht q hq).2
  · intro q hq hs hfx hv g hg
    rw [hfo q hq] at hg
    by_cases hqp : q = f.pageNum
    · subst hqp
      simp only [if_true] at hg
      cases hg
      have hfp := frameOfPage_of_frame hi u.old ho hp
      have hfp1 : frameOfPage md1 f.pageNum = some f1 := by rw [hfo _ hq]; simp
      rw [fixOf_of_frameOfPage hfp, fixOf_of_frameOfPage hfp1] at hfx
      rw [viewPage_of_frameOfPage hfp, viewPage_of_frameOfPage hfp1] at hv
      rcases hs f hfp with h1 | h1 | h1
      · left; omega
      · right; left; exact hd h1
      · right; right
        rw [u.file, hpn, hv]; exact h1
    · rw [if_neg hqp] at hg
      have := hs g hg
      unfold UnpinSafe at this ⊢
      rw [u.file]; exact this

theorem viewPage_upd {md md1 : BM_Metadata} {i : Int} {f f1 : BM_PageFrame}
    (hi : PoolInv md) (u : FrameUpd md md1 i f f1) (ho : f.occupied = true)
    (hp : 0 ≤ f.pageNum) (q : Int) (hq : 0 ≤ q) :
    viewPage md1 q = if q = f.pageNum then f1.data else viewPage md q := by
  rw [viewPage_FrameUpd hi u q hq]
  by_cases h : q = f.pageNum
  · subst h; simp [ho]
  · have : ¬ (f.occupied = true ∧ f.pageNum = q) := fun hh => h hh.2.symm
    simp [h, this]

theorem fixOf_upd {md md1 : BM_Metadata} {i : Int} {f f1 : BM_PageFrame}
    (hi : PoolInv md) (u : FrameUpd md md1 i f f1) (ho : f.occupied = true)
    (hp : 0 ≤ f.pageNum) (q : Int) (hq : 0 ≤ q) :
    fixOf md1 q = if q = f.pageNum then f1.fixCount else fixOf md q := by
  unfold fixOf
  rw [frameOfPage_FrameUpd hi u ho hp q hq]
  by_cases h : q = f.pageNum
  · simp [h]
  · simp [h]

theorem PointsTo_upd {md md1 : BM_Metadata} {i : Int} {f f1 : BM_PageFrame}
    (u : FrameUpd md md1 i f f1) {h : BM_PageHandle} (hpt : PointsTo md h) : PointsTo md1 h := by
  obtain ⟨hp0, j, hd1, hg⟩ := hpt
  exact ⟨hp0, j, hd1, by rw [u.table]; exact hg⟩

/-! ## Pool calls of the record manager -/

theorem rmMarkDirty_spec {s : RMState} {md : BM_Metadata} (hb : PoolBase s md)
    {h : BM_PageHandle} (hpt : PointsTo md h) :
    ∃ md1, rmMarkDirty (withMd s md) h = some (RC.RC_OK, withMd s md1)
      ∧ Touch md md1 h.pageNum 0 ∧ Safe md1 h.pageNum
      ∧ (∀ h1, PointsTo md h1 → PointsTo md1 h1)
      ∧ md1.pageFile = md.pageFile ∧ md1.pageTable = md.pageTable := by
  obtain ⟨i, f, hd, hf, ho, hpn, hfp⟩ := hpt.frame hb.inv
  obtain ⟨md1, hmd, _, u⟩ := markDirty_spec hb.poolOK h hpt.1 hf ho hpn
  have hp : 0 ≤ f.pageNum := by rw [hpn]; exact hpt.1
  have hfp2 : frameOfPage md f.pageNum = some f := by rw [hpn]; exact hfp
  have st : Step md md1 := Step_FrameUpd hb.inv u ho hp rfl rfl rfl
    (hb.inv.frames i f hf).2.1 (by intro _ hc; cases hc) (fun _ => rfl)
  refine ⟨md1, ?_, ⟨st, ?_, ?_⟩, ?_, fun h1 => PointsTo_upd u, u.file, u.table⟩
  · unfold rmMarkDirty
    rw [hmd]
    rfl
  · intro q hq
    rw [viewPage_upd hb.inv u ho hp q hq]
    split
    · rename_i hqp; subst hqp; exact (viewPage_of_frameOfPage hfp2).symm
    · rfl
  · intro q hq
    rw [fixOf_upd hb.inv u ho hp q hq]
    split
    · rename_i hqp; subst hqp
      rw [fixOf_of_frameOfPage hfp2]; simp
    · simp
  · intro g hg
    rw [← hpn, frameOfPage_FrameUpd hb.inv u ho hp _ hp] at hg
    simp only [if_true] at hg
    cases hg
    right; left; rfl

theorem rmUnpinPage_spec {s : RMState} {md : BM_Metadata} (hb : PoolBase s md)
    {h : BM_PageHandle} (hh : Held md h) (hsafe : Safe md h.pageNum) :
    ∃ md1, rmUnpinPage (withMd s md) h = some (RC.RC_OK, withMd s md1)
      ∧ Touch md md1 h.pageNum (-1)
      ∧ (∀ h1, PointsTo md h1 → PointsTo md1 h1)
      ∧ md1.pageFile = md.pageFile ∧ md1.pageTable = md.pageTable
      ∧ (∀ q, 0 ≤ q → q ≠ h.pageNum → Safe md q → Safe md1 q) := by
  obtain ⟨i, f, hd, hf, ho, hpn, hfp⟩ := hh.1.frame hb.inv
  have hfx : 1 ≤ f.fixCount := by
    have := hh.2
    rw [fixOf_of_frameOfPage hfp] at this
    exact this
  obtain ⟨md1, hmd, _, u⟩ := unpinPage_spec hb.poolOK h hh.1.1 hf ho hpn (hsafe f hfp)
  have hp : 0 ≤ f.pageNum := by rw [hpn]; exact hh.1.1
  have hfp2 : frameOfPage md f.pageNum = some f := by rw [hpn]; exact hfp
  have hfix1 : (if f.fixCount - 1 < 0 then 0 else f.fixCount - 1) = f.fixCount - 1 := by
    rw [if_neg (by omega)]
  have st : Step md md1 := by
    apply Step_FrameUpd hb.inv u ho hp rfl rfl rfl
    · show 0 ≤ (if f.fixCount - 1 < 0 then 0 else f.fixCount - 1)
      rw [hfix1]; omega
    · intro hz hdd
      have hz1 : (if f.fixCount - 1 < 0 then 0 else f.fixCount - 1) = 0 := hz
      have hd1 : f.dirty = false := hdd
      rcases hsafe f hfp with h1 | h1 | h1
      · rw [hfix1] at hz1; omega
      · rw [h1] at hd1; cases hd1
      · exact h1
    · exact fun hx => hx
  refine ⟨md1, ?_, ⟨st, ?_, ?_⟩, fun h1 => PointsTo_upd u, u.file, u.table, ?_⟩
  · unfold rmUnpinPage
    rw [hmd]
    rfl
  · intro q hq
    rw [viewPage_upd hb.inv u ho hp q hq]
    split
    · rename_i hqp; subst hqp; exact (viewPage_of_frameOfPage hfp2).symm
    · rfl
  · intro q hq
    rw [fixOf_upd hb.inv u ho hp q hq, ← hpn]
    split
    · rename_i hqp; subst hqp
      rw [fixOf_of_frameOfPage hfp2]
      show (if f.fixCount - 1 < 0 then 0 else f.fixCount - 1) = _
      rw [hfix1]; omega
    · simp
  · intro q hq hne hs
    apply st.safe q hq hs
    · rw [fixOf_upd hb.inv u ho hp q hq, if_neg (by rw [hpn]; exact hne)]
    · rw [viewPage_upd hb.inv u ho hp q hq, if_neg (by rw [hpn]; exact hne)]

/-- A store into the buffer behind a held handle. -/
theorem setHandleData_spec {s : RMState} {md : BM_Metadata} (hb : PoolBase s md)
    {h : BM_PageHandle} (hh : Held md h) (d : PageContent) :
    ∃ md1, setHandleData (withMd s md) h d = some (withMd s md1) ∧ Upd md md1 h.pageNum d := by
  obtain ⟨i, f, hd, hf, ho, hpn, hfp⟩ := hh.1.frame hb.inv
  have hfx : 1 ≤ f.fixCount := by
    have := hh.2
    rw [fixOf_of_frameOfPage hfp] at this
    exact this
  have hp : 0 ≤ f.pageNum := by rw [hpn]; exact hh.1.1
  have hfp2 : frameOfPage md f.pageNum = some f := by rw [hpn]; exact hfp
  obtain ⟨_, u⟩ := PoolInv_setData hb.inv hf hfx d
  have st : Step md (setFrame md i { f with data := d }) := by
    apply Step_FrameUpd hb.inv u ho hp rfl rfl rfl (hb.inv.frames i f hf).2.1
    · intro hz _
      have : f.fixCount = 0 := hz
      omega
    · exact fun hx => hx
  refine ⟨_, ?_, ⟨st, ?_, ?_, fun h1 => PointsTo_upd u, u.file, u.table, ?_⟩⟩
  · unfold setHandleData
    rw [hd, liveMetadata_withMd]
    simp only [hf]
    rfl
  case refine_4 =>
    intro q hcp
    rcases hcp with h1 | ⟨j, g, hg, hg0, hts⟩
    · left
      unfold frameOfPage at h1 ⊢
      rw [u.table]
      split
      · rename_i i1 hi1
        rw [hi1] at h1
        by_cases e : i1 = i
        · rw [e, u.new]
          exact fun x => Option.noConfusion x
        · rw [u.others i1 e]
          exact h1
      · rename_i hx
        split at h1
        · rename_i i2 hi2
          exact absurd hi2 (hx i2)
        · exact absurd rfl h1
    · right
      have hji : j ≠ i := by
        intro e
        rw [e, hf] at hg
        cases hg
        omega
      exact ⟨j, g, by rw [u.others j hji]; exact hg, hg0, hts⟩
  · intro q hq
    rw [viewPage_upd hb.inv u ho hp q hq, hpn]
  · intro q hq
    rw [fixOf_upd hb.inv u ho hp q hq]
    split
    · rename_i hqp; subst hqp
      rw [fixOf_of_frameOfPage hfp2]
    · rfl


theorem PinOK.frame_other {md md1 : BM_Metadata} {p i : Int} {f1 : BM_PageFrame}
    (hi : PoolInv md) (k : PinOK md md1 p i f1) (hp : 0 ≤ p) {q : Int} (hq : 0 ≤ q)
    (hqp : q ≠ p) : frameOfPage md1 q = frameOfPage md q ∨
      (frameOfPage md1 q = none ∧ ∃ f, frameOfPage md q = some f ∧ f.fixCount = 0) := by
  have hl1 := (k.inv.lookup p i hp).2 ⟨f1, k.new, k.occ, k.pn⟩
  cases h1 : frameOfPage md1 q with
  | some g =>
    left
    obtain ⟨j, hj, hg, ho, hpn⟩ := frameOfPage_some k.inv hq h1
    have hji : j ≠ i := by
      intro e; subst e
      rw [k.new] at hg
      cases hg
      exact hqp (hpn.symm.trans k.pn)
    rw [k.others j hji] at hg
    have := (hi.lookup q j hq).2 ⟨g, hg, ho, hpn⟩
    unfold frameOfPage
    rw [this]
    exact hg.symm
  | none =>
    cases h0 : frameOfPage md q with
    | none => left; rfl
    | some g =>
      right
      refine ⟨rfl, g, rfl, ?_⟩
      obtain ⟨j, hj, hg, ho, hpn⟩ := frameOfPage_some hi hq h0
      by_cases hji : j = i
      · subst hji
        obtain ⟨f, hf, hfx, _⟩ := k.fix
        rw [hg] at hf
        cases hf
        rcases k.hitOrMiss with ⟨hh, _⟩ | ⟨_, hm⟩
        · obtain ⟨g2, hg2, _, hpn2⟩ := (hi.lookup p j hp).1 hh
          rw [hg] at hg2
          cases hg2
          exact absurd (hpn.symm.trans hpn2) hqp
        · omega
      · have h2 := k.tableOthers q j hq hj hji
        unfold frameOfPage at h1
        rw [h2] at h1
        have h3 : frameAt md1 j = none := h1
        rw [k.others j hji, hg] at h3
        cases h3

theorem PinOK.toTouch {md md1 : BM_Metadata} {p i : Int} {f1 : BM_PageFrame}
    (hi : PoolInv md) (k : PinOK md md1 p i f1) (hp : 0 ≤ p) : Touch md md1 p 1 := by
  have hl1 := (k.inv.lookup p i hp).2 ⟨f1, k.new, k.occ, k.pn⟩
  have hf1 : frameOfPage md1 p = some f1 := by
    unfold frameOfPage; rw [hl1]; exact k.new
  have hfix : ∀ q, 0 ≤ q → fixOf md1 q = fixOf md q + (if q = p then 1 else 0) := by
    intro q hq
    by_cases hqp : q = p
    · subst hqp
      rw [if_pos rfl, fixOf_of_frameOfPage hf1]
      obtain ⟨f, hf, hfx, _⟩ := k.fix
      rcases k.hitOrMiss with ⟨hh, _⟩ | ⟨hm, hm1⟩
      · have : frameOfPage md q = some f := by unfold frameOfPage; rw [hh]; exact hf
        rw [fixOf_of_frameOfPage this, hfx]
      · have : frameOfPage md q = none := by unfold frameOfPage; rw [hm]
        unfold fixOf
        rw [this, hm1]; rfl
    · rw [if_neg hqp, add_zero]
      rcases k.frame_other hi hp hq hqp with h | ⟨h1, g, hg, hg0⟩
      · unfold fixOf; rw [h]
      · unfold fixOf; rw [h1, hg]; exact hg0.symm
  refine ⟨⟨k.inv, k.len, ?_, ?_, ?_⟩, k.view, hfix⟩
  · intro h hh
    obtain ⟨j, g, hd, hg, ho, hpn, hfp⟩ := hh.1.frame hi
    have hgx : 1 ≤ g.fixCount := by
      have := hh.2
      rw [fixOf_of_frameOfPage hfp] at this
      exact this
    refine ⟨hh.1.1, j, hd, ?_⟩
    by_cases hqp : h.pageNum = p
    · rw [hqp]
      rcases k.hitOrMiss with ⟨hhit, _⟩ | ⟨hm, _⟩
      · obtain ⟨_, x, hx1, hx2⟩ := hh.1
        rw [hqp, hhit] at hx2
        rw [hd] at hx1
        cases hx1; cases hx2
        exact hl1
      · unfold frameOfPage at hfp
        rw [hqp, hm] at hfp
        cases hfp
    · rcases k.frame_other hi hp hh.1.1 hqp with h1 | ⟨_, g2, hg2, hg0⟩
      · rw [hfp] at h1
        obtain ⟨j2, hj2, hgj2, _, _⟩ := frameOfPage_some k.inv hh.1.1 h1
        have : j2 = j := by
          rw [← (k.inv.frames j2 g hgj2).1, ← (hi.frames j g hg).1]
        rw [← this]; exact hj2
      · rw [hfp] at hg2
        cases hg2
        omega
  · intro ht q hq
    rcases k.file q (le_of_lt hq) with h | h
    · rw [h]; exact (ht q hq).2
    · rw [h]; exact (ht q hq).1
  · intro q hq hs _ _ g hg
    by_cases hqp : q = p
    · subst hqp
      rw [hf1] at hg
      cases hg
      exact k.safe
    · rcases k.frame_other hi hp hq hqp with h1 | ⟨h1, _⟩
      · rw [h1] at hg
        rcases hs g hg with h2 | h2 | h2
        · left; exact h2
        · right; left; exact h2
        · right; right
          obtain ⟨_, _, _, _, hpn⟩ := frameOfPage_some hi hq hg
          rw [hpn] at h2 ⊢
          rcases k.file q hq with h3 | h3
          · rw [h3]; exact h2
          · rw [h3]; exact viewPage_of_frameOfPage hg
      · rw [h1] at hg; cases hg

/-- A pin by the record manager: either the page is pinned and nothing of the page images
changes, or the call fails because the page is not cached and no frame can be replaced. -/
theorem rmPinPage_spec {s : RMState} {md : BM_Metadata} (hb : PoolBase s md)
    (h0 : BM_PageHandle) {p : Int} (hp : 0 ≤ p) :
    (∃ md1 h, rmPinPage (withMd s md) h0 p = some (RC.RC_OK, withMd s md1, h)
      ∧ Touch md md1 p 1 ∧ PointsTo md1 h ∧ h.pageNum = p ∧ Safe md1 p
      ∧ (frameOfPage md p ≠ none →
          ∀ q, 0 ≤ q → getValue md1.pageTable q = getValue md.pageTable q))
    ∨ (rmPinPage (withMd s md) h0 p = some (RC.RC_WRITE_FAILED, withMd s md, h0)
      ∧ ¬ CanPin md p) := by
  rcases pinPage_spec hb.poolOK hb.lru h0 hp with ⟨md1, i, f1, he, k, _⟩ | ⟨he, hn, hno⟩
  · left
    have hl1 := (k.inv.lookup p i hp).2 ⟨f1, k.new, k.occ, k.pn⟩
    have hf1 : frameOfPage md1 p = some f1 := by
      unfold frameOfPage; rw [hl1]; exact k.new
    refine ⟨md1, { pageNum := p, data := some i }, ?_, k.toTouch hb.inv hp, ⟨hp, i, rfl, hl1⟩,
      rfl, ?_, ?_⟩
    · unfold rmPinPage
      rw [he]
      rfl
    · intro g hg
      rw [hf1] at hg
      cases hg
      exact k.safe
    · intro hc
      rcases k.hitOrMiss with ⟨_, hh⟩ | ⟨hm, _⟩
      · exact hh
      · exfalso
        apply hc
        unfold frameOfPage
        rw [hm]
  · right
    refine ⟨?_, ?_⟩
    · unfold rmPinPage
      rw [he]
    · rintro (hc | ⟨j, f, hf, hfx, hts⟩)
      · apply hc
        unfold frameOfPage
        rw [hn]
      · exact hno j f hf ⟨hfx, hts⟩

/-! ## Handles across steps -/

theorem Held_upd {md md1 : BM_Metadata} {p : Int} {d : PageContent} (u : Upd md md1 p d)
    {h : BM_PageHandle} (hh : Held md h) : Held md1 h :=
  ⟨u.pts h hh.1, by rw [u.fix _ hh.1.1]; exact hh.2⟩

theorem Held_touch {md md1 : BM_Metadata} {p k : Int} (t : Touch md md1 p k)
    {h : BM_PageHandle} (hh : Held md h)
    (hk : 0 ≤ k ∨ h.pageNum ≠ p ∨ 1 ≤ fixOf md p + k) : Held md1 h := by
  refine ⟨t.step.stable h hh, ?_⟩
  rw [t.fix _ hh.1.1]
  have := hh.2
  split
  · rename_i e
    rcases hk with hk | hk | hk
    · omega
    · exact absurd e hk
    · rw [e]; exact hk
  · omega

theorem Ctx_upd {s : RMState} {md md1 : BM_Metadata} {p : Int} {d : PageContent}
    (c : Ctx s md) (u : Upd md md1 p d) : Ctx s md1 :=
  ⟨c.base.step u.step, Held_upd u c.cat, c.cat0⟩

theorem Ctx_touch {s : RMState} {md md1 : BM_Metadata} {p k : Int}
    (c : Ctx s md) (t : Touch md md1 p k)
    (hk : 0 ≤ k ∨ 0 ≠ p ∨ 1 ≤ fixOf md p + k) : Ctx s md1 :=
  ⟨c.base.step t.step, Held_touch t c.cat (by rw [c.cat0]; exact hk), c.cat0⟩

theorem Ctx_withMd {s : RMState} {md md0 : BM_Metadata} :
    Ctx (withMd s md0) md ↔ Ctx s md :=
  ⟨fun h => ⟨PoolBase_withMd.1 h.base, h.cat, h.cat0⟩,
   fun h => ⟨PoolBase_withMd.2 h.base, h.cat, h.cat0⟩⟩

/-! ## Catalog and page access -/

theorem getSystemCatalog_eq {s : RMState} {md : BM_Metadata} (c : Ctx s md) :
    getSystemCatalog (withMd s md) = catalogOf md := by
  unfold getSystemCatalog catalogOf
  rw [withMd_catalogPageHandle, handleData_of_pointsTo c.base.inv c.cat.1, c.cat0]
  rfl

theorem getTable_eq {s : RMState} {md : BM_Metadata} (c : Ctx s md) (i : Int) :
    getTable (withMd s md) i = tableOf md i := by
  unfold getTable tableOf
  rw [getSystemCatalog_eq c]

theorem pageBytes_eq {s : RMState} {md : BM_Metadata} (hi : PoolInv md)
    {h : BM_PageHandle} (hpt : PointsTo md h) :
    pageBytes (withMd s md) h = bytesOf md h.pageNum := by
  unfold pageBytes bytesOf
  rw [handleData_of_pointsTo hi hpt]
  rfl

theorem setSystemCatalog_spec {s : RMState} {md : BM_Metadata} (c : Ctx s md)
    {cat0 : RM_SystemCatalog} (h0 : catalogOf md = some cat0) (cat : RM_SystemCatalog) :
    ∃ md1, setSystemCatalog (withMd s md) cat = some (withMd s md1)
      ∧ Upd md md1 0 (PageContent.catalog cat) := by
  obtain ⟨md1, h1, u⟩ := setHandleData_spec c.base c.cat (PageContent.catalog cat)
  refine ⟨md1, ?_, by rw [c.cat0] at u; exact u⟩
  unfold setSystemCatalog
  rw [getSystemCatalog_eq c, h0]
  exact h1

theorem setTable_spec {s : RMState} {md : BM_Metadata} (c : Ctx s md)
    {cat0 : RM_SystemCatalog} (h0 : catalogOf md = some cat0) {i : Int}
    {t0 : RM_SystemSchema} (ht : getI? cat0.tables i = some t0) (t : RM_SystemSchema) :
    ∃ md1, setTable (withMd s md) i t = some (withMd s md1)
      ∧ Upd md md1 0 (PageContent.catalog { cat0 with tables := cat0.tables.set i.toNat t }) := by
  obtain ⟨md1, h1, u⟩ := setSystemCatalog_spec c h0 { cat0 with tables := cat0.tables.set i.toNat t }
  refine ⟨md1, ?_, u⟩
  unfold setTable
  rw [getSystemCatalog_eq c, h0]
  simp only [ht]
  exact h1

theorem markSystemCatalogDirty_spec {s : RMState} {md : BM_Metadata} (c : Ctx s md) :
    ∃ md1, markSystemCatalogDirty (withMd s md) = some (RC.RC_OK, withMd s md1)
      ∧ Touch md md1 0 0 ∧ (∀ h1, PointsTo md h1 → PointsTo md1 h1)
      ∧ md1.pageFile = md.pageFile ∧ Safe md1 0 := by
  obtain ⟨md1, h1, t, hs, hp, hf, _⟩ := rmMarkDirty_spec c.base c.cat.1
  refine ⟨md1, h1, by rw [c.cat0] at t; exact t, hp, hf, by rw [c.cat0] at hs; exact hs⟩

theorem setPageBytes_spec {s : RMState} {md : BM_Metadata} (hb : PoolBase s md)
    {h : BM_PageHandle} (hh : Held md h) {b0 : List Nat}
    (h0 : bytesOf md h.pageNum = some b0) (b : List Nat) :
    ∃ md1, setPageBytes (withMd s md) h b = some (withMd s md1)
      ∧ Upd md md1 h.pageNum (PageContent.bytes b) := by
  obtain ⟨md1, h1, u⟩ := setHandleData_spec hb hh (PageContent.bytes b)
  refine ⟨md1, ?_, u⟩
  unfold setPageBytes
  rw [pageBytes_eq hb.inv hh.1, h0]
  exact h1

theorem writeHeaderField_spec {s : RMState} {md : BM_Metadata} (hb : PoolBase s md)
    {h : BM_PageHandle} (hh : Held md h) {b0 b1 : List Nat}
    (h0 : bytesOf md h.pageNum = some b0) {off v : Int} (hw : writeInt b0 off v = some b1) :
    ∃ md1, writeHeaderField (withMd s md) h off v = some (withMd s md1)
      ∧ Upd md md1 h.pageNum (PageContent.bytes b1) := by
  obtain ⟨md1, h1, u⟩ := setPageBytes_spec hb hh h0 b1
  refine ⟨md1, ?_, u⟩
  unfold writeHeaderField
  rw [pageBytes_eq hb.inv hh.1, h0]
  simp only [hw]
  exact h1

/-! ## Observations across steps -/

theorem catalogOf_upd_ne {md md1 : BM_Metadata} {p : Int} {d : PageContent}
    (u : Upd md md1 p d) (hp : p ≠ 0) : catalogOf md1 = catalogOf md := by
  unfold catalogOf
  rw [u.view 0 (le_refl 0), if_neg (fun e => hp e.symm)]

theorem catalogOf_upd {md md1 : BM_Metadata} {c : RM_SystemCatalog}
    (u : Upd md md1 0 (PageContent.catalog c)) : catalogOf md1 = some c := by
  unfold catalogOf
  rw [u.view 0 (le_refl 0), if_pos rfl]
  rfl

theorem catalogOf_touch {md md1 : BM_Metadata} {p k : Int} (t : Touch md md1 p k) :
    catalogOf md1 = catalogOf md := by
  unfold catalogOf
  rw [t.view 0 (le_refl 0)]

theorem tableOf_touch {md md1 : BM_Metadata} {p k : Int} (t : Touch md md1 p k) (i : Int) :
    tableOf md1 i = tableOf md i := by
  unfold tableOf
  rw [catalogOf_touch t]

theorem tableOf_upd_ne {md md1 : BM_Metadata} {p : Int} {d : PageContent}
    (u : Upd md md1 p d) (hp : p ≠ 0) (i : Int) : tableOf md1 i = tableOf md i := by
  unfold tableOf
  rw [catalogOf_upd_ne u hp]

theorem bytesOf_touch {md md1 : BM_Metadata} {p k : Int} (t : Touch md md1 p k)
    {q : Int} (hq : 0 ≤ q) : bytesOf md1 q = bytesOf md q := by
  unfold bytesOf
  rw [t.view q hq]

theorem bytesOf_upd {md md1 : BM_Metadata} {p : Int} {b : List Nat}
    (u : Upd md md1 p (PageContent.bytes b)) (hp : 0 ≤ p) : bytesOf md1 p = some b := by
  unfold bytesOf
  rw [u.view p hp, if_pos rfl]
  rfl

theorem bytesOf_upd_ne {md md1 : BM_Metadata} {p : Int} {d : PageContent}
    (u : Upd md md1 p d) {q : Int} (hq : 0 ≤ q) (hqp : q ≠ p) :
    bytesOf md1 q = bytesOf md q := by
  unfold bytesOf
  rw [u.view q hq, if_neg hqp]

/-- From a pinned data page the catalog page is a different page. -/
theorem page_ne_zero_of_bytes {md : BM_Metadata} {p : Int} {b : List Nat}
    {c : RM_SystemCatalog} (hb : bytesOf md p = some b)
    (hc : viewPage md 0 = PageContent.catalog c) : p ≠ 0 := by
  intro e
  subst e
  unfold bytesOf at hb
  rw [hc] at hb
  cases hb

/-! ## Open tables across steps -/

theorem TableOpen.catalog {md : BM_Metadata} {i : Int} {t : RM_SystemSchema}
    {hm : BM_PageHandle} (o : TableOpen md i t hm) :
    ∃ c, catalogOf md = some c ∧ getI? c.tables i = some t := by
  have := o.desc
  unfold tableOf at this
  cases hc : catalogOf md with
  | none => rw [hc] at this; cases this
  | some c => rw [hc] at this; exact ⟨c, rfl, this⟩

theorem getI?_replicate {α : Type} {n : Nat} {a x : α} {i : Int}
    (h : getI? (List.replicate n a) i = some x) : x = a := by
  unfold getI? at h
  split at h
  · rw [List.getElem?_replicate] at h
    split at h
    · cases h; rfl
    · cases h
  · cases h

/-- Page 0 holds the catalog structure as soon as some table is open. -/
theorem TableOpen.catalogPage {md : BM_Metadata} {i : Int} {t : RM_SystemSchema}
    {hm : BM_PageHandle} (o : TableOpen md i t hm) :
    ∃ c, viewPage md 0 = PageContent.catalog c := by
  obtain ⟨c, hc, ht⟩ := o.catalog
  unfold catalogOf at hc
  cases hv : viewPage md 0 with
  | catalog c1 => exact ⟨c1, rfl⟩
  | bytes b =>
    rw [hv] at hc
    by_cases hz : b = List.replicate PAGE_SIZE 0
    · have hc2 : some zeroSystemCatalog = some c := by
        rw [← hc]; exact (if_pos hz).symm
      cases hc2
      have h3 : getI? (List.replicate MAX_NUM_TABLES zeroSystemSchema) i = some t := ht
      have := getI?_replicate h3
      have h2 := o.handle
      rw [this] at h2
      cases h2
    · have hc2 : (none : Option RM_SystemCatalog) = some c := by
        rw [← hc]; exact (if_neg hz).symm
      cases hc2

theorem TableOpen.page_ne_zero {md : BM_Metadata} {i : Int} {t : RM_SystemSchema}
    {hm : BM_PageHandle} (o : TableOpen md i t hm) {p : Int} {b : List Nat}
    (hb : bytesOf md p = some b) : p ≠ 0 := by
  obtain ⟨c, hc⟩ := o.catalogPage
  exact page_ne_zero_of_bytes hb hc

theorem TableOpen_touch {md md1 : BM_Metadata} {p k : Int} (tc : Touch md md1 p k)
    {i : Int} {t : RM_SystemSchema} {hm : BM_PageHandle} (o : TableOpen md i t hm)
    (hk : 0 ≤ k ∨ hm.pageNum ≠ p ∨ 1 ≤ fixOf md p + k) : TableOpen md1 i t hm :=
  ⟨by rw [tableOf_touch tc]; exact o.desc, o.handle, Held_touch tc o.held hk, o.page⟩

theorem TableOpen_upd_ne {md md1 : BM_Metadata} {p : Int} {d : PageContent}
    (u : Upd md md1 p d) (hp : p ≠ 0)
    {i : Int} {t : RM_SystemSchema} {hm : BM_PageHandle} (o : TableOpen md i t hm) :
    TableOpen md1 i t hm :=
  ⟨by rw [tableOf_upd_ne u hp]; exact o.desc, o.handle, Held_upd u o.held, o.page⟩

theorem getI?_set_same {α : Type} {l : List α} {i : Int} {x : α} (h : getI? l i = some x)
    (y : α) : getI? (l.set i.toNat y) i = some y := by
  unfold getI? at h ⊢
  split at h
  · rename_i h0
    rw [if_pos h0]
    have hl : i.toNat < l.length := by
      by_contra hn
      rw [List.getElem?_eq_none (by omega)] at h
      cases h
    rw [List.getElem?_set_self hl]
  · cases h

theorem getI?_set_ne {α : Type} (l : List α) {i j : Int} (hi : 0 ≤ i) (hij : i ≠ j) (y : α) :
    getI? (l.set i.toNat y) j = getI? l j := by
  unfold getI?
  split
  · rename_i hj
    rw [List.getElem?_set_ne]
    omega
  · rfl

/-- The descriptor of the open table after a store of `t1` through its pointer. -/
theorem TableOpen_setTable {md md1 : BM_Metadata} {c : RM_SystemCatalog}
    {i : Int} {t t1 : RM_SystemSchema} {hm : BM_PageHandle} (o : TableOpen md i t hm)
    (hc : catalogOf md = some c)
    (u : Upd md md1 0 (PageContent.catalog { c with tables := c.tables.set i.toNat t1 }))
    (hh : t1.handle = t.handle) (hp : t1.pageNum = t.pageNum) : TableOpen md1 i t1 hm := by
  obtain ⟨c2, hc2, ht⟩ := o.catalog
  rw [hc] at hc2
  cases hc2
  refine ⟨?_, hh.trans o.handle, Held_upd u o.held, o.page.trans hp.symm⟩
  unfold tableOf
  rw [catalogOf_upd u]
  exact getI?_set_same ht t1

/-! ## The macros around the use of a table page -/

theorem beginUseTablePage_spec {s : RMState} {md : BM_Metadata} (c : Ctx s md)
    {rel : RM_TableData} {t : RM_SystemSchema} {hm : BM_PageHandle}
    (o : TableOpen md rel.mgmtData t hm) (id : RID) (hp : 0 ≤ id.page) :
    (∃ md1 h, beginUseTablePage (withMd s md) rel id = some (RC.RC_OK, withMd s md1, h)
      ∧ Using s md md1 rel.mgmtData t hm id.page h)
    ∨ (beginUseTablePage (withMd s md) rel id = some (RC.RC_WRITE_FAILED, withMd s md, uninitHandle)
      ∧ id.page ≠ t.pageNum ∧ ¬ CanPin md id.page) := by
  unfold beginUseTablePage getSystemSchema
  rw [getTable_eq c, o.desc]
  by_cases hpm : id.page = t.pageNum
  · left
    refine ⟨md, hm, ?_, ⟨c, o, o.held, o.page.trans hpm.symm, fun _ _ => rfl, ?_, ?_, fun _ h => h⟩⟩
    · simp only [hpm, if_true, o.handle]
    · intro q _
      rw [if_neg (fun h => h.2 hpm), add_zero]
    · intro h; exact absurd hpm h
  · simp only [hpm, if_false]
    rcases rmPinPage_spec c.base uninitHandle hp with ⟨md1, h, e, tc, hpt, hpg, hsafe, _⟩ | ⟨e, hn⟩
    · left
      have hk : ∀ h1, Held md h1 → Held md1 h1 := fun h1 hh => Held_touch tc hh (Or.inl (by decide))
      refine ⟨md1, h, e, ⟨Ctx_touch c tc (Or.inl (by decide)),
        TableOpen_touch tc o (Or.inl (by decide)), ⟨hpt, ?_⟩, hpg, tc.view, ?_, fun _ => hsafe, hk⟩⟩
      · rw [hpg, tc.fix _ hp, if_pos rfl]
        have := fixOf_nonneg c.base.inv hp
        omega
      · intro q hq
        rw [tc.fix q hq]
        by_cases hqp : q = id.page
        · rw [if_pos hqp, if_pos ⟨hqp, hpm⟩]
        · rw [if_neg hqp, if_neg (fun h => hqp h.1)]
    · right
      exact ⟨e, hpm, hn⟩


theorem endUseTablePage_spec {s : RMState} {md : BM_Metadata} (c : Ctx s md)
    {rel : RM_TableData} {t : RM_SystemSchema} {hm : BM_PageHandle}
    (o : TableOpen md rel.mgmtData t hm) (id : RID) {h : BM_PageHandle}
    (hh : Held md h) (hpg : h.pageNum = id.page) (hp0 : id.page ≠ 0)
    (hsafe : id.page ≠ t.pageNum → Safe md id.page) :
    ∃ md1, endUseTablePage (withMd s md) rel id h = some (RC.RC_OK, withMd s md1)
      ∧ Ctx s md1 ∧ TableOpen md1 rel.mgmtData t hm
      ∧ (∀ q, 0 ≤ q → viewPage md1 q = viewPage md q)
      ∧ (∀ q, 0 ≤ q → fixOf md1 q = fixOf md q - (if q = id.page ∧ id.page ≠ t.pageNum then 1 else 0))
      ∧ (∀ h1, PointsTo md h1 → PointsTo md1 h1) := by
  unfold endUseTablePage getSystemSchema
  rw [getTable_eq c, o.desc]
  by_cases hpm : id.page = t.pageNum
  · refine ⟨md, ?_, c, o, fun _ _ => rfl, ?_, fun _ h => h⟩
    · simp only [hpm, ne_eq, not_true_eq_false, if_false]
    · intro q _
      rw [if_neg (fun h => h.2 hpm), sub_zero]
  · obtain ⟨md1, e, tc, hpts, _, _, _⟩ := rmUnpinPage_spec c.base hh (by rw [hpg]; exact hsafe hpm)
    rw [hpg] at tc
    refine ⟨md1, ?_, Ctx_touch c tc (Or.inr (Or.inl (fun e => hp0 e.symm))),
      TableOpen_touch tc o (Or.inr (Or.inl (by rw [o.page]; exact fun e => hpm e.symm))),
      tc.view, ?_, hpts⟩
    · simp only [ne_eq, hpm, not_false_eq_true, if_true]
      exact e
    · intro q hq
      rw [tc.fix q hq]
      by_cases hqp : q = id.page
      · rw [if_pos hqp, if_pos ⟨hqp, hpm⟩]; rfl
      · rw [if_neg hqp, if_neg (fun h => hqp h.1)]; simp


theorem tableOf_view {md md1 : BM_Metadata} (hv : ∀ q, 0 ≤ q → viewPage md1 q = viewPage md q)
    (i : Int) : tableOf md1 i = tableOf md i := by
  unfold tableOf catalogOf
  rw [hv 0 (le_refl 0)]

theorem bytesOf_view {md md1 : BM_Metadata} (hv : ∀ q, 0 ≤ q → viewPage md1 q = viewPage md q)
    {q : Int} (hq : 0 ≤ q) : bytesOf md1 q = bytesOf md q := by
  unfold bytesOf
  rw [hv q hq]

theorem recordSizeOf_view {md md1 : BM_Metadata}
    (hv : ∀ q, 0 ≤ q → viewPage md1 q = viewPage md q) (r : SchemaRef) :
    recordSizeOf md1 r = recordSizeOf md r := by
  unfold recordSizeOf schemaOf
  rw [tableOf_view hv]

theorem derefSchema_eq {s : RMState} {md : BM_Metadata} (c : Ctx s md) (r : SchemaRef) :
    derefSchema (withMd s md) r = schemaOf md r := by
  unfold derefSchema schemaOf
  rw [getTable_eq c]

/-- The end of a use of page `p` brings back the fix counts of the state before it. -/
theorem Using.finish {s : RMState} {md md1 : BM_Metadata} {rel : RM_TableData}
    {t : RM_SystemSchema} {hm h : BM_PageHandle} {id : RID}
    (u : Using s md md1 rel.mgmtData t hm id.page h) (hp : 0 ≤ id.page) (hp0 : id.page ≠ 0) :
    ∃ md2, endUseTablePage (withMd s md1) rel id h = some (RC.RC_OK, withMd s md2)
      ∧ Ctx s md2 ∧ TableOpen md2 rel.mgmtData t hm ∧ Same md md2
      ∧ (∀ h1, PointsTo md1 h1 → PointsTo md2 h1) := by
  obtain ⟨md2, e, c2, o2, hv, hf, hpts⟩ := endUseTablePage_spec u.ctx u.tbl id u.held u.page hp0 u.safe
  have hfix : ∀ q, 0 ≤ q → fixOf md2 q = fixOf md q := by
    intro q hq
    rw [hf q hq, u.fix q hq]
    omega
  refine ⟨md2, e, c2, o2, ⟨fun q hq => (hv q hq).trans (u.view q hq), hfix, ?_⟩, hpts⟩
  intro h1 hh
  exact ⟨hpts h1 (u.keep h1 hh).1, by rw [hfix _ hh.1.1]; exact hh.2⟩

/-- The source's `getRecord` on a page whose bytes are `b`: the pin of the page fails, or
the call returns what `getRecordOn` computes from `b`, in the state `md1` that still holds
the pin when it fails and in the state `md2` after the unpin when it succeeds. -/
theorem getRecord_eval {s : RMState} {md : BM_Metadata} (c : Ctx s md)
    {rel : RM_TableData} {t : RM_SystemSchema} {hm : BM_PageHandle}
    (o : TableOpen md rel.mgmtData t hm) (id : RID) (hp : 0 ≤ id.page) (record : Record)
    {b : List Nat} (hb : bytesOf md id.page = some b) :
    (getRecord (withMd s md) rel id record = some (RC.RC_WRITE_FAILED, withMd s md, record)
      ∧ id.page ≠ t.pageNum ∧ ¬ CanPin md id.page)
    ∨ ∃ md1 md2 h, Using s md md1 rel.mgmtData t hm id.page h
      ∧ Ctx s md2 ∧ TableOpen md2 rel.mgmtData t hm ∧ Same md md2
      ∧ (∀ h1, PointsTo md1 h1 → PointsTo md2 h1)
      ∧ getRecord (withMd s md) rel id record =
        match getRecordOn b (recordSizeOf md rel.schema) id record.data with
        | none => none
        | some none => some (RC.RC_WRITE_FAILED, withMd s md1, record)
        | some (some data) => some (RC.RC_OK, withMd s md2, { id := id, data := data }) := by
  rcases beginUseTablePage_spec c o id hp with ⟨md1, h, e, u⟩ | ⟨e, hpm, hn⟩
  · right
    obtain ⟨md2, e2, c2, o2, sm, hpts⟩ := u.finish hp (o.page_ne_zero hb)
    refine ⟨md1, md2, h, u, c2, o2, sm, hpts, ?_⟩
    unfold getRecord getRecordOn
    rw [e]
    simp only [ne_eq, not_true_eq_false, if_false]
    rw [pageBytes_eq u.ctx.base.inv u.held.1, u.page, bytesOf_view u.view hp, hb]
    simp only
    cases hn : headerNumSlots b with
    | none => rfl
    | some n =>
      simp only
      by_cases hs : id.slot ≥ n
      · simp only [hs, if_true]
      · simp only [hs, if_false]
        cases hv : getSlot b id.slot with
        | none => rfl
        | some v =>
          simp only
          by_cases hv0 : v = 0
          · simp only [hv0, if_true]
          · simp only [hv0, if_false]
            rw [derefSchema_eq u.ctx, ← recordSizeOf_view u.view]
            unfold recordSizeOf
            cases hz : (schemaOf md1 rel.schema).bind getRecordSize with
            | none => rfl
            | some size =>
              simp only
              cases hl : loadTuple b n size id.slot record.data with
              | none => rfl
              | some data =>
                simp only [Option.map_some']
                rw [e2]
                simp
  · left
    refine ⟨?_, hpm, hn⟩
    unfold getRecord
    rw [e]
    simp


theorem CanPin_of_pointsTo {md : BM_Metadata} (hi : PoolInv md) {h : BM_PageHandle}
    (hpt : PointsTo md h) : CanPin md h.pageNum := by
  obtain ⟨_, f, _, _, _, _, hfp⟩ := hpt.frame hi
  left
  rw [hfp]
  exact fun e => Option.noConfusion e

/-- The source's `updateRecord` on a page whose bytes are `b`: the pin of the page fails,
or the call returns what `updateRecordOn` computes from `b`. -/
theorem updateRecord_eval {s : RMState} {md : BM_Metadata} (c : Ctx s md)
    {rel : RM_TableData} {t : RM_SystemSchema} {hm : BM_PageHandle}
    (o : TableOpen md rel.mgmtData t hm) (record : Record) (hp : 0 ≤ record.id.page)
    {b : List Nat} (hb : bytesOf md record.id.page = some b) :
    (updateRecord (withMd s md) rel record = some (RC.RC_WRITE_FAILED, withMd s md)
      ∧ record.id.page ≠ t.pageNum ∧ ¬ CanPin md record.id.page)
    ∨ ∃ md1 h, Using s md md1 rel.mgmtData t hm record.id.page h ∧
        match updateRecordOn b (recordSizeOf md rel.schema) record.id record.data with
        | none => updateRecord (withMd s md) rel record = none
        | some none => updateRecord (withMd s md) rel record
            = some (RC.RC_WRITE_FAILED, withMd s md1)
        | some (some b1) => ∃ md2, updateRecord (withMd s md) rel record
            = some (RC.RC_OK, withMd s md2)
            ∧ Ctx s md2 ∧ TableOpen md2 rel.mgmtData t hm
            ∧ PageSet md md2 record.id.page (PageContent.bytes b1)
            ∧ (record.id.page = t.pageNum ∨ CanPin md2 record.id.page) := by
  rcases beginUseTablePage_spec c o record.id hp with ⟨md1, h, e, u⟩ | ⟨e, hpm, hn⟩
  · right
    refine ⟨md1, h, u, ?_⟩
    have hp0 := o.page_ne_zero hb
    have hb1 : bytesOf md1 h.pageNum = some b := by
      rw [u.page, bytesOf_view u.view hp, hb]
    have hpb : pageBytes (withMd s md1) h = some b := by
      rw [pageBytes_eq u.ctx.base.inv u.held.1, hb1]
    unfold updateRecordOn
    cases hn : headerNumSlots b with
    | none =>
      simp only
      unfold updateRecord
      simp only [e, ne_eq, not_true_eq_false, if_false, hpb, hn]
    | some n =>
      simp only
      by_cases hs : record.id.slot ≥ n
      · simp only [hs, if_true]
        unfold updateRecord
        simp only [e, ne_eq, not_true_eq_false, if_false, hpb, hn, hs, if_true]
      · simp only [hs, if_false]
        cases hv : getSlot b record.id.slot with
        | none =>
          simp only
          unfold updateRecord
          simp only [e, ne_eq, not_true_eq_false, if_false, hpb, hn, hs, hv]
        | some v =>
          simp only
          by_cases hv0 : v = 0
          · simp only [hv0, if_true]
            unfold updateRecord
            simp only [e, ne_eq, not_true_eq_false, if_false, hpb, hn, hs, hv, hv0, if_true]
          · simp only [hv0, if_false]
            have hsz : (derefSchema (withMd s md1) rel.schema).bind getRecordSize
                = recordSizeOf md rel.schema := by
              rw [derefSchema_eq u.ctx, ← recordSizeOf_view u.view]
              rfl
            cases hz : recordSizeOf md rel.schema with
            | none =>
              simp only
              unfold updateRecord
              simp only [e, ne_eq, not_true_eq_false, if_false, hpb, hn, hs, hv, hv0, hsz, hz]
            | some size =>
              simp only
              cases hst : storeTuple b n size record.id.slot record.data with
              | none =>
                simp only [Option.map_none']
                unfold updateRecord
                simp only [e, ne_eq, not_true_eq_false, if_false, hpb, hn, hs, hv, hv0, hsz, hz, hst,
                  Option.none_bind]
              | some b1 =>
                simp only [Option.map_some']
                obtain ⟨mdA, eA, uA⟩ := setPageBytes_spec u.ctx.base u.held hb1 b1
                have hhA : Held mdA h := Held_upd uA u.held
                have hp0A : h.pageNum ≠ 0 := by rw [u.page]; exact hp0
                have cA : Ctx s mdA := Ctx_upd u.ctx uA
                obtain ⟨mdB, eB, tB, hsB, hptsB, _, _⟩ := rmMarkDirty_spec cA.base hhA.1
                have hhB : Held mdB h := Held_touch tB hhA (Or.inl (le_refl 0))
                have cB : Ctx s mdB := Ctx_touch cA tB (Or.inl (le_refl 0))
                have oB : TableOpen mdB rel.mgmtData t hm :=
                  TableOpen_touch tB (TableOpen_upd_ne uA hp0A u.tbl) (Or.inl (le_refl 0))
                obtain ⟨md2, e2, c2, o2, hv2, hf2, hpts2⟩ := endUseTablePage_spec cB oB record.id
                  hhB u.page hp0 (fun _ => by rw [← u.page]; exact hsB)
                have hfix : ∀ q, 0 ≤ q → fixOf md2 q = fixOf md q := by
                  intro q hq
                  rw [hf2 q hq, tB.fix q hq, uA.fix q hq, u.fix q hq]
                  simp
                refine ⟨md2, ?_, c2, o2, ⟨?_, hfix, ?_⟩, ?_⟩
                · unfold updateRecord
                  simp only [e, ne_eq, not_true_eq_false, if_false, hpb, hn, hs, hv, hv0, hsz, hz,
                    hst, Option.some_bind, eA, eB, e2]
                · intro q hq
                  rw [hv2 q hq, tB.view q hq, uA.view q hq, u.page, u.view q hq]
                · intro h1 hh
                  have h3 := hptsB h1 (uA.pts h1 (u.keep h1 hh).1)
                  exact ⟨hpts2 h1 h3, by rw [hfix _ hh.1.1]; exact hh.2⟩
                · right
                  have := CanPin_of_pointsTo c2.base.inv (hpts2 h hhB.1)
                  rw [u.page] at this
                  exact this
  · left
    refine ⟨?_, hpm, hn⟩
    unfold updateRecord
    simp [e]


/-- The source's `deleteRecord` on a page whose bytes are `b`: the pin of the page fails,
or the call returns what `deleteRecordOn` computes from `b`; when it succeeds the count
`numTuples` of the descriptor is one less. -/
theorem deleteRecord_eval {s : RMState} {md : BM_Metadata} (c : Ctx s md)
    {rel : RM_TableData} {t : RM_SystemSchema} {hm : BM_PageHandle}
    (o : TableOpen md rel.mgmtData t hm) (id : RID) (hp : 0 ≤ id.page)
    {b : List Nat} (hb : bytesOf md id.page = some b)
    {cat : RM_SystemCatalog} (hcat : catalogOf md = some cat) :
    (deleteRecord (withMd s md) rel id = some (RC.RC_WRITE_FAILED, withMd s md)
      ∧ id.page ≠ t.pageNum ∧ ¬ CanPin md id.page)
    ∨ ∃ md1 h, Using s md md1 rel.mgmtData t hm id.page h ∧
        match deleteRecordOn b id with
        | none => deleteRecord (withMd s md) rel id = none
        | some none => deleteRecord (withMd s md) rel id
            = some (RC.RC_WRITE_FAILED, withMd s md1)
        | some (some b1) => ∃ md2, deleteRecord (withMd s md) rel id
            = some (RC.RC_OK, withMd s md2)
            ∧ Ctx s md2
            ∧ TableOpen md2 rel.mgmtData { t with numTuples := t.numTuples - 1 } hm
            ∧ Stored md md2 id.page (PageContent.bytes b1)
                (setDescriptor cat rel.mgmtData { t with numTuples := t.numTuples - 1 })
            ∧ (id.page = t.pageNum ∨ CanPin md2 id.page) := by
  rcases beginUseTablePage_spec c o id hp with ⟨md1, h, e, u⟩ | ⟨e, hpm, hn⟩
  · right
    refine ⟨md1, h, u, ?_⟩
    have hp0 := o.page_ne_zero hb
    have hb1 : bytesOf md1 h.pageNum = some b := by
      rw [u.page, bytesOf_view u.view hp, hb]
    have hpb : pageBytes (withMd s md1) h = some b := by
      rw [pageBytes_eq u.ctx.base.inv u.held.1, hb1]
    unfold deleteRecordOn
    cases hn : headerNumSlots b with
    | none =>
      simp only
      unfold deleteRecord
      simp only [e, ne_eq, not_true_eq_false, if_false, hpb, hn]
    | some n =>
      simp only
      by_cases hs : id.slot ≥ n
      · simp only [hs, if_true]
        unfold deleteRecord
        simp only [e, ne_eq, not_true_eq_false, if_false, hpb, hn, hs, if_true]
      · simp only [hs, if_false]
        cases hv : getSlot b id.slot with
        | none =>
          simp only
          unfold deleteRecord
          simp only [e, ne_eq, not_true_eq_false, if_false, hpb, hn, hs, hv]
        | some v =>
          simp only
          by_cases hv0 : v = 0
          · simp only [hv0, if_true]
            unfold deleteRecord
            simp only [e, ne_eq, not_true_eq_false, if_false, hpb, hn, hs, hv, hv0, if_true]
          · simp only [hv0, if_false]
            cases hst : setSlot b id.slot 0 with
            | none =>
              simp only [Option.map_none']
              unfold deleteRecord
              simp only [e, ne_eq, not_true_eq_false, if_false, hpb, hn, hs, hv, hv0, hst,
                Option.none_bind]
            | some b1 =>
              simp only [Option.map_some']
              obtain ⟨mdA, eA, uA⟩ := setPageBytes_spec u.ctx.base u.held hb1 b1
              have hhA : Held mdA h := Held_upd uA u.held
              have hp0A : h.pageNum ≠ 0 := by rw [u.page]; exact hp0
              have cA : Ctx s mdA := Ctx_upd u.ctx uA
              have oA : TableOpen mdA rel.mgmtData t hm := TableOpen_upd_ne uA hp0A u.tbl
              have hcatA : catalogOf mdA = some cat := by
                rw [catalogOf_upd_ne uA hp0A]
                unfold catalogOf
                rw [u.view 0 (le_refl 0)]
                exact hcat
              obtain ⟨c2, hc2, ht2⟩ := oA.catalog
              rw [hcatA] at hc2
              cases hc2
              obtain ⟨mdB, eB, uB⟩ := setTable_spec cA hcatA ht2
                { t with numTuples := t.numTuples - 1 }
              have cB : Ctx s mdB := Ctx_upd cA uB
              have oB : TableOpen mdB rel.mgmtData { t with numTuples := t.numTuples - 1 } hm :=
                TableOpen_setTable oA hcatA uB rfl rfl
              have hhB : Held mdB h := Held_upd uB hhA
              obtain ⟨mdC, eC, tC, hptsC, _, _⟩ := markSystemCatalogDirty_spec cB
              have cC : Ctx s mdC := Ctx_touch cB tC (Or.inl (le_refl 0))
              have oC := TableOpen_touch tC oB (Or.inl (le_refl 0))
              have hhC : Held mdC h := Held_touch tC hhB (Or.inl (le_refl 0))
              obtain ⟨mdD, eD, tD, hsD, hptsD, _, _⟩ := rmMarkDirty_spec cC.base hhC.1
              have cD : Ctx s mdD := Ctx_touch cC tD (Or.inl (le_refl 0))
              have oD := TableOpen_touch tD oC (Or.inl (le_refl 0))
              have hhD : Held mdD h := Held_touch tD hhC (Or.inl (le_refl 0))
              obtain ⟨md2, e2, c2, o2, hv2, hf2, hpts2⟩ := endUseTablePage_spec cD oD id
                hhD u.page hp0 (fun _ => by rw [← u.page]; exact hsD)
              have hfix : ∀ q, 0 ≤ q → fixOf md2 q = fixOf md q := by
                intro q hq
                rw [hf2 q hq, tD.fix q hq, tC.fix q hq, uB.fix q hq, uA.fix q hq, u.fix q hq]
                simp
              refine ⟨md2, ?_, c2, o2, ⟨?_, hfix, ?_⟩, ?_⟩
              · unfold deleteRecord
                simp only [e, ne_eq, not_true_eq_false, if_false, hpb, hn, hs, hv, hv0,
                  hst, Option.some_bind, eA, getSystemSchema, getTable_eq cA, oA.desc, eB,
                  eC, eD, e2]
              · intro q hq
                rw [hv2 q hq, tD.view q hq, tC.view q hq, uB.view q hq, uA.view q hq, u.page,
                  u.view q hq]
                by_cases hqp : q = id.page
                · have : q ≠ 0 := by rw [hqp]; exact hp0
                  rw [if_neg this, if_pos hqp, if_pos hqp]
                · rw [if_neg hqp, if_neg hqp]
                  rfl
              · intro h1 hh
                have h3 := hptsD h1 (hptsC h1 (uB.pts h1 (uA.pts h1 (u.keep h1 hh).1)))
                exact ⟨hpts2 h1 h3, by rw [hfix _ hh.1.1]; exact hh.2⟩
              · right
                have := CanPin_of_pointsTo c2.base.inv (hpts2 h hhD.1)
                rw [u.page] at this
                exact this
  · left
    refine ⟨?_, hpm, hn⟩
    unfold deleteRecord
    simp [e]

/-! ## Slot bytes and the page header -/

theorem setSlot_isSome {b : List Nat} {i : Int} {v : Nat} (h : getSlot b i = some v) (x : Nat) :
    ∃ b1, setSlot b i x = some b1 := by
  unfold getSlot readByte at h
  obtain ⟨h0, h1⟩ := getI?_eq_some h
  have hl : (sizeofPageHeader + i).toNat < b.length := by
    by_contra hn
    rw [List.getElem?_eq_none (by omega)] at h1
    cases h1
  unfold setSlot writeByte
  rw [if_pos ⟨h0, hl⟩]
  exact ⟨_, rfl⟩

theorem getSlot_setSlot_same {b b1 : List Nat} {i : Int} {x : Nat}
    (h : setSlot b i x = some b1) : getSlot b1 i = some x :=
  readByte_writeByte_same h

theorem getSlot_setSlot_other {b b1 : List Nat} {i : Int} {x : Nat}
    (h : setSlot b i x = some b1) (j : Int) (hne : j ≠ i) : getSlot b1 j = getSlot b j :=
  readByte_writeByte_other h _ (by unfold sizeofPageHeader; omega)

theorem headerNumSlots_setSlot {b b1 : List Nat} {i : Int} {x : Nat}
    (h : setSlot b i x = some b1) (h0 : 0 ≤ i) : headerNumSlots b1 = headerNumSlots b :=
  readInt_writeByte_disjoint h 8 (by unfold sizeofPageHeader; omega)

theorem headerNextPage_setSlot {b b1 : List Nat} {i : Int} {x : Nat}
    (h : setSlot b i x = some b1) (h0 : 0 ≤ i) : headerNextPage b1 = headerNextPage b :=
  readInt_writeByte_disjoint h 0 (by unfold sizeofPageHeader; omega)

theorem headerPrevPage_setSlot {b b1 : List Nat} {i : Int} {x : Nat}
    (h : setSlot b i x = some b1) (h0 : 0 ≤ i) : headerPrevPage b1 = headerPrevPage b :=
  readInt_writeByte_disjoint h 4 (by unfold sizeofPageHeader; omega)

theorem setSlot_length {b b1 : List Nat} {i : Int} {x : Nat}
    (h : setSlot b i x = some b1) : b1.length = b.length :=
  writeByte_length h

/-! ## Tuples of a page -/

theorem tupleOffset_ge {n size i : Int} (hs : 0 ≤ size) (hi : 0 ≤ i) :
    sizeofPageHeader + n ≤ tupleOffset n size i := by
  unfold tupleOffset sizeofBool
  have := mul_nonneg hi hs
  omega

theorem tupleOffset_lt {n size i j : Int} (hs : 0 ≤ size) (hij : i < j) :
    tupleOffset n size i + size ≤ tupleOffset n size j := by
  unfold tupleOffset
  have h : 0 ≤ (j - i - 1) * size := mul_nonneg (by omega) hs
  have e : (j - i - 1) * size = j * size - i * size - size := by ring
  omega

theorem storeTuple_eq {b b1 : List Nat} {n size i : Int} {data : List Nat}
    (h : storeTuple b n size i data = some b1) :
    0 ≤ size ∧ size.toNat ≤ data.length
      ∧ writeBytes b (tupleOffset n size i) (data.take size.toNat) = some b1 := by
  unfold storeTuple at h
  split at h
  · cases h
  · rename_i hc
    push_neg at hc
    exact ⟨hc.1, hc.2, h⟩

theorem storeTuple_isSome {b : List Nat} {n size i : Int} {data : List Nat}
    (hs : 0 ≤ size) (hd : size.toNat ≤ data.length) (h0 : 0 ≤ tupleOffset n size i)
    (hfit : tupleOffset n size i + size ≤ b.length) :
    ∃ b1, storeTuple b n size i data = some b1 := by
  unfold storeTuple
  rw [if_neg (by push_neg; exact ⟨hs, hd⟩)]
  apply writeBytes_isSome h0
  rw [List.length_take, min_eq_left hd]
  have : ((size.toNat : Nat) : Int) = size := Int.toNat_of_nonneg hs
  omega

theorem take_length_of_le {data : List Nat} {k : Nat} (h : k ≤ data.length) :
    (data.take k).length = k := by
  rw [List.length_take, min_eq_left h]

theorem storeTuple_length {b b1 : List Nat} {n size i : Int} {data : List Nat}
    (h : storeTuple b n size i data = some b1) : b1.length = b.length :=
  writeBytes_length (storeTuple_eq h).2.2

/-- Reading back the tuple that was stored. -/
theorem loadTuple_storeTuple {b b1 : List Nat} {n size i : Int} {data : List Nat}
    (h : storeTuple b n size i data = some b1) (out : List Nat)
    (ho : size.toNat ≤ out.length) :
    loadTuple b1 n size i out = some (data.take size.toNat ++ out.drop size.toNat) := by
  obtain ⟨hs, hd, hw⟩ := storeTuple_eq h
  have hr := readBytes_writeBytes_same hw
  rw [take_length_of_le hd] at hr
  unfold loadTuple
  rw [if_neg (by push_neg; exact ⟨hs, ho⟩), hr]

/-- The header fields and slot bytes are outside the tuple that is stored. -/
theorem headerNumSlots_storeTuple {b b1 : List Nat} {n size i : Int} {data : List Nat}
    (h : storeTuple b n size i data = some b1) (hn : 0 ≤ n) (hi : 0 ≤ i) :
    headerNumSlots b1 = headerNumSlots b := by
  obtain ⟨hs, _, hw⟩ := storeTuple_eq h
  have := tupleOffset_ge (n := n) hs hi
  exact readInt_writeBytes_disjoint hw 8 (by unfold sizeofPageHeader at this; omega)

theorem headerNextPage_storeTuple {b b1 : List Nat} {n size i : Int} {data : List Nat}
    (h : storeTuple b n size i data = some b1) (hn : 0 ≤ n) (hi : 0 ≤ i) :
    headerNextPage b1 = headerNextPage b := by
  obtain ⟨hs, _, hw⟩ := storeTuple_eq h
  have := tupleOffset_ge (n := n) hs hi
  exact readInt_writeBytes_disjoint hw 0 (by unfold sizeofPageHeader at this; omega)

theorem headerPrevPage_storeTuple {b b1 : List Nat} {n size i : Int} {data : List Nat}
    (h : storeTuple b n size i data = some b1) (hn : 0 ≤ n) (hi : 0 ≤ i) :
    headerPrevPage b1 = headerPrevPage b := by
  obtain ⟨hs, _, hw⟩ := storeTuple_eq h
  have := tupleOffset_ge (n := n) hs hi
  exact readInt_writeBytes_disjoint hw 4 (by unfold sizeofPageHeader at this; omega)

theorem getSlot_storeTuple {b b1 : List Nat} {n size i : Int} {data : List Nat}
    (h : storeTuple b n size i data = some b1) (hi : 0 ≤ i) {j : Int} (hj : j < n) :
    getSlot b1 j = getSlot b j := by
  obtain ⟨hs, _, hw⟩ := storeTuple_eq h
  have := tupleOffset_ge (n := n) hs hi
  exact readByte_writeBytes_disjoint hw _ (Or.inl (by omega))

/-- The tuples of the other slots are outside the tuple that is stored. -/
theorem readTuple_storeTuple_other {b b1 : List Nat} {n size i : Int} {data : List Nat}
    (h : storeTuple b n size i data = some b1) {j : Int} (hij : j ≠ i) :
    readBytes b1 (tupleOffset n size j) size.toNat = readBytes b (tupleOffset n size j) size.toNat := by
  obtain ⟨hs, hd, hw⟩ := storeTuple_eq h
  apply readBytes_writeBytes_disjoint hw
  rw [take_length_of_le hd]
  have e : ((size.toNat : Nat) : Int) = size := Int.toNat_of_nonneg hs
  rw [e]
  rcases lt_or_gt_of_ne hij with h1 | h1
  · left; exact tupleOffset_lt hs h1
  · right; exact tupleOffset_lt hs h1

theorem loadTuple_storeTuple_other {b b1 : List Nat} {n size i : Int} {data : List Nat}
    (h : storeTuple b n size i data = some b1) {j : Int} (hij : j ≠ i) (out : List Nat) :
    loadTuple b1 n size j out = loadTuple b n size j out := by
  unfold loadTuple
  rw [readTuple_storeTuple_other h hij]

/-! ## Insertion on one page -/

theorem Ctx_of_keep {s : RMState} {md md1 : BM_Metadata} (c : Ctx s md)
    (hb : PoolBase s md1) (keep : ∀ h1, Held md h1 → Held md1 h1) : Ctx s md1 :=
  ⟨hb, keep _ c.cat, c.cat0⟩

theorem TableOpen_of_keep {md md1 : BM_Metadata} {i : Int} {t t1 : RM_SystemSchema}
    {hm : BM_PageHandle} (o : TableOpen md i t hm) (hd : tableOf md1 i = some t1)
    (hh : t1.handle = t.handle) (hp : t1.pageNum = t.pageNum)
    (keep : ∀ h1, Held md h1 → Held md1 h1) : TableOpen md1 i t1 hm :=
  ⟨hd, hh.trans o.handle, keep _ o.held, o.page.trans hp.symm⟩

/-- The source's `insertRecordOnPage` on a page whose bytes are `b`. -/
theorem insertRecordOnPage_eval {s : RMState} {md : BM_Metadata} (hb : PoolBase s md)
    {h : BM_PageHandle} (hh : Held md h) {b : List Nat}
    (hbytes : bytesOf md h.pageNum = some b) (schema : Schema) (record : Record) :
    match insertRecordOn b (getRecordSize schema) record.data with
    | none => insertRecordOnPage (withMd s md) h schema record = none
    | some none => insertRecordOnPage (withMd s md) h schema record
        = some (-1, withMd s md, record)
    | some (some r) => ∃ md1, insertRecordOnPage (withMd s md) h schema record
        = some ((r.1 : Int), withMd s md1,
            { record with id := { page := h.pageNum, slot := (r.1 : Int) } })
        ∧ PoolBase s md1 ∧ PageSet md md1 h.pageNum (PageContent.bytes r.2)
        ∧ Safe md1 h.pageNum ∧ (∀ h1, PointsTo md h1 → PointsTo md1 h1) := by
  have hpb : pageBytes (withMd s md) h = some b := by
    rw [pageBytes_eq hb.inv hh.1, hbytes]
  unfold insertRecordOn
  cases hn : headerNumSlots b with
  | none =>
    simp only
    unfold insertRecordOnPage
    simp only [hpb, hn]
  | some n =>
    simp only
    cases hf : findFreeSlot b n.toNat 0 with
    | none =>
      simp only
      unfold insertRecordOnPage
      simp only [hpb, hn, hf]
    | some fo =>
      cases fo with
      | none =>
        simp only
        unfold insertRecordOnPage
        simp only [hpb, hn, hf]
      | some k =>
        simp only
        cases hz : getRecordSize schema with
        | none =>
          simp only
          unfold insertRecordOnPage
          simp only [hpb, hn, hf, hz]
        | some size =>
          simp only
          cases hst : storeTuple b n size (k : Int) record.data with
          | none =>
            simp only
            unfold insertRecordOnPage
            simp only [hpb, hn, hf, hz, hst]
          | some b1 =>
            simp only
            cases hss : setSlot b1 (k : Int) 1 with
            | none =>
              simp only
              unfold insertRecordOnPage
              simp only [hpb, hn, hf, hz, hst, hss]
            | some b2 =>
              simp only
              obtain ⟨mdA, eA, uA⟩ := setPageBytes_spec hb hh hbytes b2
              have hbA : PoolBase s mdA := hb.step uA.step
              have hhA : Held mdA h := Held_upd uA hh
              obtain ⟨mdB, eB, tB, hsB, hptsB, _, _⟩ := rmMarkDirty_spec hbA hhA.1
              have hfix : ∀ q, 0 ≤ q → fixOf mdB q = fixOf md q := by
                intro q hq
                rw [tB.fix q hq, uA.fix q hq]
                simp
              refine ⟨mdB, ?_, hbA.step tB.step, ⟨?_, hfix, ?_⟩, hsB, fun h1 hp1 => hptsB h1 (uA.pts h1 hp1)⟩
              · unfold insertRecordOnPage
                simp only [hpb, hn, hf, hz, hst, hss, eA, eB, ne_eq, not_true_eq_false, if_false]
              · intro q hq
                rw [tB.view q hq, uA.view q hq]
              · intro h1 hh1
                exact ⟨hptsB h1 (uA.pts h1 hh1.1), by rw [hfix _ hh1.1.1]; exact hh1.2⟩

/-- The statements that end each successful path of `insertRecord`: the count `numTuples`
of the descriptor is one more. -/
theorem finishInsert_spec {s : RMState} {md : BM_Metadata} (c : Ctx s md)
    {i : Int} {t : RM_SystemSchema} {hm : BM_PageHandle} (o : TableOpen md i t hm)
    {cat : RM_SystemCatalog} (hcat : catalogOf md = some cat)
    (record : Record) (pageNum slotIndex : Int) :
    ∃ md1, finishInsert (withMd s md) i record pageNum slotIndex
        = some (RC.RC_OK, withMd s md1, { record with id := { page := pageNum, slot := slotIndex } })
      ∧ Ctx s md1 ∧ TableOpen md1 i { t with numTuples := t.numTuples + 1 } hm
      ∧ PageSet md md1 0
          (PageContent.catalog (setDescriptor cat i { t with numTuples := t.numTuples + 1 }))
      ∧ (∀ h1, PointsTo md h1 → PointsTo md1 h1) := by
  obtain ⟨c2, hc2, ht2⟩ := o.catalog
  rw [hcat] at hc2
  cases hc2
  obtain ⟨mdB, eB, uB⟩ := setTable_spec c hcat ht2 { t with numTuples := t.numTuples + 1 }
  have cB : Ctx s mdB := Ctx_upd c uB
  have oB : TableOpen mdB i { t with numTuples := t.numTuples + 1 } hm :=
    TableOpen_setTable o hcat uB rfl rfl
  obtain ⟨mdC, eC, tC, hptsC, _, _⟩ := markSystemCatalogDirty_spec cB
  have hfix : ∀ q, 0 ≤ q → fixOf mdC q = fixOf md q := by
    intro q hq
    rw [tC.fix q hq, uB.fix q hq]
    simp
  refine ⟨mdC, ?_, Ctx_touch cB tC (Or.inl (le_refl 0)), TableOpen_touch tC oB (Or.inl (le_refl 0)),
    ⟨?_, hfix, ?_⟩, fun h1 hp1 => hptsC h1 (uB.pts h1 hp1)⟩
  · unfold finishInsert
    simp only [getTable_eq c, o.desc, eB, eC]
  · intro q hq
    rw [tC.view q hq, uB.view q hq]
    rfl
  · intro h1 hh1
    exact ⟨hptsC h1 (uB.pts h1 hh1.1), by rw [hfix _ hh1.1.1]; exact hh1.2⟩

/-! ## Free slots -/

theorem findFreeSlot_none {b : List Nat} : ∀ (k i : Nat), findFreeSlot b k i = some none →
    ∀ j : Nat, i ≤ j → j < i + k → getSlot b (j : Int) ≠ some 0
  | 0, i, _, j, h1, h2 => by omega
  | k + 1, i, h, j, h1, h2 => by
    unfold findFreeSlot at h
    cases hv : getSlot b (i : Int) with
    | none => rw [hv] at h; cases h
    | some v =>
      rw [hv] at h
      simp only at h
      by_cases hv0 : v = 0
      · rw [if_pos hv0] at h; cases h
      · rw [if_neg hv0] at h
        by_cases hji : j = i
        · subst hji
          rw [hv]
          exact fun e => hv0 (Option.some.inj e)
        · exact findFreeSlot_none k (i + 1) h j (by omega) (by omega)

theorem findFreeSlot_some {b : List Nat} : ∀ (k i m : Nat), findFreeSlot b k i = some (some m) →
    i ≤ m ∧ m < i + k ∧ getSlot b (m : Int) = some 0
      ∧ ∀ j : Nat, i ≤ j → j < m → getSlot b (j : Int) ≠ some 0
  | 0, i, m, h => by
    unfold findFreeSlot at h
    cases h
  | k + 1, i, m, h => by
    unfold findFreeSlot at h
    cases hv : getSlot b (i : Int) with
    | none => rw [hv] at h; cases h
    | some v =>
      rw [hv] at h
      simp only at h
      by_cases hv0 : v = 0
      · rw [if_pos hv0] at h
        cases h
        subst hv0
        exact ⟨le_refl _, by omega, hv, fun j h1 h2 => by omega⟩
      · rw [if_neg hv0] at h
        obtain ⟨h1, h2, h3, h4⟩ := findFreeSlot_some k (i + 1) m h
        refine ⟨by omega, by omega, h3, ?_⟩
        intro j hj1 hj2
        by_cases hji : j = i
        · subst hji
          rw [hv]
          exact fun e => hv0 (Option.some.inj e)
        · exact h4 j (by omega) hj2

/-- What `insertRecordOn` returns when no slot is free. -/
theorem insertRecordOn_full {b : List Nat} {size : Option Int} {data : List Nat}
    (h : insertRecordOn b size data = some none) : PageFull b := by
  unfold insertRecordOn at h
  cases hn : headerNumSlots b with
  | none => rw [hn] at h; cases h
  | some n =>
    rw [hn] at h
    simp only at h
    cases hf : findFreeSlot b n.toNat 0 with
    | none => rw [hf] at h; cases h
    | some fo =>
      rw [hf] at h
      cases fo with
      | none =>
        refine ⟨n, hn, fun j hj => findFreeSlot_none _ _ hf j (Nat.zero_le _) (by omega)⟩
      | some k =>
        simp only at h
        cases size with
        | none => cases h
        | some size =>
          simp only at h
          cases hst : storeTuple b n size (k : Int) data with
          | none => rw [hst] at h; cases h
          | some b1 =>
            rw [hst] at h
            simp only at h
            cases hss : setSlot b1 (k : Int) 1 with
            | none => rw [hss] at h; cases h
            | some b2 => rw [hss] at h; cases h

/-- What `insertRecordOn` returns when it stores the record: the slot is the lowest free
one, and the new bytes hold the record in that slot. -/
theorem insertRecordOn_stored {b : List Nat} {size : Option Int} {data : List Nat}
    {k : Nat} {b2 : List Nat} (h : insertRecordOn b size data = some (some (k, b2))) :
    LowestFree b k ∧ ∃ n sz b1, headerNumSlots b = some n ∧ size = some sz
      ∧ storeTuple b n sz (k : Int) data = some b1 ∧ setSlot b1 (k : Int) 1 = some b2 := by
  unfold insertRecordOn at h
  cases hn : headerNumSlots b with
  | none => rw [hn] at h; cases h
  | some n =>
    rw [hn] at h
    simp only at h
    cases hf : findFreeSlot b n.toNat 0 with
    | none => rw [hf] at h; cases h
    | some fo =>
      rw [hf] at h
      cases fo with
      | none => cases h
      | some k1 =>
        simp only at h
        cases size with
        | none => cases h
        | some size =>
          simp only at h
          cases hst : storeTuple b n size (k1 : Int) data with
          | none => rw [hst] at h; cases h
          | some b1 =>
            rw [hst] at h
            simp only at h
            cases hss : setSlot b1 (k1 : Int) 1 with
            | none => rw [hss] at h; cases h
            | some b3 =>
              rw [hss] at h
              simp only [Option.some.injEq, Prod.mk.injEq] at h
              obtain ⟨hk, hb⟩ := h
              subst hk; subst hb
              obtain ⟨_, h2, h3, h4⟩ := findFreeSlot_some _ _ _ hf
              exact ⟨⟨n, hn, by omega, h3, fun j hj => h4 j (Nat.zero_le _) hj⟩,
                n, size, b1, rfl, rfl, hst, hss⟩

/-! ## The overflow loop of `insertRecord` -/

theorem rmPinPage_neg {s : RMState} {md : BM_Metadata} (h0 : BM_PageHandle) {p : Int}
    (hp : p < 0) :
    rmPinPage (withMd s md) h0 p = some (RC.RC_IM_KEY_NOT_FOUND, withMd s md, h0) := by
  unfold rmPinPage pinPage withMd
  simp only [ge_iff_le, not_le.mpr hp, if_false]

theorem nextOf_view {md md1 : BM_Metadata} (hv : ∀ q, 0 ≤ q → viewPage md1 q = viewPage md q)
    {q : Int} (hq : 0 ≤ q) : nextOf md1 q = nextOf md q := by
  unfold nextOf
  rw [bytesOf_view hv hq]

theorem IsChain_view {md md1 : BM_Metadata}
    (hv : ∀ q, 0 ≤ q → viewPage md1 q = viewPage md q) :
    ∀ (l : List Int) (p e : Int), IsChain md1 p l e → IsChain md p l e
  | [], _, _, h => h
  | q :: rest, p, e, h => by
    obtain ⟨h1, h2, nx, h3, h4⟩ := h
    exact ⟨h1, h2, nx, by rw [← nextOf_view hv h2]; exact h3, IsChain_view hv rest nx e h4⟩

theorem IsChain_snoc {md : BM_Metadata} :
    ∀ (l : List Int) (p q e : Int), IsChain md p l q → 0 ≤ q → nextOf md q = some e →
      IsChain md p (l ++ [q]) e
  | [], p, q, e, h, hq, hn => by
    have h1 : p = q := h
    exact ⟨h1, hq, e, hn, rfl⟩
  | x :: rest, p, q, e, h, hq, hn => by
    obtain ⟨h1, h2, nx, h3, h4⟩ := h
    exact ⟨h1, h2, nx, h3, IsChain_snoc rest nx q e h4 hq hn⟩

/-- A pin of page `p`, then steps that keep images and fix counts, then the unpin: the
state after it holds the images and fix counts of the state before the pin. -/
theorem Same_of_pin_unpin {md md1 md2 md3 : BM_Metadata} {p : Int}
    (t1 : Touch md md1 p 1)
    (hv : ∀ q, 0 ≤ q → viewPage md2 q = viewPage md1 q)
    (hf : ∀ q, 0 ≤ q → fixOf md2 q = fixOf md1 q)
    (hpts : ∀ h1, PointsTo md1 h1 → PointsTo md2 h1)
    (t3 : Touch md2 md3 p (-1))
    (hpts3 : ∀ h1, PointsTo md2 h1 → PointsTo md3 h1) : Same md md3 := by
  have hfix : ∀ q, 0 ≤ q → fixOf md3 q = fixOf md q := by
    intro q hq
    rw [t3.fix q hq, hf q hq, t1.fix q hq]
    split <;> omega
  refine ⟨fun q hq => by rw [t3.view q hq, hv q hq, t1.view q hq], hfix, ?_⟩
  intro h1 hh
  exact ⟨hpts3 h1 (hpts h1 (t1.step.stable h1 hh)), by rw [hfix _ hh.1.1]; exact hh.2⟩

theorem TableOpen_same {md md1 : BM_Metadata} (sm : Same md md1) {i : Int}
    {t : RM_SystemSchema} {hm : BM_PageHandle} (o : TableOpen md i t hm) :
    TableOpen md1 i t hm :=
  TableOpen_of_keep o (by rw [tableOf_view sm.view]; exact o.desc) rfl rfl sm.keep

theorem catalogOf_view {md md1 : BM_Metadata}
    (hv : ∀ q, 0 ≤ q → viewPage md1 q = viewPage md q) : catalogOf md1 = catalogOf md := by
  unfold catalogOf
  rw [hv 0 (le_refl 0)]


theorem IsChain_mem_nonneg {md : BM_Metadata} :
    ∀ (l : List Int) (p e : Int), IsChain md p l e → ∀ q ∈ l, 0 ≤ q
  | [], _, _, _, q, hq => by cases hq
  | x :: rest, p, e, h, q, hq => by
    obtain ⟨_, h2, y, _, h4⟩ := h
    rcases List.mem_cons.1 hq with e1 | e1
    · rw [e1]; exact h2
    · exact IsChain_mem_nonneg rest y e h4 q e1

theorem insertRecordOnPage_none {s : RMState} {md : BM_Metadata} (hb : PoolBase s md)
    {h : BM_PageHandle} (hpt : PointsTo md h) (hbytes : bytesOf md h.pageNum = none)
    (schema : Schema) (record : Record) :
    insertRecordOnPage (withMd s md) h schema record = none := by
  unfold insertRecordOnPage
  rw [pageBytes_eq hb.inv hpt, hbytes]

theorem InsertFound.cons {s : RMState} {md md2 mdF : BM_Metadata} {i : Int}
    {t : RM_SystemSchema} {hm : BM_PageHandle} {cat : RM_SystemCatalog} {size : Option Int}
    {data : List Nat} {pg nx : Int} {pre : List Int} {P : Int} {b : List Nat} {k : Nat}
    {b2 : List Nat} (f : InsertFound s md2 mdF i t hm cat size data nx pre P b k b2)
    (sm : Same md md2) (hpg : 0 ≤ pg) (hnx : nextOf md pg = some nx)
    {bq : List Nat} (hbq : bytesOf md pg = some bq) (hfull : PageFull bq) :
    InsertFound s md mdF i t hm cat size data pg (pg :: pre) P b k b2 := by
  refine ⟨⟨rfl, hpg, nx, hnx, IsChain_view sm.view _ _ _ f.chain⟩, ?_, f.page, ?_, f.ins, f.ctx,
    f.tbl, ⟨?_, ?_, ?_⟩, f.cached⟩
  · intro q hq
    rcases List.mem_cons.1 hq with e | e
    · subst e; exact ⟨bq, hbq, hfull⟩
    · obtain ⟨bx, h1, h2⟩ := f.full q e
      have hq0 : 0 ≤ q := IsChain_mem_nonneg _ _ _ f.chain q e
      exact ⟨bx, by rw [← bytesOf_view sm.view hq0]; exact h1, h2⟩
  · rw [← bytesOf_view sm.view f.page]; exact f.bytes
  · intro q hq
    rw [f.stored.view q hq, sm.view q hq]
  · intro q hq
    rw [f.stored.fix q hq, sm.fix q hq]
  · intro h1 hh
    exact f.stored.keep h1 (sm.keep h1 hh)

theorem getLast?_cons_cons {α : Type} (a b : α) (l : List α) :
    (a :: b :: l).getLast? = (b :: l).getLast? := by
  simp [List.getLast?_cons_cons]

/-- The loop of `insertRecord` over the overflow pages, from page `pg` on: when it returns
`RC_OK` the record is stored on the first page with a free slot, and when it is left all
pages were full and `prevPage` is the last of them. -/
theorem insertOverflowLoop_spec {s : RMState} {i : Int} {t : RM_SystemSchema}
    {hm : BM_PageHandle} {cat : RM_SystemCatalog} (schema : Schema) :
    ∀ (fuel : Nat) (md : BM_Metadata) (record : Record) (prev pg : Int)
      (res : (RC × RMState × Record) ⊕ (Int × RMState × Record)),
      Ctx s md → TableOpen md i t hm → catalogOf md = some cat →
      insertOverflowLoop i schema fuel (withMd s md) record prev pg = some res →
      (∀ s1 r1, res = Sum.inl (RC.RC_OK, s1, r1) →
        ∃ (mdF : BM_Metadata) (pre : List Int) (P : Int) (b : List Nat) (k : Nat)
          (b2 : List Nat), s1 = withMd s mdF
          ∧ r1 = { record with id := { page := P, slot := (k : Int) } }
          ∧ InsertFound s md mdF i t hm cat (getRecordSize schema) record.data pg pre P b k b2)
      ∧ (∀ prevF s1 r1, res = Sum.inr (prevF, s1, r1) →
        ∃ mdF pages, s1 = withMd s mdF ∧ r1 = record
          ∧ (prev :: pages).getLast? = some prevF
          ∧ InsertNone s md mdF i t hm pg pages) := by
  intro fuel
  induction fuel with
  | zero =>
    intro md record prev pg res c o hcat h
    unfold insertOverflowLoop at h
    by_cases hpg : pg = NO_PAGE
    · rw [if_neg (not_not.mpr hpg)] at h
      cases h
      refine ⟨(fun _ _ e => by cases e), ?_⟩
      intro prevF s1 r1 e
      cases e
      exact ⟨md, [], rfl, rfl, rfl, ⟨hpg, (fun q hq => by cases hq), c, o,
        ⟨fun _ _ => rfl, fun _ _ => rfl, fun _ hh => hh⟩⟩⟩
    · rw [if_pos hpg] at h
      cases h
  | succ fuel ih =>
    intro md record prev pg res c o hcat h
    unfold insertOverflowLoop at h
    by_cases hpg : pg = NO_PAGE
    · rw [if_neg (not_not.mpr hpg)] at h
      cases h
      refine ⟨(fun _ _ e => by cases e), ?_⟩
      intro prevF s1 r1 e
      cases e
      exact ⟨md, [], rfl, rfl, rfl, ⟨hpg, (fun q hq => by cases hq), c, o,
        ⟨fun _ _ => rfl, fun _ _ => rfl, fun _ hh => hh⟩⟩⟩
    · rw [if_pos hpg] at h
      by_cases hneg : pg < 0
      · rw [rmPinPage_neg uninitHandle hneg] at h
        simp only [ne_eq, reduceCtorEq, not_false_eq_true, if_true, Option.some.injEq] at h
        subst h
        exact ⟨(fun _ _ e => by cases e), (fun _ _ _ e => by cases e)⟩
      · have hp0 : 0 ≤ pg := not_lt.mp hneg
        rcases rmPinPage_spec c.base uninitHandle hp0 with
          ⟨md1, hd, e, tc, hpt, hpgn, hsafe, _⟩ | ⟨e, _⟩
        · rw [e] at h
          simp only [ne_eq, not_true_eq_false, if_false] at h
          have hb1 : PoolBase s md1 := c.base.step tc.step
          have hh : Held md1 hd := by
            refine ⟨hpt, ?_⟩
            rw [hpgn, tc.fix _ hp0, if_pos rfl]
            have := fixOf_nonneg c.base.inv hp0
            omega
          cases hbytes : bytesOf md pg with
          | none =>
            rw [insertRecordOnPage_none hb1 hpt
              (by rw [hpgn, bytesOf_view tc.view hp0]; exact hbytes)] at h
            cases h
          | some b =>
            have hbytes1 : bytesOf md1 hd.pageNum = some b := by
              rw [hpgn, bytesOf_view tc.view hp0]; exact hbytes
            have hpn0 : pg ≠ 0 := o.page_ne_zero hbytes
            have ev := insertRecordOnPage_eval hb1 hh hbytes1 schema record
            cases hio : insertRecordOn b (getRecordSize schema) record.data with
            | none =>
              rw [hio] at ev
              rw [ev] at h
              cases h
            | some r =>
              cases r with
              | none =>
                rw [hio] at ev
                rw [ev] at h
                simp only [ge_iff_le, Left.nonneg_neg_iff, Int.reduceLE, if_false] at h
                rw [pageBytes_eq hb1.inv hpt, hbytes1] at h
                simp only [Option.some_bind] at h
                cases hnx : headerNextPage b with
                | none => rw [hnx] at h; cases h
                | some nx =>
                  rw [hnx] at h
                  simp only at h
                  obtain ⟨md2, e2, t2, hpts2, _, _, _⟩ := rmUnpinPage_spec hb1 hh
                    (by rw [hpgn]; exact hsafe)
                  rw [e2] at h
                  simp only [ne_eq, not_true_eq_false, if_false] at h
                  rw [hpgn] at t2
                  have sm : Same md md2 := Same_of_pin_unpin tc (fun _ _ => rfl)
                    (fun _ _ => rfl) (fun _ hx => hx) t2 hpts2
                  have c2 : Ctx s md2 := Ctx_of_keep c (hb1.step t2.step) sm.keep
                  have o2 : TableOpen md2 i t hm := TableOpen_same sm o
                  have hcat2 : catalogOf md2 = some cat := by
                    rw [catalogOf_view sm.view]; exact hcat
                  have hnext : nextOf md pg = some nx := by
                    unfold nextOf; rw [hbytes]; exact hnx
                  have hfull := insertRecordOn_full hio
                  obtain ⟨ih1, ih2⟩ := ih md2 record pg nx res c2 o2 hcat2 h
                  constructor
                  · intro s1 r1 er
                    obtain ⟨mdF, pre, P, bP, k, b2, hs1, hr1, fnd⟩ := ih1 s1 r1 er
                    exact ⟨mdF, pg :: pre, P, bP, k, b2, hs1, hr1,
                      fnd.cons sm hp0 hnext hbytes hfull⟩
                  · intro prevF s1 r1 er
                    obtain ⟨mdF, pages, hs1, hr1, hlast, nn⟩ := ih2 prevF s1 r1 er
                    refine ⟨mdF, pg :: pages, hs1, hr1, ?_, ?_⟩
                    · rw [getLast?_cons_cons]; exact hlast
                    · refine ⟨⟨rfl, hp0, nx, hnext, IsChain_view sm.view _ _ _ nn.chain⟩, ?_,
                        nn.ctx, nn.tbl, ?_⟩
                      · intro q hq
                        rcases List.mem_cons.1 hq with e1 | e1
                        · subst e1; exact ⟨b, hbytes, hfull⟩
                        · obtain ⟨bx, h1, h2⟩ := nn.full q e1
                          have hq0 := IsChain_mem_nonneg _ _ _ nn.chain q e1
                          exact ⟨bx, by rw [← bytesOf_view sm.view hq0]; exact h1, h2⟩
                      · exact ⟨fun q hq => by rw [nn.same.view q hq, sm.view q hq],
                          fun q hq => by rw [nn.same.fix q hq, sm.fix q hq],
                          fun h1 hx => nn.same.keep h1 (sm.keep h1 hx)⟩
              | some kb =>
                obtain ⟨k, b2⟩ := kb
                rw [hio] at ev
                obtain ⟨mdA, eA, hbA, psA, hsA, hptsA⟩ := ev
                rw [eA] at h
                simp only [ge_iff_le, Nat.cast_nonneg, if_true] at h
                have hhA : Held mdA hd := psA.keep hd hh
                obtain ⟨mdB, eB, tB, hptsB, _, _, _⟩ := rmUnpinPage_spec hbA hhA hsA
                rw [eB] at h
                simp only [ne_eq, not_true_eq_false, if_false] at h
                rw [hpgn] at tB psA
                have hfixB : ∀ q, 0 ≤ q → fixOf mdB q = fixOf md q := by
                  intro q hq
                  rw [tB.fix q hq, psA.fix q hq, tc.fix q hq]
                  split <;> omega
                have keepB : ∀ h1, Held md h1 → Held mdB h1 := by
                  intro h1 hx
                  exact ⟨hptsB h1 (hptsA h1 (tc.step.stable h1 hx)),
                    by rw [hfixB _ hx.1.1]; exact hx.2⟩
                have hviewB : ∀ q, 0 ≤ q → viewPage mdB q =
                    if q = pg then PageContent.bytes b2 else viewPage md q := by
                  intro q hq
                  rw [tB.view q hq, psA.view q hq, tc.view q hq]
                have cB : Ctx s mdB := Ctx_of_keep c (hbA.step tB.step) keepB
                have hcatB : catalogOf mdB = some cat := by
                  unfold catalogOf
                  rw [hviewB 0 (le_refl 0), if_neg (fun e => hpn0 e.symm)]
                  exact hcat
                have oB : TableOpen mdB i t hm := by
                  refine TableOpen_of_keep o ?_ rfl rfl keepB
                  unfold tableOf
                  rw [hcatB]
                  have := o.desc
                  unfold tableOf at this
                  rw [hcat] at this
                  exact this
                obtain ⟨mdF, eF, cF, oF, psF, hptsF⟩ := finishInsert_spec cB oB hcatB
                  { record with id := { page := hd.pageNum, slot := (k : Int) } } pg (k : Int)
                rw [eF] at h
                simp only [Option.some.injEq] at h
                subst h
                refine ⟨?_, (fun _ _ _ e => by cases e)⟩
                intro s1 r1 er
                simp only [Sum.inl.injEq, Prod.mk.injEq, true_and] at er
                obtain ⟨hs1, hr1⟩ := er
                refine ⟨mdF, [], pg, b, k, b2, hs1.symm, hr1.symm, ⟨rfl, (fun q hq => by cases hq),
                  hp0, hbytes, hio, cF, oF, ⟨?_, ?_, ?_⟩, Or.inr ⟨hd, ?_, hpgn⟩⟩⟩
                · intro q hq
                  rw [psF.view q hq, hviewB q hq]
                  by_cases hq0 : q = 0
                  · have : q ≠ pg := by rw [hq0]; exact fun e => hpn0 e.symm
                    rw [if_pos hq0, if_neg this, if_pos hq0]
                  · rw [if_neg hq0]
                    by_cases hqp : q = pg
                    · rw [if_pos hqp, if_pos hqp]
                    · rw [if_neg hqp, if_neg hqp, if_neg hq0]
                · intro q hq
                  rw [psF.fix q hq, hfixB q hq]
                · intro h1 hx
                  exact psF.keep h1 (keepB h1 hx)
                · exact hptsF hd (hptsB hd hhA.1)
        · rw [e] at h
          simp only [ne_eq, reduceCtorEq, not_false_eq_true, if_true, Option.some.injEq] at h
          subst h
          exact ⟨(fun _ _ e => by cases e), (fun _ _ _ e => by cases e)⟩

/-! ## Temporary pins -/

theorem Temp.keep {s : RMState} {md mdX : BM_Metadata} {p : Int} {hd : BM_PageHandle}
    (tm : Temp s md mdX p hd) : ∀ h1, Held md h1 → Held mdX h1 := by
  intro h1 hh
  refine ⟨tm.pts h1 hh, ?_⟩
  rw [tm.fix _ hh.1.1]
  have := hh.2
  split <;> omega

theorem Temp.ctx {s : RMState} {md mdX : BM_Metadata} {p : Int} {hd : BM_PageHandle}
    (tm : Temp s md mdX p hd) (c : Ctx s md) : Ctx s mdX :=
  Ctx_of_keep c tm.base tm.keep

/-- The pin that opens the use of page `p`. -/
theorem Temp.pin {s : RMState} {md : BM_Metadata} (hb : PoolBase s md)
    (h0 : BM_PageHandle) {p : Int} (hp : 0 ≤ p) :
    (∃ md1 hd, rmPinPage (withMd s md) h0 p = some (RC.RC_OK, withMd s md1, hd)
      ∧ Temp s md md1 p hd ∧ (∀ q, 0 ≤ q → viewPage md1 q = viewPage md q) ∧ Safe md1 p
      ∧ ((∀ hx, PointsTo md hx → PointsTo md1 hx) ∨ fixOf md1 p = 1))
    ∨ (rmPinPage (withMd s md) h0 p = some (RC.RC_WRITE_FAILED, withMd s md, h0)
      ∧ ¬ CanPin md p) := by
  rcases rmPinPage_spec hb h0 hp with ⟨md1, hd, e, tc, hpt, hpgn, hsafe, hsame⟩ | ⟨e, hn⟩
  · left
    refine ⟨md1, hd, e, ⟨hb.step tc.step, ⟨hpt, ?_⟩, hpgn, tc.fix, tc.step.stable⟩, tc.view,
      hsafe, ?_⟩
    · rw [hpgn, tc.fix _ hp, if_pos rfl]
      have := fixOf_nonneg hb.inv hp
      omega
    · by_cases hnone : frameOfPage md p = none
      · right
        rw [tc.fix _ hp, if_pos rfl]
        unfold fixOf
        rw [hnone]
        rfl
      · left
        intro hx hpx
        obtain ⟨h1, i, h2, h3⟩ := hpx
        exact ⟨h1, i, h2, by rw [hsame hnone _ h1]; exact h3⟩
  · right
    exact ⟨e, hn⟩

theorem Temp.upd {s : RMState} {md mdX mdY : BM_Metadata} {p : Int} {hd : BM_PageHandle}
    (tm : Temp s md mdX p hd) {q : Int} {d : PageContent} (u : Upd mdX mdY q d) :
    Temp s md mdY p hd :=
  ⟨tm.base.step u.step, Held_upd u tm.held, tm.page,
    fun x hx => by rw [u.fix x hx, tm.fix x hx], fun h1 hh => u.pts h1 (tm.pts h1 hh)⟩

theorem Temp.touch {s : RMState} {md mdX mdY : BM_Metadata} {p : Int} {hd : BM_PageHandle}
    (tm : Temp s md mdX p hd) {q : Int} (tc : Touch mdX mdY q 0)
    (hpts : ∀ h1, PointsTo mdX h1 → PointsTo mdY h1) : Temp s md mdY p hd :=
  ⟨tm.base.step tc.step, Held_touch tc tm.held (Or.inl (le_refl 0)), tm.page,
    fun x hx => by rw [tc.fix x hx, tm.fix x hx]; simp, fun h1 hh => hpts h1 (tm.pts h1 hh)⟩

/-- The unpin that closes the use of page `p`. -/
theorem Temp.unpin {s : RMState} {md mdX : BM_Metadata} {p : Int} {hd : BM_PageHandle}
    (tm : Temp s md mdX p hd) (hsafe : Safe mdX p) :
    ∃ mdY, rmUnpinPage (withMd s mdX) hd = some (RC.RC_OK, withMd s mdY)
      ∧ PoolBase s mdY
      ∧ (∀ q, 0 ≤ q → viewPage mdY q = viewPage mdX q)
      ∧ (∀ q, 0 ≤ q → fixOf mdY q = fixOf md q)
      ∧ (∀ h1, Held md h1 → Held mdY h1)
      ∧ (∀ h1, PointsTo mdX h1 → PointsTo mdY h1) := by
  obtain ⟨mdY, e, tc, hpts, _, _, _⟩ := rmUnpinPage_spec tm.base tm.held
    (by rw [tm.page]; exact hsafe)
  rw [tm.page] at tc
  have hfix : ∀ q, 0 ≤ q → fixOf mdY q = fixOf md q := by
    intro q hq
    rw [tc.fix q hq, tm.fix q hq]
    split <;> omega
  refine ⟨mdY, e, tm.base.step tc.step, tc.view, hfix, ?_, hpts⟩
  intro h1 hh
  exact ⟨hpts h1 (tm.pts h1 hh), by rw [hfix _ hh.1.1]; exact hh.2⟩

/-- The dirty mark on the page in use. -/
theorem Temp.markDirty {s : RMState} {md mdX : BM_Metadata} {p : Int} {hd : BM_PageHandle}
    (tm : Temp s md mdX p hd) :
    ∃ mdY, rmMarkDirty (withMd s mdX) hd = some (RC.RC_OK, withMd s mdY)
      ∧ Temp s md mdY p hd
      ∧ (∀ q, 0 ≤ q → viewPage mdY q = viewPage mdX q) ∧ Safe mdY p
      ∧ (∀ h1, PointsTo mdX h1 → PointsTo mdY h1) := by
  obtain ⟨mdY, e, tc, hsafe, hpts, _, _⟩ := rmMarkDirty_spec tm.base tm.held.1
  rw [tm.page] at tc hsafe
  exact ⟨mdY, e, tm.touch tc hpts, tc.view, hsafe, hpts⟩

/-- A store of an `int` field of the header of the page in use. -/
theorem Temp.writeHeader {s : RMState} {md mdX : BM_Metadata} {p : Int} {hd : BM_PageHandle}
    (tm : Temp s md mdX p hd) (off v : Int) :
    (writeHeaderField (withMd s mdX) hd off v = none)
    ∨ ∃ mdY b b1, writeHeaderField (withMd s mdX) hd off v = some (withMd s mdY)
      ∧ bytesOf mdX p = some b ∧ writeInt b off v = some b1
      ∧ Temp s md mdY p hd ∧ Upd mdX mdY p (PageContent.bytes b1) := by
  cases hb : bytesOf mdX p with
  | none =>
    left
    unfold writeHeaderField
    rw [pageBytes_eq tm.base.inv tm.held.1, tm.page, hb]
  | some b =>
    cases hw : writeInt b off v with
    | none =>
      left
      unfold writeHeaderField
      rw [pageBytes_eq tm.base.inv tm.held.1, tm.page, hb]
      simp only [hw]
    | some b1 =>
      right
      obtain ⟨mdY, e, u⟩ := writeHeaderField_spec tm.base tm.held (by rw [tm.page]; exact hb) hw
      rw [tm.page] at u
      exact ⟨mdY, b, b1, e, rfl, hw, tm.upd u, u⟩

/-! ## The catalog page keeps its type -/

theorem CatTyped_view {md md1 : BM_Metadata}
    (hv : ∀ q, 0 ≤ q → viewPage md1 q = viewPage md q) (ty : CatTyped md) : CatTyped md1 := by
  obtain ⟨c, hc⟩ := ty
  exact ⟨c, by rw [hv 0 (le_refl 0)]; exact hc⟩

theorem CatTyped.ne_zero {md : BM_Metadata} (ty : CatTyped md) {p : Int} {b : List Nat}
    (hb : bytesOf md p = some b) : p ≠ 0 := by
  obtain ⟨c, hc⟩ := ty
  exact page_ne_zero_of_bytes hb hc

theorem CatTyped_upd_bytes {md md1 : BM_Metadata} {p : Int} {b0 b : List Nat}
    (ty : CatTyped md) (hb : bytesOf md p = some b0) (u : Upd md md1 p (PageContent.bytes b)) :
    CatTyped md1 := by
  obtain ⟨c, hc⟩ := ty
  have hp := page_ne_zero_of_bytes hb hc
  exact ⟨c, by rw [u.view 0 (le_refl 0), if_neg (fun e => hp e.symm)]; exact hc⟩

theorem CatTyped_upd_catalog {md md1 : BM_Metadata} {c : RM_SystemCatalog}
    (u : Upd md md1 0 (PageContent.catalog c)) : CatTyped md1 :=
  ⟨c, by rw [u.view 0 (le_refl 0), if_pos rfl]⟩

theorem catalogOf_upd_bytes {md md1 : BM_Metadata} {p : Int} {b0 b : List Nat}
    (ty : CatTyped md) (hb : bytesOf md p = some b0) (u : Upd md md1 p (PageContent.bytes b)) :
    catalogOf md1 = catalogOf md :=
  catalogOf_upd_ne u (ty.ne_zero hb)

/-! ## `getFreePage` -/

theorem getFreePageFixNext_spec {s : RMState} {md : BM_Metadata} (c : Ctx s md)
    (ty : CatTyped md) {cat : RM_SystemCatalog} (hcat : catalogOf md = some cat)
    (handle : BM_PageHandle) (np nx : Int) {r : Int} {s1 : RMState}
    (h : getFreePageFixNext (withMd s md) handle np nx = some (r, s1)) (hr : r ≠ NO_PAGE) :
    ∃ md1, s1 = withMd s md1 ∧ r = np ∧ Alloc s md md1 cat := by
  unfold getFreePageFixNext at h
  by_cases hneg : nx < 0
  · rw [rmPinPage_neg handle hneg] at h
    simp only [ne_eq, reduceCtorEq, not_false_eq_true, if_true, Option.some.injEq,
      Prod.mk.injEq] at h
    exact absurd h.1.symm hr
  · have hp0 : 0 ≤ nx := not_lt.mp hneg
    rcases Temp.pin c.base handle hp0 with ⟨md1, hd, e, tm, hv, hsafe, _⟩ | ⟨e, _⟩
    · rw [e] at h
      simp only [ne_eq, not_true_eq_false, if_false] at h
      rcases tm.writeHeader 4 0 with e2 | ⟨md2, b, b1, e2, hb, hw, tm2, u2⟩
      · rw [e2] at h; cases h
      · rw [e2] at h
        simp only at h
        obtain ⟨md3, e3, tm3, hv3, hs3, hpts3⟩ := tm2.markDirty
        rw [e3] at h
        simp only at h
        obtain ⟨md4, e4, hb4, hv4, hf4, hk4, _⟩ := tm3.unpin hs3
        rw [e4] at h
        simp only [ne_eq, not_true_eq_false, if_false, Option.some.injEq, Prod.mk.injEq] at h
        have ty1 : CatTyped md1 := CatTyped_view hv ty
        have hc4 : catalogOf md4 = some cat := by
          rw [catalogOf_view hv4, catalogOf_view hv3, catalogOf_upd_bytes ty1 hb u2,
            catalogOf_view hv]
          exact hcat
        refine ⟨md4, h.2.symm, h.1.symm, ⟨Ctx_of_keep c hb4 hk4, ?_, hf4, hk4, cat, hc4, rfl, rfl⟩⟩
        exact CatTyped_view hv4 (CatTyped_view hv3 (CatTyped_upd_bytes ty1 hb u2))
    · rw [e] at h
      simp only [ne_eq, reduceCtorEq, not_false_eq_true, if_true, Option.some.injEq,
        Prod.mk.injEq] at h
      exact absurd h.1.symm hr


theorem Alloc.trans {s : RMState} {md md1 md2 : BM_Metadata} {cat cat1 : RM_SystemCatalog}
    (a : Alloc s md md1 cat) (hc : catalogOf md1 = some cat1) (b : Alloc s md1 md2 cat1) :
    Alloc s md md2 cat := by
  obtain ⟨c1, h1, h2, h3⟩ := a.tables
  obtain ⟨c2, k1, k2, k3⟩ := b.tables
  rw [hc] at h1
  cases h1
  exact ⟨b.ctx, b.typed, fun q hq => by rw [b.fix q hq, a.fix q hq],
    fun h1 hh => b.keep h1 (a.keep h1 hh), c2, k1, k2.trans h2, k3.trans h3⟩

/-- The source's `getFreePage` when it returns a page: fix counts and handles are kept and
the catalog keeps its descriptors and its table count. -/
theorem getFreePage_spec {s : RMState} {md : BM_Metadata} (c : Ctx s md)
    (ty : CatTyped md) {cat : RM_SystemCatalog} (hcat : catalogOf md = some cat)
    {r : Int} {s1 : RMState}
    (h : getFreePage (withMd s md) = some (r, s1)) (hr : r ≠ NO_PAGE) :
    ∃ md1, s1 = withMd s md1 ∧ Alloc s md md1 cat := by
  unfold getFreePage at h
  rw [getSystemCatalog_eq c, hcat] at h
  simp only at h
  by_cases hfp : cat.freePage = NO_PAGE
  · rw [if_pos hfp] at h
    obtain ⟨md1, e1, u1⟩ := setSystemCatalog_spec c hcat
      { cat with totalNumPages := cat.totalNumPages + 1 }
    rw [e1] at h
    simp only at h
    have c1 : Ctx s md1 := Ctx_upd c u1
    obtain ⟨md2, e2, t2, hpts2, _, _⟩ := markSystemCatalogDirty_spec c1
    rw [e2] at h
    simp only at h
    have c2 : Ctx s md2 := Ctx_touch c1 t2 (Or.inl (le_refl 0))
    have ty2 : CatTyped md2 := CatTyped_view t2.view (CatTyped_upd_catalog u1)
    have hcat2 : catalogOf md2 = some { cat with totalNumPages := cat.totalNumPages + 1 } := by
      rw [catalogOf_touch t2, catalogOf_upd u1]
    have hfix2 : ∀ q, 0 ≤ q → fixOf md2 q = fixOf md q := by
      intro q hq
      rw [t2.fix q hq, u1.fix q hq]; simp
    have keep2 : ∀ h1, Held md h1 → Held md2 h1 := fun h1 hh =>
      Held_touch t2 (Held_upd u1 hh) (Or.inl (le_refl 0))
    by_cases hneg : cat.totalNumPages < 0
    · rw [rmPinPage_neg uninitHandle hneg] at h
      simp only [ne_eq, reduceCtorEq, not_false_eq_true, if_true, Option.some.injEq,
        Prod.mk.injEq] at h
      exact absurd h.1.symm hr
    · have hp0 : 0 ≤ cat.totalNumPages := not_lt.mp hneg
      rcases Temp.pin c2.base uninitHandle hp0 with ⟨md3, hd, e3, tm3, hv3, _, _⟩ | ⟨e3, _⟩
      · rw [e3] at h
        simp only [ne_eq, not_true_eq_false, if_false] at h
        have ty3 : CatTyped md3 := CatTyped_view hv3 ty2
        rcases tm3.writeHeader 4 NO_PAGE with e4 | ⟨md4, b4, b4', e4, hb4, hw4, tm4, u4⟩
        · rw [e4] at h; cases h
        · rw [e4] at h
          simp only at h
          have ty4 : CatTyped md4 := CatTyped_upd_bytes ty3 hb4 u4
          rcases tm4.writeHeader 0 NO_PAGE with e5 | ⟨md5, b5, b5', e5, hb5, hw5, tm5, u5⟩
          · rw [e5] at h; cases h
          · rw [e5] at h
            simp only at h
            have ty5 : CatTyped md5 := CatTyped_upd_bytes ty4 hb5 u5
            obtain ⟨md6, e6, tm6, hv6, hs6, _⟩ := tm5.markDirty
            rw [e6] at h
            simp only at h
            obtain ⟨md7, e7, hb7, hv7, hf7, hk7, _⟩ := tm6.unpin hs6
            rw [e7] at h
            simp only [ne_eq, not_true_eq_false, if_false, Option.some.injEq,
              Prod.mk.injEq] at h
            refine ⟨md7, h.2.symm, ⟨Ctx_of_keep c hb7 (fun h1 hh => hk7 h1 (keep2 h1 hh)),
              CatTyped_view hv7 (CatTyped_view hv6 ty5),
              fun q hq => by rw [hf7 q hq, hfix2 q hq],
              fun h1 hh => hk7 h1 (keep2 h1 hh),
              { cat with totalNumPages := cat.totalNumPages + 1 }, ?_, rfl, rfl⟩⟩
            rw [catalogOf_view hv7, catalogOf_view hv6, catalogOf_upd_bytes ty4 hb5 u5,
              catalogOf_upd_bytes ty3 hb4 u4, catalogOf_view hv3]
            exact hcat2
      · rw [e3] at h
        simp only [ne_eq, reduceCtorEq, not_false_eq_true, if_true, Option.some.injEq,
          Prod.mk.injEq] at h
        exact absurd h.1.symm hr
  · rw [if_neg hfp] at h
    by_cases hneg : cat.freePage < 0
    · rw [rmPinPage_neg uninitHandle hneg] at h
      simp only [ne_eq, reduceCtorEq, not_false_eq_true, if_true, Option.some.injEq,
        Prod.mk.injEq] at h
      exact absurd h.1.symm hr
    · have hp0 : 0 ≤ cat.freePage := not_lt.mp hneg
      rcases Temp.pin c.base uninitHandle hp0 with ⟨md1, hd, e1, tm1, hv1, _, _⟩ | ⟨e1, _⟩
      · rw [e1] at h
        simp only [ne_eq, not_true_eq_false, if_false] at h
        have ty1 : CatTyped md1 := CatTyped_view hv1 ty
        cases hnx : (pageBytes (withMd s md1) hd).bind headerNextPage with
        | none => rw [hnx] at h; cases h
        | some nextPage =>
          rw [hnx] at h
          simp only at h
          rcases tm1.writeHeader 4 NO_PAGE with e2 | ⟨md2, b2, b2', e2, hb2, hw2, tm2, u2⟩
          · rw [e2] at h; cases h
          · rw [e2] at h
            simp only at h
            have ty2 : CatTyped md2 := CatTyped_upd_bytes ty1 hb2 u2
            rcases tm2.writeHeader 0 NO_PAGE with e3 | ⟨md3, b3, b3', e3, hb3, hw3, tm3, u3⟩
            · rw [e3] at h; cases h
            · rw [e3] at h
              simp only at h
              have ty3 : CatTyped md3 := CatTyped_upd_bytes ty2 hb3 u3
              have c3 : Ctx s md3 := tm3.ctx c
              have hcat3 : catalogOf md3 = some cat := by
                rw [catalogOf_upd_bytes ty2 hb3 u3, catalogOf_upd_bytes ty1 hb2 u2,
                  catalogOf_view hv1]
                exact hcat
              rw [getSystemCatalog_eq c3, hcat3] at h
              simp only at h
              obtain ⟨md4, e4, u4⟩ := setSystemCatalog_spec c3 hcat3
                { cat with freePage := nextPage }
              rw [e4] at h
              simp only at h
              have tm4 := tm3.upd u4
              obtain ⟨md5, e5, tm5, hv5, hs5, _⟩ := tm4.markDirty
              rw [e5] at h
              simp only at h
              have c5 : Ctx s md5 := tm5.ctx c
              obtain ⟨md6, e6, t6, hpts6, _, _⟩ := markSystemCatalogDirty_spec c5
              rw [e6] at h
              simp only at h
              have tm6 := tm5.touch t6 hpts6
              have hs6 : Safe md6 cat.freePage :=
                t6.step.safe _ hp0 hs5 (by rw [t6.fix _ hp0]; simp) (t6.view _ hp0)
              obtain ⟨md7, e7, hb7, hv7, hf7, hk7, _⟩ := tm6.unpin hs6
              rw [e7] at h
              simp only [ne_eq, not_true_eq_false, if_false] at h
              have hcat7 : catalogOf md7 = some { cat with freePage := nextPage } := by
                rw [catalogOf_view hv7, catalogOf_touch t6, catalogOf_view hv5,
                  catalogOf_upd u4]
              have ty7 : CatTyped md7 :=
                CatTyped_view hv7 (CatTyped_view t6.view (CatTyped_view hv5
                  (CatTyped_upd_catalog u4)))
              have a7 : Alloc s md md7 cat :=
                ⟨Ctx_of_keep c hb7 hk7, ty7, hf7, hk7, _, hcat7, rfl, rfl⟩
              by_cases hnn : nextPage = NO_PAGE
              · rw [if_pos hnn] at h
                simp only [Option.some.injEq, Prod.mk.injEq] at h
                exact ⟨md7, h.2.symm, a7⟩
              · rw [if_neg hnn] at h
                obtain ⟨md8, hs8, _, a8⟩ := getFreePageFixNext_spec a7.ctx ty7 hcat7 hd
                  cat.freePage nextPage h hr
                exact ⟨md8, hs8, a7.trans hcat7 a8⟩
      · rw [e1] at h
        simp only [ne_eq, reduceCtorEq, not_false_eq_true, if_true, Option.some.injEq,
          Prod.mk.injEq] at h
        exact absurd h.1.symm hr

/-! ## `initNewPage` -/

theorem clearSlots_spec {b : List Nat} : ∀ (k : Nat) (b2 : List Nat), clearSlots b k = some b2 →
    (∀ j : Nat, j < k → getSlot b2 (j : Int) = some 0)
      ∧ headerNumSlots b2 = headerNumSlots b ∧ headerNextPage b2 = headerNextPage b
      ∧ headerPrevPage b2 = headerPrevPage b
  | 0, b2, h => by
    unfold clearSlots at h
    cases h
    exact ⟨fun j hj => by omega, rfl, rfl, rfl⟩
  | k + 1, b2, h => by
    unfold clearSlots at h
    cases h1 : clearSlots b k with
    | none => rw [h1] at h; cases h
    | some b1 =>
      rw [h1] at h
      simp only at h
      obtain ⟨i1, i2, i3, i4⟩ := clearSlots_spec k b1 h1
      have hk : (0 : Int) ≤ (k : Int) := Int.ofNat_nonneg k
      refine ⟨?_, (headerNumSlots_setSlot h hk).trans i2, (headerNextPage_setSlot h hk).trans i3,
        (headerPrevPage_setSlot h hk).trans i4⟩
      intro j hj
      by_cases hjk : j = k
      · subst hjk
        exact getSlot_setSlot_same h
      · rw [getSlot_setSlot_other h _ (by omega)]
        exact i1 j (by omega)

theorem recordsPerPageOf_le {size rpp : Int} (h : recordsPerPageOf size = some rpp)
    (hpos : 0 < rpp) : rpp ≤ 4092 := by
  unfold recordsPerPageOf at h
  simp only at h
  split at h
  · cases h
  · cases h
    unfold PAGE_SIZE sizeofInt sizeofBool at hpos ⊢
    by_cases hd : 0 < size + 1
    · have e : Int.tdiv (((4096 : Nat) : Int) - 4) (size + 1) = (((4096 : Nat) : Int) - 4) / (size + 1) :=
        Int.tdiv_eq_ediv (by norm_num) (le_of_lt hd)
      rw [e]
      have := Int.ediv_le_self (size + 1) (show (0 : Int) ≤ ((4096 : Nat) : Int) - 4 by norm_num)
      norm_num at this ⊢
      exact this
    · have := Int.tdiv_nonpos (show (0 : Int) ≤ ((4096 : Nat) : Int) - 4 by norm_num)
        (not_lt.mp hd)
      omega

theorem initPageSlots_spec {s : RMState} {md : BM_Metadata} (hb : PoolBase s md)
    {handle : BM_PageHandle} (hh : Held md handle) {rpp : Int} {s1 : RMState}
    (h : initPageSlots (withMd s md) handle rpp = some s1) (hpos : 0 < rpp)
    (hle : rpp ≤ 4092) :
    ∃ md1 b b2, s1 = withMd s md1 ∧ bytesOf md handle.pageNum = some b
      ∧ Upd md md1 handle.pageNum (PageContent.bytes b2) ∧ PageInit b b2 rpp := by
  unfold initPageSlots at h
  rw [pageBytes_eq hb.inv hh.1] at h
  cases hbytes : bytesOf md handle.pageNum with
  | none => rw [hbytes] at h; cases h
  | some b =>
    rw [hbytes] at h
    simp only at h
    cases hw : writeInt b 8 rpp with
    | none => rw [hw] at h; cases h
    | some b1 =>
      rw [hw] at h
      simp only at h
      cases hc : clearSlots b1 rpp.toNat with
      | none => rw [hc] at h; cases h
      | some b2 =>
        rw [hc] at h
        simp only at h
        obtain ⟨md1, e, u⟩ := setPageBytes_spec hb hh hbytes b2
        rw [e] at h
        cases h
        obtain ⟨i1, i2, i3, i4⟩ := clearSlots_spec _ _ hc
        refine ⟨md1, b, b2, rfl, rfl, u, ⟨?_, hpos, ?_, ?_, ?_⟩⟩
        · rw [i2]
          exact readInt_writeInt_same hw (by omega) (by omega)
        · intro j hj
          exact i1 j (by omega)
        · rw [i3]
          exact readInt_writeInt_other hw 0 (Or.inl (by norm_num))
        · rw [i4]
          exact readInt_writeInt_other hw 4 (Or.inl (by norm_num))

/-- The source's `initNewPage` when it returns `RC_OK`: page `pageNum` carries `numSlots`
free slots, nothing else has changed, and the page is cached. -/
theorem initNewPage_spec {s : RMState} {md : BM_Metadata} (c : Ctx s md)
    {table : Int} {t : RM_SystemSchema} (ht : tableOf md table = some t)
    (hth : ∀ hx, t.handle = some hx → Held md hx ∧ hx.pageNum = t.pageNum)
    (schema : Schema) (pageNum : Int) {s1 : RMState}
    (h : initNewPage (withMd s md) table schema pageNum = some (RC.RC_OK, s1)) :
    ∃ md1 b b2 n, s1 = withMd s md1 ∧ 0 ≤ pageNum ∧ bytesOf md pageNum = some b
      ∧ PageInit b b2 n ∧ PoolBase s md1 ∧ PageSet md md1 pageNum (PageContent.bytes b2)
      ∧ (∃ hx, PointsTo md1 hx ∧ hx.pageNum = pageNum) := by
  unfold initNewPage at h
  cases hr : (getRecordSize schema).bind recordsPerPageOf with
  | none => rw [hr] at h; cases h
  | some rpp =>
    rw [hr] at h
    simp only at h
    by_cases hpos : rpp ≤ 0
    · rw [if_pos hpos] at h
      simp only [Option.some.injEq, Prod.mk.injEq, reduceCtorEq, false_and] at h
    · rw [if_neg hpos] at h
      have hpos1 : 0 < rpp := not_le.mp hpos
      have hle : rpp ≤ 4092 := by
        cases hz : getRecordSize schema with
        | none => rw [hz] at hr; cases hr
        | some size =>
          rw [hz] at hr
          exact recordsPerPageOf_le hr hpos1
      rw [getTable_eq c, ht] at h
      simp only at h
      by_cases hcond : pageNum ≠ t.pageNum ∨ t.handle = none
      · rw [if_pos hcond] at h
        by_cases hneg : pageNum < 0
        · rw [rmPinPage_neg uninitHandle hneg] at h
          simp only [ne_eq, reduceCtorEq, not_false_eq_true, if_true, Option.some.injEq,
            Prod.mk.injEq, false_and] at h
        · have hp0 : 0 ≤ pageNum := not_lt.mp hneg
          rcases Temp.pin c.base uninitHandle hp0 with ⟨md1, hd, e1, tm1, hv1, _, _⟩ | ⟨e1, _⟩
          · rw [e1] at h
            simp only [ne_eq, not_true_eq_false, if_false] at h
            cases h2 : initPageSlots (withMd s md1) hd rpp with
            | none => rw [h2] at h; cases h
            | some s2 =>
              rw [h2] at h
              simp only at h
              obtain ⟨md2, b, b2, hs2, hb, u2, pi⟩ := initPageSlots_spec tm1.base tm1.held h2 hpos1 hle
              subst hs2
              rw [tm1.page] at hb u2
              have tm2 := tm1.upd u2
              obtain ⟨md3, e3, tm3, hv3, hs3, hpts3⟩ := tm2.markDirty
              rw [e3] at h
              simp only [ne_eq, not_true_eq_false, if_false] at h
              obtain ⟨md4, e4, hb4, hv4, hf4, hk4, hpts4⟩ := tm3.unpin hs3
              rw [e4] at h
              simp only [ne_eq, not_true_eq_false, if_false, Option.some.injEq, Prod.mk.injEq,
                true_and] at h
              refine ⟨md4, b, b2, rpp, h.symm, hp0, by rw [← bytesOf_view hv1 hp0]; exact hb, pi, hb4,
                ⟨?_, hf4, hk4⟩, hd, hpts4 hd tm3.held.1, tm1.page⟩
              intro q hq
              rw [hv4 q hq, hv3 q hq, u2.view q hq, hv1 q hq]
          · rw [e1] at h
            simp only [ne_eq, reduceCtorEq, not_false_eq_true, if_true, Option.some.injEq,
              Prod.mk.injEq, false_and] at h
      · rw [if_neg hcond] at h
        push_neg at hcond
        obtain ⟨hpn, hne⟩ := hcond
        cases hhd : t.handle with
        | none => exact absurd hhd hne
        | some handle =>
          rw [hhd] at h
          simp only at h
          obtain ⟨hheld, hpg⟩ := hth handle hhd
          cases h2 : initPageSlots (withMd s md) handle rpp with
          | none => rw [h2] at h; cases h
          | some s2 =>
            rw [h2] at h
            simp only at h
            obtain ⟨md2, b, b2, hs2, hb, u2, pi⟩ := initPageSlots_spec c.base hheld h2 hpos1 hle
            subst hs2
            have hpe : handle.pageNum = pageNum := hpg.trans hpn.symm
            rw [hpe] at hb u2
            have hh2 : Held md2 handle := Held_upd u2 hheld
            obtain ⟨md3, e3, t3, _, hpts3, _, _⟩ := rmMarkDirty_spec (c.base.step u2.step) hh2.1
            rw [e3] at h
            simp only [ne_eq, not_true_eq_false, if_false, Option.some.injEq, Prod.mk.injEq,
              true_and] at h
            have hp0 : 0 ≤ pageNum := by rw [← hpe]; exact hheld.1.1
            have hfix : ∀ q, 0 ≤ q → fixOf md3 q = fixOf md q := by
              intro q hq
              rw [t3.fix q hq, u2.fix q hq]; simp
            refine ⟨md3, b, b2, rpp, h.symm, hp0, hb, pi, (c.base.step u2.step).step t3.step,
              ⟨?_, hfix, ?_⟩, handle, hpts3 handle hh2.1, hpe⟩
            · intro q hq
              rw [t3.view q hq, u2.view q hq]
            · intro h1 hx
              exact ⟨hpts3 h1 (u2.pts h1 hx.1), by rw [hfix _ hx.1.1]; exact hx.2⟩

/-! ## The record that an insertion stored -/

theorem loadTuple_congr {b b1 : List Nat} {n size k : Int}
    (h : readBytes b1 (tupleOffset n size k) size.toNat = readBytes b (tupleOffset n size k) size.toNat)
    (out : List Nat) : loadTuple b1 n size k out = loadTuple b n size k out := by
  unfold loadTuple
  rw [h]

theorem HoldsRecord_of_insert {b : List Nat} {size : Int} {data : List Nat} {k : Nat}
    {b2 : List Nat} (h : insertRecordOn b (some size) data = some (some (k, b2))) :
    HoldsRecord b2 (k : Int) size data := by
  obtain ⟨⟨n, hn, hk, _, _⟩, n1, sz, b1, hn1, hsz, hst, hss⟩ := insertRecordOn_stored h
  rw [hn] at hn1
  cases hn1
  cases hsz
  have hk0 : (0 : Int) ≤ (k : Int) := Int.ofNat_nonneg k
  have hn0 : 0 ≤ n := by omega
  obtain ⟨hs0, hd, _⟩ := storeTuple_eq hst
  refine ⟨n, ?_, hk0, hk, getSlot_setSlot_same hss, hs0, hd, ?_⟩
  · rw [headerNumSlots_setSlot hss hk0, headerNumSlots_storeTuple hst hn0 hk0, hn]
  · intro out ho
    rw [loadTuple_congr (b := b1)]
    · exact loadTuple_storeTuple hst out ho
    · apply readBytes_writeByte_disjoint hss
      right
      have := @tupleOffset_ge n size _ hs0 hk0
      omega

theorem HoldsRecord_writeInt {b b1 : List Nat} {off v : Int} (hw : writeInt b off v = some b1)
    (h0 : 0 ≤ off) (h8 : off + 4 ≤ 8) {k size : Int} {data : List Nat}
    (h : HoldsRecord b k size data) : HoldsRecord b1 k size data := by
  obtain ⟨n, hn, hk0, hk, hs, hs0, hd, hl⟩ := h
  refine ⟨n, ?_, hk0, hk, ?_, hs0, hd, ?_⟩
  · rw [← hn]
    exact readInt_writeInt_other hw 8 (Or.inr h8)
  · rw [← hs]
    exact readByte_writeInt_other hw _ (Or.inr (by unfold sizeofPageHeader; omega))
  · intro out ho
    rw [loadTuple_congr (b := b)]
    · exact hl out ho
    · apply readBytes_writeInt_other hw
      right
      have := @tupleOffset_ge n size _ hs0 hk0
      unfold sizeofPageHeader at this
      omega

/-! ## Linking a new page behind the last page of the chain -/

theorem linkNewPage_spec {s : RMState} {md : BM_Metadata} (c : Ctx s md)
    {i : Int} {t : RM_SystemSchema} {hm : BM_PageHandle} (o : TableOpen md i t hm)
    {cat : RM_SystemCatalog} (hcat : catalogOf md = some cat)
    (record : Record) (prevPage newPage slotIndex : Int) {s1 : RMState} {r1 : Record}
    (h : linkNewPage (withMd s md) i hm record prevPage newPage slotIndex
      = some (RC.RC_OK, s1, r1)) :
    ∃ mdF bp bp1, s1 = withMd s mdF
      ∧ r1 = { record with id := { page := newPage, slot := slotIndex } }
      ∧ Ctx s mdF ∧ TableOpen mdF i { t with numTuples := t.numTuples + 1 } hm
      ∧ 0 ≤ prevPage ∧ bytesOf md prevPage = some bp ∧ writeInt bp 0 newPage = some bp1
      ∧ Stored md mdF prevPage (PageContent.bytes bp1)
          (setDescriptor cat i { t with numTuples := t.numTuples + 1 })
      ∧ ((∀ hx, PointsTo md hx → PointsTo mdF hx)
          ∨ ∃ hy, PointsTo mdF hy ∧ fixOf mdF hy.pageNum = 0) := by
  unfold linkNewPage at h
  rw [getTable_eq c, o.desc] at h
  simp only at h
  by_cases hpm : prevPage = t.pageNum
  · rw [if_pos hpm] at h
    have hpg : hm.pageNum = prevPage := o.page.trans hpm.symm
    cases hbytes : bytesOf md hm.pageNum with
    | none =>
      unfold writeHeaderField at h
      rw [pageBytes_eq c.base.inv o.held.1, hbytes] at h
      cases h
    | some bp =>
      cases hw : writeInt bp 0 newPage with
      | none =>
        unfold writeHeaderField at h
        rw [pageBytes_eq c.base.inv o.held.1, hbytes] at h
        simp only [hw] at h
        cases h
      | some bp1 =>
        obtain ⟨md1, e1, u1⟩ := writeHeaderField_spec c.base o.held hbytes hw
        rw [e1] at h
        simp only at h
        have hp0 : hm.pageNum ≠ 0 := o.page_ne_zero hbytes
        have c1 : Ctx s md1 := Ctx_upd c u1
        have o1 : TableOpen md1 i t hm := TableOpen_upd_ne u1 hp0 o
        have hcat1 : catalogOf md1 = some cat := by
          rw [catalogOf_upd_ne u1 hp0]; exact hcat
        obtain ⟨mdF, eF, cF, oF, psF, hptsF⟩ := finishInsert_spec c1 o1 hcat1 record newPage
          slotIndex
        rw [eF] at h
        simp only [Option.some.injEq, Prod.mk.injEq, true_and] at h
        rw [hpg] at hbytes u1 hp0
        refine ⟨mdF, bp, bp1, h.1.symm, h.2.symm, cF, oF, by rw [← hpg]; exact o.held.1.1, hbytes,
          hw, ⟨?_, ?_, ?_⟩, Or.inl (fun hx hp => hptsF hx (u1.pts hx hp))⟩
        · intro q hq
          rw [psF.view q hq, u1.view q hq]
          by_cases hq0 : q = 0
          · have : q ≠ prevPage := by rw [hq0]; exact fun e => hp0 e.symm
            rw [if_pos hq0, if_neg this, if_pos hq0]
          · rw [if_neg hq0]
            by_cases hqp : q = prevPage
            · rw [if_pos hqp, if_pos hqp]
            · rw [if_neg hqp, if_neg hqp, if_neg hq0]
        · intro q hq
          rw [psF.fix q hq, u1.fix q hq]
        · intro h1 hx
          exact psF.keep h1 (Held_upd u1 hx)
  · rw [if_neg hpm] at h
    by_cases hneg : prevPage < 0
    · rw [rmPinPage_neg uninitHandle hneg] at h
      simp only [ne_eq, reduceCtorEq, not_false_eq_true, if_true, Option.some.injEq,
        Prod.mk.injEq, false_and] at h
    · have hp0 : 0 ≤ prevPage := not_lt.mp hneg
      rcases Temp.pin c.base uninitHandle hp0 with ⟨md1, hd, e1, tm1, hv1, _, alt⟩ | ⟨e1, _⟩
      · rw [e1] at h
        simp only [ne_eq, not_true_eq_false, if_false] at h
        rcases tm1.writeHeader 0 newPage with e2 | ⟨md2, bp, bp1, e2, hb2, hw2, tm2, u2⟩
        · rw [e2] at h; cases h
        · rw [e2] at h
          simp only at h
          obtain ⟨md3, e3, tm3, hv3, hs3, hpts3⟩ := tm2.markDirty
          rw [e3] at h
          simp only [ne_eq, not_true_eq_false, if_false] at h
          obtain ⟨md4, e4, hb4, hv4, hf4, hk4, hpts4⟩ := tm3.unpin hs3
          rw [e4] at h
          simp only [ne_eq, not_true_eq_false, if_false] at h
          have hbp : bytesOf md prevPage = some bp := by
            rw [← bytesOf_view hv1 hp0]; exact hb2
          have hpn0 : prevPage ≠ 0 := o.page_ne_zero hbp
          have hview4 : ∀ q, 0 ≤ q → viewPage md4 q =
              if q = prevPage then PageContent.bytes bp1 else viewPage md q := by
            intro q hq
            rw [hv4 q hq, hv3 q hq, u2.view q hq, hv1 q hq]
          have c4 : Ctx s md4 := Ctx_of_keep c hb4 hk4
          have hcat4 : catalogOf md4 = some cat := by
            unfold catalogOf
            rw [hview4 0 (le_refl 0), if_neg (fun e => hpn0 e.symm)]
            exact hcat
          have o4 : TableOpen md4 i t hm := by
            refine TableOpen_of_keep o ?_ rfl rfl hk4
            unfold tableOf
            rw [hcat4]
            have := o.desc
            unfold tableOf at this
            rw [hcat] at this
            exact this
          obtain ⟨mdF, eF, cF, oF, psF, hptsF⟩ := finishInsert_spec c4 o4 hcat4 record newPage
            slotIndex
          rw [eF] at h
          simp only [Option.some.injEq, Prod.mk.injEq, true_and] at h
          refine ⟨mdF, bp, bp1, h.1.symm, h.2.symm, cF, oF, hp0, hbp, hw2, ⟨?_, ?_, ?_⟩, ?_⟩
          · intro q hq
            rw [psF.view q hq, hview4 q hq]
            by_cases hq0 : q = 0
            · have : q ≠ prevPage := by rw [hq0]; exact fun e => hpn0 e.symm
              rw [if_pos hq0, if_neg this, if_pos hq0]
            · rw [if_neg hq0]
              by_cases hqp : q = prevPage
              · rw [if_pos hqp, if_pos hqp]
              · rw [if_neg hqp, if_neg hqp, if_neg hq0]
          · intro q hq
            rw [psF.fix q hq, hf4 q hq]
          · intro h1 hx
            exact psF.keep h1 (hk4 h1 hx)
          · rcases alt with alt | alt
            · left
              intro hx hp
              exact hptsF hx (hpts4 hx (hpts3 hx (u2.pts hx (alt hx hp))))
            · right
              refine ⟨hd, hptsF hd (hpts4 hd tm3.held.1), ?_⟩
              rw [tm1.page, psF.fix _ hp0, hf4 _ hp0]
              have := tm1.fix _ hp0
              rw [if_pos rfl] at this
              omega
      · rw [e1] at h
        simp only [ne_eq, reduceCtorEq, not_false_eq_true, if_true, Option.some.injEq,
          Prod.mk.injEq, false_and] at h

/-! ## Appending a new page -/

theorem TableOpen_alloc {s : RMState} {md md1 : BM_Metadata} {cat : RM_SystemCatalog}
    (a : Alloc s md md1 cat) (hcat : catalogOf md = some cat)
    {i : Int} {t : RM_SystemSchema} {hm : BM_PageHandle} (o : TableOpen md i t hm) :
    TableOpen md1 i t hm := by
  obtain ⟨c1, h1, h2, _⟩ := a.tables
  refine TableOpen_of_keep o ?_ rfl rfl a.keep
  have := o.desc
  unfold tableOf at this ⊢
  rw [hcat] at this
  rw [h1]
  simp only [Option.some_bind] at this ⊢
  rw [h2]
  exact this

theorem catalogOf_pageSet {md md1 : BM_Metadata} {p : Int} {d : PageContent}
    (ps : PageSet md md1 p d) (hp : p ≠ 0) : catalogOf md1 = catalogOf md := by
  unfold catalogOf
  rw [ps.view 0 (le_refl 0), if_neg (fun e => hp e.symm)]

theorem TableOpen_pageSet {md md1 : BM_Metadata} {p : Int} {d : PageContent}
    (ps : PageSet md md1 p d) (hp : p ≠ 0)
    {i : Int} {t : RM_SystemSchema} {hm : BM_PageHandle} (o : TableOpen md i t hm) :
    TableOpen md1 i t hm := by
  refine TableOpen_of_keep o ?_ rfl rfl ps.keep
  unfold tableOf
  rw [catalogOf_pageSet ps hp]
  exact o.desc

theorem bytesOf_pageSet {md md1 : BM_Metadata} {p : Int} {b : List Nat}
    (ps : PageSet md md1 p (PageContent.bytes b)) (hp : 0 ≤ p) : bytesOf md1 p = some b := by
  unfold bytesOf
  rw [ps.view p hp, if_pos rfl]
  rfl

/-- The part of `insertRecord` that appends a new page, when it returns `RC_OK`: the page
`np` that `getFreePage` returned holds the record in slot 0, and the `nextPage` link of
`prevPage` names it. -/
theorem appendNewPage_spec {s : RMState} {md : BM_Metadata} (c : Ctx s md)
    {i : Int} {t : RM_SystemSchema} {hm : BM_PageHandle} (o : TableOpen md i t hm)
    {cat : RM_SystemCatalog} (hcat : catalogOf md = some cat)
    (schema : Schema) (record : Record) (prevPage : Int) {s1 : RMState} {r1 : Record}
    (h : appendNewPage (withMd s md) i hm schema record prevPage = some (RC.RC_OK, s1, r1)) :
    ∃ mdF np sA size bF bp1, s1 = withMd s mdF
      ∧ r1 = { record with id := { page := np, slot := 0 } }
      ∧ getFreePage (withMd s md) = some (np, sA) ∧ 0 ≤ np
      ∧ getRecordSize schema = some size
      ∧ Ctx s mdF ∧ TableOpen mdF i { t with numTuples := t.numTuples + 1 } hm
      ∧ bytesOf mdF np = some bF ∧ HoldsRecord bF 0 size record.data
      ∧ 0 ≤ prevPage ∧ bytesOf mdF prevPage = some bp1
      ∧ (np < 2147483648 → headerNextPage bp1 = some np)
      ∧ ((∃ hx, PointsTo mdF hx ∧ hx.pageNum = np)
          ∨ ∃ hy, PointsTo mdF hy ∧ fixOf mdF hy.pageNum = 0) := by
  unfold appendNewPage at h
  cases hg : getFreePage (withMd s md) with
  | none => rw [hg] at h; cases h
  | some r =>
    obtain ⟨np, sA⟩ := r
    rw [hg] at h
    simp only at h
    by_cases hnp : np = NO_PAGE
    · rw [if_pos hnp] at h
      simp only [Option.some.injEq, Prod.mk.injEq, reduceCtorEq, false_and] at h
    · rw [if_neg hnp] at h
      obtain ⟨ty⟩ := o.catalogPage
      obtain ⟨md1, hsA, a⟩ := getFreePage_spec c ⟨_, ‹_›⟩ hcat hg hnp
      subst hsA
      obtain ⟨cat1, hcat1, htabs, _⟩ := a.tables
      have o1 : TableOpen md1 i t hm := TableOpen_alloc a hcat o
      cases hi : initNewPage (withMd s md1) i schema np with
      | none => rw [hi] at h; cases h
      | some r2 =>
        obtain ⟨rc2, s2⟩ := r2
        rw [hi] at h
        simp only at h
        by_cases hrc : rc2 = RC.RC_OK
        · subst hrc
          rw [if_pos rfl] at h
          obtain ⟨md2, b, b2, n, hs2, hnp0, hb, pi, hb2, ps2, _⟩ := initNewPage_spec a.ctx o1.desc
            (fun hx hhx => by
              have := o1.handle
              rw [hhx] at this
              cases this
              exact ⟨o1.held, o1.page⟩) schema np hi
          subst hs2
          have hne0 : np ≠ 0 := a.typed.ne_zero hb
          have o2 : TableOpen md2 i t hm := TableOpen_pageSet ps2 hne0 o1
          have c2 : Ctx s md2 := Ctx_of_keep a.ctx hb2 ps2.keep
          have hcat2 : catalogOf md2 = some cat1 := by
            rw [catalogOf_pageSet ps2 hne0]; exact hcat1
          rcases Temp.pin hb2 uninitHandle hnp0 with ⟨md3, hd, e3, tm3, hv3, _, _⟩ | ⟨e3, _⟩
          · rw [e3] at h
            simp only [ne_eq, not_true_eq_false, if_false] at h
            have hb3 : bytesOf md3 hd.pageNum = some b2 := by
              rw [tm3.page, bytesOf_view hv3 hnp0]
              exact bytesOf_pageSet ps2 hnp0
            have ev := insertRecordOnPage_eval tm3.base tm3.held hb3 schema record
            cases hio : insertRecordOn b2 (getRecordSize schema) record.data with
            | none =>
              rw [hio] at ev
              rw [ev] at h
              cases h
            | some ro =>
              cases ro with
              | none =>
                rw [hio] at ev
                rw [ev] at h
                simp only [ge_iff_le, Left.nonneg_neg_iff, Int.reduceLE, if_false] at h
                cases hu : rmUnpinPage (withMd s md3) hd with
                | none => rw [hu] at h; cases h
                | some r5 =>
                  rw [hu] at h
                  simp only [Option.some.injEq, Prod.mk.injEq, reduceCtorEq, false_and] at h
              | some kb =>
                obtain ⟨k, b3⟩ := kb
                rw [hio] at ev
                obtain ⟨mdA, eA, hbA, psA, hsA, hptsA⟩ := ev
                rw [eA] at h
                simp only [ge_iff_le, Nat.cast_nonneg, if_true] at h
                rw [tm3.page] at psA hsA
                obtain ⟨lf, n1, size, b1, hn1, hsz, hst, hss⟩ := insertRecordOn_stored hio
                have hk : k = 0 := by
                  obtain ⟨n2, _, _, _, hlow⟩ := lf
                  by_contra hk
                  exact hlow 0 (Nat.pos_of_ne_zero hk) (pi.free 0 (by simpa using pi.pos))
                subst hk
                rw [hsz] at hio
                have hold3 : HoldsRecord b3 0 size record.data := by
                  have := HoldsRecord_of_insert hio
                  simpa using this
                have tmA : Temp s md2 mdA np hd :=
                  ⟨hbA, psA.keep hd tm3.held, tm3.page,
                    fun q hq => by rw [psA.fix q hq, tm3.fix q hq],
                    fun h1 hx => hptsA h1 (tm3.pts h1 hx)⟩
                rcases tmA.writeHeader 4 prevPage with eB | ⟨mdB, bB, b4, eB, hbB, hwB, tmB, uB⟩
                · rw [eB] at h; cases h
                · rw [eB] at h
                  simp only at h
                  have hbA3 : bytesOf mdA np = some b3 := bytesOf_pageSet psA hnp0
                  rw [hbA3] at hbB
                  cases hbB
                  obtain ⟨mdC, eC, tmC, hvC, hsC, hptsC⟩ := tmB.markDirty
                  rw [eC] at h
                  simp only [ne_eq, not_true_eq_false, if_false] at h
                  obtain ⟨mdD, eD, hbD, hvD, hfD, hkD, hptsD⟩ := tmC.unpin hsC
                  rw [eD] at h
                  simp only [ne_eq, not_true_eq_false, if_false] at h
                  have hviewD : ∀ q, 0 ≤ q → viewPage mdD q =
                      if q = np then PageContent.bytes b4 else viewPage md2 q := by
                    intro q hq
                    rw [hvD q hq, hvC q hq, uB.view q hq, psA.view q hq, hv3 q hq]
                    by_cases hqp : q = np
                    · rw [if_pos hqp, if_pos hqp]
                    · rw [if_neg hqp, if_neg hqp, if_neg hqp]
                  have psD : PageSet md2 mdD np (PageContent.bytes b4) := ⟨hviewD, hfD, hkD⟩
                  have cD : Ctx s mdD := Ctx_of_keep c2 hbD hkD
                  have oD : TableOpen mdD i t hm := TableOpen_pageSet psD hne0 o2
                  have hcatD : catalogOf mdD = some cat1 := by
                    rw [catalogOf_pageSet psD hne0]; exact hcat2
                  have hold4 : HoldsRecord b4 0 size record.data :=
                    HoldsRecord_writeInt hwB (by norm_num) (by norm_num) hold3
                  obtain ⟨mdF, bp, bp1, hs1, hr1, cF, oF, hpp0, hbp, hwp, stF, alt⟩ :=
                    linkNewPage_spec cD oD hcatD _ prevPage np _ h
                  have hbpF : bytesOf mdF prevPage = some bp1 := by
                    unfold bytesOf
                    rw [stF.view _ hpp0, if_pos rfl]
                    rfl
                  have hbD4 : bytesOf mdD np = some b4 := bytesOf_pageSet psD hnp0
                  have hnpF : ∃ bF, bytesOf mdF np = some bF ∧ HoldsRecord bF 0 size record.data := by
                    by_cases hpe : np = prevPage
                    · refine ⟨bp1, by rw [hpe]; exact hbpF, ?_⟩
                      rw [← hpe, hbD4] at hbp
                      cases hbp
                      exact HoldsRecord_writeInt hwp (by norm_num) (by norm_num) hold4
                    · refine ⟨b4, ?_, hold4⟩
                      unfold bytesOf
                      rw [stF.view _ hnp0, if_neg hpe, if_neg hne0]
                      exact hbD4
                  obtain ⟨bF, hbF, holdF⟩ := hnpF
                  refine ⟨mdF, np, withMd s md1, size, bF, bp1, hs1, ?_, rfl, hnp0, hsz, cF, oF, hbF,
                    holdF, hpp0, hbpF, ?_, ?_⟩
                  · rw [hr1]
                    simp
                  · intro hlt
                    exact readInt_writeInt_same hwp (by omega) hlt
                  · rcases alt with alt | alt
                    · left
                      exact ⟨hd, alt hd (hptsD hd tmC.held.1), tm3.page⟩
                    · right
                      exact alt
          · rw [e3] at h
            simp only [ne_eq, reduceCtorEq, not_false_eq_true, if_true, Option.some.injEq,
              Prod.mk.injEq, false_and] at h
        · rw [if_neg hrc] at h
          simp only [Option.some.injEq, Prod.mk.injEq, reduceCtorEq, false_and] at h

/-! ## `insertRecord` -/

theorem InsertFound.holds {s : RMState} {md mdF : BM_Metadata} {i : Int}
    {t : RM_SystemSchema} {hm : BM_PageHandle} {cat : RM_SystemCatalog} {size : Option Int}
    {data : List Nat} {start : Int} {pre : List Int} {P : Int} {b : List Nat} {k : Nat}
    {b2 : List Nat} (f : InsertFound s md mdF i t hm cat size data start pre P b k b2) :
    ∃ sz, size = some sz ∧ bytesOf mdF P = some b2 ∧ HoldsRecord b2 (k : Int) sz data
      ∧ LowestFree b k := by
  obtain ⟨lf, n1, sz, b1, hn1, hsz, hst, hss⟩ := insertRecordOn_stored f.ins
  refine ⟨sz, hsz, ?_, ?_, lf⟩
  · unfold bytesOf
    rw [f.stored.view _ f.page, if_pos rfl]
    rfl
  · have := f.ins
    rw [hsz] at this
    exact HoldsRecord_of_insert this

/-- The source's `insertRecord` when it returns `RC_OK`: the record is stored where
`Placement` says, `getRecord` can read it back from there, and the descriptor counts one
tuple more. -/
theorem insertRecord_spec {s : RMState} {md : BM_Metadata} (c : Ctx s md)
    {rel : RM_TableData} {t : RM_SystemSchema} {hm : BM_PageHandle}
    (o : TableOpen md rel.mgmtData t hm) (fuel : Nat) (record : Record)
    {s1 : RMState} {r1 : Record}
    (h : insertRecord fuel (withMd s md) rel record = some (RC.RC_OK, s1, r1)) :
    ∃ mdF size bF, s1 = withMd s mdF ∧ r1.data = record.data
      ∧ recordSizeOf md rel.schema = some size
      ∧ Ctx s mdF ∧ TableOpen mdF rel.mgmtData { t with numTuples := t.numTuples + 1 } hm
      ∧ 0 ≤ r1.id.page ∧ bytesOf mdF r1.id.page = some bF
      ∧ HoldsRecord bF r1.id.slot size record.data
      ∧ Repin mdF t.pageNum r1.id.page
      ∧ Placement s md mdF t.pageNum r1.id := by
  obtain ⟨cat, hcat, _⟩ := o.catalog
  unfold insertRecord getSystemSchema at h
  simp only [getTable_eq c, o.desc, Option.some_bind, o.handle, derefSchema_eq c] at h
  cases hsch : schemaOf md rel.schema with
  | none => rw [hsch] at h; cases h
  | some schema =>
    rw [hsch] at h
    simp only at h
    have hrs : recordSizeOf md rel.schema = getRecordSize schema := by
      unfold recordSizeOf
      rw [hsch]
      rfl
    have hmp0 : 0 ≤ t.pageNum := by rw [← o.page]; exact o.held.1.1
    cases hbytes : bytesOf md hm.pageNum with
    | none =>
      rw [insertRecordOnPage_none c.base o.held.1 hbytes] at h
      cases h
    | some b =>
      have hp0 : hm.pageNum ≠ 0 := o.page_ne_zero hbytes
      have ev := insertRecordOnPage_eval c.base o.held hbytes schema record
      cases hio : insertRecordOn b (getRecordSize schema) record.data with
      | none =>
        rw [hio] at ev
        rw [ev] at h
        cases h
      | some ro =>
        cases ro with
        | some kb =>
          obtain ⟨k, b2⟩ := kb
          rw [hio] at ev
          obtain ⟨mdA, eA, hbA, psA, hsA, hptsA⟩ := ev
          rw [eA] at h
          simp only at h
          have cA : Ctx s mdA := Ctx_of_keep c hbA psA.keep
          have oA : TableOpen mdA rel.mgmtData t hm := TableOpen_pageSet psA hp0 o
          have hcatA : catalogOf mdA = some cat := by
            rw [catalogOf_pageSet psA hp0]; exact hcat
          rw [getTable_eq cA, oA.desc] at h
          simp only [ge_iff_le, Nat.cast_nonneg, if_true] at h
          obtain ⟨mdF, eF, cF, oF, psF, hptsF⟩ := finishInsert_spec cA oA hcatA
            { record with id := { page := hm.pageNum, slot := (k : Int) } } t.pageNum (k : Int)
          rw [eF] at h
          simp only [Option.some.injEq, Prod.mk.injEq, true_and] at h
          obtain ⟨hs1, hr1⟩ := h
          subst hr1
          obtain ⟨lf, n1, size, b1, hn1, hsz, hst, hss⟩ := insertRecordOn_stored hio
          have hbF : bytesOf mdF t.pageNum = some b2 := by
            unfold bytesOf
            rw [psF.view _ hmp0, if_neg (by rw [← o.page]; exact hp0), ← o.page,
              psA.view _ o.held.1.1, if_pos rfl]
            rfl
          rw [hsz] at hio
          refine ⟨mdF, size, b2, hs1.symm, rfl, by rw [hrs]; exact hsz, cF, oF, hmp0, hbF,
            HoldsRecord_of_insert hio, Or.inl rfl, Or.inl ⟨[], b, k, rfl, ?_, ?_, lf, rfl⟩⟩
          · intro q hq; cases hq
          · show bytesOf md t.pageNum = some b
            rw [← o.page]; exact hbytes
        | none =>
          rw [hio] at ev
          rw [ev] at h
          simp only at h
          rw [getTable_eq c, o.desc] at h
          simp only [ge_iff_le, Left.nonneg_neg_iff, Int.reduceLE, if_false] at h
          rw [pageBytes_eq c.base.inv o.held.1, hbytes] at h
          simp only [Option.some_bind] at h
          cases hnx : headerNextPage b with
          | none => rw [hnx] at h; cases h
          | some nx =>
            rw [hnx] at h
            simp only at h
            have hfull := insertRecordOn_full hio
            have hbm : bytesOf md t.pageNum = some b := by rw [← o.page]; exact hbytes
            have hnext : nextOf md t.pageNum = some nx := by
              unfold nextOf; rw [hbm]; exact hnx
            cases hl : insertOverflowLoop rel.mgmtData schema fuel (withMd s md) record
                t.pageNum nx with
            | none => rw [hl] at h; cases h
            | some res =>
              rw [hl] at h
              obtain ⟨l1, l2⟩ := insertOverflowLoop_spec schema fuel md record t.pageNum nx res
                c o hcat hl
              cases res with
              | inl r =>
                simp only [Option.some.injEq] at h
                subst h
                obtain ⟨mdF, pre, P, bP, k, b2, hs1, hr1, fnd⟩ := l1 s1 r1 rfl
                obtain ⟨sz, hsz, hbF, hold, lf⟩ := fnd.holds
                subst hr1
                refine ⟨mdF, sz, b2, hs1, rfl, by rw [hrs]; exact hsz, fnd.ctx, fnd.tbl, fnd.page,
                  hbF, hold, ?_, Or.inl ⟨t.pageNum :: pre, bP, k,
                    ⟨rfl, hmp0, nx, hnext, fnd.chain⟩, ?_, fnd.bytes, lf, rfl⟩⟩
                · rcases fnd.cached with e | e
                  · exact Or.inl e
                  · exact Or.inr (Or.inl e)
                · intro q hq
                  rcases List.mem_cons.1 hq with e1 | e1
                  · rw [e1]; exact ⟨b, hbm, hfull⟩
                  · exact fnd.full q e1
              | inr r =>
                obtain ⟨prevF, sL, rL⟩ := r
                simp only at h
                obtain ⟨mdL, pages, hsL, hrL, hlast, nn⟩ := l2 prevF sL rL rfl
                subst hsL; subst hrL
                have hcatL : catalogOf mdL = some cat := by
                  rw [catalogOf_view nn.same.view]; exact hcat
                obtain ⟨mdF, np, sA, size, bF, bp1, hs1, hr1, hgf, hnp0, hsz, cF, oF, hbF, hold,
                  hpp0, hbp, hlink, hpin⟩ := appendNewPage_spec nn.ctx nn.tbl hcatL schema rL prevF h
                subst hr1
                refine ⟨mdF, size, bF, hs1, rfl, by rw [hrs]; exact hsz, cF, oF, hnp0, hbF, hold,
                  Or.inr hpin, Or.inr ⟨t.pageNum :: pages, prevF, mdL, sA, bp1,
                    ⟨rfl, hmp0, nx, hnext, nn.chain⟩, ?_, hlast, nn.same, hgf, rfl, hbp, hlink⟩⟩
                intro q hq
                rcases List.mem_cons.1 hq with e1 | e1
                · rw [e1]; exact ⟨b, hbm, hfull⟩
                · exact nn.full q e1

/-! ## `createTable` -/

theorem getTableByName_eq {s : RMState} {md : BM_Metadata} (c : Ctx s md)
    {cat : RM_SystemCatalog} (hcat : catalogOf md = some cat) (name : CString) :
    getTableByName (withMd s md) name
      = getTableByNameLoop cat name cat.numTables.toNat 0 := by
  unfold getTableByName
  rw [getSystemCatalog_eq c, hcat]

theorem createTablePage_spec {s : RMState} {md : BM_Metadata} (c : Ctx s md)
    (ty : CatTyped md) {cat : RM_SystemCatalog} (hcat : catalogOf md = some cat)
    {table : Int} {t3 : RM_SystemSchema} (ht : getI? cat.tables table = some t3)
    (hnone : t3.handle = none) (schema : Schema) {s1 : RMState}
    (h : createTablePage (withMd s md) table schema = some (RC.RC_OK, s1)) :
    ∃ mdF catF pageNum, s1 = withMd s mdF ∧ Ctx s mdF ∧ CatTyped mdF
      ∧ catalogOf mdF = some catF ∧ catF.numTables = cat.numTables
      ∧ catF.tables = cat.tables.set table.toNat { t3 with pageNum := pageNum }
      ∧ 0 ≤ pageNum ∧ (∃ hx, PointsTo mdF hx ∧ hx.pageNum = pageNum)
      ∧ Safe mdF 0
      ∧ (∀ q, 0 ≤ q → fixOf mdF q = fixOf md q)
      ∧ (∀ h1, Held md h1 → Held mdF h1) := by
  unfold createTablePage at h
  cases hg : getFreePage (withMd s md) with
  | none => rw [hg] at h; cases h
  | some r =>
    obtain ⟨np, sA⟩ := r
    rw [hg] at h
    simp only at h
    by_cases hnp : np = NO_PAGE
    · cases hgt : getTable sA table with
      | none => rw [hgt] at h; cases h
      | some t4 =>
        rw [hgt] at h
        simp only at h
        cases hst : setTable sA table { t4 with pageNum := np } with
        | none => rw [hst] at h; cases h
        | some s4 =>
          rw [hst] at h
          simp only [hnp, if_true, Option.some.injEq, Prod.mk.injEq, reduceCtorEq,
            false_and] at h
    · obtain ⟨md1, hsA, a⟩ := getFreePage_spec c ty hcat hg hnp
      subst hsA
      obtain ⟨cat1, hcat1, htabs, hnum⟩ := a.tables
      have ht1 : tableOf md1 table = some t3 := by
        unfold tableOf
        rw [hcat1]
        simp only [Option.some_bind]
        rw [htabs]
        exact ht
      rw [getTable_eq a.ctx, ht1] at h
      simp only at h
      obtain ⟨md2, e2, u2⟩ := setTable_spec a.ctx hcat1 (by rw [htabs]; exact ht)
        { t3 with pageNum := np }
      rw [e2] at h
      simp only [hnp, if_false] at h
      have c2 : Ctx s md2 := Ctx_upd a.ctx u2
      have hcat2 := catalogOf_upd u2
      have ht2 : tableOf md2 table = some { t3 with pageNum := np } := by
        unfold tableOf
        rw [hcat2]
        exact getI?_set_same (by rw [htabs]; exact ht) _
      cases hi : initNewPage (withMd s md2) table schema np with
      | none => rw [hi] at h; cases h
      | some r5 =>
        obtain ⟨rc5, s5⟩ := r5
        rw [hi] at h
        simp only at h
        by_cases hrc : rc5 = RC.RC_OK
        · subst hrc
          simp only [ne_eq, not_true_eq_false, if_false] at h
          obtain ⟨md5, b, b2, n, hs5, hnp0, hb, _, hb5, ps5, hcached⟩ := initNewPage_spec c2 ht2
            (fun hx hhx => by
              have : (none : Option BM_PageHandle) = some hx := by rw [← hnone]; exact hhx
              cases this) schema np hi
          subst hs5
          have ty2 : CatTyped md2 := CatTyped_upd_catalog u2
          have hne0 : np ≠ 0 := ty2.ne_zero hb
          have c5 : Ctx s md5 := Ctx_of_keep c2 hb5 ps5.keep
          obtain ⟨md6, e6, t6, hpts6, _, hs6⟩ := markSystemCatalogDirty_spec c5
          rw [e6] at h
          simp only [Option.some.injEq, Prod.mk.injEq, true_and] at h
          obtain ⟨hx, hpx, hxp⟩ := hcached
          have hview0 : viewPage md6 0 = viewPage md2 0 := by
            rw [t6.view 0 (le_refl 0), ps5.view 0 (le_refl 0), if_neg (fun e => hne0 e.symm)]
          refine ⟨md6, { cat1 with tables := cat1.tables.set table.toNat { t3 with pageNum := np } },
            np, h.symm, Ctx_touch c5 t6 (Or.inl (le_refl 0)), ?_, ?_, hnum, ?_, hnp0,
            ⟨hx, hpts6 hx hpx, hxp⟩, hs6, ?_, ?_⟩
          · obtain ⟨cc, hcc⟩ := ty2
            exact ⟨cc, by rw [hview0]; exact hcc⟩
          · unfold catalogOf
            rw [hview0]
            exact hcat2
          · show cat1.tables.set table.toNat _ = _
            rw [htabs]
          · intro q hq
            rw [t6.fix q hq, ps5.fix q hq, u2.fix q hq, a.fix q hq]
            simp
          · intro h1 hh
            exact Held_touch t6 (ps5.keep h1 (Held_upd u2 (a.keep h1 hh))) (Or.inl (le_refl 0))
        · simp only [ne_eq, hrc, not_false_eq_true, if_true, Option.some.injEq,
            Prod.mk.injEq] at h
          exact h.1.elim


theorem copyAttrs_fields {schema : Schema} : ∀ (k i : Nat) (t t1 : RM_SystemSchema),
    copyAttrs schema k i t = some t1 →
      t1.handle = t.handle ∧ t1.name = t.name ∧ t1.numAttr = t.numAttr
        ∧ t1.keySize = t.keySize ∧ t1.keyAttrs = t.keyAttrs ∧ t1.numTuples = t.numTuples
        ∧ t1.pageNum = t.pageNum
  | 0, _, t, t1, h => by
    unfold copyAttrs at h
    cases h
    exact ⟨rfl, rfl, rfl, rfl, rfl, rfl, rfl⟩
  | k + 1, i, t, t1, h => by
    unfold copyAttrs at h
    split at h
    · split at h
      · have := copyAttrs_fields k (i + 1) _ t1 h
        exact this
      · cases h
    · cases h

theorem copyKeys_fields {schema : Schema} : ∀ (k i : Nat) (t t1 : RM_SystemSchema),
    copyKeys schema k i t = some t1 →
      t1.handle = t.handle ∧ t1.name = t.name ∧ t1.numAttr = t.numAttr
        ∧ t1.keySize = t.keySize ∧ t1.attrNames = t.attrNames ∧ t1.dataTypes = t.dataTypes
        ∧ t1.typeLength = t.typeLength ∧ t1.numTuples = t.numTuples ∧ t1.pageNum = t.pageNum
  | 0, _, t, t1, h => by
    unfold copyKeys at h
    cases h
    exact ⟨rfl, rfl, rfl, rfl, rfl, rfl, rfl, rfl, rfl⟩
  | k + 1, i, t, t1, h => by
    unfold copyKeys at h
    split at h
    · split at h
      · have := copyKeys_fields k (i + 1) _ t1 h
        exact this
      · cases h
    · cases h

theorem newDescriptor_fields {t0 t3 : RM_SystemSchema} {name : CString} {schema : Schema}
    (h : newDescriptor t0 name schema = some t3) :
    t3.handle = none ∧ t3.name = strncpyBounded name TABLE_NAME_SIZE
      ∧ t3.numAttr = schema.numAttr ∧ t3.keySize = schema.keySize ∧ t3.numTuples = 0 := by
  unfold newDescriptor at h
  simp only at h
  split at h
  · cases h
  · rename_i t2 h2
    obtain ⟨a1, a2, a3, a4, a5, a6, a7⟩ := copyAttrs_fields _ _ _ _ h2
    obtain ⟨b1, b2, b3, b4, _, _, _, b8, b9⟩ := copyKeys_fields _ _ _ _ h
    exact ⟨b1.trans a1, b2.trans a2, b3.trans a3, b4, b8.trans a6⟩

/-- The source's `createTable` when it returns `RC_OK`. -/
theorem createTable_spec {s : RMState} {md : BM_Metadata} (c : Ctx s md)
    {cat : RM_SystemCatalog} (hcat : catalogOf md = some cat)
    (name : CString) (schema : Schema) {s1 : RMState}
    (h : createTable (withMd s md) name schema = some (RC.RC_OK, s1)) :
    ∃ mdF catF tF, s1 = withMd s mdF ∧ Created s md mdF cat catF name schema tF := by
  unfold createTable at h
  rw [getSystemCatalog_eq c, hcat, getTableByName_eq c hcat] at h
  simp only at h
  cases hfound : getTableByNameLoop cat name cat.numTables.toNat 0 with
  | none => rw [hfound] at h; cases h
  | some found =>
    rw [hfound] at h
    simp only at h
    cases found with
    | some j =>
      simp only [ne_eq, reduceCtorEq, not_false_eq_true, if_true, Option.some.injEq,
        Prod.mk.injEq, false_and] at h
    | none =>
      simp only [ne_eq, not_true_eq_false, if_false] at h
      by_cases hchk : cat.numTables ≥ (MAX_NUM_TABLES : Int) ∨ schema.numAttr > MAX_NUM_ATTR
          ∨ schema.keySize > MAX_NUM_KEYS
      · rw [if_pos hchk] at h
        simp only [Option.some.injEq, Prod.mk.injEq, reduceCtorEq, false_and] at h
      · rw [if_neg hchk] at h
        push_neg at hchk
        rw [getTable_eq c] at h
        unfold tableOf at h
        rw [hcat] at h
        simp only [Option.some_bind] at h
        cases ht0 : getI? cat.tables cat.numTables with
        | none => rw [ht0] at h; cases h
        | some t0 =>
          rw [ht0] at h
          simp only [Option.some_bind] at h
          cases hnd : newDescriptor t0 name schema with
          | none => rw [hnd] at h; cases h
          | some t3 =>
            rw [hnd] at h
            simp only at h
            obtain ⟨md1, e1, u1⟩ := setTable_spec c hcat ht0 t3
            rw [e1] at h
            simp only at h
            have c1 : Ctx s md1 := Ctx_upd c u1
            have hcat1 := catalogOf_upd u1
            rw [getSystemCatalog_eq c1, hcat1] at h
            simp only at h
            obtain ⟨md2, e2, u2⟩ := setSystemCatalog_spec c1 hcat1
              { totalNumPages := cat.totalNumPages, freePage := cat.freePage,
                numTables := cat.numTables + 1,
                tables := cat.tables.set cat.numTables.toNat t3 }
            rw [e2] at h
            simp only at h
            have c2 : Ctx s md2 := Ctx_upd c1 u2
            have hcat2 := catalogOf_upd u2
            have hidx : 0 ≤ cat.numTables := (getI?_eq_some ht0).1
            obtain ⟨hh, hnm, hna, hks, hnt⟩ := newDescriptor_fields hnd
            obtain ⟨mdF, catF, pageNum, hs1, cF, tyF, hcatF, hnumF, htabF, hp0, hcached, hsafe,
              hfix, hkeep⟩ := createTablePage_spec c2 (CatTyped_upd_catalog u2) hcat2
                (getI?_set_same ht0 t3) hh schema h
            refine ⟨mdF, catF, { t3 with pageNum := pageNum }, hs1, ⟨cF, tyF, hcatF, hnumF,
              ⟨hidx, hchk.1⟩, ?_, hfound, ⟨t0, t3, ht0, hnd, rfl⟩, hp0, hcached, hsafe, ?_, ?_⟩⟩
            · rw [htabF]
              simp only [List.set_set]
            · intro q hq
              rw [hfix q hq, u2.fix q hq, u1.fix q hq]
            · intro h1 hx
              exact hkeep h1 (Held_upd u2 (Held_upd u1 hx))

/-! ## `getTableByName` and `openTable` -/

theorem getTableByNameLoop_none {cat : RM_SystemCatalog} {name : CString} :
    ∀ (k i : Nat), getTableByNameLoop cat name k i = some none →
      ∀ j, i ≤ j → j < i + k → ∃ t, cat.tables[j]? = some t ∧ t.name ≠ name
  | 0, i, _, j, h1, h2 => by omega
  | k + 1, i, h, j, h1, h2 => by
    unfold getTableByNameLoop at h
    cases ht : cat.tables[i]? with
    | none => rw [ht] at h; cases h
    | some t =>
      rw [ht] at h
      simp only at h
      by_cases hn : t.name = name
      · rw [if_pos hn] at h; cases h
      · rw [if_neg hn] at h
        by_cases hji : j = i
        · subst hji; exact ⟨t, ht, hn⟩
        · exact getTableByNameLoop_none k (i + 1) h j (by omega) (by omega)

theorem getTableByNameLoop_found {cat : RM_SystemCatalog} {name : CString} {m : Nat}
    {tm : RM_SystemSchema} (hm : cat.tables[m]? = some tm) (hname : tm.name = name) :
    ∀ (k i : Nat), i ≤ m → m < i + k →
      (∀ j, i ≤ j → j < m → ∃ t, cat.tables[j]? = some t ∧ t.name ≠ name) →
      getTableByNameLoop cat name k i = some (some (m : Int))
  | 0, i, h1, h2, _ => by omega
  | k + 1, i, h1, h2, hb => by
    unfold getTableByNameLoop
    by_cases him : i = m
    · subst him
      rw [hm]
      simp only [hname, if_true]
    · obtain ⟨t, ht, hn⟩ := hb i (le_refl i) (by omega)
      rw [ht]
      simp only [hn, if_false]
      exact getTableByNameLoop_found hm hname k (i + 1) (by omega) (by omega)
        (fun j hj1 hj2 => hb j (by omega) hj2)

/-- The source's `openTable` of a table that the catalog lists under `name` at descriptor
`table`, that is not open, and whose main page can be pinned: it returns `RC_OK` and the
table is open. -/
theorem openTable_spec {s : RMState} {md : BM_Metadata} (c : Ctx s md)
    {cat : RM_SystemCatalog} (hcat : catalogOf md = some cat) (rel : RM_TableData)
    {name : CString} {table : Nat} {t : RM_SystemSchema}
    (hfind : getTableByNameLoop cat name cat.numTables.toNat 0 = some (some (table : Int)))
    (ht : getI? cat.tables (table : Int) = some t) (hnone : t.handle = none)
    (hp : 0 ≤ t.pageNum) (hpin : CanPin md t.pageNum) :
    ∃ md3 hd, openTable (withMd s md) rel name = some (RC.RC_OK, withMd s md3,
        { name := (table : Int),
          schema := { numAttr := t.numAttr, keySize := t.keySize, table := (table : Int) },
          mgmtData := (table : Int) })
      ∧ Ctx s md3 ∧ TableOpen md3 (table : Int) { t with handle := some hd } hd
      ∧ catalogOf md3 = some (setDescriptor cat (table : Int) { t with handle := some hd })
      ∧ (∀ q, 0 ≤ q → q ≠ 0 → viewPage md3 q = viewPage md q) := by
  have htab : tableOf md (table : Int) = some t := by
    unfold tableOf; rw [hcat]; exact ht
  obtain ⟨md1, e1, u1⟩ := setTable_spec c hcat ht { t with handle := some uninitHandle }
  have c1 : Ctx s md1 := Ctx_upd c u1
  have hcat1 := catalogOf_upd u1
  rcases Temp.pin c1.base uninitHandle hp with ⟨md2, hd, e2, tm2, hv2, _, _⟩ | ⟨_, hn⟩
  · have c2 : Ctx s md2 := tm2.ctx c1
    have hcat2 := (catalogOf_view hv2).trans hcat1
    have ht2 : getI? (cat.tables.set (table : Int).toNat { t with handle := some uninitHandle })
        (table : Int) = some { t with handle := some uninitHandle } := getI?_set_same ht _
    obtain ⟨md3, e3, u3⟩ := setTable_spec c2 hcat2 ht2
      { t with handle := some hd }
    have hcat3 := catalogOf_upd u3
    have hset : (cat.tables.set (table : Int).toNat { t with handle := some uninitHandle }).set
        (table : Int).toNat { t with handle := some hd }
        = cat.tables.set (table : Int).toNat { t with handle := some hd } := by
      simp only [List.set_set]
    refine ⟨md3, hd, ?_, Ctx_upd c2 u3, ⟨?_, rfl, Held_upd u3 tm2.held, tm2.page⟩, ?_, ?_⟩
    · unfold openTable
      rw [getTableByName_eq c hcat, hfind]
      simp only [getTable_eq c, htab, hnone, ne_eq, not_true_eq_false, if_false, e1, e2,
        getTable_eq c2]
      have : tableOf md2 (table : Int) = some { t with handle := some uninitHandle } := by
        unfold tableOf; rw [hcat2]; exact ht2
      simp only [this, e3]
    · unfold tableOf
      rw [hcat3]
      simp only [Option.some_bind]
      exact getI?_set_same ht2 _
    · rw [hcat3]
      unfold setDescriptor
      simp only [hset]
    · intro q hq hq0
      rw [u3.view q hq, if_neg hq0, hv2 q hq, u1.view q hq, if_neg hq0]
  · exact absurd (u1.canPin _ hpin) hn

/-! ## `initBufferPool` and `initRecordManager` -/

theorem initFrames_spec : ∀ (k i : Nat) (md : BM_Metadata), md.pageFrames.length = i →
    md.timeStamp + k < 4294967296 →
    (∀ j f, md.pageFrames[j]? = some f → FreeFrame md j f) →
    (initFrames k i md).pageFrames.length = i + k
      ∧ (initFrames k i md).pageTable = md.pageTable
      ∧ (initFrames k i md).pageFile = md.pageFile
      ∧ (initFrames k i md).timeStamp = md.timeStamp + k
      ∧ (∀ j f, (initFrames k i md).pageFrames[j]? = some f → FreeFrame (initFrames k i md) j f)
  | 0, i, md, hl, _, hf => by
    unfold initFrames
    exact ⟨hl, rfl, rfl, rfl, hf⟩
  | k + 1, i, md, hl, ht, hf => by
    unfold initFrames
    simp only [getTimeStamp]
    have hmod : (md.timeStamp + 1) % 4294967296 = md.timeStamp + 1 := Nat.mod_eq_of_lt (by omega)
    rw [hmod]
    obtain ⟨h1, h2, h3, h4, h5⟩ := initFrames_spec k (i + 1)
      ⟨md.pageFrames ++ [⟨emptyPage, NO_PAGE, (i : Int), 0, false, false, md.timeStamp⟩],
        md.pageTable, md.pageFile, md.timeStamp + 1, md.queueIndex, md.numRead, md.numWrite⟩
      (by simp [hl]) (by simp only; omega)
      (by
        intro j f hj
        simp only at hj
        by_cases hjl : j < md.pageFrames.length
        · rw [List.getElem?_append_left hjl] at hj
          obtain ⟨a, b, c, d⟩ := hf j f hj
          exact ⟨a, b, c, Nat.lt_succ_of_lt d⟩
        · rw [List.getElem?_append_right (not_lt.mp hjl)] at hj
          have hj0 : j - md.pageFrames.length = 0 := by
            by_contra hne
            rw [List.getElem?_eq_none (by simp; omega)] at hj
            cases hj
          rw [hj0] at hj
          simp only [List.getElem?_cons_zero, Option.some.injEq] at hj
          subst hj
          have : j = i := by omega
          subst this
          exact ⟨rfl, rfl, rfl, Nat.lt_succ_self _⟩)
    refine ⟨by rw [h1]; omega, h2, h3, by rw [h4]; simp only; omega, h5⟩

theorem PoolInv_of_free {md : BM_Metadata} (hpt : md.pageTable = initHashTable PAGE_TABLE_SIZE)
    (hfile : FileOK md.pageFile)
    (hf : ∀ j f, md.pageFrames[j]? = some f → FreeFrame md j f) : PoolInv md := by
  refine ⟨by rw [hpt]; exact HTInv_initHashTable, hfile, ?_, ?_⟩
  · intro p i hp
    rw [hpt, getValue_initHashTable hp]
    constructor
    · intro h; cases h
    · rintro ⟨f, hfa, ho, _⟩
      obtain ⟨_, _, hfe⟩ := frameAt_eq_some hfa
      have := (hf _ f hfe).2.2.1
      rw [this] at ho
      cases ho
  · intro i f hfa
    obtain ⟨h0, _, hfe⟩ := frameAt_eq_some hfa
    obtain ⟨a, b, c, _⟩ := hf _ f hfe
    refine ⟨by rw [a]; exact Int.toNat_of_nonneg h0, by rw [b], ?_⟩
    intro ho
    rw [c] at ho
    cases ho

/-- The pool `initBufferPool` builds for an existing file. -/
theorem initBufferPool_spec (bm : BM_BufferPool) (name : String) (pages : List PageContent) :
    ∃ md, initBufferPool bm name (some pages) 16 ReplacementStrategy.RS_LRU
        = (RC.RC_OK, ⟨name, 16, ReplacementStrategy.RS_LRU, MgmtPtr.live md⟩)
      ∧ PoolInv md ∧ md.pageFrames.length = 16
      ∧ md.pageFile.mgmtInfo = some pages
      ∧ md.pageTable = initHashTable PAGE_TABLE_SIZE
      ∧ (∀ j f, md.pageFrames[j]? = some f → FreeFrame md j f)
      ∧ md.timeStamp = 16 := by
  obtain ⟨h1, h2, h3, h4, h5⟩ := initFrames_spec 16 0
    ⟨[], initHashTable PAGE_TABLE_SIZE, ⟨name, (pages.length : Int), 0, some pages⟩, 0,
      bm.numPages - 1, 0, 0⟩
    rfl (by norm_num) (by intro j f hj; simp at hj)
  refine ⟨_, ?_, PoolInv_of_free h2 ?_ h5, by rw [h1], by rw [h3], h2, h5, by rw [h4]⟩
  · unfold initBufferPool openPageFile
    rfl
  · rw [h3]
    exact ⟨pages, rfl, rfl⟩


/-- The part of `initRecordManager` before `initCatalog`: the pool is built over the pages
of the file (one empty page when the file is new) and the catalog handle holds a pin on
page 0. -/
theorem initRecordManager_pinned (s : RMState) (mgmtData : Option String)
    (pages : List PageContent)
    (hpages : pages = match s.disk with
      | none => [emptyPage]
      | some p => p) :
    ∃ s3 md3, s3.bufferPool.mgmtData = MgmtPtr.live md3 ∧ Ctx s3 md3
      ∧ (∀ q, 0 ≤ q → viewPage md3 q = pages.getD q.toNat emptyPage)
      ∧ (∀ q, 0 ≤ q → fixOf md3 q = if q = 0 then 1 else 0)
      ∧ Safe md3 0 ∧ s3.disk = some pages
      ∧ initRecordManager s mgmtData = initCatalog s3 (decide (s.disk = none))
      ∧ ∀ q, CanPin md3 q := by
  obtain ⟨name, hname⟩ : ∃ name : String, pageFileName mgmtData = name := ⟨_, rfl⟩
  obtain ⟨md, e, hinv, hlen, hfile, hpt, hfree, hts⟩ := initBufferPool_spec s.bufferPool name pages
  have hinit : initRecordManager s mgmtData =
      match pinPage ⟨name, 16, ReplacementStrategy.RS_LRU, MgmtPtr.live md⟩
          s.catalogPageHandle 0 with
      | none => none
      | some r3 =>
        if r3.1 ≠ RC.RC_OK then some (r3.1, ⟨r3.2.1, r3.2.2, some pages⟩)
        else initCatalog ⟨r3.2.1, r3.2.2, some pages⟩ (decide (s.disk = none)) := by
    unfold initRecordManager
    have hg : ¬ (PAGE_SIZE < sizeofSystemCatalog ∨ MAX_NUM_TABLES ≤ 0) := by decide
    rw [if_neg hg]
    dsimp only
    rw [hname]
    cases hd : s.disk with
    | none =>
      rw [hd] at hpages
      dsimp only at hpages
      subst hpages
      have hr0 : (if decide ((none : Disk) = none) = true
          then createPageFile name none else (RC.RC_OK, none))
          = (RC.RC_OK, some [emptyPage]) := rfl
      rw [hr0]
      dsimp only
      rw [if_neg (not_not.mpr rfl), e]
      dsimp only
      rw [if_neg (not_not.mpr rfl)]
      try rfl
    | some p =>
      rw [hd] at hpages
      dsimp only at hpages
      subst hpages
      have hr0 : (if decide ((some pages : Disk) = none) = true
          then createPageFile name (some pages) else (RC.RC_OK, some pages))
          = (RC.RC_OK, some pages) := rfl
      rw [hr0]
      dsimp only
      rw [if_neg (not_not.mpr rfl), e]
      dsimp only
      rw [if_neg (not_not.mpr rfl)]
      try rfl
  have hok : PoolOK ⟨name, 16, ReplacementStrategy.RS_LRU, MgmtPtr.live md⟩ md :=
    ⟨rfl, by rw [hlen]; rfl, hinv⟩
  have hnone : ∀ q, 0 ≤ q → frameOfPage md q = none := by
    intro q hq
    unfold frameOfPage
    rw [hpt, getValue_initHashTable hq]
  rcases pinPage_spec hok rfl s.catalogPageHandle (le_refl (0 : Int)) with
    ⟨md1, i, f1, ep, k, _⟩ | ⟨_, _, hno⟩
  · have hl1 := (k.inv.lookup 0 i (le_refl 0)).2 ⟨f1, k.new, k.occ, k.pn⟩
    have hf1 : frameOfPage md1 0 = some f1 := by
      unfold frameOfPage; rw [hl1]; exact k.new
    have tc := k.toTouch hinv (le_refl 0)
    have hfix : ∀ q, 0 ≤ q → fixOf md1 q = if q = 0 then 1 else 0 := by
      intro q hq
      rw [tc.fix q hq]
      unfold fixOf
      rw [hnone q hq]
      simp
    refine ⟨⟨⟨name, 16, ReplacementStrategy.RS_LRU, MgmtPtr.live md1⟩, ⟨0, some i⟩, some pages⟩,
      md1, rfl, ⟨⟨by show (16 : Int) = _; rw [k.len, hlen]; rfl, rfl, k.inv⟩,
        ⟨⟨le_refl 0, i, rfl, hl1⟩, by rw [hfix 0 (le_refl 0)]; simp⟩, rfl⟩, ?_, hfix, ?_, rfl, ?_,
      ?_⟩
    · intro q hq
      rw [k.view q hq]
      unfold viewPage
      rw [hpt, getValue_initHashTable hq]
      unfold fhPage
      rw [hfile]
    · intro g hg
      rw [hf1] at hg
      cases hg
      exact k.safe
    · rw [hinit, ep]
      dsimp only
      rw [if_neg (not_not.mpr rfl)]
    · intro q
      right
      have key : ∀ j : Nat, j < 16 → (j : Int) ≠ i →
          ∃ g, frameAt md1 (j : Int) = some g ∧ g.fixCount = 0 ∧ g.timeStamp < UINT_MAX := by
        intro j hj hne
        have hjl : j < md.pageFrames.length := by rw [hlen]; exact hj
        have hfj : md.pageFrames[j]? = some (md.pageFrames[j]) := List.getElem?_eq_getElem hjl
        obtain ⟨_, b, _, d⟩ := hfree j _ hfj
        refine ⟨md.pageFrames[j], ?_, b, by rw [hts] at d; unfold UINT_MAX; omega⟩
        rw [k.others _ hne]
        unfold frameAt
        rw [getI?_ofNat]
        exact hfj
      by_cases hi0 : i = 0
      · obtain ⟨g, h1, h2, h3⟩ := key 1 (by norm_num) (by rw [hi0]; norm_num)
        exact ⟨_, g, h1, h2, h3⟩
      · obtain ⟨g, h1, h2, h3⟩ := key 0 (by norm_num) (by intro h; exact hi0 (by simpa using h.symm))
        exact ⟨_, g, h1, h2, h3⟩
  · exfalso
    have h0 : (0 : Nat) < md.pageFrames.length := by rw [hlen]; norm_num
    have hf0 : md.pageFrames[0]? = some (md.pageFrames[0]) := List.getElem?_eq_getElem h0
    obtain ⟨_, b, _, d⟩ := hfree 0 _ hf0
    apply hno 0 (md.pageFrames[0]) _ ⟨b, by rw [hts] at d; unfold UINT_MAX; omega⟩
    unfold frameAt getI?
    simp only [le_refl, if_true, Int.toNat_zero]
    exact hf0

/-- The source's `initRecordManager` when the page file does not exist: it returns `RC_OK`
with an empty catalog. -/
theorem initRecordManager_fresh (s : RMState) (hd : s.disk = none) (mgmtData : Option String) :
    ∃ sF md, initRecordManager s mgmtData = some (RC.RC_OK, sF)
      ∧ sF.bufferPool.mgmtData = MgmtPtr.live md ∧ Ctx sF md ∧ CatTyped md
      ∧ catalogOf md = some { zeroSystemCatalog with
          totalNumPages := 1, freePage := NO_PAGE, numTables := 0 }
      ∧ (∀ q, 0 ≤ q → fixOf md q = if q = 0 then 1 else 0) ∧ Safe md 0 := by
  obtain ⟨s3, md3, hlive, c3, hv3, hf3, _, _, e, _⟩ := initRecordManager_pinned s mgmtData
    [emptyPage] (by rw [hd])
  have hs3 : s3 = withMd s3 md3 := (withMd_self hlive).symm
  have hcat3 : catalogOf md3 = some zeroSystemCatalog := by
    unfold catalogOf
    rw [hv3 0 (le_refl 0)]
    show asCatalog emptyPage = some zeroSystemCatalog
    unfold asCatalog emptyPage
    exact if_pos rfl
  obtain ⟨md4, e4, u4⟩ := setSystemCatalog_spec c3 hcat3
    { zeroSystemCatalog with totalNumPages := 1, freePage := NO_PAGE, numTables := 0 }
  have c4 : Ctx s3 md4 := Ctx_upd c3 u4
  obtain ⟨md5, e5, t5, _, _, hs5⟩ := markSystemCatalogDirty_spec c4
  refine ⟨withMd s3 md5, md5, ?_, rfl, Ctx_withMd.2 (Ctx_touch c4 t5 (Or.inl (le_refl 0))),
    CatTyped_view t5.view (CatTyped_upd_catalog u4), ?_, ?_, hs5⟩
  · rw [e, hd]
    unfold initCatalog
    simp only [decide_True, if_true]
    rw [hs3, getSystemCatalog_eq c3, hcat3]
    simp only
    rw [e4]
    simp only
    rw [e5]
    simp only [withMd_withMd]
  · rw [catalogOf_touch t5, catalogOf_upd u4]
  · intro q hq
    rw [t5.fix q hq, u4.fix q hq, hf3 q hq]
    simp

/-- The source's `initRecordManager` on an existing page file whose page 0 holds a
catalog: it returns `RC_OK` and the pool shows the pages of the file. -/
theorem initRecordManager_existing (s : RMState) (pages : List PageContent)
    (hd : s.disk = some pages) {c0 : RM_SystemCatalog}
    (hc : asCatalog (pages.getD 0 emptyPage) = some c0) (mgmtData : Option String) :
    ∃ sF md, initRecordManager s mgmtData = some (RC.RC_OK, sF)
      ∧ sF.bufferPool.mgmtData = MgmtPtr.live md ∧ Ctx sF md
      ∧ (∀ q, 0 ≤ q → viewPage md q = pages.getD q.toNat emptyPage)
      ∧ (∀ q, 0 ≤ q → fixOf md q = if q = 0 then 1 else 0) ∧ Safe md 0
      ∧ ∀ q, CanPin md q := by
  obtain ⟨s3, md3, hlive, c3, hv3, hf3, hs3, _, e, hcp⟩ := initRecordManager_pinned s mgmtData
    pages (by rw [hd])
  have hw : s3 = withMd s3 md3 := (withMd_self hlive).symm
  have hcat3 : catalogOf md3 = some c0 := by
    unfold catalogOf
    rw [hv3 0 (le_refl 0)]
    exact hc
  refine ⟨s3, md3, ?_, hlive, c3, hv3, hf3, hs3, hcp⟩
  rw [e, hd]
  unfold initCatalog
  simp only [reduceCtorEq, decide_False, Bool.false_eq_true, if_false]
  have : getSystemCatalog s3 = some c0 := by
    rw [hw, getSystemCatalog_eq c3, hcat3]
  rw [this]

/-! ## Opening the table that `createTable` created -/

theorem strncpyBounded_short {n : CString} {size : Nat} (h : n.length + 1 ≤ size) :
    strncpyBounded n size = n := by
  unfold strncpyBounded
  exact List.take_of_length_le (by omega)

theorem Created.slot {s : RMState} {md mdF : BM_Metadata} {cat catF : RM_SystemCatalog}
    {name : CString} {schema : Schema} {tF : RM_SystemSchema}
    (cr : Created s md mdF cat catF name schema tF) :
    cat.numTables.toNat < cat.tables.length
      ∧ ((cat.numTables.toNat : Nat) : Int) = cat.numTables
      ∧ getI? catF.tables cat.numTables = some tF
      ∧ catF.tables[cat.numTables.toNat]? = some tF := by
  obtain ⟨t0, t3, h0, _, _⟩ := cr.desc
  obtain ⟨hn, hg⟩ := getI?_eq_some h0
  have hl : cat.numTables.toNat < cat.tables.length := by
    by_contra hc
    rw [List.getElem?_eq_none (by omega)] at hg
    cases hg
  have hset : catF.tables[cat.numTables.toNat]? = some tF := by
    rw [cr.tables, List.getElem?_set_self hl]
  refine ⟨hl, Int.toNat_of_nonneg hn, ?_, hset⟩
  unfold getI?
  rw [if_pos hn]
  exact hset

/-- After `createTable(name, schema)` with a name of at most 15 characters,
`getTableByName(name)` finds the new descriptor. -/
theorem Created.find {s : RMState} {md mdF : BM_Metadata} {cat catF : RM_SystemCatalog}
    {name : CString} {schema : Schema} {tF : RM_SystemSchema}
    (cr : Created s md mdF cat catF name schema tF) (hname : name.length ≤ 15) :
    getTableByNameLoop catF name catF.numTables.toNat 0
      = some (some ((cat.numTables.toNat : Nat) : Int)) := by
  obtain ⟨hl, hcast, _, hset⟩ := cr.slot
  obtain ⟨t0, t3, h0, hnd, htF⟩ := cr.desc
  obtain ⟨_, hnm, _, _, _⟩ := newDescriptor_fields hnd
  have hnameF : tF.name = name := by
    rw [htF]
    show t3.name = name
    rw [hnm]
    exact strncpyBounded_short (by unfold TABLE_NAME_SIZE; omega)
  have hk : catF.numTables.toNat = cat.numTables.toNat + 1 := by
    rw [cr.count]
    have := cr.index.1
    omega
  rw [hk]
  apply getTableByNameLoop_found hset hnameF _ 0 (Nat.zero_le _) (by omega)
  intro j _ hj
  obtain ⟨t, ht, hne⟩ := getTableByNameLoop_none _ _ cr.absent j (Nat.zero_le _) (by omega)
  refine ⟨t, ?_, hne⟩
  rw [cr.tables, List.getElem?_set_ne (by omega)]
  exact ht

/-- After a successful `createTable(name, schema)` with a name of at most 15 characters,
`openTable(name)` returns `RC_OK` and the table is open. -/
theorem openTable_created {s : RMState} {md mdF : BM_Metadata} {cat catF : RM_SystemCatalog}
    {name : CString} {schema : Schema} {tF : RM_SystemSchema}
    (cr : Created s md mdF cat catF name schema tF) (hname : name.length ≤ 15)
    (rel : RM_TableData) :
    ∃ md3 hd, openTable (withMd s mdF) rel name = some (RC.RC_OK, withMd s md3,
        { name := cat.numTables,
          schema := { numAttr := tF.numAttr, keySize := tF.keySize, table := cat.numTables },
          mgmtData := cat.numTables })
      ∧ Ctx s md3 ∧ TableOpen md3 cat.numTables { tF with handle := some hd } hd
      ∧ catalogOf md3 = some (setDescriptor catF cat.numTables { tF with handle := some hd }) := by
  obtain ⟨hl, hcast, hget, hset⟩ := cr.slot
  obtain ⟨t0, t3, h0, hnd, htF⟩ := cr.desc
  obtain ⟨hh, _, _, _, _⟩ := newDescriptor_fields hnd
  have hnone : tF.handle = none := by
    rw [htF]; exact hh
  obtain ⟨hx, hpx, hxe⟩ := cr.cached
  have hpin : CanPin mdF tF.pageNum := by
    rw [← hxe]; exact CanPin_of_pointsTo cr.ctx.base.inv hpx
  obtain ⟨md3, hd, e, c3, o3, hc3, _⟩ := openTable_spec cr.ctx cr.catalog rel
    (cr.find hname) (by rw [hcast]; exact hget) hnone cr.page hpin
  rw [hcast] at e o3 hc3
  exact ⟨md3, hd, e, c3, o3, hc3⟩

/-! ## The states of the small database -/

theorem liveMd_of_live {s : RMState} {md : BM_Metadata}
    (h : s.bufferPool.mgmtData = MgmtPtr.live md) : liveMd s = md := by
  unfold liveMd
  rw [h]

theorem liveMd_withMd (s : RMState) (md : BM_Metadata) : liveMd (withMd s md) = md := rfl

theorem catalogOf_typed {md : BM_Metadata} (ty : CatTyped md) : ∃ c, catalogOf md = some c := by
  obtain ⟨c, hc⟩ := ty
  exact ⟨c, by unfold catalogOf; rw [hc]; rfl⟩

theorem eq_of_map_fst {α : Type} {x : Option (RC × α)} (d : α)
    (h : x.map Prod.fst = some RC.RC_OK) : x = some (RC.RC_OK, resultOf d x) := by
  cases x with
  | none => cases h
  | some r =>
    obtain ⟨a, b⟩ := r
    simp only [Option.map_some', Option.some.injEq] at h
    subst h
    rfl

theorem freshState_eq :
    initRecordManager (initialState none) none = some (RC.RC_OK, freshState) := by
  obtain ⟨sF, md, e, _⟩ := initRecordManager_fresh (initialState none) rfl none
  exact eq_of_map_fst _ (by rw [e]; rfl)

theorem freshState_ready : freshState.bufferPool.mgmtData = MgmtPtr.live (liveMd freshState)
    ∧ Ctx freshState (liveMd freshState) ∧ CatTyped (liveMd freshState) := by
  obtain ⟨sF, md, e, hl, c, ty, _⟩ := initRecordManager_fresh (initialState none) rfl none
  have : freshState = sF := by
    have := freshState_eq
    rw [e] at this
    exact (Prod.mk.inj (Option.some.inj this)).2.symm
  rw [this, liveMd_of_live hl]
  exact ⟨hl, c, ty⟩

set_option maxRecDepth 1000000 in
theorem createdState_ok :
    (createTable freshState testName testSchema).map Prod.fst = some RC.RC_OK := by
  decide!

theorem createdState_eq :
    createTable freshState testName testSchema = some (RC.RC_OK, createdState) :=
  eq_of_map_fst freshState createdState_ok


theorem eq_of_resultOf {α : Type} {x : Option (RC × α)} {d a : α}
    (h : x = some (RC.RC_OK, a)) : resultOf d x = a := by
  rw [h]
  rfl

theorem createdState_created : ∃ cat catF tF,
    createdState.bufferPool.mgmtData = MgmtPtr.live (liveMd createdState)
      ∧ createdState = withMd freshState (liveMd createdState)
      ∧ Created freshState (liveMd freshState) (liveMd createdState) cat catF testName
          testSchema tF := by
  obtain ⟨hl, c, ty⟩ := freshState_ready
  obtain ⟨cat, hcat⟩ := catalogOf_typed ty
  have e := createdState_eq
  rw [← withMd_self hl] at e
  obtain ⟨mdF, catF, tF, hs1, cr⟩ := createTable_spec c hcat testName testSchema e
  have hmd : liveMd createdState = mdF := by rw [hs1]; rfl
  rw [hmd]
  exact ⟨cat, catF, tF, by rw [hs1]; rfl, hs1, cr⟩

set_option maxRecDepth 1000000 in
theorem openedState_ok :
    (openTable createdState testRel testName).map Prod.fst = some RC.RC_OK := by
  decide!

theorem openedState_eq :
    openTable createdState testRel testName = some (RC.RC_OK, openedState) :=
  eq_of_map_fst (createdState, testRel) openedState_ok

theorem openedState_open : ∃ t hm, OpenState openedState.1 openedState.2 t hm := by
  obtain ⟨cat, catF, tF, hl, hs1, cr⟩ := createdState_created
  obtain ⟨md3, hd, e, c3, o3, _⟩ := openTable_created cr (by decide) testRel
  rw [← hs1, openedState_eq] at e
  have e2 := (Prod.mk.inj (Option.some.inj e)).2
  rw [e2]
  exact ⟨_, hd, rfl, Ctx_withMd.2 c3, o3, rfl⟩

set_option maxRecDepth 1000000 in
theorem insertedState_ok :
    (insertRecord 4 openedState.1 openedState.2 (testRecord 7)).map Prod.fst
      = some RC.RC_OK := by
  decide!

theorem insertedState_eq :
    insertRecord 4 openedState.1 openedState.2 (testRecord 7)
      = some (RC.RC_OK, insertedState) :=
  eq_of_map_fst (openedState.1, testRecord 7) insertedState_ok

theorem insertedState_open :
    ∃ t hm, OpenState insertedState.1 openedState.2 t hm := by
  obtain ⟨t, hm, os⟩ := openedState_open
  have e : insertRecord 4 openedState.1 openedState.2 (testRecord 7)
      = some (RC.RC_OK, insertedState.1, insertedState.2) := by
    rw [insertedState_eq, Prod.mk.eta]
  rw [← withMd_self os.live] at e
  obtain ⟨mdF, _, _, hs1, _, _, cF, oF, _⟩ := insertRecord_spec os.ctx os.tbl 4 (testRecord 7) e
  rw [hs1]
  exact ⟨_, hm, rfl, Ctx_withMd.2 cF, oF, os.rel⟩

/-- C2 (as amended): for an open table and a RID `(p, s)` whose slot is occupied
(`0 ≤ s < numSlots` and the slot byte is set), where `p` is the table's main page or a
page the pool can pin, `deleteRecord` returns `RC_OK` and a following `getRecord` of the
same RID returns `RC_WRITE_FAILED`; `deleteRecord` of a slot that is free returns
`RC_WRITE_FAILED` and leaves the image of every page as it was. -/
theorem deleteRecord_then_getRecord (s : RMState) (md : BM_Metadata) (rel : RM_TableData)
    (t : RM_SystemSchema) (hm : BM_PageHandle) (id : RID) (record : Record)
    (b : List Nat) (n : Int) (v : Nat)
    (hlive : s.bufferPool.mgmtData = MgmtPtr.live md)
    (c : Ctx s md) (o : TableOpen md rel.mgmtData t hm) (hp : 0 ≤ id.page)
    (hb : bytesOf md id.page = some b) (hn : headerNumSlots b = some n)
    (h0 : 0 ≤ id.slot) (hlt : id.slot < n) (hv : getSlot b id.slot = some v) :
    (v ≠ 0 → (id.page = t.pageNum ∨ CanPin md id.page) →
      ∃ s1 s2, deleteRecord s rel id = some (RC.RC_OK, s1)
        ∧ getRecord s1 rel id record = some (RC.RC_WRITE_FAILED, s2, record))
    ∧ (v = 0 →
      ∃ s1 md1, deleteRecord s rel id = some (RC.RC_WRITE_FAILED, s1)
        ∧ s1.bufferPool.mgmtData = MgmtPtr.live md1
        ∧ ∀ q, 0 ≤ q → viewPage md1 q = viewPage md q) := by
  have hs : s = withMd s md := (withMd_self hlive).symm
  obtain ⟨cat, hcat, _⟩ := o.catalog
  have hnl : ¬ id.slot ≥ n := by omega
  constructor
  · intro hv0 hpin
    obtain ⟨b1, hb1⟩ := setSlot_isSome hv 0
    have hdo : deleteRecordOn b id = some (some b1) := by
      unfold deleteRecordOn
      simp only [hn, hnl, if_false, hv, hv0, hb1, Option.map_some']
    rcases deleteRecord_eval c o id hp hb hcat with ⟨_, hpm, hcp⟩ | ⟨md1, h, u, hd⟩
    · rcases hpin with h1 | h1
      · exact absurd h1 hpm
      · exact absurd h1 hcp
    · rw [hdo] at hd
      obtain ⟨md2, e, c2, o2, st, hpin2⟩ := hd
      have hb2 : bytesOf md2 id.page = some b1 := by
        unfold bytesOf
        rw [st.view _ hp, if_pos rfl]
        rfl
      have hgo : getRecordOn b1 (recordSizeOf md2 rel.schema) id record.data = some none := by
        unfold getRecordOn
        rw [headerNumSlots_setSlot hb1 h0, hn]
        simp only [hnl, if_false, getSlot_setSlot_same hb1, if_true]
      rcases getRecord_eval c2 o2 id hp record hb2 with ⟨e2, _, _⟩ | ⟨md3, md4, h3, _, _, _, _, _, e2⟩
      · exact ⟨withMd s md2, withMd s md2, by rw [hs]; exact e, e2⟩
      · rw [hgo] at e2
        exact ⟨withMd s md2, withMd s md3, by rw [hs]; exact e, e2⟩
  · intro hv0
    have hdo : deleteRecordOn b id = some none := by
      unfold deleteRecordOn
      simp only [hn, hnl, if_false, hv, hv0, if_true]
    rcases deleteRecord_eval c o id hp hb hcat with ⟨e, _, _⟩ | ⟨md1, h, u, hd⟩
    · exact ⟨withMd s md, md, by rw [hs]; exact e, rfl, fun _ _ => rfl⟩
    · rw [hdo] at hd
      exact ⟨withMd s md1, md1, by rw [hs]; exact hd, rfl, u.view⟩

/-- C4 (as amended): for an open table and a record whose id `(p, s)` names an occupied
slot whose tuple lies within the page, where `p` is the table's main page or a page the
pool can pin, `updateRecord` returns `RC_OK`, a following `getRecord` of that id returns
the new payload, and the slot bytes, the tuples of all other slots, the header of the
page (`nextPage`, `prevPage`, `numSlots`), the descriptor of the table (with `numTuples`)
and all other pages are unchanged; `updateRecord` on a free slot returns
`RC_WRITE_FAILED` and leaves the image of every page as it was. -/
theorem updateRecord_frame (s : RMState) (md : BM_Metadata) (rel : RM_TableData)
    (t : RM_SystemSchema) (hm : BM_PageHandle) (record out : Record)
    (b : List Nat) (n : Int) (v : Nat) (size : Int)
    (hlive : s.bufferPool.mgmtData = MgmtPtr.live md)
    (c : Ctx s md) (o : TableOpen md rel.mgmtData t hm) (hp : 0 ≤ record.id.page)
    (hb : bytesOf md record.id.page = some b) (hn : headerNumSlots b = some n)
    (h0 : 0 ≤ record.id.slot) (hlt : record.id.slot < n)
    (hv : getSlot b record.id.slot = some v)
    (hsz : recordSizeOf md rel.schema = some size) (hs0 : 0 ≤ size)
    (hdata : size.toNat ≤ record.data.length) (hout : size.toNat ≤ out.data.length)
    (hfit : tupleOffset n size record.id.slot + size ≤ b.length) :
    (v ≠ 0 → (record.id.page = t.pageNum ∨ CanPin md record.id.page) →
      ∃ s1 md1 s2 b1, updateRecord s rel record = some (RC.RC_OK, s1)
        ∧ s1.bufferPool.mgmtData = MgmtPtr.live md1
        ∧ getRecord s1 rel record.id out = some (RC.RC_OK, s2,
            { id := record.id, data := record.data.take size.toNat ++ out.data.drop size.toNat })
        ∧ bytesOf md1 record.id.page = some b1
        ∧ (∀ j, j < n → getSlot b1 j = getSlot b j)
        ∧ (∀ j buf, j ≠ record.id.slot → loadTuple b1 n size j buf = loadTuple b n size j buf)
        ∧ headerNextPage b1 = headerNextPage b ∧ headerPrevPage b1 = headerPrevPage b
        ∧ headerNumSlots b1 = some n
        ∧ tableOf md1 rel.mgmtData = some t
        ∧ (∀ q, 0 ≤ q → q ≠ record.id.page → viewPage md1 q = viewPage md q))
    ∧ (v = 0 →
      ∃ s1 md1, updateRecord s rel record = some (RC.RC_WRITE_FAILED, s1)
        ∧ s1.bufferPool.mgmtData = MgmtPtr.live md1
        ∧ ∀ q, 0 ≤ q → viewPage md1 q = viewPage md q) := by
  have hs : s = withMd s md := (withMd_self hlive).symm
  have hnl : ¬ record.id.slot ≥ n := by omega
  have hn0 : 0 ≤ n := by omega
  have hp0 := o.page_ne_zero hb
  constructor
  · intro hv0 hpin
    have hoff : 0 ≤ tupleOffset n size record.id.slot := by
      have := tupleOffset_ge (n := n) hs0 h0
      unfold sizeofPageHeader at this
      omega
    obtain ⟨b1, hb1⟩ := storeTuple_isSome (n := n) (i := record.id.slot) hs0 hdata hoff hfit
    have huo : updateRecordOn b (recordSizeOf md rel.schema) record.id record.data
        = some (some b1) := by
      unfold updateRecordOn
      simp only [hn, hnl, if_false, hv, hv0, hsz, hb1, Option.map_some']
    rcases updateRecord_eval c o record hp hb with ⟨_, hpm, hcp⟩ | ⟨md1, h, u, hd⟩
    · rcases hpin with h1 | h1
      · exact absurd h1 hpm
      · exact absurd h1 hcp
    · rw [huo] at hd
      obtain ⟨md2, e, c2, o2, st, hpin2⟩ := hd
      have hb2 : bytesOf md2 record.id.page = some b1 := by
        unfold bytesOf
        rw [st.view _ hp, if_pos rfl]
        rfl
      have hv2 : ∀ q, 0 ≤ q → q ≠ record.id.page → viewPage md2 q = viewPage md q := by
        intro q hq hne
        rw [st.view q hq, if_neg hne]
      have hsz2 : recordSizeOf md2 rel.schema = some size := by
        unfold recordSizeOf schemaOf tableOf catalogOf
        rw [hv2 0 (le_refl 0) (fun e => hp0 e.symm)]
        exact hsz
      have hns : headerNumSlots b1 = some n := by
        rw [headerNumSlots_storeTuple hb1 hn0 h0, hn]
      have hgo : getRecordOn b1 (recordSizeOf md2 rel.schema) record.id out.data
          = some (some (record.data.take size.toNat ++ out.data.drop size.toNat)) := by
        unfold getRecordOn
        rw [hns, hsz2]
        simp only [hnl, if_false, getSlot_storeTuple hb1 h0 hlt, hv, hv0,
          loadTuple_storeTuple hb1 out.data hout, Option.map_some']
      have htb : tableOf md2 rel.mgmtData = some t := o2.desc
      rcases getRecord_eval c2 o2 record.id hp out hb2 with ⟨_, hpm, hcp⟩ | ⟨md3, md4, h3, _, _, _, _, _, e2⟩
      · rcases hpin2 with h1 | h1
        · exact absurd h1 hpm
        · exact absurd h1 hcp
      · rw [hgo] at e2
        exact ⟨withMd s md2, md2, withMd s md4, b1, by rw [hs]; exact e, rfl, e2, hb2,
          fun j hj => getSlot_storeTuple hb1 h0 hj,
          fun j buf hj => loadTuple_storeTuple_other hb1 hj buf,
          headerNextPage_storeTuple hb1 hn0 h0, headerPrevPage_storeTuple hb1 hn0 h0, hns, htb, hv2⟩
  · intro hv0
    have huo : updateRecordOn b (recordSizeOf md rel.schema) record.id record.data
        = some none := by
      unfold updateRecordOn
      simp only [hn, hnl, if_false, hv, hv0, if_true]
    rcases updateRecord_eval c o record hp hb with ⟨e, _, _⟩ | ⟨md1, h, u, hd⟩
    · exact ⟨withMd s md, md, by rw [hs]; exact e, rfl, fun _ _ => rfl⟩
    · rw [huo] at hd
      exact ⟨withMd s md1, md1, by rw [hs]; exact hd, rfl, u.view⟩

theorem testRecord_length (x : Nat) : (testRecord x).data.length = 1005 :=
  List.length_replicate _ _

set_option maxRecDepth 1000000 in
theorem insertedState_facts :
    insertedState.2.id = ⟨1, 0⟩
      ∧ bytesOf (liveMd insertedState.1) 1 = some insertedPage
      ∧ headerNumSlots insertedPage = some 4
      ∧ getSlot insertedPage 0 = some 1
      ∧ recordSizeOf (liveMd insertedState.1) openedState.2.schema = some 1005
      ∧ tupleOffset 4 1005 0 + 1005 ≤ (insertedPage.length : Int)
      ∧ (tableOf (liveMd insertedState.1) openedState.2.mgmtData).map (fun t => t.pageNum)
          = some 1
      ∧ (tableOf (liveMd openedState.1) openedState.2.mgmtData).map (fun t => t.pageNum)
          = some 1 := by
  decide!

theorem pageNum_of_map {o : Option RM_SystemSchema} {t : RM_SystemSchema} {p : Int}
    (h : o = some t) (hm : o.map (fun t => t.pageNum) = some p) : t.pageNum = p := by
  rw [h] at hm
  exact Option.some.inj hm

theorem deleteRecord_then_getRecord_witness :
    ∃ s1 s2, deleteRecord insertedState.1 openedState.2 ⟨1, 0⟩
        = some (RC.RC_OK, s1)
      ∧ getRecord s1 openedState.2 ⟨1, 0⟩ (testRecord 0)
        = some (RC.RC_WRITE_FAILED, s2, testRecord 0) := by
  obtain ⟨t, hm, os⟩ := insertedState_open
  obtain ⟨_, hb, hn, hv, _, _, hp, _⟩ := insertedState_facts
  exact (deleteRecord_then_getRecord insertedState.1 (liveMd insertedState.1) openedState.2 t hm
    ⟨1, 0⟩ (testRecord 0) insertedPage 4 1 os.live os.ctx os.tbl
    (by decide) hb hn (by decide) (by decide) hv).1 (by decide)
    (Or.inl (pageNum_of_map os.tbl.desc hp).symm)

theorem updateRecord_frame_witness :
    ∃ s1 s2, updateRecord insertedState.1 openedState.2
        ⟨⟨1, 0⟩, (testRecord 9).data⟩ = some (RC.RC_OK, s1)
      ∧ getRecord s1 openedState.2 ⟨1, 0⟩ (testRecord 0)
        = some (RC.RC_OK, s2, ⟨⟨1, 0⟩,
            (testRecord 9).data.take 1005 ++ (testRecord 0).data.drop 1005⟩) := by
  obtain ⟨t, hm, os⟩ := insertedState_open
  obtain ⟨_, hb, hn, hv, hsz, hfit, hp, _⟩ := insertedState_facts
  obtain ⟨s1, md1, s2, b1, h1, _, h2, _⟩ :=
    (updateRecord_frame insertedState.1 (liveMd insertedState.1) openedState.2 t hm
      ⟨⟨1, 0⟩, (testRecord 9).data⟩ (testRecord 0)
      insertedPage 4 1 1005 os.live os.ctx os.tbl (by decide) hb hn (by decide) (by decide) hv
      hsz (by decide) (by rw [testRecord_length]; decide) (by rw [testRecord_length]; decide)
      hfit).1 (by decide) (Or.inl (pageNum_of_map os.tbl.desc hp).symm)
  exact ⟨s1, s2, h1, h2⟩

set_option maxRecDepth 1000000 in
theorem crowdedState_facts :
    (tableOf (liveMd crowdedState) openedState.2.mgmtData).map (fun t => t.handle.isSome)
        = some true
      ∧ (tableOf (liveMd crowdedState) openedState.2.mgmtData).map (fun t => t.pageNum)
        = some 1
      ∧ nextOf (liveMd crowdedState) 1 = some 2
      ∧ (bytesOf (liveMd crowdedState) 2).bind headerNumSlots = some 4
      ∧ (bytesOf (liveMd crowdedState) 2).bind (fun b => getSlot b 0) = some 1
      ∧ (deleteRecord crowdedState openedState.2 ⟨2, 0⟩).map Prod.fst
        = some RC.RC_WRITE_FAILED
      ∧ (updateRecord crowdedState openedState.2 ⟨⟨2, 0⟩, (testRecord 9).data⟩).map Prod.fst
        = some RC.RC_WRITE_FAILED := by
  decide!

/-- C2 fails as stated: in `crowdedState` the table is open with main page 1, its chain
continues on page 2, slot 0 of page 2 (of 4 slots) is occupied, and yet
`deleteRecord(&rel, (2, 0))` returns `RC_WRITE_FAILED`, because all sixteen frames of the
pool are pinned and page 2 cannot be brought in. -/
theorem deleteRecord_fails_when_pool_pinned :
    (tableOf (liveMd crowdedState) openedState.2.mgmtData).map (fun t => t.handle.isSome)
        = some true
      ∧ (tableOf (liveMd crowdedState) openedState.2.mgmtData).map (fun t => t.pageNum)
        = some 1
      ∧ nextOf (liveMd crowdedState) 1 = some 2
      ∧ (bytesOf (liveMd crowdedState) 2).bind headerNumSlots = some 4
      ∧ (bytesOf (liveMd crowdedState) 2).bind (fun b => getSlot b 0) = some 1
      ∧ (deleteRecord crowdedState openedState.2 ⟨2, 0⟩).map Prod.fst
        = some RC.RC_WRITE_FAILED :=
  ⟨crowdedState_facts.1, crowdedState_facts.2.1, crowdedState_facts.2.2.1,
    crowdedState_facts.2.2.2.1, crowdedState_facts.2.2.2.2.1, crowdedState_facts.2.2.2.2.2.1⟩

/-- C4 fails as stated: in `crowdedState` the table is open with main page 1, its chain
continues on page 2, slot 0 of page 2 (of 4 slots) is occupied, and yet `updateRecord` of
a record with id `(2, 0)` returns `RC_WRITE_FAILED`, because all sixteen frames of the
pool are pinned and page 2 cannot be brought in. -/
theorem updateRecord_fails_when_pool_pinned :
    (tableOf (liveMd crowdedState) openedState.2.mgmtData).map (fun t => t.handle.isSome)
        = some true
      ∧ (tableOf (liveMd crowdedState) openedState.2.mgmtData).map (fun t => t.pageNum)
        = some 1
      ∧ nextOf (liveMd crowdedState) 1 = some 2
      ∧ (bytesOf (liveMd crowdedState) 2).bind headerNumSlots = some 4
      ∧ (bytesOf (liveMd crowdedState) 2).bind (fun b => getSlot b 0) = some 1
      ∧ (updateRecord crowdedState openedState.2 ⟨⟨2, 0⟩, (testRecord 9).data⟩).map Prod.fst
        = some RC.RC_WRITE_FAILED :=
  ⟨crowdedState_facts.1, crowdedState_facts.2.1, crowdedState_facts.2.2.1,
    crowdedState_facts.2.2.2.1, crowdedState_facts.2.2.2.2.1, crowdedState_facts.2.2.2.2.2.2⟩

set_option maxRecDepth 1000000 in
/-- C5 (the code at the failing input): in `gapState` page 1 is the only page of the
table, slot 0 is free and slot 1 is the one occupied slot; after `startScan` with a null
condition three calls of `next` return `RC_OK` with the record of RID `(1, 1)`, `RC_OK`
with the record of RID `(1, 1)` again, and `RC_RM_NO_MORE_TUPLES`: the record is
returned twice. -/
theorem next_repeats_record :
    (bytesOf (liveMd gapState) 1).bind headerNumSlots = some 4
      ∧ (bytesOf (liveMd gapState) 1).bind (fun b => getSlot b 0) = some 0
      ∧ (bytesOf (liveMd gapState) 1).bind (fun b => getSlot b 1) = some 1
      ∧ (bytesOf (liveMd gapState) 1).map (fun b => countSet b 4) = some 1
      ∧ nextOf (liveMd gapState) 1 = some NO_PAGE
      ∧ scanIds 3 gapState gapScan (testRecord 0)
        = [(RC.RC_OK, ⟨1, 1⟩), (RC.RC_OK, ⟨1, 1⟩), (RC.RC_RM_NO_MORE_TUPLES, ⟨1, 1⟩)] := by
  decide!

set_option maxRecDepth 1000000 in
/-- C7 (the code at the failing input): on the table that was just created and opened,
`deleteRecord(&rel, (1, -5))` returns `RC_OK`; afterwards page 1 is the only page of the
chain, none of its 4 slot bytes is set, and the descriptor's `numTuples` is -1. -/
theorem numTuples_differs_from_slot_count :
    (deleteRecord openedState.1 openedState.2 ⟨1, -5⟩).map Prod.fst = some RC.RC_OK
      ∧ (tableOf (liveMd strayState) 0).map (fun t => t.pageNum) = some 1
      ∧ nextOf (liveMd strayState) 1 = some NO_PAGE
      ∧ (bytesOf (liveMd strayState) 1).bind headerNumSlots = some 4
      ∧ (bytesOf (liveMd strayState) 1).map (fun b => countSet b 4) = some 0
      ∧ storedNumTuples strayState 0 = some (-1) := by
  decide!

set_option maxRecDepth 1000000 in
/-- C8 (the code at the failing input): page 1 of the table holding one record has 4
slots; `deleteRecord(&rel, (1, -5))` returns `RC_OK`, the descriptor's `numTuples` goes
from 1 to 0, and the header field `prevPage` of page 1 goes from `NO_PAGE` to
16777215. -/
theorem deleteRecord_negative_slot :
    (bytesOf (liveMd insertedState.1) 1).bind headerNumSlots = some 4
      ∧ (deleteRecord insertedState.1 openedState.2 ⟨1, -5⟩).map Prod.fst = some RC.RC_OK
      ∧ storedNumTuples insertedState.1 0 = some 1
      ∧ storedNumTuples negState 0 = some 0
      ∧ (bytesOf (liveMd insertedState.1) 1).bind headerPrevPage = some NO_PAGE
      ∧ (bytesOf (liveMd negState) 1).bind headerPrevPage = some 16777215 := by
  decide!

set_option maxRecDepth 1000000 in
/-- C9 (the code at the failing input): on a new page file `createTable` with a name of
sixteen characters returns `RC_OK`, and a second `createTable` with the same name
returns `RC_OK` as well; the catalog then counts two tables, whose descriptors both
store the first fifteen characters of the name. -/
theorem createTable_long_name_twice :
    (createTable freshState longName testSchema).map Prod.fst = some RC.RC_OK
      ∧ (createTable longState longName testSchema).map Prod.fst = some RC.RC_OK
      ∧ (getNumTables longState = some 1 ∧ getNumTables longState2 = some 2)
      ∧ storedName longState2 0 = some "abcdefghijklmno".toList
      ∧ storedName longState2 1 = some "abcdefghijklmno".toList := by
  decide!

/-! ## Record size and attribute access -/

set_option maxRecDepth 1000000 in
/-- C12 (the code at the failing input): after `createTable("table")` and
`deleteTable("table")` on a new page file the free list is page 1 alone, and
`getNumFreePages` returns 2; with three pages on the free list (2, then 3, then 1) it
returns 2 as well. It returns 2 after two of four tables are deleted and 0 after the two
are created again, when the file has 5 pages. -/
theorem getNumFreePages_counts_two :
    (deleteTable 4 createdState testName).map Prod.fst = some RC.RC_OK
      ∧ freeHead oneFreeState = some 1
      ∧ nextOf (liveMd oneFreeState) 1 = some NO_PAGE
      ∧ (getNumFreePages 4 oneFreeState).map Prod.fst = some 2
      ∧ (freeHead (deleteAll twoDeleted ["c".toList]) = some 2
        ∧ nextOf (liveMd (deleteAll twoDeleted ["c".toList])) 2 = some 3
        ∧ nextOf (liveMd (deleteAll twoDeleted ["c".toList])) 3 = some 1
        ∧ nextOf (liveMd (deleteAll twoDeleted ["c".toList])) 1 = some NO_PAGE
        ∧ (getNumFreePages 4 (deleteAll twoDeleted ["c".toList])).map Prod.fst = some 2)
      ∧ (getNumTables twoDeleted = some 2
        ∧ (getNumFreePages 4 twoDeleted).map Prod.fst = some 2)
      ∧ (getNumTables recreated = some 4
        ∧ (getNumFreePages 4 recreated).map Prod.fst = some 0
        ∧ getNumPages recreated = some 5) := by
  decide!

/-! ## The buffer pool under both strategies -/

/-- C18: on a pool with live metadata, `pinPage` with a negative page number returns
`RC_IM_KEY_NOT_FOUND`, and the pool (frames, page table, time stamp counter, FIFO cursor,
I/O counters and file handle, which make up its metadata) and the handle are as
before. -/
theorem pinPage_negative (bm : BM_BufferPool) (md : BM_Metadata) (page : BM_PageHandle)
    (p : Int) (hlive : bm.mgmtData = MgmtPtr.live md) (hp : p < 0) :
    pinPage bm page p = some (RC.RC_IM_KEY_NOT_FOUND, bm, page) := by
  unfold pinPage
  rw [hlive]
  simp only [ge_iff_le]
  rw [if_neg (by omega)]

set_option maxRecDepth 1000000 in
theorem wrapPool_live : wrapPool.mgmtData = MgmtPtr.live (poolMd wrapPool) := by
  decide!

theorem pinPage_negative_witness :
    pinPage wrapPool uninitHandle (-1) = some (RC.RC_IM_KEY_NOT_FOUND, wrapPool, uninitHandle) :=
  pinPage_negative wrapPool (poolMd wrapPool) uninitHandle (-1) wrapPool_live (by decide)

set_option maxRecDepth 1000000 in
/-- C17 (the code at the failing input): `latePool` is a pool of one frame under LRU
that holds page 0 pinned when the time stamp counter is `UINT_MAX`; `unpinPage` of page 0
gives `wrapPool`, whose only frame has fix count 0 and time stamp `UINT_MAX`; there
`pinPage` of page 1, which is not cached, returns `RC_WRITE_FAILED` and leaves the pool as
it is. -/
theorem pinPage_fails_with_unpinned_frame :
    frameInfo latePool = [(0, 1, 1)]
      ∧ (unpinPage latePool ⟨0, none⟩).map Prod.fst = some RC.RC_OK
      ∧ frameInfo wrapPool = [(0, 0, 4294967295)]
      ∧ pinPage wrapPool uninitHandle 1 = some (RC.RC_WRITE_FAILED, wrapPool, uninitHandle) := by
  decide!

theorem frameAt_congr {md md0 : BM_Metadata} (h : md0.pageFrames = md.pageFrames) (j : Int) :
    frameAt md0 j = frameAt md j := by
  unfold frameAt
  rw [h]

theorem viewPage_congr {md md0 : BM_Metadata} (hf : md0.pageFrames = md.pageFrames)
    (ht : md0.pageTable = md.pageTable) (hfile : md0.pageFile = md.pageFile) (q : Int) :
    viewPage md0 q = viewPage md q := by
  unfold viewPage
  rw [ht, hfile]
  simp only [frameAt_congr hf]

theorem PoolInv_congr {md md0 : BM_Metadata} (hi : PoolInv md)
    (hf : md0.pageFrames = md.pageFrames) (ht : md0.pageTable = md.pageTable)
    (hfile : md0.pageFile = md.pageFile) : PoolInv md0 := by
  refine ⟨by rw [ht]; exact hi.ht, by rw [hfile]; exact hi.file, ?_, ?_⟩
  · intro p i hp
    rw [ht]
    simp only [frameAt_congr hf]
    exact hi.lookup p i hp
  · intro i f h
    rw [frameAt_congr hf] at h
    rw [hfile]
    exact hi.frames i f h

theorem PinOK_congr {md md0 md2 : BM_Metadata} {p i : Int} {f1 : BM_PageFrame}
    (k : PinOK md0 md2 p i f1) (hf : md0.pageFrames = md.pageFrames)
    (ht : md0.pageTable = md.pageTable) (hfile : md0.pageFile = md.pageFile) :
    PinOK md md2 p i f1 := by
  have hfa := @frameAt_congr md md0 hf
  have hv := @viewPage_congr md md0 hf ht hfile
  refine ⟨k.inv, by rw [k.len, hf], k.new, k.occ, k.pn, by rw [k.data, hv], ?_, ?_, k.safe, ?_,
    ?_, ?_, ?_⟩
  · intro j hj; rw [k.others j hj, hfa]
  · intro q hq; rw [k.view q hq, hv]
  · obtain ⟨f, h1, h2⟩ := k.fix
    exact ⟨f, by rw [← hfa]; exact h1, h2⟩
  · intro q hq
    have := k.file q hq
    rw [hfile, hv] at this
    exact this
  · have := k.hitOrMiss
    rw [ht] at this
    exact this
  · intro q j hq hg hj
    exact k.tableOthers q j hq (by rw [ht]; exact hg) hj

/-- What `replacementFIFO` has done when it returns a frame: the frame had no pin, the
cursor is its index, and the frame was evicted. -/
theorem replacementFIFO_some {md md1 : BM_Metadata} {n i : Int}
    (h : replacementFIFO n md = some (some i, md1)) :
    ∃ f, frameAt md i = some f ∧ f.fixCount = 0
      ∧ getAfterEviction { md with queueIndex := i } i = some md1 := by
  unfold replacementFIFO at h
  cases hl : fifoLoop md n md.queueIndex (n.toNat + 1) md.queueIndex with
  | none => rw [hl] at h; cases h
  | some c =>
    rw [hl] at h
    simp only at h
    cases hf : frameAt { md with queueIndex := c } c with
    | none => rw [hf] at h; cases h
    | some f =>
      rw [hf] at h
      simp only at h
      by_cases hz : f.fixCount = 0
      · rw [if_pos hz] at h
        cases he : getAfterEviction { md with queueIndex := c } c with
        | none => rw [he] at h; cases h
        | some md2 =>
          rw [he] at h
          simp only [Option.some.injEq, Prod.mk.injEq] at h
          obtain ⟨h1, h2⟩ := h
          subst h1; subst h2
          exact ⟨f, hf, hz, he⟩
      · rw [if_neg hz] at h
        simp at h

/-- What `replacementFIFO` has done when it returns `NULL`: the metadata differs in the
cursor at most. -/
theorem replacementFIFO_none {md md1 : BM_Metadata} {n : Int}
    (h : replacementFIFO n md = some (none, md1)) :
    ∃ c, md1 = { md with queueIndex := c } := by
  unfold replacementFIFO at h
  cases hl : fifoLoop md n md.queueIndex (n.toNat + 1) md.queueIndex with
  | none => rw [hl] at h; cases h
  | some c =>
    rw [hl] at h
    simp only at h
    cases hf : frameAt { md with queueIndex := c } c with
    | none => rw [hf] at h; cases h
    | some f =>
      rw [hf] at h
      simp only at h
      by_cases hz : f.fixCount = 0
      · rw [if_pos hz] at h
        cases he : getAfterEviction { md with queueIndex := c } c with
        | none => rw [he] at h; cases h
        | some md2 => rw [he] at h; simp at h
      · rw [if_neg hz] at h
        simp only [Option.some.injEq, Prod.mk.injEq, true_and] at h
        exact ⟨c, h.symm⟩

/-- What `replacementLRU` has done when it returns a frame. -/
theorem replacementLRU_some {md md1 : BM_Metadata} {n i : Int}
    (hn : n.toNat ≤ md.pageFrames.length)
    (h : replacementLRU n md = some (some i, md1)) :
    ∃ f, frameAt md i = some f ∧ f.fixCount = 0 ∧ f.timeStamp < UINT_MAX
      ∧ getAfterEviction md i = some md1 := by
  unfold replacementLRU at h
  obtain ⟨k, hk, hcases⟩ := lruLoop_spec md n.toNat 0 UINT_MAX (-1) (by omega)
  rw [hk] at h
  simp only at h
  rcases hcases with ⟨hk1, _⟩ | ⟨j, f, hkj, _, _, hjf, hfix, hts⟩
  · subst hk1
    simp at h
  · subst hkj
    have hne : ¬ ((j : Int) = -1) := by omega
    rw [if_neg hne] at h
    cases he : getAfterEviction md (j : Int) with
    | none => rw [he] at h; cases h
    | some md2 =>
      rw [he] at h
      simp only [Option.some.injEq, Prod.mk.injEq] at h
      obtain ⟨h1, h2⟩ := h
      subst h1; subst h2
      have hjf2 : frameAt md (j : Int) = some f := by
        unfold frameAt; rw [getI?_ofNat]; exact hjf
      exact ⟨f, hjf2, hfix, hts, he⟩

/-- A successful `pinPage`, under either strategy: the relation `PinOK` between the
metadata before and after, for the frame the handle points at. -/
theorem pinPage_ok {bm : BM_BufferPool} {md : BM_Metadata} (hok : PoolOK bm md)
    (page : BM_PageHandle) (p : Int) {bm1 : BM_BufferPool} {h : BM_PageHandle}
    (hpin : pinPage bm page p = some (RC.RC_OK, bm1, h)) :
    0 ≤ p ∧ ∃ md1 i f1, bm1 = { bm with mgmtData := MgmtPtr.live md1 }
      ∧ h = { pageNum := p, data := some i } ∧ PinOK md md1 p i f1 ∧ PoolOK bm1 md1 := by
  by_cases hp : 0 ≤ p
  swap
  · rw [pinPage_negative bm md page p hok.live (by omega)] at hpin
    cases hpin
  refine ⟨hp, ?_⟩
  obtain ⟨r, hr⟩ := getValue_isSome hok.inv.ht hp
  unfold pinPage at hpin
  rw [hok.live] at hpin
  simp only [ge_iff_le, hp, if_true, hr] at hpin
  cases r with
  | some i =>
    obtain ⟨f, hf, hk⟩ := pinHit_spec hok.inv hp hr
    simp only [hf, Option.some.injEq, Prod.mk.injEq, true_and] at hpin
    obtain ⟨h1, h2⟩ := hpin
    refine ⟨_, i, _, h1.symm, h2.symm, hk, ?_⟩
    rw [← h1]
    refine ⟨rfl, ?_, hk.inv⟩
    show bm.numPages = _
    simp only [setFrame_pageFrames, List.length_set]
    exact hok.numPages
  | none =>
    simp only at hpin
    by_cases hs : bm.strategy = ReplacementStrategy.RS_FIFO
    · rw [if_pos hs] at hpin
      cases hrep : replacementFIFO bm.numPages md with
      | none => rw [hrep] at hpin; cases hpin
      | some res =>
        obtain ⟨oi, md1⟩ := res
        rw [hrep] at hpin
        cases oi with
        | none => simp at hpin
        | some i =>
          simp only at hpin
          obtain ⟨f, hf, hz, hev⟩ := replacementFIFO_some hrep
          have hi0 : PoolInv { md with queueIndex := i } := PoolInv_congr hok.inv rfl rfl rfl
          obtain ⟨mdA, mdB, f1, hevA, hload, hk⟩ :=
            @evictLoad_spec { md with queueIndex := i } hi0 i f hf hz p hp hr
          rw [hev] at hevA
          cases hevA
          rw [hload] at hpin
          simp only [Option.some.injEq, Prod.mk.injEq, true_and] at hpin
          obtain ⟨h1, h2⟩ := hpin
          have hk2 : PinOK md mdB p i f1 := PinOK_congr hk rfl rfl rfl
          refine ⟨mdB, i, f1, h1.symm, h2.symm, hk2, ?_⟩
          rw [← h1]
          exact ⟨rfl, by rw [hk2.len]; exact hok.numPages, hk2.inv⟩
    · rw [if_neg hs] at hpin
      cases hrep : replacementLRU bm.numPages md with
      | none => rw [hrep] at hpin; cases hpin
      | some res =>
        obtain ⟨oi, md1⟩ := res
        rw [hrep] at hpin
        cases oi with
        | none => simp at hpin
        | some i =>
          simp only at hpin
          obtain ⟨f, hf, hz, _, hev⟩ :=
            replacementLRU_some (by rw [hok.numPages]; simp) hrep
          obtain ⟨mdA, mdB, f1, hevA, hload, hk⟩ := evictLoad_spec hok.inv hf hz hp hr
          rw [hev] at hevA
          cases hevA
          rw [hload] at hpin
          simp only [Option.some.injEq, Prod.mk.injEq, true_and] at hpin
          obtain ⟨h1, h2⟩ := hpin
          refine ⟨mdB, i, f1, h1.symm, h2.symm, hk, ?_⟩
          rw [← h1]
          exact ⟨rfl, by rw [hk.len]; exact hok.numPages, hk.inv⟩

theorem initFrames_queueIndex :
    ∀ (k i : Nat) (md : BM_Metadata), (initFrames k i md).queueIndex = md.queueIndex
  | 0, _, _ => by unfold initFrames; rfl
  | k + 1, i, md => by
    unfold initFrames
    simp only [getTimeStamp]
    rw [initFrames_queueIndex k (i + 1)]

/-- The pool `initBufferPool` builds for an existing file, for any number of frames and
either strategy. -/
theorem initBufferPool_any (bm : BM_BufferPool) (name : String) (pages : List PageContent)
    (n : Nat) (hn : n < 4294967296) (strategy : ReplacementStrategy) :
    ∃ md, initBufferPool bm name (some pages) (n : Int) strategy
        = (RC.RC_OK, ⟨name, (n : Int), strategy, MgmtPtr.live md⟩)
      ∧ PoolInv md ∧ md.pageFrames.length = n
      ∧ md.pageFile.mgmtInfo = some pages
      ∧ md.pageTable = initHashTable PAGE_TABLE_SIZE
      ∧ (∀ j f, md.pageFrames[j]? = some f → FreeFrame md j f)
      ∧ md.queueIndex = bm.numPages - 1 := by
  obtain ⟨h1, h2, h3, h4, h5⟩ := initFrames_spec n 0
    ⟨[], initHashTable PAGE_TABLE_SIZE, ⟨name, (pages.length : Int), 0, some pages⟩, 0,
      bm.numPages - 1, 0, 0⟩
    rfl (by simpa using hn) (by intro j f hj; simp at hj)
  refine ⟨_, ?_, PoolInv_of_free h2 ?_ h5, by rw [h1]; omega, by rw [h3], h2, h5, ?_⟩
  · unfold initBufferPool openPageFile
    simp only [Int.toNat_ofNat]
  · rw [h3]
    exact ⟨pages, rfl, rfl⟩
  · exact initFrames_queueIndex n 0 _

theorem poolMd_of_live {bm : BM_BufferPool} {md : BM_Metadata}
    (h : bm.mgmtData = MgmtPtr.live md) : poolMd bm = md := by
  unfold poolMd
  rw [h]

/-- The new pool of the examples is well formed. -/
theorem newPool_ok (bm : BM_BufferPool) (n : Nat) (hn : n < 4294967296)
    (strategy : ReplacementStrategy) :
    PoolOK (newPool bm (n : Int) strategy) (poolMd (newPool bm (n : Int) strategy)) := by
  obtain ⟨md, e, hinv, hlen, _⟩ := initBufferPool_any bm "file" [emptyPage] n hn strategy
  unfold newPool
  rw [e]
  exact ⟨rfl, by show (n : Int) = _; rw [poolMd_of_live rfl, hlen], by
    rw [poolMd_of_live rfl]; exact hinv⟩

/-- A successful pin keeps the pool of a run well formed. -/
theorem poolAfter_pin_ok {bm : BM_BufferPool} {md : BM_Metadata} (hok : PoolOK bm md) (p : Int)
    (hrc : (pinPage bm uninitHandle p).map Prod.fst = some RC.RC_OK) :
    PoolOK (poolAfter bm [PoolOp.pin p]) (poolMd (poolAfter bm [PoolOp.pin p])) := by
  cases hpin : pinPage bm uninitHandle p with
  | none => rw [hpin] at hrc; cases hrc
  | some r =>
    obtain ⟨rc, bm1, h⟩ := r
    rw [hpin] at hrc
    have hrc1 : rc = RC.RC_OK := Option.some.inj hrc
    subst hrc1
    obtain ⟨_, md1, i, f1, e1, _, _, hok1⟩ := pinPage_ok hok uninitHandle p hpin
    have hrun : poolAfter bm [PoolOp.pin p] = bm1 := by
      simp only [poolAfter, runOps, applyOp, hpin, Option.map_some']
    rw [hrun, poolMd_of_live hok1.live]
    exact hok1

set_option maxRecDepth 1000000 in
theorem onePinned_ok : PoolOK onePinned (poolMd onePinned) :=
  poolAfter_pin_ok (newPool_ok zeroPool 3 (by norm_num) ReplacementStrategy.RS_FIFO) 1
    (by decide!)

/-- C16: on a well-formed pool (either strategy), when `pinPage` of a page that is not
cached returns `RC_OK`, the frame the handle points at had fix count 0 before the call,
and every frame with a positive fix count is after the call what it was before (page
number, data, dirty flag, fix count and the rest). -/
theorem pinPage_keeps_pinned_frames (bm : BM_BufferPool) (md : BM_Metadata)
    (hok : PoolOK bm md) (page : BM_PageHandle) (p : Int) (bm1 : BM_BufferPool)
    (h : BM_PageHandle) (hmiss : getValue md.pageTable p = some none)
    (hpin : pinPage bm page p = some (RC.RC_OK, bm1, h)) :
    ∃ md1 i f, bm1.mgmtData = MgmtPtr.live md1 ∧ h = ⟨p, some i⟩
      ∧ frameAt md i = some f ∧ f.fixCount = 0
      ∧ ∀ j g, frameAt md j = some g → 0 < g.fixCount → frameAt md1 j = some g := by
  obtain ⟨_, md1, i, f1, e1, e2, k, hok1⟩ := pinPage_ok hok page p hpin
  obtain ⟨f, hf, hfix, _⟩ := k.fix
  have hone : f1.fixCount = 1 := by
    rcases k.hitOrMiss with ⟨hh, _⟩ | ⟨_, h1⟩
    · rw [hmiss] at hh; cases hh
    · exact h1
  refine ⟨md1, i, f, hok1.live, e2, hf, by omega, ?_⟩
  intro j g hg hpos
  have hji : j ≠ i := by
    intro e
    subst e
    rw [hf] at hg
    cases hg
    omega
  rw [k.others j hji]
  exact hg

set_option maxRecDepth 1000000 in
theorem pinPage_keeps_pinned_frames_witness :
    ∃ md1 i f, (poolAfter onePinned [PoolOp.pin 2]).mgmtData = MgmtPtr.live md1
      ∧ (⟨2, some 1⟩ : BM_PageHandle) = ⟨2, some i⟩
      ∧ frameAt (poolMd onePinned) i = some f ∧ f.fixCount = 0
      ∧ ∀ j g, frameAt (poolMd onePinned) j = some g → 0 < g.fixCount → frameAt md1 j = some g :=
  pinPage_keeps_pinned_frames onePinned (poolMd onePinned) onePinned_ok uninitHandle 2
    (poolAfter onePinned [PoolOp.pin 2]) ⟨2, some 1⟩ (by decide!) (by decide!)

/-! ## FIFO replacement -/

theorem circular_range {c n : Int} (hn : 0 < n) (k : Nat) :
    0 ≤ circular c n k ∧ circular c n k < n :=
  ⟨Int.emod_nonneg _ (by omega), Int.emod_lt_of_pos _ hn⟩

theorem frameAt_of_range {md : BM_Metadata} {n i : Int} (hlen : (md.pageFrames.length : Int) = n)
    (h0 : 0 ≤ i) (h1 : i < n) : ∃ f, frameAt md i = some f := by
  unfold frameAt getI?
  rw [if_pos h0]
  have : i.toNat < md.pageFrames.length := by omega
  exact ⟨_, List.getElem?_eq_getElem this⟩

theorem circular_last {c n : Int} {k0 : Nat} (h0 : 0 ≤ c) (h1 : c < n) (hk : (k0 : Int) < n)
    (h : circular c n k0 = c) : (k0 : Int) = n - 1 := by
  unfold circular at h
  have h2 := Int.emod_add_ediv (c + 1 + k0) n
  rw [h] at h2
  have h3 : n * ((c + 1 + (k0 : Int)) / n) = 1 + k0 := by omega
  have hq : (c + 1 + (k0 : Int)) / n = 1 := by
    have hpos : 0 < (c + 1 + (k0 : Int)) / n := by
      by_contra hneg
      have h4 : (c + 1 + (k0 : Int)) / n ≤ 0 := by omega
      have := Int.mul_le_mul_of_nonneg_left h4 (by omega : (0 : Int) ≤ n)
      omega
    by_contra hne
    have h4 : 2 ≤ (c + 1 + (k0 : Int)) / n := by omega
    have := Int.mul_le_mul_of_nonneg_left h4 (by omega : (0 : Int) ≤ n)
    omega
  rw [hq] at h3
  omega

/-- The loop of `replacementFIFO` from the cursor `c`, after `k0` candidates were found
pinned: it ends at the first candidate without a pin, or back at `c` when all `n`
candidates are pinned. -/
theorem fifoLoop_spec (md : BM_Metadata) (n c : Int) (hn : 0 < n)
    (hlen : (md.pageFrames.length : Int) = n) (hc0 : 0 ≤ c) (hc1 : c < n) :
    ∀ (fuel k0 : Nat), (k0 : Int) < n → n ≤ (k0 : Int) + fuel →
      (∀ k1 : Nat, k1 < k0 → ∃ f, frameAt md (circular c n k1) = some f ∧ f.fixCount ≠ 0) →
      ∃ r, fifoLoop md n c fuel ((c + (k0 : Int)) % n) = some r ∧
        ((∃ k : Nat, (k : Int) < n ∧ r = circular c n k
            ∧ (∃ f, frameAt md r = some f ∧ f.fixCount = 0)
            ∧ ∀ k1 : Nat, k1 < k → ∃ f, frameAt md (circular c n k1) = some f ∧ f.fixCount ≠ 0)
          ∨ (r = c ∧ ∀ k1 : Nat, (k1 : Int) < n →
              ∃ f, frameAt md (circular c n k1) = some f ∧ f.fixCount ≠ 0))
  | 0, k0, hk, hfuel, _ => by omega
  | fuel + 1, k0, hk, hfuel, hpin => by
    unfold fifoLoop
    rw [if_neg (by omega)]
    have hnext : Int.tmod ((c + (k0 : Int)) % n + 1) n = circular c n k0 := by
      rw [Int.tmod_eq_emod (by have := Int.emod_nonneg (c + (k0 : Int)) (by omega : n ≠ 0); omega)
        (by omega), Int.emod_add_emod]
      unfold circular
      congr 1
      omega
    simp only [hnext]
    obtain ⟨r0, r1⟩ := @circular_range c n hn k0
    obtain ⟨f, hf⟩ := frameAt_of_range hlen r0 r1
    rw [hf]
    simp only
    by_cases hz : f.fixCount = 0
    · rw [if_pos hz]
      exact ⟨_, rfl, Or.inl ⟨k0, hk, rfl, ⟨f, hf, hz⟩, hpin⟩⟩
    · rw [if_neg hz]
      have hpin1 : ∀ k1 : Nat, k1 < k0 + 1 →
          ∃ f, frameAt md (circular c n k1) = some f ∧ f.fixCount ≠ 0 := by
        intro k1 hk1
        by_cases e : k1 = k0
        · subst e; exact ⟨f, hf, hz⟩
        · exact hpin k1 (by omega)
      by_cases hfirst : circular c n k0 = c
      · rw [if_neg (by simpa using hfirst)]
        have hlast := circular_last hc0 hc1 hk hfirst
        refine ⟨_, rfl, Or.inr ⟨hfirst, ?_⟩⟩
        intro k1 hk1
        exact hpin1 k1 (by omega)
      · rw [if_pos hfirst]
        have hk2 : ((k0 + 1 : Nat) : Int) < n := by
          by_contra hge
          have hk0 : (k0 : Int) = n - 1 := by push_cast at hge; omega
          apply hfirst
          unfold circular
          rw [hk0]
          have : c + 1 + (n - 1) = c + n := by omega
          rw [this, Int.add_emod_self, Int.emod_eq_of_lt hc0 hc1]
        have hcur : circular c n k0 = (c + ((k0 + 1 : Nat) : Int)) % n := by
          unfold circular
          congr 1
          push_cast
          omega
        rw [hcur]
        exact fifoLoop_spec md n c hn hlen hc0 hc1 fuel (k0 + 1) hk2 (by push_cast; omega) hpin1

theorem getAfterEviction_queueIndex {md md1 : BM_Metadata} {i : Int}
    (h : getAfterEviction md i = some md1) : md1.queueIndex = md.queueIndex := by
  unfold getAfterEviction at h
  cases hf : frameAt md i with
  | none => rw [hf] at h; cases h
  | some f0 =>
    rw [hf] at h
    simp only [getTimeStamp] at h
    split at h
    · split at h
      · cases h
      · split at h
        · split at h
          · cases h
          · cases h; rfl
        · cases h; rfl
    · cases h; rfl

theorem md_eta (md : BM_Metadata) : { md with queueIndex := md.queueIndex } = md := rfl

/-- The dichotomy of `replacementFIFO` on a well-formed pool whose cursor is in range. -/
theorem replacementFIFO_spec {md : BM_Metadata} (hinv : PoolInv md) {n : Int} (hn : 0 < n)
    (hlen : (md.pageFrames.length : Int) = n) (hc0 : 0 ≤ md.queueIndex)
    (hc1 : md.queueIndex < n) :
    (∃ i md1, FirstUnpinned md n i ∧ replacementFIFO n md = some (some i, md1)
        ∧ md1.queueIndex = i)
      ∨ (replacementFIFO n md = some (none, md) ∧ ∀ k1 : Nat, (k1 : Int) < n →
          ∃ f, frameAt md (circular md.queueIndex n k1) = some f ∧ f.fixCount ≠ 0) := by
  obtain ⟨r, hr, hcases⟩ := fifoLoop_spec md n md.queueIndex hn hlen hc0 hc1 (n.toNat + 1) 0
    (by omega) (by push_cast; omega) (by intro k1 hk1; omega)
  have hstart : (md.queueIndex + ((0 : Nat) : Int)) % n = md.queueIndex := by
    simp only [Nat.cast_zero, add_zero]
    exact Int.emod_eq_of_lt hc0 hc1
  rw [hstart] at hr
  unfold replacementFIFO
  rw [hr]
  simp only
  rcases hcases with ⟨k, hk, hrk, ⟨f, hf, hz⟩, hpin⟩ | ⟨hrc, hall⟩
  · left
    have hf2 : frameAt { md with queueIndex := r } r = some f := by
      rw [frameAt_congr rfl]; exact hf
    rw [hf2]
    simp only
    rw [if_pos hz]
    have hi0 : PoolInv { md with queueIndex := r } := PoolInv_congr hinv rfl rfl rfl
    obtain ⟨md1, hev, _⟩ := getAfterEviction_spec hi0 hf2
    rw [hev]
    exact ⟨r, md1, ⟨k, hk, hrk, ⟨f, hf, hz⟩, hpin⟩, rfl, getAfterEviction_queueIndex hev⟩
  · right
    subst hrc
    obtain ⟨f, hf⟩ := frameAt_of_range hlen hc0 hc1
    have hf2 : frameAt { md with queueIndex := md.queueIndex } md.queueIndex = some f := hf
    rw [hf2]
    simp only
    -- the frame under the cursor is one of the candidates
    have hne : f.fixCount ≠ 0 := by
      obtain ⟨g, hg, hgz⟩ := hall (n - 1).toNat (by omega)
      have hcirc : circular md.queueIndex n (n - 1).toNat = md.queueIndex := by
        unfold circular
        have : md.queueIndex + 1 + (((n - 1).toNat : Nat) : Int) = md.queueIndex + n := by omega
        rw [this, Int.add_emod_self, Int.emod_eq_of_lt hc0 hc1]
      rw [hcirc, hf] at hg
      cases hg
      exact hgz
    rw [if_neg hne]
    exact ⟨rfl, hall⟩

theorem FirstUnpinned_unique {md : BM_Metadata} {n i j : Int} (hi : FirstUnpinned md n i)
    (hj : FirstUnpinned md n j) : i = j := by
  obtain ⟨k, _, hik, ⟨f, hf, hz⟩, hpin⟩ := hi
  obtain ⟨k2, _, hjk, ⟨g, hg, hgz⟩, hpin2⟩ := hj
  have hkk : k = k2 := by
    rcases Nat.lt_trichotomy k k2 with h | h | h
    · obtain ⟨f2, hf2, hne⟩ := hpin2 k h
      rw [← hik, hf] at hf2
      cases hf2
      exact absurd hz hne
    · exact h
    · obtain ⟨g2, hg2, hne⟩ := hpin k2 h
      rw [← hjk, hg] at hg2
      cases hg2
      exact absurd hgz hne
  rw [hik, hjk, hkk]

set_option maxRecDepth 1000000 in
/-- C20: on a well-formed pool of `n ≥ 1` frames whose cursor `c` is in `[0, n)`,
`replacementFIFO` returns the first frame in the circular order `c + 1, ..., c + n`
(mod `n`) whose fix count is 0 and leaves the cursor at its index, and it returns `NULL`
with the metadata (the cursor too) as it was when every frame is pinned. With three
frames, after pages 1, 2, 3 were pinned and unpinned (in either interleaving, the pool
structure zeroed or holding `numPages = 3` before `initBufferPool`), the frames hold
pages 1, 2, 3; pinning page 4 replaces page 1 and pinning page 1 then replaces page 2. -/
theorem replacementFIFO_order (md : BM_Metadata) (hinv : PoolInv md) (n : Int) (hn : 0 < n)
    (hlen : (md.pageFrames.length : Int) = n) (hc0 : 0 ≤ md.queueIndex)
    (hc1 : md.queueIndex < n) :
    (∀ i, FirstUnpinned md n i →
        ∃ md1, replacementFIFO n md = some (some i, md1) ∧ md1.queueIndex = i)
      ∧ ((∀ j f, frameAt md j = some f → f.fixCount ≠ 0) →
          replacementFIFO n md = some (none, md))
      ∧ (framePages (fifoPool zeroPool) = [1, 2, 3]
        ∧ framePages (poolAfter (fifoPool zeroPool) [PoolOp.pin 4]) = [4, 2, 3]
        ∧ framePages (poolAfter (fifoPool zeroPool) [PoolOp.pin 4, PoolOp.pin 1]) = [4, 1, 3])
      ∧ (framePages (fifoPool2 zeroPool) = [1, 2, 3]
        ∧ framePages (poolAfter (fifoPool2 zeroPool) [PoolOp.pin 4]) = [4, 2, 3]
        ∧ framePages (poolAfter (fifoPool2 zeroPool) [PoolOp.pin 4, PoolOp.pin 1]) = [4, 1, 3])
      ∧ (framePages (fifoPool threePool) = [1, 2, 3]
        ∧ framePages (poolAfter (fifoPool threePool) [PoolOp.pin 4]) = [4, 2, 3]
        ∧ framePages (poolAfter (fifoPool threePool) [PoolOp.pin 4, PoolOp.pin 1])
          = [4, 1, 3]) := by
  refine ⟨?_, ?_, by decide!, by decide!, by decide!⟩
  · intro i hi
    rcases replacementFIFO_spec hinv hn hlen hc0 hc1 with ⟨j, md1, hj, hrep, hq⟩ | ⟨_, hall⟩
    · have := FirstUnpinned_unique hi hj
      subst this
      exact ⟨md1, hrep, hq⟩
    · obtain ⟨k, hk, hik, ⟨f, hf, hz⟩, _⟩ := hi
      obtain ⟨g, hg, hgz⟩ := hall k hk
      rw [← hik, hf] at hg
      cases hg
      exact absurd hz hgz
  · intro hall
    rcases replacementFIFO_spec hinv hn hlen hc0 hc1 with ⟨j, md1, hj, _, _⟩ | ⟨hrep, _⟩
    · obtain ⟨k, _, _, ⟨f, hf, hz⟩, _⟩ := hj
      exact absurd hz (hall j f hf)
    · exact hrep

set_option maxRecDepth 1000000 in
theorem replacementFIFO_order_witness :
    (∀ i, FirstUnpinned (poolMd onePinned) 3 i →
        ∃ md1, replacementFIFO 3 (poolMd onePinned) = some (some i, md1) ∧ md1.queueIndex = i)
      ∧ ((∀ j f, frameAt (poolMd onePinned) j = some f → f.fixCount ≠ 0) →
          replacementFIFO 3 (poolMd onePinned) = some (none, poolMd onePinned))
      ∧ (framePages (fifoPool zeroPool) = [1, 2, 3]
        ∧ framePages (poolAfter (fifoPool zeroPool) [PoolOp.pin 4]) = [4, 2, 3]
        ∧ framePages (poolAfter (fifoPool zeroPool) [PoolOp.pin 4, PoolOp.pin 1]) = [4, 1, 3])
      ∧ (framePages (fifoPool2 zeroPool) = [1, 2, 3]
        ∧ framePages (poolAfter (fifoPool2 zeroPool) [PoolOp.pin 4]) = [4, 2, 3]
        ∧ framePages (poolAfter (fifoPool2 zeroPool) [PoolOp.pin 4, PoolOp.pin 1]) = [4, 1, 3])
      ∧ (framePages (fifoPool threePool) = [1, 2, 3]
        ∧ framePages (poolAfter (fifoPool threePool) [PoolOp.pin 4]) = [4, 2, 3]
        ∧ framePages (poolAfter (fifoPool threePool) [PoolOp.pin 4, PoolOp.pin 1])
          = [4, 1, 3]) :=
  replacementFIFO_order (poolMd onePinned) onePinned_ok.inv 3 (by decide) (by decide!)
    (by decide!) (by decide!)

/-! ## When `pinPage` succeeds -/

theorem getValue_cases {ht : HT_TableHandle} (hi : HTInv ht) (k : Int) :
    getValue ht k = none ∨ getValue ht k = some none
      ∨ (0 ≤ k ∧ ∃ i, getValue ht k = some (some i)) := by
  by_cases hk : 0 ≤ k
  · obtain ⟨r, hr⟩ := getValue_isSome hi hk
    cases r with
    | none => exact Or.inr (Or.inl hr)
    | some i => exact Or.inr (Or.inr ⟨hk, i, hr⟩)
  · unfold getValue
    cases hb : bucketIndex ht k with
    | none => left; rfl
    | some i =>
      simp only
      cases hal : ht.mgmt[i]? with
      | none => left; rfl
      | some al =>
        right; left
        simp only
        have hnone : al.list.find? (fun p => p.key == k) = none := by
          rw [find?_key_none_iff]
          intro hmem
          obtain ⟨kv, hkv, e⟩ := List.mem_map.1 hmem
          have := (hi.keys i al hal kv hkv).1
          omega
        rw [hnone]
        rfl

theorem fixOf_congr {md md0 : BM_Metadata} (hf : md0.pageFrames = md.pageFrames)
    (ht : md0.pageTable = md.pageTable) (q : Int) : fixOf md0 q = fixOf md q := by
  unfold fixOf frameOfPage
  rw [ht]
  simp only [frameAt_congr hf]

theorem Settled_congr {md md0 : BM_Metadata} {t : List Int} (h : Settled md t)
    (hf : md0.pageFrames = md.pageFrames) (ht : md0.pageTable = md.pageTable)
    (hfile : md0.pageFile = md.pageFile) : Settled md0 t := by
  refine ⟨?_, ?_⟩
  · intro i f hfa ho hn
    rw [frameAt_congr hf] at hfa
    rw [hfile]
    exact h.1 i f hfa ho hn
  · intro p hp
    rw [fixOf_congr hf ht]
    exact h.2 p hp

theorem RunInv_congr {bm : BM_BufferPool} {md md0 : BM_Metadata} {img : Int → PageContent}
    {t : List Int} (r : RunInv bm md img t) (hf : md0.pageFrames = md.pageFrames)
    (ht : md0.pageTable = md.pageTable) (hfile : md0.pageFile = md.pageFile) :
    RunInv { bm with mgmtData := MgmtPtr.live md0 } md0 img t :=
  ⟨⟨rfl, by show bm.numPages = _; rw [hf]; exact r.ok.numPages,
      PoolInv_congr r.ok.inv hf ht hfile⟩,
    fun q hq => by rw [viewPage_congr hf ht hfile]; exact r.view q hq,
    Settled_congr r.settled hf ht hfile⟩

/-- Two occupied frames that hold the same page are the same frame. -/
theorem frame_unique {md : BM_Metadata} (hi : PoolInv md) {i j : Int} {f g : BM_PageFrame}
    (hf : frameAt md i = some f) (hg : frameAt md j = some g) (hfo : f.occupied = true)
    (hgo : g.occupied = true) (e : g.pageNum = f.pageNum) : j = i := by
  have hp := ((hi.frames i f hf).2.2 hfo).1
  have h1 := (hi.lookup f.pageNum i hp).2 ⟨f, hf, hfo, rfl⟩
  have h2 := (hi.lookup f.pageNum j hp).2 ⟨g, hg, hgo, e⟩
  rw [h1] at h2
  cases h2
  rfl

theorem view_upd_same {md md1 : BM_Metadata} {i : Int} {f f1 : BM_PageFrame}
    (hi : PoolInv md) (u : FrameUpd md md1 i f f1) (hd : f1.data = f.data) (q : Int)
    (hq : 0 ≤ q) : viewPage md1 q = viewPage md q := by
  rw [viewPage_FrameUpd hi u q hq]
  split
  · rename_i h
    rw [hd, ← h.2]
    exact (viewPage_of_frame hi u.old h.1 (by rw [h.2]; exact hq)).symm
  · rfl

/-- The frames stay settled under the update of one frame that keeps its page. -/
theorem Settled_upd {md md1 : BM_Metadata} {i : Int} {f f1 : BM_PageFrame} {t t1 : List Int}
    (u : FrameUpd md md1 i f f1) (hs : Settled md t)
    (hnew : f1.occupied = true → f1.pageNum ∉ t1 →
      f1.dirty = true ∨ fhPage md.pageFile f1.pageNum = f1.data)
    (hsub : ∀ j g, j ≠ i → frameAt md j = some g → g.occupied = true → g.pageNum ∉ t1 →
      g.pageNum ∉ t)
    (hfix : ∀ p ∈ t1, 0 ≤ p ∧ 1 ≤ fixOf md1 p) : Settled md1 t1 := by
  refine ⟨?_, hfix⟩
  intro j g hg ho hn
  rw [u.file]
  by_cases hji : j = i
  · subst hji
    rw [u.new] at hg
    cases hg
    exact hnew ho hn
  · rw [u.others j hji] at hg
    exact hs.1 j g hg ho (hsub j g hji hg ho hn)

/-- Writing the buffer of an occupied frame to its page of the file keeps the pool well
formed and settled, and the image of every page. -/
theorem writeBack_inv {md : BM_Metadata} (hi : PoolInv md) {i : Int} {f : BM_PageFrame}
    (hf : frameAt md i = some f) (ho : f.occupied = true) :
    ∃ fh, writeBlock f.pageNum md.pageFile f.data = some (RC.RC_OK, fh)
      ∧ PoolInv { md with pageFile := fh, numWrite := md.numWrite + 1 }
      ∧ (∀ q, 0 ≤ q →
          viewPage { md with pageFile := fh, numWrite := md.numWrite + 1 } q = viewPage md q)
      ∧ (∀ t, Settled md t → Settled { md with pageFile := fh, numWrite := md.numWrite + 1 } t)
      ∧ fhPage fh f.pageNum = f.data := by
  obtain ⟨hidx, hfix0, hocc⟩ := hi.frames i f hf
  obtain ⟨hp0, hplt, _⟩ := hocc ho
  obtain ⟨fh, hw, hfo, htot, hpg⟩ := fhPage_writeBlock hi.file hp0 hplt f.data
  have hself : fhPage fh f.pageNum = f.data := by rw [hpg _ hp0, if_pos rfl]
  have hother : ∀ j g, frameAt md j = some g → g.occupied = true →
      fhPage md.pageFile g.pageNum = g.data → fhPage fh g.pageNum = g.data := by
    intro j g hg hgo hclean
    have hg0 := ((hi.frames j g hg).2.2 hgo).1
    rw [hpg _ hg0]
    split
    · rename_i e
      have := frame_unique hi hf hg ho hgo e
      subst this
      rw [hf] at hg
      cases hg
      rfl
    · exact hclean
  refine ⟨fh, hw, ⟨hi.ht, hfo, hi.lookup, ?_⟩, ?_, ?_, hself⟩
  · intro j g hg
    have hg2 : frameAt md j = some g := hg
    obtain ⟨a, b, c⟩ := hi.frames j g hg2
    refine ⟨a, b, fun hgo => ?_⟩
    obtain ⟨c1, c2, c3⟩ := c hgo
    refine ⟨c1, by show g.pageNum < fh.totalNumPages; rw [htot]; exact c2, fun hz hd => ?_⟩
    exact hother j g hg2 hgo (c3 hz hd)
  · intro q hq
    obtain ⟨r, hr⟩ := getValue_isSome hi.ht hq
    unfold viewPage
    show (match getValue md.pageTable q with
      | some (some i) =>
        match frameAt { md with pageFile := fh, numWrite := md.numWrite + 1 } i with
        | some f => f.data
        | none => emptyPage
      | _ => fhPage fh q) = _
    rw [hr]
    cases r with
    | some j => rfl
    | none =>
      simp only
      rw [hpg q hq, if_neg]
      intro e
      subst e
      have := (hi.lookup f.pageNum i hp0).2 ⟨f, hf, ho, rfl⟩
      rw [hr] at this
      cases this
  · intro t hs
    refine ⟨?_, ?_⟩
    · intro j g hg hgo hn
      have hg2 : frameAt md j = some g := hg
      rcases hs.1 j g hg2 hgo hn with h | h
      · exact Or.inl h
      · exact Or.inr (hother j g hg2 hgo h)
    · intro p hp
      have : fixOf { md with pageFile := fh, numWrite := md.numWrite + 1 } p = fixOf md p :=
        fixOf_congr rfl rfl p
      rw [this]
      exact hs.2 p hp

theorem fixOf_of_frame {md : BM_Metadata} (hi : PoolInv md) {i : Int} {f : BM_PageFrame}
    (hf : frameAt md i = some f) (ho : f.occupied = true) :
    fixOf md f.pageNum = f.fixCount := by
  have hp := ((hi.frames i f hf).2.2 ho).1
  exact fixOf_of_frameOfPage (frameOfPage_of_frame hi hf ho hp)

/-- A store of the client into the buffer of a pinned page. -/
theorem step_store {bm bm1 : BM_BufferPool} {md : BM_Metadata} {img : Int → PageContent}
    {t : List Int} (r : RunInv bm md img t) (p : Int) (d : PageContent)
    (h : storePage bm p d = some bm1) :
    ∃ md1, RunInv bm1 md1 (fun x => if x = p then d else img x) (p :: t) := by
  have hi := r.ok.inv
  unfold storePage at h
  rw [r.ok.live] at h
  simp only at h
  rcases getValue_cases hi.ht p with hg | hg | ⟨hp, i, hg⟩
  · rw [hg] at h; cases h
  · rw [hg] at h; cases h
  · rw [hg] at h
    simp only at h
    obtain ⟨f, hf, ho, hpn⟩ := (hi.lookup p i hp).1 hg
    rw [hf] at h
    simp only at h
    by_cases hfix : 1 ≤ f.fixCount
    · rw [if_pos hfix] at h
      cases h
      obtain ⟨hinv1, u⟩ := PoolInv_setData hi hf hfix d
      have hp2 : 0 ≤ f.pageNum := by rw [hpn]; exact hp
      refine ⟨_, ⟨rfl, ?_, hinv1⟩, ?_, ?_⟩
      · show bm.numPages = _
        rw [u.len]; exact r.ok.numPages
      · intro q hq
        rw [viewPage_upd hi u ho hp2 q hq, hpn]
        split
        · rfl
        · exact r.view q hq
      · apply Settled_upd u r.settled
        · intro _ hn
          exfalso
          apply hn
          show f.pageNum ∈ p :: t
          rw [hpn]
          exact List.mem_cons_self _ _
        · intro j g _ _ _ hn hmem
          exact hn (List.mem_cons_of_mem _ hmem)
        · intro q hq
          have hq0 : 0 ≤ q := by
            rcases List.mem_cons.1 hq with e | e
            · rw [e]; exact hp
            · exact (r.settled.2 q e).1
          refine ⟨hq0, ?_⟩
          rw [fixOf_upd hi u ho hp2 q hq0]
          split
          · exact hfix
          · rename_i hne
            rcases List.mem_cons.1 hq with e | e
            · exact absurd (e.trans hpn.symm) hne
            · exact (r.settled.2 q e).2
    · rw [if_neg hfix] at h
      cases h

/-- A call of `unpinPage` on a page with no store pending. -/
theorem step_unpin {bm bm1 : BM_BufferPool} {md : BM_Metadata} {img : Int → PageContent}
    {t : List Int} (r : RunInv bm md img t) (p : Int) (hpt : p ∉ t) (rc : RC)
    (h : unpinPage bm ⟨p, none⟩ = some (rc, bm1)) :
    ∃ md1, RunInv bm1 md1 img t := by
  have hi := r.ok.inv
  rcases getValue_cases hi.ht p with hg | hg | ⟨hp, i, hg⟩
  · unfold unpinPage at h
    rw [r.ok.live] at h
    simp only [hg] at h
    cases h
  · unfold unpinPage at h
    rw [r.ok.live] at h
    simp only [hg, Option.some.injEq, Prod.mk.injEq] at h
    rw [← h.2]
    exact ⟨md, r⟩
  · obtain ⟨f, hf, ho, hpn⟩ := (hi.lookup p i hp).1 hg
    have hsafe : UnpinSafe md f := by
      rcases r.settled.1 i f hf ho (by rw [hpn]; exact hpt) with hd | hd
      · exact Or.inr (Or.inl hd)
      · exact Or.inr (Or.inr hd)
    obtain ⟨md1, e, hok1, u⟩ := unpinPage_spec r.ok ⟨p, none⟩ hp hf ho hpn hsafe
    rw [e] at h
    simp only [Option.some.injEq, Prod.mk.injEq] at h
    rw [← h.2]
    have hp2 : 0 ≤ f.pageNum := by rw [hpn]; exact hp
    refine ⟨md1, hok1, fun q hq => ?_, ?_⟩
    · rw [view_upd_same hi u rfl q hq]
      exact r.view q hq
    · apply Settled_upd u r.settled
      · intro ho1 hn
        exact r.settled.1 i f hf ho hn
      · intro j g _ _ _ hn
        exact hn
      · intro q hq
        obtain ⟨hq0, hq1⟩ := r.settled.2 q hq
        refine ⟨hq0, ?_⟩
        rw [fixOf_upd hi u ho hp2 q hq0, if_neg]
        · exact hq1
        · intro e2
          apply hpt
          rw [← hpn, ← e2]
          exact hq

/-- A call of `markDirty`. -/
theorem step_dirty {bm bm1 : BM_BufferPool} {md : BM_Metadata} {img : Int → PageContent}
    {t : List Int} (r : RunInv bm md img t) (p : Int) (rc : RC)
    (h : markDirty bm ⟨p, none⟩ = some (rc, bm1)) :
    ∃ md1, RunInv bm1 md1 img (t.filter (fun q => q ≠ p)) := by
  have hi := r.ok.inv
  rcases getValue_cases hi.ht p with hg | hg | ⟨hp, i, hg⟩
  · unfold markDirty at h
    rw [r.ok.live] at h
    simp only [hg] at h
    cases h
  · unfold markDirty at h
    rw [r.ok.live] at h
    simp only [hg, Option.some.injEq, Prod.mk.injEq] at h
    rw [← h.2]
    refine ⟨md, r.ok, r.view, ?_, ?_⟩
    · intro j g hgf hgo hn
      apply r.settled.1 j g hgf hgo
      intro hmem
      have hgp : g.pageNum ≠ p := by
        intro e
        have hp0 := ((hi.frames j g hgf).2.2 hgo).1
        have := (hi.lookup g.pageNum j hp0).2 ⟨g, hgf, hgo, rfl⟩
        rw [e, hg] at this
        cases this
      exact hn (List.mem_filter.2 ⟨hmem, by simpa using hgp⟩)
    · intro q hq
      exact r.settled.2 q (List.mem_filter.1 hq).1
  · obtain ⟨f, hf, ho, hpn⟩ := (hi.lookup p i hp).1 hg
    obtain ⟨md1, e, hok1, u⟩ := markDirty_spec r.ok ⟨p, none⟩ hp hf ho hpn
    rw [e] at h
    simp only [Option.some.injEq, Prod.mk.injEq] at h
    rw [← h.2]
    have hp2 : 0 ≤ f.pageNum := by rw [hpn]; exact hp
    refine ⟨md1, hok1, fun q hq => ?_, ?_⟩
    · rw [view_upd_same hi u rfl q hq]
      exact r.view q hq
    · apply Settled_upd u r.settled
      · intro _ _
        exact Or.inl rfl
      · intro j g hji hgf hgo hn hmem
        have hgp : g.pageNum ≠ p := by
          intro e2
          exact hji (frame_unique hi hf hgf ho hgo (by rw [e2, hpn]))
        exact hn (List.mem_filter.2 ⟨hmem, by simpa using hgp⟩)
      · intro q hq
        obtain ⟨hq0, hq1⟩ := r.settled.2 q (List.mem_filter.1 hq).1
        refine ⟨hq0, ?_⟩
        rw [fixOf_upd hi u ho hp2 q hq0]
        split
        · rename_i e2
          rw [e2, fixOf_of_frame hi hf ho] at hq1
          exact hq1
        · exact hq1

/-- The frame `i` of a settled pool is written to the file and marked clean. -/
theorem flushFrame_inv {md : BM_Metadata} (hi : PoolInv md) {i : Int} {f : BM_PageFrame}
    (hf : frameAt md i = some f) (ho : f.occupied = true) (ts ts1 : Nat) :
    ∃ fh md2, writeBlock f.pageNum md.pageFile f.data = some (RC.RC_OK, fh)
      ∧ md2 = setFrame
          { md with pageFile := fh, numWrite := md.numWrite + 1, timeStamp := ts1 } i
          { f with timeStamp := ts, dirty := false }
      ∧ PoolInv md2 ∧ (∀ q, 0 ≤ q → viewPage md2 q = viewPage md q)
      ∧ ∀ t, Settled md t → Settled md2 t := by
  obtain ⟨fh, hw, hinvA, hviewA, hsetA, hself⟩ := writeBack_inv hi hf ho
  have hfA : frameAt { md with pageFile := fh, numWrite := md.numWrite + 1 } i = some f := hf
  have u := @FrameUpd_setFrame { md with pageFile := fh, numWrite := md.numWrite + 1 }
    { md with pageFile := fh, numWrite := md.numWrite + 1, timeStamp := ts1 } _ _ hfA
    { f with timeStamp := ts, dirty := false } rfl rfl rfl
  have hfix0 := (hi.frames i f hf).2.1
  have hp0 := ((hi.frames i f hf).2.2 ho).1
  refine ⟨fh, _, hw, rfl, ?_, ?_, ?_⟩
  · exact PoolInv_FrameUpd hinvA u rfl rfl rfl hfix0 (fun _ _ _ => hself)
  · intro q hq
    rw [view_upd_same hinvA u rfl q hq]
    exact hviewA q hq
  · intro t hs
    apply Settled_upd u (hsetA t hs)
    · intro _ _
      exact Or.inr hself
    · intro j g _ _ _ hn
      exact hn
    · intro q hq
      obtain ⟨hq0, hq1⟩ := (hsetA t hs).2 q hq
      refine ⟨hq0, ?_⟩
      rw [fixOf_upd hinvA u ho hp0 q hq0]
      split
      · rename_i e2
        rw [e2, fixOf_of_frame hinvA hfA ho] at hq1
        exact hq1
      · exact hq1

/-- The loop of `forceFlushPool` keeps the pool well formed and settled, and the image of
every page. -/
theorem forceFlushLoop_inv {t : List Int} :
    ∀ (k i : Nat) (md md1 : BM_Metadata), PoolInv md → Settled md t →
      forceFlushLoop k i md = some md1 →
      PoolInv md1 ∧ md1.pageFrames.length = md.pageFrames.length
        ∧ (∀ q, 0 ≤ q → viewPage md1 q = viewPage md q) ∧ Settled md1 t
  | 0, _, md, md1, hi, hs, h => by
    unfold forceFlushLoop at h
    cases h
    exact ⟨hi, rfl, fun _ _ => rfl, hs⟩
  | k + 1, i, md, md1, hi, hs, h => by
    unfold forceFlushLoop at h
    cases hfr : md.pageFrames[i]? with
    | none => rw [hfr] at h; cases h
    | some f =>
      rw [hfr] at h
      simp only at h
      have hf : frameAt md (i : Int) = some f := by
        unfold frameAt; rw [getI?_ofNat]; exact hfr
      by_cases hc : f.occupied = true ∧ f.dirty = true ∧ f.fixCount = 0
      · rw [if_pos hc] at h
        obtain ⟨fh, md2, hw, hmd2, hinv1, hview1, hset1⟩ :=
          flushFrame_inv hi hf hc.1 md.timeStamp ((md.timeStamp + 1) % 4294967296)
        rw [hw] at h
        simp only [getTimeStamp] at h
        rw [← hmd2] at h
        obtain ⟨a, b, c, d⟩ := forceFlushLoop_inv k (i + 1) md2 md1 hinv1 (hset1 t hs) h
        refine ⟨a, ?_, ?_, d⟩
        · rw [b, hmd2]
          simp only [setFrame_pageFrames, List.length_set]
        · intro q hq
          rw [c q hq, hview1 q hq]
      · rw [if_neg hc] at h
        exact forceFlushLoop_inv k (i + 1) md md1 hi hs h

/-- A call of `forceFlushPool`. -/
theorem step_flush {bm bm1 : BM_BufferPool} {md : BM_Metadata} {img : Int → PageContent}
    {t : List Int} (r : RunInv bm md img t) (rc : RC)
    (h : forceFlushPool bm = some (rc, bm1)) : ∃ md1, RunInv bm1 md1 img t := by
  unfold forceFlushPool at h
  rw [r.ok.live] at h
  simp only at h
  cases hl : forceFlushLoop bm.numPages.toNat 0 md with
  | none => rw [hl] at h; cases h
  | some md1 =>
    rw [hl] at h
    simp only [Option.some.injEq, Prod.mk.injEq] at h
    rw [← h.2]
    obtain ⟨a, b, c, d⟩ := forceFlushLoop_inv _ 0 md md1 r.ok.inv r.settled hl
    exact ⟨md1, ⟨rfl, by show bm.numPages = _; rw [b]; exact r.ok.numPages, a⟩,
      fun q hq => by rw [c q hq]; exact r.view q hq, d⟩

/-- A call of `forcePage`. -/
theorem step_force {bm bm1 : BM_BufferPool} {md : BM_Metadata} {img : Int → PageContent}
    {t : List Int} (r : RunInv bm md img t) (p : Int) (rc : RC)
    (h : forcePage bm ⟨p, none⟩ = some (rc, bm1)) : ∃ md1, RunInv bm1 md1 img t := by
  have hi := r.ok.inv
  unfold forcePage at h
  rw [r.ok.live] at h
  simp only at h
  rcases getValue_cases hi.ht p with hg | hg | ⟨hp, i, hg⟩
  · rw [hg] at h; cases h
  · rw [hg] at h
    simp only [Option.some.injEq, Prod.mk.injEq] at h
    rw [← h.2]
    exact ⟨md, r⟩
  · rw [hg] at h
    simp only at h
    obtain ⟨f, hf, ho, hpn⟩ := (hi.lookup p i hp).1 hg
    rw [hf] at h
    simp only [getTimeStamp] at h
    have hp2 : 0 ≤ f.pageNum := by rw [hpn]; exact hp
    -- the time stamp of the frame is set first
    have u := @FrameUpd_setFrame md { md with timeStamp := (md.timeStamp + 1) % 4294967296 }
      _ _ hf { f with timeStamp := md.timeStamp } rfl rfl rfl
    have hfix0 := (hi.frames i f hf).2.1
    have hinv2 : PoolInv (setFrame { md with timeStamp := (md.timeStamp + 1) % 4294967296 } i
        { f with timeStamp := md.timeStamp }) :=
      PoolInv_FrameUpd hi u rfl rfl rfl hfix0 (fun a b c => ((hi.frames i f hf).2.2 a).2.2 b c)
    have hview2 := view_upd_same hi u rfl
    have hset2 : Settled (setFrame { md with timeStamp := (md.timeStamp + 1) % 4294967296 } i
        { f with timeStamp := md.timeStamp }) t := by
      apply Settled_upd u r.settled
      · intro _ hn
        exact r.settled.1 i f hf ho hn
      · intro j g _ _ _ hn
        exact hn
      · intro q hq
        obtain ⟨hq0, hq1⟩ := r.settled.2 q hq
        refine ⟨hq0, ?_⟩
        rw [fixOf_upd hi u ho hp2 q hq0]
        split
        · rename_i e2
          rw [e2, fixOf_of_frame hi hf ho] at hq1
          exact hq1
        · exact hq1
    by_cases hz : f.fixCount = 0
    · rw [if_pos hz] at h
      obtain ⟨fh, md3, hw, hmd3, hinv3, hview3, hset3⟩ := flushFrame_inv hinv2 u.new ho
        md.timeStamp ((md.timeStamp + 1) % 4294967296)
      have hw2 : writeBlock p
          (setFrame { md with timeStamp := (md.timeStamp + 1) % 4294967296 } i
            { f with timeStamp := md.timeStamp }).pageFile f.data = some (RC.RC_OK, fh) := by
        rw [← hpn]; exact hw
      rw [hw2] at h
      simp only [Option.some.injEq, Prod.mk.injEq] at h
      rw [← h.2]
      subst hmd3
      refine ⟨_, ⟨rfl, ?_, hinv3⟩, ?_, hset3 t hset2⟩
      · show bm.numPages = _
        simp only [setFrame_pageFrames, List.length_set]
        exact r.ok.numPages
      · intro q hq
        exact (hview3 q hq).trans ((hview2 q hq).trans (r.view q hq))
    · rw [if_neg hz] at h
      simp only [Option.some.injEq, Prod.mk.injEq] at h
      rw [← h.2]
      refine ⟨_, ⟨rfl, ?_, hinv2⟩, ?_, hset2⟩
      · show bm.numPages = _
        rw [u.len]
        exact r.ok.numPages
      · intro q hq
        rw [hview2 q hq]
        exact r.view q hq

theorem replacementLRU_none {md md1 : BM_Metadata} {n : Int}
    (h : replacementLRU n md = some (none, md1)) : md1 = md := by
  unfold replacementLRU at h
  cases hl : lruLoop md n.toNat 0 UINT_MAX (-1) with
  | none => rw [hl] at h; cases h
  | some k =>
    rw [hl] at h
    simp only at h
    by_cases hk : k = -1
    · rw [if_pos hk] at h
      simp only [Option.some.injEq, Prod.mk.injEq, true_and] at h
      exact h.symm
    · rw [if_neg hk] at h
      cases he : getAfterEviction md k with
      | none => rw [he] at h; cases h
      | some md2 => rw [he] at h; simp at h

/-- A call of `pinPage`: the run invariant is kept, and a successful call hands out the
buffer that holds the image of the page. -/
theorem step_pin {bm bm1 : BM_BufferPool} {md : BM_Metadata} {img : Int → PageContent}
    {t : List Int} (r : RunInv bm md img t) (page : BM_PageHandle) (p : Int) (rc : RC)
    (h : BM_PageHandle) (hpin : pinPage bm page p = some (rc, bm1, h)) :
    ∃ md1, RunInv bm1 md1 img t ∧ (rc = RC.RC_OK →
      ∃ i f1, h = ⟨p, some i⟩ ∧ frameAt md1 i = some f1 ∧ f1.data = img p) := by
  have hi := r.ok.inv
  by_cases hp : 0 ≤ p
  swap
  · rw [pinPage_negative bm md page p r.ok.live (by omega)] at hpin
    simp only [Option.some.injEq, Prod.mk.injEq] at hpin
    rw [← hpin.2.1, ← hpin.1]
    exact ⟨md, r, fun e => by cases e⟩
  by_cases hrc : rc = RC.RC_OK
  · subst hrc
    obtain ⟨_, md1, i, f1, e1, e2, k, hok1⟩ := pinPage_ok r.ok page p hpin
    have tc := k.toTouch hi hp
    refine ⟨md1, ⟨hok1, fun q hq => by rw [k.view q hq]; exact r.view q hq, ?_, ?_⟩,
      fun _ => ⟨i, f1, e2, k.new, by rw [k.data]; exact r.view p hp⟩⟩
    · intro j g hg ho hn
      by_cases hji : j = i
      · subst hji
        rw [k.new] at hg
        cases hg
        rcases k.hitOrMiss with ⟨hhit, _⟩ | ⟨_, hone⟩
        · -- a hit: the frame is the old one with a new stamp and fix count
          obtain ⟨f, hf, k2⟩ := pinHit_spec hi hp hhit
          have hpin2 := hpin
          unfold pinPage at hpin2
          rw [r.ok.live] at hpin2
          simp only [ge_iff_le, hp, if_true, hhit, hf, Option.some.injEq, Prod.mk.injEq,
            true_and] at hpin2
          have hlive := hok1.live
          rw [← hpin2.1] at hlive
          have hmd : setFrame (getTimeStamp md).2 j
              { f with timeStamp := (getTimeStamp md).1, fixCount := f.fixCount + 1 } = md1 := by
            cases hlive
            rfl
          have hnew := k.new
          rw [← hmd] at hnew
          have hnew2 := k2.new
          have hnew3 : frameAt (setFrame (getTimeStamp md).2 j
              { f with timeStamp := (getTimeStamp md).1, fixCount := f.fixCount + 1 }) j
              = some { f with timeStamp := md.timeStamp, fixCount := f.fixCount + 1 } := hnew2
          rw [hnew3] at hnew
          cases hnew
          have hfile : md1.pageFile = md.pageFile := by
            rw [← hmd]
            rfl
          rw [hfile]
          have hfo : f.occupied = true := ho
          exact r.settled.1 j f hf hfo hn
        · rcases k.safe with h2 | h2 | h2
          · omega
          · exact Or.inl h2
          · exact Or.inr h2
      · rw [k.others j hji] at hg
        have hg0 := ((hi.frames j g hg).2.2 ho).1
        rcases r.settled.1 j g hg ho hn with hd | hd
        · exact Or.inl hd
        · right
          rcases k.file g.pageNum hg0 with hf2 | hf2
          · rw [hf2]; exact hd
          · rw [hf2]; exact viewPage_of_frame hi hg ho hg0
    · intro q hq
      obtain ⟨hq0, hq1⟩ := r.settled.2 q hq
      refine ⟨hq0, ?_⟩
      rw [tc.fix q hq0]
      split <;> omega
  · -- the call failed: the metadata differs in the cursor at most
    obtain ⟨r0, hr0⟩ := getValue_isSome hi.ht hp
    unfold pinPage at hpin
    rw [r.ok.live] at hpin
    simp only [ge_iff_le, hp, if_true, hr0] at hpin
    cases r0 with
    | some i =>
      obtain ⟨f, hf, _⟩ := pinHit_spec hi hp hr0
      simp only [hf, Option.some.injEq, Prod.mk.injEq] at hpin
      exact absurd hpin.1.symm hrc
    | none =>
      simp only at hpin
      by_cases hs : bm.strategy = ReplacementStrategy.RS_FIFO
      · rw [if_pos hs] at hpin
        cases hrep : replacementFIFO bm.numPages md with
        | none => rw [hrep] at hpin; cases hpin
        | some res =>
          obtain ⟨oi, mdx⟩ := res
          rw [hrep] at hpin
          cases oi with
          | some i =>
            simp only at hpin
            cases hload : loadPage mdx i p with
            | none => rw [hload] at hpin; cases hpin
            | some md2 =>
              rw [hload] at hpin
              simp only [Option.some.injEq, Prod.mk.injEq] at hpin
              exact absurd hpin.1.symm hrc
          | none =>
            simp only [Option.some.injEq, Prod.mk.injEq] at hpin
            obtain ⟨c, hc⟩ := replacementFIFO_none hrep
            rw [← hpin.2.1]
            subst hc
            exact ⟨_, RunInv_congr r rfl rfl rfl, fun e => absurd e hrc⟩
      · rw [if_neg hs] at hpin
        cases hrep : replacementLRU bm.numPages md with
        | none => rw [hrep] at hpin; cases hpin
        | some res =>
          obtain ⟨oi, mdx⟩ := res
          rw [hrep] at hpin
          cases oi with
          | some i =>
            simp only at hpin
            cases hload : loadPage mdx i p with
            | none => rw [hload] at hpin; cases hpin
            | some md2 =>
              rw [hload] at hpin
              simp only [Option.some.injEq, Prod.mk.injEq] at hpin
              exact absurd hpin.1.symm hrc
          | none =>
            simp only [Option.some.injEq, Prod.mk.injEq] at hpin
            have hc := replacementLRU_none hrep
            rw [← hpin.2.1]
            subst hc
            exact ⟨_, RunInv_congr r rfl rfl rfl, fun e => absurd e hrc⟩

/-- The run invariant along a sequence of calls of a disciplined client. -/
theorem run_inv : ∀ (ops : List PoolOp) (bm bm1 : BM_BufferPool) (md : BM_Metadata)
    (img : Int → PageContent) (t : List Int), RunInv bm md img t → Disciplined t ops →
    runOps bm ops = some bm1 →
    ∃ md1, RunInv bm1 md1 (imageAfter img ops) (pendingAfter t ops)
  | [], bm, bm1, md, img, t, r, _, h => by
    unfold runOps at h
    cases h
    exact ⟨md, r⟩
  | op :: ops, bm, bm1, md, img, t, r, hd, h => by
    unfold runOps at h
    cases ha : applyOp bm op with
    | none => rw [ha] at h; cases h
    | some bm2 =>
      rw [ha] at h
      simp only at h
      cases op with
      | pin p =>
        simp only [applyOp] at ha
        cases hpin : pinPage bm uninitHandle p with
        | none => rw [hpin] at ha; cases ha
        | some res =>
          obtain ⟨rc, bm3, hh⟩ := res
          rw [hpin] at ha
          cases ha
          obtain ⟨md2, r2, _⟩ := step_pin r uninitHandle p rc hh hpin
          exact run_inv ops _ bm1 md2 img t r2 hd h
      | unpin p =>
        simp only [applyOp] at ha
        cases hc : unpinPage bm ⟨p, none⟩ with
        | none => rw [hc] at ha; cases ha
        | some res =>
          obtain ⟨rc, bm3⟩ := res
          rw [hc] at ha
          cases ha
          obtain ⟨md2, r2⟩ := step_unpin r p hd.1 rc hc
          exact run_inv ops _ bm1 md2 img t r2 hd.2 h
      | dirty p =>
        simp only [applyOp] at ha
        cases hc : markDirty bm ⟨p, none⟩ with
        | none => rw [hc] at ha; cases ha
        | some res =>
          obtain ⟨rc, bm3⟩ := res
          rw [hc] at ha
          cases ha
          obtain ⟨md2, r2⟩ := step_dirty r p rc hc
          exact run_inv ops _ bm1 md2 img _ r2 hd h
      | force p =>
        simp only [applyOp] at ha
        cases hc : forcePage bm ⟨p, none⟩ with
        | none => rw [hc] at ha; cases ha
        | some res =>
          obtain ⟨rc, bm3⟩ := res
          rw [hc] at ha
          cases ha
          obtain ⟨md2, r2⟩ := step_force r p rc hc
          exact run_inv ops _ bm1 md2 img t r2 hd h
      | flush =>
        simp only [applyOp] at ha
        cases hc : forceFlushPool bm with
        | none => rw [hc] at ha; cases ha
        | some res =>
          obtain ⟨rc, bm3⟩ := res
          rw [hc] at ha
          cases ha
          obtain ⟨md2, r2⟩ := step_flush r rc hc
          exact run_inv ops _ bm1 md2 img t r2 hd h
      | store p d =>
        simp only [applyOp] at ha
        obtain ⟨md2, r2⟩ := step_store r p d ha
        exact run_inv ops _ bm1 md2 _ (p :: t) r2 hd h

/-- The pool `initBufferPool` builds satisfies the run invariant for the pages of the
file. -/
theorem RunInv_init (bm0 : BM_BufferPool) (name : String) (pages : List PageContent) (n : Nat)
    (hn : n < 4294967296) (strategy : ReplacementStrategy) :
    ∃ md, RunInv (initBufferPool bm0 name (some pages) (n : Int) strategy).2 md
      (fun q => pages.getD q.toNat emptyPage) [] := by
  obtain ⟨md, e, hinv, hlen, hfile, hpt, hfree, _⟩ :=
    initBufferPool_any bm0 name pages n hn strategy
  rw [e]
  refine ⟨md, ⟨rfl, by show (n : Int) = _; rw [hlen], hinv⟩, ?_, ?_, ?_⟩
  · intro q hq
    unfold viewPage
    rw [hpt, getValue_initHashTable hq]
    simp only [fhPage, hfile]
  · intro i f hf ho _
    obtain ⟨_, _, hfe⟩ := frameAt_eq_some hf
    have := (hfree _ f hfe).2.2.1
    rw [this] at ho
    cases ho
  · intro p hp
    cases hp

/-- C15: for a pool that `initBufferPool` built over the pages of a file (any number of
frames, either strategy) and any sequence of `pinPage`, `unpinPage`, `markDirty`,
`forcePage`, `forceFlushPool` calls and stores of the client into pinned pages in which
no page is unpinned between a store into it and the next `markDirty` of it, a following
successful `pinPage(p)` hands out the buffer that holds the most recent image of page
`p`: what was last stored into it, or the page of the file (zero bytes beyond its end) if
nothing was. -/
theorem pinPage_exposes_image (bm0 : BM_BufferPool) (name : String) (pages : List PageContent)
    (n : Nat) (hn : n < 4294967296) (strategy : ReplacementStrategy) (ops : List PoolOp)
    (hd : Disciplined [] ops) (bm1 : BM_BufferPool)
    (hrun : runOps (initBufferPool bm0 name (some pages) (n : Int) strategy).2 ops = some bm1)
    (page : BM_PageHandle) (p : Int) (bm2 : BM_BufferPool) (h : BM_PageHandle)
    (hpin : pinPage bm1 page p = some (RC.RC_OK, bm2, h)) :
    ∃ md2 i f, bm2.mgmtData = MgmtPtr.live md2 ∧ h = ⟨p, some i⟩ ∧ frameAt md2 i = some f
      ∧ f.data = imageAfter (fun q => pages.getD q.toNat emptyPage) ops p := by
  obtain ⟨md0, r0⟩ := RunInv_init bm0 name pages n hn strategy
  obtain ⟨md1, r1⟩ := run_inv ops _ bm1 md0 _ [] r0 hd hrun
  obtain ⟨md2, r2, hres⟩ := step_pin r1 page p RC.RC_OK h hpin
  obtain ⟨i, f, e, hf, hdata⟩ := hres rfl
  exact ⟨md2, i, f, r2.ok.live, e, hf, hdata⟩

set_option maxRecDepth 1000000 in
theorem pinPage_exposes_image_witness :
    ∃ md2 i f, (poolAfter (poolAfter (newPool zeroPool 3 ReplacementStrategy.RS_FIFO) clientRun)
        [PoolOp.pin 1]).mgmtData = MgmtPtr.live md2
      ∧ (⟨1, some 1⟩ : BM_PageHandle) = ⟨1, some i⟩ ∧ frameAt md2 i = some f
      ∧ f.data = imageAfter (fun q => [emptyPage].getD q.toNat emptyPage) clientRun 1 :=
  pinPage_exposes_image zeroPool "file" [emptyPage] 3 (by norm_num) ReplacementStrategy.RS_FIFO
    clientRun (by simp [clientRun, Disciplined])
    (poolAfter (newPool zeroPool 3 ReplacementStrategy.RS_FIFO) clientRun) (by decide!)
    uninitHandle 1 _ _ (by decide!)

/-! ## `appendToFreeList` and `deleteTable` -/

theorem FreeStep.start {s : RMState} {md : BM_Metadata} {cat : RM_SystemCatalog} (c : Ctx s md)
    (ty : CatTyped md) (hcat : catalogOf md = some cat) : FreeStep s md md cat :=
  ⟨c, ty, hcat, fun _ b _ hb => ⟨b, hb, rfl⟩⟩

theorem FreeStep.andThen {s : RMState} {md md1 md2 : BM_Metadata} {cat1 cat2 : RM_SystemCatalog}
    (a : FreeStep s md md1 cat1) (b : FreeStep s md1 md2 cat2) : FreeStep s md md2 cat2 :=
  ⟨b.ctx, b.typed, b.catalog, fun q x hq hx => by
    obtain ⟨x1, h1, l1⟩ := a.pages q x hq hx
    obtain ⟨x2, h2, l2⟩ := b.pages q x1 hq h1
    exact ⟨x2, h2, l2.trans l1⟩⟩

theorem FreeStep.of_view {s : RMState} {md md1 : BM_Metadata} {cat : RM_SystemCatalog}
    (c1 : Ctx s md1) (ty : CatTyped md) (hcat : catalogOf md = some cat)
    (hv : ∀ q, 0 ≤ q → viewPage md1 q = viewPage md q) : FreeStep s md md1 cat :=
  ⟨c1, CatTyped_view hv ty, by rw [catalogOf_view hv]; exact hcat, fun q b hq hb =>
    ⟨b, by rw [bytesOf_view hv hq]; exact hb, rfl⟩⟩

/-- A store of a header field into the data page `p` is a step that keeps the sizes of
the data pages. -/
theorem FreeStep.of_upd {s : RMState} {md md1 : BM_Metadata} {cat : RM_SystemCatalog}
    (c1 : Ctx s md1) (ty : CatTyped md) (hcat : catalogOf md = some cat) {p : Int}
    {b b1 : List Nat} (hp : 0 ≤ p) (hb : bytesOf md p = some b) (hl : b1.length = b.length)
    (u : Upd md md1 p (PageContent.bytes b1)) : FreeStep s md md1 cat :=
  ⟨c1, CatTyped_upd_bytes ty hb u, by rw [catalogOf_upd_bytes ty hb u]; exact hcat,
    fun q x hq hx => by
      by_cases e : q = p
      · subst e
        rw [hb] at hx
        cases hx
        exact ⟨b1, bytesOf_upd u hp, hl⟩
      · exact ⟨x, by rw [bytesOf_upd_ne u hq e]; exact hx, rfl⟩⟩

/-- The rest of a block `BEGIN_USE_PAGE_HANDLE_HEADER(p)` ... `END_...` that stores one
header field, marks the page dirty and unpins it. -/
theorem closeBlock {s : RMState} {md mdX : BM_Metadata} {cat : RM_SystemCatalog} (c : Ctx s md)
    (ty : CatTyped md) (hcat : catalogOf md = some cat) {p : Int} {hd : BM_PageHandle}
    (tm : Temp s md mdX p hd) (hv : ∀ q, 0 ≤ q → viewPage mdX q = viewPage md q)
    (hp : 0 ≤ p) {b : List Nat} (hb : bytesOf md p = some b) {off : Int} (h0 : 0 ≤ off)
    (hl : off + 4 ≤ b.length) (v : Int) :
    ∃ md2 md3 md4, writeHeaderField (withMd s mdX) hd off v = some (withMd s md2)
      ∧ rmMarkDirty (withMd s md2) hd = some (RC.RC_OK, withMd s md3)
      ∧ rmUnpinPage (withMd s md3) hd = some (RC.RC_OK, withMd s md4)
      ∧ FreeStep s md md4 cat := by
  have hbX : bytesOf mdX hd.pageNum = some b := by
    rw [tm.page, bytesOf_view hv hp]; exact hb
  obtain ⟨b1, hw⟩ := @writeInt_isSome b off v h0 hl
  obtain ⟨md2, e2, u2⟩ := writeHeaderField_spec tm.base tm.held hbX hw
  rw [tm.page] at u2
  have tm2 := tm.upd u2
  obtain ⟨md3, e3, tm3, hv3, hs3, _⟩ := tm2.markDirty
  obtain ⟨md4, e4, hb4, hv4, _, hk4, _⟩ := tm3.unpin hs3
  have c4 : Ctx s md4 := Ctx_of_keep c hb4 hk4
  have tyX : CatTyped mdX := CatTyped_view hv ty
  have hbX2 : bytesOf mdX p = some b := by rw [bytesOf_view hv hp]; exact hb
  have hcatX : catalogOf mdX = some cat := by rw [catalogOf_view hv]; exact hcat
  have c2 : Ctx s md2 := Ctx_upd (tm.ctx c) u2
  have f1 : FreeStep s md mdX cat := FreeStep.of_view (tm.ctx c) ty hcat hv
  have f2 : FreeStep s mdX md2 cat :=
    FreeStep.of_upd c2 tyX hcatX hp hbX2 (writeInt_length hw) u2
  have f3 : FreeStep s md2 md4 cat :=
    FreeStep.of_view c4 f2.typed f2.catalog (fun q hq => by rw [hv4 q hq, hv3 q hq])
  exact ⟨md2, md3, md4, e2, e3, e4, f1.andThen (f2.andThen f3)⟩

/-- The loop of `appendToFreeList` along a chain that ends: it returns 1 when a pin
fails, else 0 after the free list head was stored as the `nextPage` of the last page. -/
theorem appendWalk_spec {s : RMState} {cat : RM_SystemCatalog} :
    ∀ (pages : List Int) (md : BM_Metadata) (p : Int) (fuel : Nat), Ctx s md → CatTyped md →
      catalogOf md = some cat → IsChain md p pages NO_PAGE → pages ≠ [] →
      pages.length ≤ fuel → Typed md pages →
      ∃ r md1 last, appendWalk fuel (withMd s md) p = some (r, withMd s md1, last)
        ∧ (r = 0 ∨ r = 1) ∧ (r = 0 → FreeStep s md md1 cat)
  | [], _, _, _, _, _, _, _, hne, _, _ => absurd rfl hne
  | q :: rest, md, p, 0, _, _, _, _, _, hfuel, _ => by simp at hfuel
  | q :: rest, md, p, fuel + 1, c, ty, hcat, hch, _, hfuel, htyped => by
    obtain ⟨hpq, hq0, nx, hnx, hrest⟩ := hch
    subst hpq
    obtain ⟨b, hb, hl⟩ := htyped p (List.mem_cons_self _ _)
    have hnxb : headerNextPage b = some nx := by
      unfold nextOf at hnx
      rw [hb] at hnx
      exact hnx
    unfold appendWalk
    rcases Temp.pin c.base uninitHandle hq0 with ⟨md1, hd, e, tm, hv, hsafe, _⟩ | ⟨e, _⟩
    · rw [e]
      simp only [ne_eq, not_true_eq_false, if_false]
      have hpb : pageBytes (withMd s md1) hd = some b := by
        rw [pageBytes_eq tm.base.inv tm.held.1, tm.page, bytesOf_view hv hq0]
        exact hb
      rw [hpb]
      simp only [Option.some_bind, hnxb]
      by_cases hend : nx = NO_PAGE
      · rw [if_pos hend, getSystemCatalog_eq (tm.ctx c), catalogOf_view hv, hcat]
        simp only
        obtain ⟨md2, md3, md4, e2, e3, e4, fs⟩ :=
          closeBlock c ty hcat tm hv hq0 hb (le_refl 0) (by omega) cat.freePage
        rw [e2]
        simp only
        rw [e3]
        simp only
        rw [e4]
        simp only [ne_eq, not_true_eq_false, if_false]
        exact ⟨0, md4, p, rfl, Or.inl rfl, fun _ => fs⟩
      · rw [if_neg hend]
        obtain ⟨md2, e2, hb2, hv2, _, hk2, _⟩ := tm.unpin hsafe
        rw [e2]
        simp only [ne_eq, not_true_eq_false, if_false]
        have c2 : Ctx s md2 := Ctx_of_keep c hb2 hk2
        have hvv : ∀ x, 0 ≤ x → viewPage md2 x = viewPage md x := fun x hx => by
          rw [hv2 x hx, hv x hx]
        have f2 : FreeStep s md md2 cat := FreeStep.of_view c2 ty hcat hvv
        have hch2 : IsChain md2 nx rest NO_PAGE :=
          IsChain_view (fun x hx => (hvv x hx).symm) rest nx NO_PAGE hrest
        have hne2 : rest ≠ [] := by
          intro e0
          subst e0
          exact hend hrest
        have hty2 : Typed md2 rest := by
          intro x hx
          obtain ⟨bx, h1, h2⟩ := htyped x (List.mem_cons_of_mem _ hx)
          have hx0 := IsChain_mem_nonneg rest nx NO_PAGE hrest x hx
          exact ⟨bx, by rw [bytesOf_view hvv hx0]; exact h1, h2⟩
        obtain ⟨r, md3, last, e3, hr, hfs⟩ := appendWalk_spec rest md2 nx fuel c2 f2.typed
          f2.catalog hch2 hne2 (by simpa using hfuel) hty2
        exact ⟨r, md3, last, e3, hr, fun h0 => f2.andThen (hfs h0)⟩
    · rw [e]
      simp only [ne_eq, reduceCtorEq, not_false_eq_true, if_true]
      exact ⟨1, md, p, rfl, Or.inr rfl, fun h => by omega⟩

/-- The block of `appendToFreeList` that makes page `p` the head of the free list. -/
theorem appendHead_spec {s : RMState} {md : BM_Metadata} {cat : RM_SystemCatalog} (c : Ctx s md)
    (ty : CatTyped md) (hcat : catalogOf md = some cat) {p : Int} (hp : 0 ≤ p) {b : List Nat}
    (hb : bytesOf md p = some b) (hl : 12 ≤ b.length) :
    ∃ r md1, appendHead (withMd s md) p = some (r, withMd s md1)
      ∧ (r = 0 ∨ r = 1) ∧ (r = 0 → FreeStep s md md1 { cat with freePage := p })
      ∧ (CanPin md p → r = 0) := by
  unfold appendHead
  rcases Temp.pin c.base uninitHandle hp with ⟨md1, hd, e, tm, hv, hsafe, _⟩ | ⟨e, hcan⟩
  · rw [e]
    simp only [ne_eq, not_true_eq_false, if_false]
    have hbX : bytesOf md1 hd.pageNum = some b := by
      rw [tm.page, bytesOf_view hv hp]; exact hb
    obtain ⟨b1, hw⟩ := @writeInt_isSome b 4 0 (by omega) (by omega)
    obtain ⟨md2, e2, u2⟩ := writeHeaderField_spec tm.base tm.held hbX hw
    rw [tm.page] at u2
    rw [e2]
    simp only
    have tm2 := tm.upd u2
    have c1 : Ctx s md1 := tm.ctx c
    have c2 : Ctx s md2 := Ctx_upd c1 u2
    have f1 : FreeStep s md md1 cat := FreeStep.of_view c1 ty hcat hv
    have hb1 : bytesOf md1 p = some b := by rw [bytesOf_view hv hp]; exact hb
    have f2 : FreeStep s md1 md2 cat :=
      FreeStep.of_upd c2 f1.typed f1.catalog hp hb1 (writeInt_length hw) u2
    rw [getSystemCatalog_eq c2, f2.catalog]
    simp only
    obtain ⟨md3, e3, u3⟩ := setSystemCatalog_spec c2 f2.catalog { cat with freePage := p }
    rw [e3]
    simp only
    have tm3 := tm2.upd u3
    obtain ⟨md4, e4, tm4, hv4, hs4, _⟩ := tm3.markDirty
    rw [e4]
    simp only
    have c4 : Ctx s md4 := tm4.ctx c
    obtain ⟨md5, e5, t5, hpts5, _, _⟩ := markSystemCatalogDirty_spec c4
    rw [e5]
    simp only
    have tm5 := tm4.touch t5 hpts5
    have hs5 : Safe md5 p :=
      t5.step.safe p hp hs4 (by rw [t5.fix p hp]; simp) (t5.view p hp)
    obtain ⟨md6, e6, hb6, hv6, _, hk6, _⟩ := tm5.unpin hs5
    rw [e6]
    simp only [ne_eq, not_true_eq_false, if_false]
    refine ⟨0, md6, rfl, Or.inl rfl, fun _ => ?_, fun _ => rfl⟩
    have c6 : Ctx s md6 := Ctx_of_keep c hb6 hk6
    have hv36 : ∀ q, 0 ≤ q → viewPage md6 q = viewPage md3 q := fun q hq => by
      rw [hv6 q hq, t5.view q hq, hv4 q hq]
    have ty3 : CatTyped md3 := CatTyped_upd_catalog u3
    have hcat3 : catalogOf md3 = some { cat with freePage := p } := catalogOf_upd u3
    have f3 : FreeStep s md2 md3 { cat with freePage := p } :=
      ⟨Ctx_upd c2 u3, ty3, hcat3, fun q x hq hx => by
        have hq0 : q ≠ 0 := f2.typed.ne_zero hx
        exact ⟨x, by rw [bytesOf_upd_ne u3 hq hq0]; exact hx, rfl⟩⟩
    have f4 : FreeStep s md3 md6 { cat with freePage := p } :=
      FreeStep.of_view c6 ty3 hcat3 hv36
    exact f1.andThen (f2.andThen (f3.andThen f4))
  · rw [e]
    simp only [ne_eq, reduceCtorEq, not_false_eq_true, if_true]
    exact ⟨1, md, rfl, Or.inr rfl, fun h => by omega, fun h => absurd h hcan⟩

/-- The source's `appendToFreeList` on a chain that ends, whose pages are data pages,
with a free list whose head is a data page: it returns 1 when a pin fails, else 0 with
`pageNum` as the new head of the free list. -/
theorem appendToFreeList_spec {s : RMState} {md : BM_Metadata} {cat : RM_SystemCatalog}
    (c : Ctx s md) (ty : CatTyped md) (hcat : catalogOf md = some cat) {p : Int}
    {pages : List Int} (hch : IsChain md p pages NO_PAGE) (hne : pages ≠ [])
    (hty : Typed md pages) {fuel : Nat} (hfuel : pages.length ≤ fuel)
    (hfree : cat.freePage = NO_PAGE ∨ ∃ b, bytesOf md cat.freePage = some b ∧ 12 ≤ b.length) :
    ∃ r md1, appendToFreeList fuel (withMd s md) p = some (r, withMd s md1)
      ∧ (r = 0 ∨ r = 1) ∧ (r = 0 → FreeStep s md md1 { cat with freePage := p })
      ∧ (cat.freePage = NO_PAGE → CanPin md p → r = 0) := by
  -- the first page of the chain is `p`
  have hp : p ∈ pages ∧ 0 ≤ p := by
    cases pages with
    | nil => exact absurd rfl hne
    | cons q rest =>
      obtain ⟨h1, h2, _⟩ := hch
      exact ⟨by rw [h1]; exact List.mem_cons_self _ _, by rw [h1]; exact h2⟩
  obtain ⟨bp, hbp, hlp⟩ := hty p hp.1
  unfold appendToFreeList
  rw [getSystemCatalog_eq c, hcat]
  simp only
  by_cases hfp : cat.freePage = NO_PAGE
  · rw [if_pos hfp]
    obtain ⟨r, md1, e, hr, hfs, hcan⟩ := appendHead_spec c ty hcat hp.2 hbp hlp
    exact ⟨r, md1, e, hr, hfs, fun _ => hcan⟩
  · rw [if_neg hfp]
    obtain ⟨bf, hbf, hlf⟩ := hfree.resolve_left hfp
    obtain ⟨r, mdw, last, ew, hr, hfs⟩ := appendWalk_spec pages md p fuel c ty hcat hch hne hfuel hty
    rw [ew]
    simp only
    rcases hr with hr | hr
    · subst hr
      simp only [ne_eq, not_true_eq_false, if_false]
      have fw := hfs rfl
      rw [getSystemCatalog_eq fw.ctx, fw.catalog]
      simp only
      by_cases hneg : cat.freePage < 0
      · rw [rmPinPage_neg uninitHandle hneg]
        simp only [ne_eq, reduceCtorEq, not_false_eq_true, if_true]
        exact ⟨1, mdw, rfl, Or.inr rfl, fun h => by omega, fun h => absurd h hfp⟩
      have hf0 : 0 ≤ cat.freePage := not_lt.mp hneg
      obtain ⟨bf1, hbf1, hlf1⟩ := fw.pages cat.freePage bf hf0 hbf
      rcases Temp.pin fw.ctx.base uninitHandle hf0 with
        ⟨md1, hd, e, tm, hv, hsafe, _⟩ | ⟨e, _⟩
      · rw [e]
        simp only [ne_eq, not_true_eq_false, if_false]
        obtain ⟨md2, md3, md4, e2, e3, e4, fs⟩ :=
          closeBlock fw.ctx fw.typed fw.catalog tm hv hf0 hbf1 (by omega : (0 : Int) ≤ 4)
            (by omega) last
        rw [e2]
        simp only
        rw [e3]
        simp only
        rw [e4]
        simp only [ne_eq, not_true_eq_false, if_false]
        have f4 := fw.andThen fs
        obtain ⟨bp4, hbp4, hlp4⟩ := f4.pages p bp hp.2 hbp
        obtain ⟨r, md5, e5, hr5, hfs5, _⟩ :=
          appendHead_spec f4.ctx f4.typed f4.catalog hp.2 hbp4 (by omega)
        exact ⟨r, md5, e5, hr5, fun h0 => f4.andThen (hfs5 h0), fun h => absurd h hfp⟩
      · rw [e]
        simp only [ne_eq, reduceCtorEq, not_false_eq_true, if_true]
        exact ⟨1, mdw, rfl, Or.inr rfl, fun h => by omega, fun h => absurd h hfp⟩
    · subst hr
      simp only [ne_eq, one_ne_zero, not_false_eq_true, if_true]
      exact ⟨1, mdw, rfl, Or.inr rfl, fun h => by omega, fun h => absurd h hfp⟩

/-- The loop of `deleteTable` that moves the descriptors behind `r` down by one. -/
theorem shiftDown_spec : ∀ (k r : Nat) (tables : List RM_SystemSchema),
    r + k < tables.length →
    ∃ tables1, shiftDown k r tables = some tables1 ∧ tables1.length = tables.length
      ∧ (∀ j, j < r → tables1[j]? = tables[j]?)
      ∧ (∀ j, r ≤ j → j < r + k → tables1[j]? = tables[j + 1]?)
      ∧ ∀ j, r + k ≤ j → tables1[j]? = tables[j]?
  | 0, r, tables, _ => by
    unfold shiftDown
    exact ⟨tables, rfl, rfl, fun _ _ => rfl, fun j h1 h2 => by omega, fun _ _ => rfl⟩
  | k + 1, r, tables, h => by
    unfold shiftDown
    have h1 : r + 1 < tables.length := by omega
    rw [List.getElem?_eq_getElem h1]
    simp only
    obtain ⟨t1, e, hlen, ha, hb, hc⟩ := shiftDown_spec k (r + 1) (tables.set r tables[r + 1])
      (by rw [List.length_set]; omega)
    refine ⟨t1, e, by rw [hlen, List.length_set], ?_, ?_, ?_⟩
    · intro j hj
      rw [ha j (by omega), List.getElem?_set_ne (by omega)]
    · intro j hj1 hj2
      by_cases e2 : j = r
      · subst e2
        rw [ha j (by omega), List.getElem?_set_self (by omega),
          List.getElem?_eq_getElem h1]
      · rw [hb j (by omega) (by omega), List.getElem?_set_ne (by omega)]
    · intro j hj
      rw [hc j (by omega), List.getElem?_set_ne (by omega)]

/-- The body of `deleteTable` for the descriptor `i` whose name matched. -/
theorem deleteTableAt_spec {s : RMState} {md : BM_Metadata} {cat : RM_SystemCatalog}
    (c : Ctx s md) (ty : CatTyped md) (hcat : catalogOf md = some cat) {i : Nat}
    {t : RM_SystemSchema} (hi : (i : Int) < cat.numTables)
    (hlen : cat.numTables ≤ (cat.tables.length : Int))
    {pages : List Int} (hch : IsChain md t.pageNum pages NO_PAGE) (hne : pages ≠ [])
    (hty : Typed md pages) {fuel : Nat} (hfuel : pages.length ≤ fuel)
    (hfree : cat.freePage = NO_PAGE ∨ ∃ b, bytesOf md cat.freePage = some b ∧ 12 ≤ b.length) :
    ∃ rc md1, deleteTableAt fuel (withMd s md) i t = some (rc, withMd s md1)
      ∧ (rc = RC.RC_WRITE_FAILED ∨ (rc = RC.RC_OK ∧ Ctx s md1
          ∧ ∃ cat1, catalogOf md1 = some cat1 ∧ cat1.freePage = t.pageNum ∧ RemovedAt cat cat1 i))
      ∧ (cat.freePage = NO_PAGE → CanPin md t.pageNum → rc = RC.RC_OK) := by
  obtain ⟨r, md1, e, hr, hfs, hcan⟩ := appendToFreeList_spec c ty hcat hch hne hty hfuel hfree
  unfold deleteTableAt
  rw [e]
  simp only
  rcases hr with hr | hr
  · subst hr
    simp only [zero_ne_one, if_false]
    have f1 := hfs rfl
    rw [getSystemCatalog_eq f1.ctx, f1.catalog]
    simp only
    have hk : i + (cat.numTables - 1 - (i : Int)).toNat < cat.tables.length := by omega
    obtain ⟨tables1, esh, _, ha, hb, _⟩ :=
      shiftDown_spec (cat.numTables - 1 - (i : Int)).toNat i cat.tables hk
    rw [esh]
    simp only
    obtain ⟨md2, e2, u2⟩ := setSystemCatalog_spec f1.ctx f1.catalog
      { cat with freePage := t.pageNum, numTables := cat.numTables - 1, tables := tables1 }
    rw [e2]
    simp only
    have c2 : Ctx s md2 := Ctx_upd f1.ctx u2
    obtain ⟨md3, e3, t3, _, _, _⟩ := markSystemCatalogDirty_spec c2
    rw [e3]
    have c3 : Ctx s md3 := Ctx_touch c2 t3 (Or.inl (le_refl 0))
    refine ⟨RC.RC_OK, md3, rfl, Or.inr ⟨rfl, c3,
      { cat with freePage := t.pageNum, numTables := cat.numTables - 1, tables := tables1 },
      ?_, rfl, rfl, rfl, ha, ?_⟩, fun _ _ => rfl⟩
    · rw [catalogOf_touch t3, catalogOf_upd u2]
    · intro j hj1 hj2
      exact hb j hj1 (by omega)
  · subst hr
    simp only [if_true]
    refine ⟨RC.RC_WRITE_FAILED, md1, rfl, Or.inl rfl, fun h1 h2 => ?_⟩
    have := hcan h1 h2
    omega

/-- The search of `deleteTable` arrives at the first descriptor that has the name. -/
theorem deleteTableLoop_found (fuel : Nat) (s : RMState) (cat : RM_SystemCatalog)
    (name : CString) {i : Nat} {t : RM_SystemSchema} (ht : cat.tables[i]? = some t)
    (hname : t.name = name) : ∀ (k j0 : Nat), j0 ≤ i → i < j0 + k →
    (∀ (j : Nat) (u : RM_SystemSchema), j0 ≤ j → j < i → cat.tables[j]? = some u →
      u.name ≠ name) →
    deleteTableLoop fuel s cat name k j0 = deleteTableAt fuel s i t
  | 0, _, _, h, _ => by omega
  | k + 1, j0, h0, h1, hall => by
    unfold deleteTableLoop
    by_cases e : j0 = i
    · subst e
      rw [ht]
      simp only
      rw [if_pos hname]
    · have hlt : j0 < cat.tables.length := by
        have := (List.getElem?_eq_some_iff.1 ht).1
        omega
      rw [List.getElem?_eq_getElem hlt]
      simp only
      rw [if_neg (hall j0 _ (le_refl _) (by omega) (List.getElem?_eq_getElem hlt))]
      exact deleteTableLoop_found fuel s cat name ht hname k (j0 + 1) (by omega) (by omega)
        (fun j u h2 h3 => hall j u (by omega) h3)

theorem createdCatalog_eq : catalogOf (liveMd createdState) = some createdCatalog := by
  obtain ⟨cat, catF, tF, _, _, cr⟩ := createdState_created
  unfold createdCatalog
  rw [cr.catalog]

set_option maxRecDepth 1000000 in
theorem createdCatalog_facts :
    0 ≤ createdCatalog.numTables
      ∧ createdCatalog.numTables ≤ (createdCatalog.tables.length : Int)
      ∧ (0 : Int) < createdCatalog.numTables
      ∧ createdCatalog.tables[0]? = some createdTable
      ∧ createdTable.name = testName
      ∧ createdTable.pageNum = 1
      ∧ nextOf (liveMd createdState) 1 = some NO_PAGE
      ∧ (bytesOf (liveMd createdState) 1).map (fun b => decide (12 ≤ b.length)) = some true
      ∧ createdCatalog.freePage = NO_PAGE := by
  decide!

theorem copyAttrs_content {schema : Schema} : ∀ (k i : Nat) (t t1 : RM_SystemSchema),
    copyAttrs schema k i t = some t1 →
      (∀ j, i ≤ j → j < i + k → ∃ n d l,
          schema.attrNames[j]? = some n ∧ t1.attrNames[j]? = some (strncpyBounded n ATTR_NAME_SIZE)
            ∧ schema.dataTypes[j]? = some d ∧ t1.dataTypes[j]? = some d
            ∧ schema.typeLength[j]? = some l ∧ t1.typeLength[j]? = some l)
        ∧ ∀ j, j < i → t1.attrNames[j]? = t.attrNames[j]? ∧ t1.dataTypes[j]? = t.dataTypes[j]?
            ∧ t1.typeLength[j]? = t.typeLength[j]?
  | 0, i, t, t1, h => by
    unfold copyAttrs at h
    cases h
    exact ⟨fun j h1 h2 => by omega, fun j _ => ⟨rfl, rfl, rfl⟩⟩
  | k + 1, i, t, t1, h => by
    unfold copyAttrs at h
    split at h
    · rename_i n d l hn hd hl
      split at h
      · rename_i hlen
        obtain ⟨a, b⟩ := copyAttrs_content k (i + 1) _ t1 h
        have hi := b i (Nat.lt_succ_self i)
        simp only [List.getElem?_set_self hlen.1, List.getElem?_set_self hlen.2.1,
          List.getElem?_set_self hlen.2.2] at hi
        refine ⟨?_, ?_⟩
        · intro j h1 h2
          by_cases hj : j = i
          · subst hj
            exact ⟨n, d, l, hn, hi.1, hd, hi.2.1, hl, hi.2.2⟩
          · exact a j (by omega) (by omega)
        · intro j hj
          have := b j (by omega)
          simp only [List.getElem?_set_ne (show i ≠ j by omega)] at this
          exact this
      · cases h
    · cases h

theorem copyKeys_content {schema : Schema} : ∀ (k i : Nat) (t t1 : RM_SystemSchema),
    copyKeys schema k i t = some t1 →
      (∀ j, i ≤ j → j < i + k → ∃ a,
          schema.keyAttrs[j]? = some a ∧ t1.keyAttrs[j]? = some a)
        ∧ ∀ j, j < i → t1.keyAttrs[j]? = t.keyAttrs[j]?
  | 0, i, t, t1, h => by
    unfold copyKeys at h
    cases h
    exact ⟨fun j h1 h2 => by omega, fun j _ => rfl⟩
  | k + 1, i, t, t1, h => by
    unfold copyKeys at h
    split at h
    · rename_i a ha
      split at h
      · rename_i hlen
        obtain ⟨x, y⟩ := copyKeys_content k (i + 1) _ t1 h
        have hi := y i (Nat.lt_succ_self i)
        simp only [List.getElem?_set_self hlen] at hi
        refine ⟨?_, ?_⟩
        · intro j h1 h2
          by_cases hj : j = i
          · subst hj
            exact ⟨a, ha, hi⟩
          · exact x j (by omega) (by omega)
        · intro j hj
          have := y j (by omega)
          simp only [List.getElem?_set_ne (show i ≠ j by omega)] at this
          exact this
      · cases h
    · cases h

/-- The arrays of the descriptor `newDescriptor` builds hold the schema: the names cut to
15 characters, the data types, the type lengths and the key attributes. -/
theorem newDescriptor_content {t0 t3 : RM_SystemSchema} {name : CString} {schema : Schema}
    (h : newDescriptor t0 name schema = some t3) :
    (∀ j : Nat, (j : Int) < schema.numAttr → ∃ n d l,
        schema.attrNames[j]? = some n ∧ t3.attrNames[j]? = some (strncpyBounded n ATTR_NAME_SIZE)
          ∧ schema.dataTypes[j]? = some d ∧ t3.dataTypes[j]? = some d
          ∧ schema.typeLength[j]? = some l ∧ t3.typeLength[j]? = some l)
      ∧ ∀ j : Nat, (j : Int) < schema.keySize → ∃ a,
          schema.keyAttrs[j]? = some a ∧ t3.keyAttrs[j]? = some a := by
  unfold newDescriptor at h
  simp only at h
  split at h
  · cases h
  · rename_i t2 h2
    obtain ⟨a, _⟩ := copyAttrs_content _ _ _ _ h2
    obtain ⟨_, _, _, _, b5, b6, b7, _, _⟩ := copyKeys_fields _ _ _ _ h
    obtain ⟨x, _⟩ := copyKeys_content _ _ _ _ h
    refine ⟨?_, ?_⟩
    · intro j hj
      obtain ⟨n, d, l, p1, p2, p3, p4, p5, p6⟩ := a j (Nat.zero_le j) (by omega)
      exact ⟨n, d, l, p1, by rw [b5]; exact p2, p3, by rw [b6]; exact p4, p5,
        by rw [b7]; exact p6⟩
    · intro j hj
      exact x j (Nat.zero_le j) (by omega)

/-- The schema read through the `SchemaRef` that `openTable` fills in, when the descriptor
it points at carries the arrays of the created descriptor. -/
theorem SameSchema_of_created {s : RMState} {md mdF : BM_Metadata} {cat catF : RM_SystemCatalog}
    {name : CString} {schema : Schema} {tF : RM_SystemSchema}
    (cr : Created s md mdF cat catF name schema tF) (hshort : ShortNames schema)
    {md3 : BM_Metadata} {table : Int} {t : RM_SystemSchema} (ht : tableOf md3 table = some t)
    (h1 : t.attrNames = tF.attrNames) (h2 : t.dataTypes = tF.dataTypes)
    (h3 : t.typeLength = tF.typeLength) (h4 : t.keyAttrs = tF.keyAttrs) :
    ∃ sch, schemaOf md3 { numAttr := tF.numAttr, keySize := tF.keySize, table := table } = some sch
      ∧ SameSchema schema sch := by
  obtain ⟨t0, t3, _, hnd, htF⟩ := cr.desc
  obtain ⟨_, _, hna, hks, _⟩ := newDescriptor_fields hnd
  obtain ⟨ca, ck⟩ := newDescriptor_content hnd
  have e1 : tF.attrNames = t3.attrNames := by rw [htF]
  have e2 : tF.dataTypes = t3.dataTypes := by rw [htF]
  have e3 : tF.typeLength = t3.typeLength := by rw [htF]
  have e4 : tF.keyAttrs = t3.keyAttrs := by rw [htF]
  have e5 : tF.numAttr = schema.numAttr := by rw [htF]; exact hna
  have e6 : tF.keySize = schema.keySize := by rw [htF]; exact hks
  refine ⟨_, by unfold schemaOf; rw [ht], e5, e6, ?_, ?_⟩
  · intro j hj
    obtain ⟨n, d, l, p1, p2, p3, p4, p5, p6⟩ := ca j hj
    have hn : strncpyBounded n ATTR_NAME_SIZE = n :=
      strncpyBounded_short (by have := hshort j n hj p1; unfold ATTR_NAME_SIZE; omega)
    refine ⟨n, d, l, p1, ?_, p3, ?_, p5, ?_⟩
    · show (t.attrNames.take tF.numAttr.toNat)[j]? = some n
      rw [List.getElem?_take_of_lt (by omega), h1, e1, p2, hn]
    · show t.dataTypes[j]? = some d
      rw [h2, e2, p4]
    · show t.typeLength[j]? = some l
      rw [h3, e3, p6]
  · intro j hj
    obtain ⟨a, q1, q2⟩ := ck j hj
    exact ⟨a, q1, by show t.keyAttrs[j]? = some a; rw [h4, e4, q2]⟩

/-! ## Shutting the record manager down -/

theorem anyPinned_false {md : BM_Metadata} : ∀ (k i : Nat), anyPinned md k i = some false →
    ∀ (j : Nat) (f : BM_PageFrame), i ≤ j → j < i + k → frameAt md (j : Int) = some f →
      f.fixCount ≤ 0
  | 0, i, _ => fun j f h1 h2 _ => by omega
  | k + 1, i, h => by
    unfold anyPinned at h
    cases hfr : md.pageFrames[i]? with
    | none => rw [hfr] at h; cases h
    | some g =>
      rw [hfr] at h
      simp only at h
      by_cases hc : g.fixCount > 0
      · rw [if_pos hc] at h; cases h
      · rw [if_neg hc] at h
        intro j f h1 h2 hf
        by_cases hj : j = i
        · subst hj
          unfold frameAt at hf
          rw [getI?_ofNat, hfr] at hf
          cases hf
          omega
        · exact anyPinned_false k (i + 1) h j f (by omega) (by omega) hf

/-- The loop of `forceFlushPool` over frames none of which is pinned leaves every frame
clean. -/
theorem forceFlushLoop_clean :
    ∀ (k i : Nat) (md md1 : BM_Metadata), PoolInv md →
      (∀ (j : Nat) (f : BM_PageFrame), j < i → frameAt md (j : Int) = some f →
        f.fixCount = 0 ∧ (f.occupied = true → f.dirty = false)) →
      (∀ (j : Nat) (f : BM_PageFrame), i ≤ j → j < i + k → frameAt md (j : Int) = some f →
        f.fixCount = 0) →
      forceFlushLoop k i md = some md1 →
      PoolInv md1 ∧ md1.pageFrames.length = md.pageFrames.length
        ∧ (∀ q, 0 ≤ q → viewPage md1 q = viewPage md q)
        ∧ ∀ (j : Nat) (f : BM_PageFrame), j < i + k → frameAt md1 (j : Int) = some f →
            f.fixCount = 0 ∧ (f.occupied = true → f.dirty = false)
  | 0, i, md, md1, hi, hP, _, h => by
    unfold forceFlushLoop at h
    cases h
    exact ⟨hi, rfl, fun _ _ => rfl, fun j f hj hf => hP j f (by omega) hf⟩
  | k + 1, i, md, md1, hi, hP, hQ, h => by
    unfold forceFlushLoop at h
    cases hfr : md.pageFrames[i]? with
    | none => rw [hfr] at h; cases h
    | some f =>
      rw [hfr] at h
      simp only at h
      have hf : frameAt md (i : Int) = some f := by
        unfold frameAt; rw [getI?_ofNat]; exact hfr
      have hfix : f.fixCount = 0 := hQ i f (le_refl i) (by omega) hf
      by_cases hc : f.occupied = true ∧ f.dirty = true ∧ f.fixCount = 0
      · rw [if_pos hc] at h
        obtain ⟨fh, md2, hw, hmd2, hinv1, hview1, _⟩ :=
          flushFrame_inv hi hf hc.1 md.timeStamp ((md.timeStamp + 1) % 4294967296)
        rw [hw] at h
        simp only [getTimeStamp] at h
        rw [← hmd2] at h
        have hfA : frameAt { md with pageFile := fh, numWrite := md.numWrite + 1 } (i : Int)
            = some f := hf
        have u := @FrameUpd_setFrame { md with pageFile := fh, numWrite := md.numWrite + 1 }
          { md with pageFile := fh, numWrite := md.numWrite + 1,
                    timeStamp := (md.timeStamp + 1) % 4294967296 } _ _ hfA
          { f with timeStamp := md.timeStamp, dirty := false } rfl rfl rfl
        rw [← hmd2] at u
        have hne : ∀ j : Nat, j ≠ i → frameAt md2 (j : Int) = frameAt md (j : Int) := by
          intro j hj
          exact u.others (j : Int) (by omega)
        obtain ⟨a, b, c, d⟩ := forceFlushLoop_clean k (i + 1) md2 md1 hinv1
          (by
            intro j g hj hg
            by_cases hji : j = i
            · subst hji
              rw [u.new] at hg
              cases hg
              exact ⟨hfix, fun _ => rfl⟩
            · rw [hne j hji] at hg
              exact hP j g (by omega) hg)
          (by
            intro j g h1 h2 hg
            rw [hne j (by omega)] at hg
            exact hQ j g (by omega) (by omega) hg) h
        refine ⟨a, ?_, ?_, ?_⟩
        · rw [b, hmd2]
          simp only [setFrame_pageFrames, List.length_set]
        · intro q hq
          rw [c q hq, hview1 q hq]
        · intro j g hj hg
          exact d j g (by omega) hg
      · rw [if_neg hc] at h
        obtain ⟨a, b, c, d⟩ := forceFlushLoop_clean k (i + 1) md md1 hi
          (by
            intro j g hj hg
            by_cases hji : j = i
            · subst hji
              rw [hf] at hg
              cases hg
              refine ⟨hfix, fun ho => ?_⟩
              cases hd : f.dirty with
              | false => rfl
              | true => exact absurd ⟨ho, hd, hfix⟩ hc
            · exact hP j g (by omega) hg)
          (by
            intro j g h1 h2 hg
            exact hQ j g (by omega) (by omega) hg) h
        exact ⟨a, b, c, fun j g hj hg => d j g (by omega) hg⟩

/-- In a well-formed pool whose frames are all unpinned and clean, the file holds the image
of every page. -/
theorem file_of_clean {md : BM_Metadata} (hi : PoolInv md)
    (h : ∀ (j : Nat) (f : BM_PageFrame), j < md.pageFrames.length →
      frameAt md (j : Int) = some f → f.fixCount = 0 ∧ (f.occupied = true → f.dirty = false))
    (q : Int) (hq : 0 ≤ q) : fhPage md.pageFile q = viewPage md q := by
  cases hfp : frameOfPage md q with
  | none => exact (viewPage_of_not_cached hi hq hfp).symm
  | some f =>
    obtain ⟨i, _, hf, ho, hpn⟩ := frameOfPage_some hi hq hfp
    obtain ⟨h0, hl, _⟩ := frameAt_eq_some hf
    have hcast : ((i.toNat : Nat) : Int) = i := Int.toNat_of_nonneg h0
    obtain ⟨hz, hd⟩ := h i.toNat f hl (by rw [hcast]; exact hf)
    rw [viewPage_of_frameOfPage hfp, ← hpn]
    exact ((hi.frames i f hf).2.2 ho).2.2 hz (hd ho)

/-- The source's `shutdownRecordManager` when it returns `RC_OK`: the file it leaves holds
the image of every page as the pool held it. -/
theorem shutdownRecordManager_spec {s : RMState} {md : BM_Metadata} (c : Ctx s md)
    (hsafe : Safe md 0) {s2 : RMState}
    (h : shutdownRecordManager (withMd s md) = some (RC.RC_OK, s2)) :
    ∃ pages, s2.disk = some pages
      ∧ ∀ q, 0 ≤ q → pages.getD q.toNat emptyPage = viewPage md q := by
  have hh : Held md (withMd s md).catalogPageHandle := c.cat
  have hs0 : Safe md (withMd s md).catalogPageHandle.pageNum := by
    rw [withMd_catalogPageHandle, c.cat0]; exact hsafe
  obtain ⟨md1, e1, t1, _, _, _, _⟩ := rmUnpinPage_spec c.base hh hs0
  unfold shutdownRecordManager at h
  rw [e1] at h
  simp only [ne_eq, not_true_eq_false, if_false] at h
  have hb1 : PoolBase s md1 := c.base.step t1.step
  unfold shutdownBufferPool at h
  simp only [withMd] at h
  cases hap : anyPinned md1 s.bufferPool.numPages.toNat 0 with
  | none => rw [hap] at h; cases h
  | some b =>
    rw [hap] at h
    cases b with
    | true =>
      simp only [ne_eq, reduceCtorEq, not_false_eq_true, if_true, Option.some.injEq,
        Prod.mk.injEq, false_and] at h
    | false =>
      simp only [forceFlushPool] at h
      cases hfl : forceFlushLoop s.bufferPool.numPages.toNat 0 md1 with
      | none => rw [hfl] at h; cases h
      | some md2 =>
        rw [hfl] at h
        simp only at h
        have hn : s.bufferPool.numPages.toNat = md1.pageFrames.length := by
          rw [hb1.numPages]; rfl
        have hpin := anyPinned_false _ 0 hap
        obtain ⟨hinv2, hlen2, hview2, hclean⟩ := forceFlushLoop_clean _ 0 md1 md2 hb1.inv
          (fun j f hj _ => by omega)
          (fun j f h1 h2 hf => by
            have := hpin j f h1 h2 hf
            have := (hb1.inv.frames _ f hf).2.1
            omega) hfl
        have hfile := file_of_clean hinv2 (fun j f hj hf =>
          hclean j f (by rw [hn, ← hlen2]; omega) hf)
        obtain ⟨pages, hpg, _⟩ := hinv2.file
        rw [if_neg (by rw [hn, hlen2]; omega)] at h
        unfold closePageFile at h
        rw [hpg] at h
        simp only [ne_eq, not_true_eq_false, if_false, Option.some.injEq, Prod.mk.injEq,
          true_and] at h
        refine ⟨pages, by rw [← h], ?_⟩
        intro q hq
        rw [← t1.view q hq, ← hview2 q hq, ← hfile q hq]
        unfold fhPage
        rw [hpg]

/-! ## Schema persistence -/

/-- What `openTable` of the created table yields in a state whose catalog is the catalog
`createTable` left and in which the table's main page can be pinned. -/
theorem openTable_schema {s : RMState} {md mdF : BM_Metadata} {cat catF : RM_SystemCatalog}
    {name : CString} {schema : Schema} {tF : RM_SystemSchema}
    (cr : Created s md mdF cat catF name schema tF) (hname : name.length ≤ 15)
    (hshort : ShortNames schema) {sN : RMState} {mdN : BM_Metadata} (cN : Ctx sN mdN)
    (hcatN : catalogOf mdN = some catF) (hpin : CanPin mdN tF.pageNum) (rel : RM_TableData) :
    ∃ s3 rel1 sch, openTable (withMd sN mdN) rel name = some (RC.RC_OK, s3, rel1)
      ∧ schemaOf (liveMd s3) rel1.schema = some sch ∧ SameSchema schema sch
      ∧ getNumTables s3 = some (cat.numTables + 1) := by
  obtain ⟨hl, hcast, hget, hset⟩ := cr.slot
  obtain ⟨t0, t3, h0, hnd, htF⟩ := cr.desc
  obtain ⟨hh, _, _, _, _⟩ := newDescriptor_fields hnd
  have hnone : tF.handle = none := by
    rw [htF]; exact hh
  obtain ⟨md3, hd, e, c3, o3, hc3, _⟩ := openTable_spec cN hcatN rel
    (cr.find hname) (by rw [hcast]; exact hget) hnone cr.page hpin
  obtain ⟨sch, hsch, hsame⟩ := SameSchema_of_created cr hshort o3.desc rfl rfl rfl rfl
  refine ⟨_, _, sch, e, hsch, hsame, ?_⟩
  unfold getNumTables
  rw [getSystemCatalog_eq c3, hc3]
  show some catF.numTables = _
  rw [cr.count]

/-- C10: after a successful `createTable(name, schema)` with a table name and attribute
names of at most 15 characters, `openTable(name)` returns `RC_OK` and the schema it
exposes has the `numAttr`, `keySize`, attribute names, data types, type lengths and key
attributes of `schema`, and `getNumTables` counts the table; the same holds when
`shutdownRecordManager` (returning `RC_OK`) and `initRecordManager` on the same page file
come between: `initRecordManager` returns `RC_OK` and `openTable` yields that schema. -/
theorem createTable_openTable_schema (s : RMState) (md : BM_Metadata) (c : Ctx s md)
    (cat : RM_SystemCatalog) (hcat : catalogOf md = some cat) (name : CString) (schema : Schema)
    (hname : name.length ≤ 15) (hshort : ShortNames schema) (s1 : RMState)
    (h : createTable (withMd s md) name schema = some (RC.RC_OK, s1)) (rel : RM_TableData) :
    (∃ s3 rel1 sch, openTable s1 rel name = some (RC.RC_OK, s3, rel1)
        ∧ schemaOf (liveMd s3) rel1.schema = some sch ∧ SameSchema schema sch
        ∧ getNumTables s3 = some (cat.numTables + 1))
      ∧ ∀ s2 : RMState, shutdownRecordManager s1 = some (RC.RC_OK, s2) →
          ∃ sI s3 rel1 sch,
            initRecordManager s2 (some s1.bufferPool.pageFile) = some (RC.RC_OK, sI)
              ∧ openTable sI rel name = some (RC.RC_OK, s3, rel1)
              ∧ schemaOf (liveMd s3) rel1.schema = some sch ∧ SameSchema schema sch
              ∧ getNumTables s3 = some (cat.numTables + 1) := by
  obtain ⟨mdF, catF, tF, hs1, cr⟩ := createTable_spec c hcat name schema h
  subst hs1
  obtain ⟨hx, hpx, hxe⟩ := cr.cached
  have hpin : CanPin mdF tF.pageNum := by
    rw [← hxe]; exact CanPin_of_pointsTo cr.ctx.base.inv hpx
  refine ⟨openTable_schema cr hname hshort cr.ctx cr.catalog hpin rel, ?_⟩
  intro s2 hsd
  obtain ⟨pages, hdisk, hpages⟩ := shutdownRecordManager_spec cr.ctx cr.dirty hsd
  have hc : asCatalog (pages.getD 0 emptyPage) = some catF := by
    have := hpages 0 (le_refl 0)
    rw [Int.toNat_zero] at this
    rw [this]
    exact cr.catalog
  obtain ⟨sI, mdI, eI, hlive, cI, hvI, _, _, hcp⟩ :=
    initRecordManager_existing s2 pages hdisk hc (some (withMd s mdF).bufferPool.pageFile)
  have hcatI : catalogOf mdI = some catF := by
    unfold catalogOf
    rw [hvI 0 (le_refl 0), Int.toNat_zero]
    exact hc
  obtain ⟨s3, rel1, sch, e3, r⟩ :=
    openTable_schema cr hname hshort cI hcatI (hcp tF.pageNum) rel
  rw [withMd_self hlive] at e3
  exact ⟨sI, s3, rel1, sch, eI, e3, r⟩

theorem freshCatalog_eq : catalogOf (liveMd freshState) = some freshCatalog := by
  obtain ⟨_, _, ty⟩ := freshState_ready
  obtain ⟨cat, hcat⟩ := catalogOf_typed ty
  unfold freshCatalog
  rw [hcat]

set_option maxRecDepth 1000000 in
theorem closedState_ok :
    freshCatalog.numTables = 0
      ∧ (shutdownRecordManager createdState).map Prod.fst = some RC.RC_OK := by
  decide!

theorem testSchema_short : ShortNames testSchema := by
  intro j n hj hn
  have hj2 : j < 2 := by
    have : testSchema.numAttr = 2 := rfl
    omega
  interval_cases j
  · cases hn; decide
  · cases hn; decide

theorem createTable_openTable_schema_witness :
    (∃ s3 rel1 sch, openTable createdState testRel testName = some (RC.RC_OK, s3, rel1)
        ∧ schemaOf (liveMd s3) rel1.schema = some sch ∧ SameSchema testSchema sch
        ∧ getNumTables s3 = some 1)
      ∧ shutdownRecordManager createdState = some (RC.RC_OK, closedState)
      ∧ ∃ sI s3 rel1 sch,
          initRecordManager closedState (some createdState.bufferPool.pageFile)
              = some (RC.RC_OK, sI)
            ∧ openTable sI testRel testName = some (RC.RC_OK, s3, rel1)
            ∧ schemaOf (liveMd s3) rel1.schema = some sch ∧ SameSchema testSchema sch
            ∧ getNumTables s3 = some 1 := by
  obtain ⟨hl, c, _⟩ := freshState_ready
  have e := createdState_eq
  rw [← withMd_self hl] at e
  have hsd : shutdownRecordManager createdState = some (RC.RC_OK, closedState) :=
    eq_of_map_fst createdState closedState_ok.2
  have key := createTable_openTable_schema freshState (liveMd freshState) c freshCatalog
    freshCatalog_eq testName testSchema (by decide) testSchema_short createdState e testRel
  rw [closedState_ok.1] at key
  exact ⟨key.1, hsd, key.2 closedState hsd⟩

/-! ## Pins and unpins keep a settled frame settled -/

theorem CleanPage_FrameUpd {md md1 : BM_Metadata} {i : Int} {f f1 : BM_PageFrame}
    (hi : PoolInv md) (u : FrameUpd md md1 i f f1) (ho : f.occupied = true)
    (hp : 0 ≤ f.pageNum) (hpn : f1.pageNum = f.pageNum) (hd : f1.dirty = f.dirty)
    (hdata : f1.data = f.data) (q : Int) (hq : 0 ≤ q) (h : CleanPage md q) :
    CleanPage md1 q := by
  intro g hg
  rw [frameOfPage_FrameUpd hi u ho hp q hq] at hg
  by_cases hqp : q = f.pageNum
  · subst hqp
    simp only [if_true] at hg
    cases hg
    have := h f (frameOfPage_of_frame hi u.old ho hp)
    rw [hd, hdata, hpn, u.file]
    exact this
  · rw [if_neg hqp] at hg
    have := h g hg
    rw [u.file]
    exact this

theorem withMd_inj {s : RMState} {md md1 : BM_Metadata} (h : withMd s md = withMd s md1) :
    md = md1 := by
  have := congrArg liveMd h
  exact this

/-- A pin of a cached page by the record manager keeps settled frames settled. -/
theorem rmPinPage_clean {s : RMState} {md : BM_Metadata} (hb : PoolBase s md) {p : Int}
    (hp : 0 ≤ p) (hc : frameOfPage md p ≠ none) {h0 hd : BM_PageHandle} {md1 : BM_Metadata}
    (e : rmPinPage (withMd s md) h0 p = some (RC.RC_OK, withMd s md1, hd)) :
    ∀ q, 0 ≤ q → CleanPage md q → CleanPage md1 q := by
  cases hfp : frameOfPage md p with
  | none => exact absurd hfp hc
  | some f =>
    obtain ⟨i, hg, hf, ho, hpn⟩ := frameOfPage_some hb.inv hp hfp
    have u := @FrameUpd_setFrame md (getTimeStamp md).2 _ _ hf
      { f with timeStamp := md.timeStamp, fixCount := f.fixCount + 1 } rfl rfl rfl
    have e2 : rmPinPage (withMd s md) h0 p = some (RC.RC_OK,
        withMd s (setFrame (getTimeStamp md).2 i
          { f with timeStamp := md.timeStamp, fixCount := f.fixCount + 1 }),
        { pageNum := p, data := some i }) := by
      unfold rmPinPage pinPage
      simp only [withMd, ge_iff_le, hp, if_true, hg, hf, getTimeStamp]
    rw [e2] at e
    have e3 := withMd_inj (Prod.mk.inj (Prod.mk.inj (Option.some.inj e)).2).1
    rw [← e3]
    intro q hq h
    exact CleanPage_FrameUpd hb.inv u ho (by rw [hpn]; exact hp) rfl rfl rfl q hq h

/-- An unpin by the record manager keeps settled frames settled. -/
theorem rmUnpinPage_clean {s : RMState} {md : BM_Metadata} (hb : PoolBase s md)
    {h : BM_PageHandle} (hh : PointsTo md h) {md1 : BM_Metadata}
    (e : rmUnpinPage (withMd s md) h = some (RC.RC_OK, withMd s md1)) :
    ∀ q, 0 ≤ q → CleanPage md q → CleanPage md1 q := by
  obtain ⟨i, f, _, hf, ho, hpn, hfp⟩ := hh.frame hb.inv
  obtain ⟨_, hg, _, _, _⟩ := frameOfPage_some hb.inv hh.1 hfp
  have hfi : frameAt md i = some f := hf
  have hgi := (hb.inv.lookup h.pageNum i hh.1).2 ⟨f, hf, ho, hpn⟩
  have u := @FrameUpd_setFrame md (getTimeStamp md).2 _ _ hf
    { f with timeStamp := md.timeStamp,
             fixCount := if f.fixCount - 1 < 0 then 0 else f.fixCount - 1 } rfl rfl rfl
  have e2 : rmUnpinPage (withMd s md) h = some (RC.RC_OK,
      withMd s (setFrame (getTimeStamp md).2 i
        { f with timeStamp := md.timeStamp,
                 fixCount := if f.fixCount - 1 < 0 then 0 else f.fixCount - 1 })) := by
    unfold rmUnpinPage unpinPage
    simp only [withMd, hgi, hf, getTimeStamp]
  rw [e2] at e
  have e3 := withMd_inj (Prod.mk.inj (Option.some.inj e)).2
  rw [← e3]
  intro q hq hcl
  exact CleanPage_FrameUpd hb.inv u ho (by rw [hpn]; exact hh.1) rfl rfl rfl q hq hcl

/-! ## `getRecord` inside a scan -/

theorem schemaOf_view {md md1 : BM_Metadata}
    (hv : ∀ q, 0 ≤ q → viewPage md1 q = viewPage md q) (r : SchemaRef) :
    schemaOf md1 r = schemaOf md r := by
  unfold schemaOf
  rw [tableOf_view hv]

theorem Same.compose {md md1 md2 : BM_Metadata} (a : Same md md1) (b : Same md1 md2) :
    Same md md2 :=
  ⟨fun q hq => (b.view q hq).trans (a.view q hq), fun q hq => (b.fix q hq).trans (a.fix q hq),
    fun h1 hh => b.keep h1 (a.keep h1 hh)⟩

theorem Same.self (md : BM_Metadata) : Same md md :=
  ⟨fun _ _ => rfl, fun _ _ => rfl, fun _ h => h⟩

/-- The source's `getRecord` of a cached page when it returns `RC_OK`: the record holds
what `getRecordOn` computes from the bytes of the page, the page images and fix counts
are those before the call, and settled frames are settled. -/
theorem getRecord_ok {s : RMState} {md : BM_Metadata} (c : Ctx s md)
    {rel : RM_TableData} {t : RM_SystemSchema} {hm : BM_PageHandle}
    (o : TableOpen md rel.mgmtData t hm) (id : RID) (record : Record)
    {h0 : BM_PageHandle} (hh0 : PointsTo md h0) (hpg : h0.pageNum = id.page)
    {b : List Nat} (hb : bytesOf md id.page = some b) {s2 : RMState} {rec1 : Record}
    (hres : getRecord (withMd s md) rel id record = some (RC.RC_OK, s2, rec1)) :
    ∃ md2, s2 = withMd s md2 ∧ Ctx s md2 ∧ TableOpen md2 rel.mgmtData t hm ∧ Same md md2
      ∧ (∀ q, 0 ≤ q → CleanPage md q → CleanPage md2 q)
      ∧ rec1.id = id
      ∧ getRecordOn b (recordSizeOf md rel.schema) id record.data = some (some rec1.data) := by
  have hp : 0 ≤ id.page := by rw [← hpg]; exact hh0.1
  rcases beginUseTablePage_spec c o id hp with ⟨md1, h, e, u⟩ | ⟨e, hpm, hn⟩
  · obtain ⟨md2, e2, c2, o2, sm, hpts⟩ := u.finish hp (o.page_ne_zero hb)
    have hclean : ∀ q, 0 ≤ q → CleanPage md q → CleanPage md2 q := by
      by_cases hpm : id.page = t.pageNum
      · have e' := e
        unfold beginUseTablePage getSystemSchema at e'
        rw [getTable_eq c, o.desc] at e'
        simp only [hpm, if_true, o.handle, Option.some.injEq, Prod.mk.injEq, true_and] at e'
        have m1 := withMd_inj e'.1
        have e2' := e2
        unfold endUseTablePage getSystemSchema at e2'
        rw [getTable_eq u.ctx, u.tbl.desc] at e2'
        simp only [hpm, ne_eq, not_true_eq_false, if_false, Option.some.injEq, Prod.mk.injEq,
          true_and] at e2'
        have m2 := withMd_inj e2'
        intro q _ hq
        rw [← m2, ← m1]
        exact hq
      · have e' := e
        unfold beginUseTablePage getSystemSchema at e'
        rw [getTable_eq c, o.desc] at e'
        simp only [hpm, if_false] at e'
        have e2' := e2
        unfold endUseTablePage getSystemSchema at e2'
        rw [getTable_eq u.ctx, u.tbl.desc] at e2'
        simp only [ne_eq, hpm, not_false_eq_true, if_true] at e2'
        have hc : frameOfPage md id.page ≠ none := by
          obtain ⟨_, f, _, _, _, _, hfp⟩ := hh0.frame c.base.inv
          rw [← hpg, hfp]
          simp
        intro q hq hcl
        exact rmUnpinPage_clean u.ctx.base u.held.1 e2' q hq
          (rmPinPage_clean c.base hp hc e' q hq hcl)
    have ev : getRecord (withMd s md) rel id record =
        match getRecordOn b (recordSizeOf md rel.schema) id record.data with
        | none => none
        | some none => some (RC.RC_WRITE_FAILED, withMd s md1, record)
        | some (some data) => some (RC.RC_OK, withMd s md2, { id := id, data := data }) := by
      unfold getRecord getRecordOn
      rw [e]
      simp only [ne_eq, not_true_eq_false, if_false]
      rw [pageBytes_eq u.ctx.base.inv u.held.1, u.page, bytesOf_view u.view hp, hb]
      simp only
      cases hn : headerNumSlots b with
      | none => rfl
      | some n =>
        simp only
        by_cases hs : id.slot ≥ n
        · simp only [hs, if_true]
        · simp only [hs, if_false]
          cases hv : getSlot b id.slot with
          | none => rfl
          | some v =>
            simp only
            by_cases hv0 : v = 0
            · simp only [hv0, if_true]
            · simp only [hv0, if_false]
              rw [derefSchema_eq u.ctx, ← recordSizeOf_view u.view]
              unfold recordSizeOf
              cases hz : (schemaOf md1 rel.schema).bind getRecordSize with
              | none => rfl
              | some size =>
                simp only
                cases hl : loadTuple b n size id.slot record.data with
                | none => rfl
                | some data =>
                  simp only [Option.map_some']
                  rw [e2]
                  simp
    rw [ev] at hres
    cases hg : getRecordOn b (recordSizeOf md rel.schema) id record.data with
    | none => rw [hg] at hres; cases hres
    | some r =>
      rw [hg] at hres
      cases r with
      | none =>
        simp only [Option.some.injEq, Prod.mk.injEq, reduceCtorEq, false_and] at hres
      | some data =>
        simp only [Option.some.injEq, Prod.mk.injEq, true_and] at hres
        refine ⟨md2, hres.1.symm, c2, o2, sm, hclean, ?_, ?_⟩
        · rw [← hres.2]
        · rw [← hres.2]
  · rw [show getRecord (withMd s md) rel id record
        = some (RC.RC_WRITE_FAILED, withMd s md, record) by
      unfold getRecord
      rw [e]
      simp] at hres
    simp only [Option.some.injEq, Prod.mk.injEq, reduceCtorEq, false_and] at hres

/-! ## The scan of one page -/

theorem readBytes_length {b : List Nat} {off : Int} {n : Nat} {t : List Nat}
    (h : readBytes b off n = some t) : t.length = n := by
  unfold readBytes at h
  split at h
  · rename_i hc
    cases h
    rw [List.length_take, List.length_drop]
    omega
  · cases h

theorem StoredAt_of_getRecordOn {b : List Nat} {size : Option Int} {id : RID}
    {out data : List Nat} (h : getRecordOn b size id out = some (some data))
    (hs : getSlot b id.slot = some 1) (h0 : 0 ≤ id.slot) :
    ∃ sz, size = some sz ∧ StoredAt b sz { id := id, data := data } := by
  unfold getRecordOn at h
  cases hn : headerNumSlots b with
  | none => rw [hn] at h; cases h
  | some n =>
    rw [hn] at h
    simp only at h
    by_cases hc : id.slot ≥ n
    · rw [if_pos hc] at h; cases h
    · rw [if_neg hc, hs] at h
      simp only at h
      rw [if_neg (show ¬ (1 : Nat) = 0 by decide)] at h
      cases size with
      | none => cases h
      | some sz =>
        simp only at h
        cases hd : loadTuple b n sz id.slot out with
        | none => rw [hd] at h; cases h
        | some d =>
        rw [hd] at h
        have hdd : d = data := by
          simp only [Option.map_some', Option.some.injEq] at h
          exact h
        subst hdd
        unfold loadTuple at hd
        by_cases hg : sz < 0 ∨ out.length < sz.toNat
        · rw [if_pos hg] at hd; cases hd
        · rw [if_neg hg] at hd
          cases hr : readBytes b (tupleOffset n sz id.slot) sz.toNat with
          | none => rw [hr] at hd; cases hd
          | some tuple =>
            rw [hr] at hd
            simp only [Option.some.injEq] at hd
            have hlt : id.slot < n := by omega
            have hsz : 0 ≤ sz := by omega
            refine ⟨sz, rfl, n, tuple, hn, h0, hlt, hs, hsz, hr, ?_⟩
            show d.take sz.toNat = tuple
            rw [← hd, List.take_append_of_le_length (by rw [readBytes_length hr]),
              List.take_of_length_le (by rw [readBytes_length hr])]

/-- The source's `scanForMatchOnPage` on a pinned page whose bytes are `b`, from slot
`k`: when it returns 0 or -1 the page images and fix counts are those before the call,
and with 0 the record is what an occupied slot of the page holds and the condition holds
of it. -/
theorem scanForMatchOnPage_spec {s : RMState} {rel : RM_TableData} {t : RM_SystemSchema}
    {hm : BM_PageHandle} (h : BM_PageHandle) (cond : Option Expr) {b : List Nat} :
    ∀ (fuel : Nat) (md : BM_Metadata) (k : Int) (record : Record) (res : Int) (s1 : RMState)
      (rec1 : Record), Ctx s md → TableOpen md rel.mgmtData t hm → Held md h →
      bytesOf md h.pageNum = some b → 0 ≤ k →
      scanForMatchOnPage rel h cond fuel (withMd s md) k record = some (res, s1, rec1) →
      res ≠ 1 →
      ∃ md1, s1 = withMd s md1 ∧ Ctx s md1 ∧ TableOpen md1 rel.mgmtData t hm ∧ Same md md1
        ∧ (∀ q, 0 ≤ q → CleanPage md q → CleanPage md1 q)
        ∧ (res = 0 → rec1.id.page = h.pageNum
            ∧ ∃ size, recordSizeOf md rel.schema = some size ∧ StoredAt b size rec1
              ∧ CondHolds cond (schemaOf md rel.schema) rec1)
  | 0, md, k, record, res, s1, rec1, c, o, hh, hb, hk, hres, hne => by
    unfold scanForMatchOnPage at hres
    rw [pageBytes_eq c.base.inv hh.1, hb] at hres
    simp only [Option.some_bind] at hres
    cases hn : headerNumSlots b with
    | none => rw [hn] at hres; cases hres
    | some n =>
      rw [hn] at hres
      simp only at hres
      by_cases hc : k < n
      · rw [if_pos hc] at hres; cases hres
      · rw [if_neg hc] at hres
        simp only [Option.some.injEq, Prod.mk.injEq] at hres
        refine ⟨md, hres.2.1.symm, c, o, Same.self md, fun _ _ x => x, ?_⟩
        intro h0
        rw [← hres.1] at h0
        omega
  | fuel + 1, md, k, record, res, s1, rec1, c, o, hh, hb, hk, hres, hne => by
    unfold scanForMatchOnPage at hres
    rw [pageBytes_eq c.base.inv hh.1, hb] at hres
    simp only at hres
    cases hn : headerNumSlots b with
    | none => rw [hn] at hres; cases hres
    | some n =>
      rw [hn] at hres
      simp only at hres
      by_cases hc : k < n
      swap
      · rw [if_neg hc] at hres
        simp only [Option.some.injEq, Prod.mk.injEq] at hres
        refine ⟨md, hres.2.1.symm, c, o, Same.self md, fun _ _ x => x, ?_⟩
        intro h0
        rw [← hres.1] at h0
        omega
      rw [if_pos hc] at hres
      cases hv : getSlot b k with
      | none => rw [hv] at hres; cases hres
      | some v =>
        rw [hv] at hres
        simp only at hres
        by_cases hv1 : v = 1
        swap
        · rw [if_neg hv1] at hres
          exact scanForMatchOnPage_spec h cond fuel md (k + 1) record res s1 rec1 c o hh hb
            (by omega) hres hne
        rw [if_pos hv1] at hres
        subst hv1
        cases hgr : getRecord (withMd s md) rel { page := h.pageNum, slot := k } record with
        | none => rw [hgr] at hres; cases hres
        | some r1 =>
          obtain ⟨rc, s2, rec2⟩ := r1
          rw [hgr] at hres
          simp only at hres
          by_cases hrc : rc = RC.RC_OK
          swap
          · rw [if_pos hrc] at hres
            simp only [Option.some.injEq, Prod.mk.injEq] at hres
            exact absurd hres.1.symm hne
          rw [if_neg (not_not.mpr hrc)] at hres
          subst hrc
          obtain ⟨md2, hs2, c2, o2, sm, hcl, hid, hon⟩ :=
            getRecord_ok c o { page := h.pageNum, slot := k } record hh.1 rfl hb hgr
          subst hs2
          obtain ⟨size, hsize, hst⟩ := StoredAt_of_getRecordOn hon hv hk
          have hrec2 : rec2 = { id := { page := h.pageNum, slot := k }, data := rec2.data } := by
            rw [← hid]
          have found : rec2.id.page = h.pageNum
              ∧ ∃ size, recordSizeOf md rel.schema = some size ∧ StoredAt b size rec2 :=
            ⟨by rw [hid], size, hsize, by rw [hrec2]; exact hst⟩
          cases cond with
          | none =>
            simp only [Option.some.injEq, Prod.mk.injEq] at hres
            refine ⟨md2, hres.2.1.symm, c2, o2, sm, hcl, fun _ => ?_⟩
            rw [← hres.2.2]
            exact ⟨found.1, size, hsize, by rw [hrec2]; exact hst, fun e he => by cases he⟩
          | some ex =>
            simp only at hres
            rw [derefSchema_eq c2, schemaOf_view sm.view] at hres
            cases hsc : schemaOf md rel.schema with
            | none => rw [hsc] at hres; cases hres
            | some schema =>
              rw [hsc] at hres
              simp only at hres
              by_cases he1 : (ex.eval rec2 schema).1 = RC.RC_OK
              swap
              · rw [if_pos he1] at hres
                simp only [Option.some.injEq, Prod.mk.injEq] at hres
                exact absurd hres.1.symm hne
              rw [if_neg (not_not.mpr he1)] at hres
              by_cases he2 : (ex.eval rec2 schema).2 = true
              · rw [if_pos he2] at hres
                simp only [Option.some.injEq, Prod.mk.injEq] at hres
                refine ⟨md2, hres.2.1.symm, c2, o2, sm, hcl, fun _ => ?_⟩
                rw [← hres.2.2]
                refine ⟨found.1, size, hsize, by rw [hrec2]; exact hst, ?_⟩
                intro e he
                cases he
                exact ⟨schema, rfl, Prod.ext he1 he2⟩
              · rw [if_neg he2] at hres
                obtain ⟨md1, a1, a2, a3, a4, a5, a6⟩ :=
                  scanForMatchOnPage_spec h (some ex) fuel md2 (k + 1) rec2 res s1 rec1 c2 o2
                    (sm.keep h hh) (by rw [bytesOf_view sm.view hh.1.1]; exact hb) (by omega)
                    hres hne
                refine ⟨md1, a1, a2, a3, sm.compose a4, fun q hq x => a5 q hq (hcl q hq x), ?_⟩
                intro h0
                obtain ⟨b1, sz, b2, b3, b4⟩ := a6 h0
                rw [recordSizeOf_view sm.view] at b2
                rw [schemaOf_view sm.view, hsc] at b4
                exact ⟨b1, sz, b2, b3, b4⟩

/-! ## The loop of `next` over the overflow pages -/

theorem scanForMatchOnPage_none {s : RMState} (rel : RM_TableData) (h : BM_PageHandle)
    (cond : Option Expr) (hb : pageBytes s h = none) (fuel : Nat) (k : Int) (record : Record) :
    scanForMatchOnPage rel h cond fuel s k record = none := by
  cases fuel with
  | zero =>
    unfold scanForMatchOnPage
    rw [hb]
    rfl
  | succ n =>
    unfold scanForMatchOnPage
    rw [hb]

theorem OnChain_view {md md1 : BM_Metadata}
    (hv : ∀ q, 0 ≤ q → viewPage md1 q = viewPage md q) {main p : Int}
    (h : OnChain md1 main p) : OnChain md main p := by
  obtain ⟨hp, pre, hc⟩ := h
  exact ⟨hp, pre, IsChain_view hv pre main p hc⟩

theorem OnChain_next {md : BM_Metadata} {main p nx : Int} (h : OnChain md main p)
    (hn : nextOf md p = some nx) (h0 : 0 ≤ nx) : OnChain md main nx := by
  obtain ⟨hp, pre, hc⟩ := h
  exact ⟨h0, pre ++ [p], IsChain_snoc pre main p nx hc hp hn⟩

/-- The unpin of a page whose frame was settled when it was pinned is safe after steps
that keep fix counts and settled frames. -/
theorem Safe_of_clean {md1 md2 : BM_Metadata} (hi1 : PoolInv md1) {hd : BM_PageHandle}
    (hh : Held md1 hd) (hsafe : Safe md1 hd.pageNum) (sm : Same md1 md2)
    (hcl : ∀ q, 0 ≤ q → CleanPage md1 q → CleanPage md2 q) : Safe md2 hd.pageNum := by
  obtain ⟨i, f1, _, _, _, _, hfp1⟩ := hh.1.frame hi1
  intro f2 hf2
  rcases hsafe f1 hfp1 with h1 | h1 | h1
  · left
    have := sm.fix _ hh.1.1
    rw [fixOf_of_frameOfPage hfp1, fixOf_of_frameOfPage hf2] at this
    omega
  · have hc1 : CleanPage md1 hd.pageNum := by
      intro g hg
      rw [hfp1] at hg
      cases hg
      exact Or.inl h1
    exact Or.inr (hcl _ hh.1.1 hc1 f2 hf2)
  · have hc1 : CleanPage md1 hd.pageNum := by
      intro g hg
      rw [hfp1] at hg
      cases hg
      exact Or.inr h1
    exact Or.inr (hcl _ hh.1.1 hc1 f2 hf2)

/-- The source's loop of `next` over the overflow pages when it returns `RC_OK`: the
record is what an occupied slot of a page of the chain holds, the condition holds of it,
and the scan stands on that page. -/
theorem nextOverflowLoop_spec {s : RMState} {rel : RM_TableData} {t : RM_SystemSchema}
    {hm : BM_PageHandle} :
    ∀ (fuel : Nat) (md : BM_Metadata) (sd : RM_ScanData) (record : Record) (s1 : RMState)
      (sd1 : RM_ScanData) (rec1 : Record), Ctx s md → TableOpen md rel.mgmtData t hm →
      0 ≤ sd.id.slot → (0 ≤ sd.id.page → OnChain md t.pageNum sd.id.page) →
      nextOverflowLoop rel fuel (withMd s md) sd record = some (RC.RC_OK, s1, sd1, rec1) →
      ∃ md1 b size, s1 = withMd s md1 ∧ Ctx s md1 ∧ TableOpen md1 rel.mgmtData t hm
        ∧ (∀ q, 0 ≤ q → viewPage md1 q = viewPage md q)
        ∧ 0 ≤ sd1.id.slot ∧ OnChain md t.pageNum sd1.id.page ∧ sd1.cond = sd.cond
        ∧ rec1.id.page = sd1.id.page ∧ bytesOf md rec1.id.page = some b
        ∧ recordSizeOf md rel.schema = some size ∧ StoredAt b size rec1
        ∧ CondHolds sd.cond (schemaOf md rel.schema) rec1
  | 0, md, sd, record, s1, sd1, rec1, c, o, hk, hch, hres => by
    unfold nextOverflowLoop at hres
    split at hres
    · cases hres
    · simp only [Option.some.injEq, Prod.mk.injEq, reduceCtorEq, false_and] at hres
  | fuel + 1, md, sd, record, s1, sd1, rec1, c, o, hk, hch, hres => by
    unfold nextOverflowLoop at hres
    by_cases hpn : sd.id.page ≠ NO_PAGE
    swap
    · rw [if_neg hpn] at hres
      simp only [Option.some.injEq, Prod.mk.injEq, reduceCtorEq, false_and] at hres
    rw [if_pos hpn] at hres
    by_cases hp : 0 ≤ sd.id.page
    swap
    · rw [rmPinPage_neg uninitHandle (not_le.1 hp)] at hres
      simp only [ne_eq, reduceCtorEq, not_false_eq_true, if_true, Option.some.injEq,
        Prod.mk.injEq, false_and] at hres
    rcases Temp.pin c.base uninitHandle hp with ⟨md1, hd, e, tm, hv, hsafe, _⟩ | ⟨e, _⟩
    swap
    · rw [e] at hres
      simp only [ne_eq, reduceCtorEq, not_false_eq_true, if_true, Option.some.injEq,
        Prod.mk.injEq, false_and] at hres
    rw [e] at hres
    simp only [ne_eq, not_true_eq_false, if_false] at hres
    have c1 : Ctx s md1 := tm.ctx c
    have o1 : TableOpen md1 rel.mgmtData t hm :=
      TableOpen_of_keep o (by rw [tableOf_view hv]; exact o.desc) rfl rfl tm.keep
    have hpd : 0 ≤ hd.pageNum := tm.held.1.1
    cases hb : bytesOf md1 hd.pageNum with
    | none =>
      rw [scanForMatchOnPage_none rel hd sd.cond
        (by rw [pageBytes_eq c1.base.inv tm.held.1]; exact hb)] at hres
      cases hres
    | some b =>
      have hbm : bytesOf md sd.id.page = some b := by
        rw [← bytesOf_view hv hp, ← tm.page]
        exact hb
      cases hsc : scanForMatchOnPage rel hd sd.cond (scanFuel (withMd s md1) hd sd.id.slot)
          (withMd s md1) sd.id.slot record with
      | none => rw [hsc] at hres; cases hres
      | some r2 =>
        obtain ⟨res, s2, rec2⟩ := r2
        rw [hsc] at hres
        simp only at hres
        by_cases h0 : res = 0
        · rw [if_pos h0] at hres
          simp only [Option.some.injEq, Prod.mk.injEq, true_and] at hres
          obtain ⟨md2, a1, a2, a3, a4, _, a6⟩ := scanForMatchOnPage_spec hd sd.cond _ md1
            sd.id.slot record res s2 rec2 c1 o1 tm.held hb hk hsc (by omega)
          obtain ⟨b1, size, b2, b3, b4⟩ := a6 h0
          rw [recordSizeOf_view hv] at b2
          rw [schemaOf_view hv] at b4
          rw [← hres.2.1, ← hres.2.2, ← hres.1]
          refine ⟨md2, b, size, a1, a2, a3, fun q hq => (a4.view q hq).trans (hv q hq), hk,
            hch hp, rfl, by rw [b1, tm.page], by rw [b1, tm.page]; exact hbm, b2, b3, b4⟩
        · rw [if_neg h0] at hres
          by_cases h1 : res = -1
          swap
          · rw [if_neg h1] at hres
            simp only [Option.some.injEq, Prod.mk.injEq, reduceCtorEq, false_and] at hres
          rw [if_pos h1] at hres
          obtain ⟨md2, a1, a2, a3, a4, a5, _⟩ := scanForMatchOnPage_spec hd sd.cond _ md1
            sd.id.slot record res s2 rec2 c1 o1 tm.held hb hk hsc (by omega)
          subst a1
          rw [pageBytes_eq a2.base.inv (a4.keep hd tm.held).1, bytesOf_view a4.view hpd, hb]
            at hres
          simp only [Option.some_bind] at hres
          cases hnx : headerNextPage b with
          | none => rw [hnx] at hres; cases hres
          | some nextPage =>
            rw [hnx] at hres
            simp only at hres
            have tm2 : Temp s md md2 sd.id.page hd :=
              ⟨a2.base, a4.keep hd tm.held, tm.page,
                fun q hq => by rw [a4.fix q hq, tm.fix q hq],
                fun h1 hh => (a4.keep h1 (tm.keep h1 hh)).1⟩
            have hsafe2 : Safe md2 sd.id.page := by
              rw [← tm.page]
              exact Safe_of_clean c1.base.inv tm.held (by rw [tm.page]; exact hsafe) a4 a5
            obtain ⟨mdY, e3, hbY, hvY, _, hkeep, _⟩ := tm2.unpin hsafe2
            rw [e3] at hres
            simp only [ne_eq, not_true_eq_false, if_false] at hres
            have hvm : ∀ q, 0 ≤ q → viewPage mdY q = viewPage md q := fun q hq =>
              (hvY q hq).trans ((a4.view q hq).trans (hv q hq))
            have hvs : ∀ q, 0 ≤ q → viewPage md q = viewPage mdY q := fun q hq =>
              (hvm q hq).symm
            have hnext : nextOf md sd.id.page = some nextPage := by
              unfold nextOf
              rw [hbm]
              exact hnx
            obtain ⟨mdF, bF, size, r1, r2, r3, r4, r5, r6, r7, r8, r9, r10, r11, r12⟩ :=
              nextOverflowLoop_spec fuel mdY { sd with id := { page := nextPage, slot := 0 } }
                rec2 s1 sd1 rec1 (Ctx_of_keep c hbY hkeep)
                (TableOpen_of_keep o (by rw [tableOf_view hvm]; exact o.desc) rfl rfl hkeep)
                (le_refl 0)
                (fun hn0 => OnChain_view hvs (OnChain_next (hch hp) hnext hn0)) hres
            have r6m := OnChain_view hvm r6
            refine ⟨mdF, bF, size, r1, r2, r3, fun q hq => (r4 q hq).trans (hvm q hq), r5, r6m,
              r7, r8, ?_, ?_, r11, ?_⟩
            · rw [← bytesOf_view hvm (by rw [r8]; exact r6m.1)]
              exact r9
            · rw [← recordSizeOf_view hvm]
              exact r10
            · rw [← schemaOf_view hvm]
              exact r12

/-! ## Soundness of `next` -/

theorem OnChain_main {md : BM_Metadata} {i : Int} {t : RM_SystemSchema} {hm : BM_PageHandle}
    (o : TableOpen md i t hm) : OnChain md t.pageNum t.pageNum :=
  ⟨by rw [← o.page]; exact o.held.1.1, [], rfl⟩

/-- The source's `startScan` of an open table: the scan stands before slot 0 of the main
page. -/
theorem startScan_spec {s : RMState} {md : BM_Metadata} (c : Ctx s md) {rel : RM_TableData}
    {t : RM_SystemSchema} {hm : BM_PageHandle} (o : TableOpen md rel.mgmtData t hm)
    (cond : Option Expr) :
    startScan (withMd s md) rel cond = some (RC.RC_OK,
        { rel := rel, mgmtData := { id := { page := t.pageNum, slot := -1 }, cond := cond } })
      ∧ ScanOK md t.pageNum { id := { page := t.pageNum, slot := -1 }, cond := cond } := by
  refine ⟨?_, le_refl _, fun _ => OnChain_main o⟩
  unfold startScan getSystemSchema
  rw [getTable_eq c, o.desc]
  simp only [Option.some_bind, o.handle, o.page]

/-- C6: when `next` returns `RC_OK` for a scan of an open table that stands on a page of
the table's chain, the page of the returned record's id belongs to the chain, the slot of
the id is an occupied slot of that page, the record's payload is the tuple stored in that
slot, and a non-null condition evaluates to `RC_OK` and true on the record; the page
images are unchanged and the scan still stands on a page of the chain. -/
theorem next_returns_stored_record (fuel : Nat) (s : RMState) (md : BM_Metadata)
    (c : Ctx s md) (scan : RM_ScanHandle) (t : RM_SystemSchema) (hm : BM_PageHandle)
    (o : TableOpen md scan.rel.mgmtData t hm) (hscan : ScanOK md t.pageNum scan.mgmtData)
    (record : Record) (s1 : RMState) (scan1 : RM_ScanHandle) (rec1 : Record)
    (hres : next fuel (withMd s md) scan record = some (RC.RC_OK, s1, scan1, rec1)) :
    OnChain md t.pageNum rec1.id.page
      ∧ (∃ b size, bytesOf md rec1.id.page = some b
          ∧ recordSizeOf md scan.rel.schema = some size ∧ StoredAt b size rec1)
      ∧ CondHolds scan.mgmtData.cond (schemaOf md scan.rel.schema) rec1
      ∧ ∃ md1, s1 = withMd s md1 ∧ Ctx s md1 ∧ TableOpen md1 scan.rel.mgmtData t hm
          ∧ (∀ q, 0 ≤ q → viewPage md1 q = viewPage md q)
          ∧ ScanOK md1 t.pageNum scan1.mgmtData := by
  have hslot : 0 ≤ scan.mgmtData.id.slot + 1 := by
    have := hscan.1
    omega
  unfold next at hres
  simp only [getSystemSchema] at hres
  rw [getTable_eq c, o.desc] at hres
  simp only [o.handle] at hres
  by_cases hpage : scan.mgmtData.id.page = t.pageNum
  · rw [if_pos hpage] at hres
    have hpm : 0 ≤ hm.pageNum := o.held.1.1
    cases hb : bytesOf md hm.pageNum with
    | none =>
      rw [scanForMatchOnPage_none scan.rel hm scan.mgmtData.cond
        (by rw [pageBytes_eq c.base.inv o.held.1]; exact hb)] at hres
      cases hres
    | some b =>
      cases hsc : scanForMatchOnPage scan.rel hm scan.mgmtData.cond
          (scanFuel (withMd s md) hm (scan.mgmtData.id.slot + 1)) (withMd s md)
          (scan.mgmtData.id.slot + 1) record with
      | none => rw [hsc] at hres; cases hres
      | some r1 =>
        obtain ⟨res, s2, rec2⟩ := r1
        rw [hsc] at hres
        simp only at hres
        by_cases h0 : res = 0
        · rw [if_pos h0] at hres
          simp only [Option.some.injEq, Prod.mk.injEq, true_and] at hres
          obtain ⟨md2, a1, a2, a3, a4, _, a6⟩ := scanForMatchOnPage_spec hm
            scan.mgmtData.cond _ md (scan.mgmtData.id.slot + 1) record res s2 rec2 c o o.held
            hb hslot hsc (by omega)
          obtain ⟨b1, size, b2, b3, b4⟩ := a6 h0
          rw [← hres.2.2, ← hres.2.1, ← hres.1]
          have hpg : rec2.id.page = t.pageNum := by rw [b1, o.page]
          refine ⟨by rw [hpg]; exact OnChain_main o,
            ⟨b, size, by rw [b1]; exact hb, b2, b3⟩, b4, md2, a1, a2, a3, a4.view, ?_, ?_⟩
          · show -1 ≤ scan.mgmtData.id.slot + 1
            omega
          · intro _
            show OnChain md2 t.pageNum scan.mgmtData.id.page
            rw [hpage]
            exact OnChain_main a3
        · rw [if_neg h0] at hres
          by_cases h1 : res = -1
          swap
          · rw [if_neg h1] at hres
            simp only [Option.some.injEq, Prod.mk.injEq, reduceCtorEq, false_and] at hres
          rw [if_pos h1] at hres
          obtain ⟨md2, a1, a2, a3, a4, _, _⟩ := scanForMatchOnPage_spec hm
            scan.mgmtData.cond _ md (scan.mgmtData.id.slot + 1) record res s2 rec2 c o o.held
            hb hslot hsc (by omega)
          subst a1
          rw [pageBytes_eq a2.base.inv a3.held.1, bytesOf_view a4.view hpm, hb] at hres
          simp only [Option.some_bind] at hres
          cases hnx : headerNextPage b with
          | none => rw [hnx] at hres; cases hres
          | some nextPage =>
            rw [hnx] at hres
            simp only at hres
            have hvs : ∀ q, 0 ≤ q → viewPage md q = viewPage md2 q := fun q hq =>
              (a4.view q hq).symm
            have hnext : nextOf md t.pageNum = some nextPage := by
              unfold nextOf
              rw [← o.page, hb]
              exact hnx
            cases hloop : nextOverflowLoop scan.rel fuel (withMd s md2)
                { id := { page := nextPage, slot := 0 }, cond := scan.mgmtData.cond } rec2 with
            | none => rw [hloop] at hres; cases hres
            | some r2 =>
              obtain ⟨rc, sA, sdA, recA⟩ := r2
              rw [hloop] at hres
              simp only [Option.some.injEq, Prod.mk.injEq] at hres
              obtain ⟨e1, e2, e3, e4⟩ := hres
              subst e1
              obtain ⟨mdF, bF, size, r1, r2, r3, r4, r5, r6, r7, r8, r9, r10, r11, r12⟩ :=
                nextOverflowLoop_spec fuel md2 _ rec2 sA sdA recA a2 a3 (le_refl 0)
                  (fun hn0 => OnChain_view hvs (OnChain_next (OnChain_main o) hnext hn0)) hloop
              have r6m := OnChain_view a4.view r6
              have hvF : ∀ q, 0 ≤ q → viewPage mdF q = viewPage md q := fun q hq =>
                (r4 q hq).trans (a4.view q hq)
              have hvFs : ∀ q, 0 ≤ q → viewPage md q = viewPage mdF q := fun q hq =>
                (hvF q hq).symm
              rw [← e4, ← e3, ← e2]
              refine ⟨by rw [r8]; exact r6m, ⟨bF, size, ?_, ?_, r11⟩, ?_, mdF, r1, r2, r3, hvF,
                ?_, ?_⟩
              · rw [← bytesOf_view a4.view (by rw [r8]; exact r6m.1)]
                exact r9
              · rw [← recordSizeOf_view a4.view]
                exact r10
              · rw [← schemaOf_view a4.view]
                exact r12
              · show -1 ≤ sdA.id.slot
                omega
              · intro _
                exact OnChain_view hvFs r6m
  · rw [if_neg hpage] at hres
    cases hloop : nextOverflowLoop scan.rel fuel (withMd s md)
        { id := { page := scan.mgmtData.id.page, slot := scan.mgmtData.id.slot + 1 },
          cond := scan.mgmtData.cond } record with
    | none => rw [hloop] at hres; cases hres
    | some r2 =>
      obtain ⟨rc, sA, sdA, recA⟩ := r2
      rw [hloop] at hres
      simp only [Option.some.injEq, Prod.mk.injEq] at hres
      obtain ⟨e1, e2, e3, e4⟩ := hres
      subst e1
      obtain ⟨mdF, bF, size, r1, r2, r3, r4, r5, r6, r7, r8, r9, r10, r11, r12⟩ :=
        nextOverflowLoop_spec fuel md
          { id := { page := scan.mgmtData.id.page, slot := scan.mgmtData.id.slot + 1 },
            cond := scan.mgmtData.cond } record sA sdA recA c o hslot hscan.2 hloop
      have hvFs : ∀ q, 0 ≤ q → viewPage md q = viewPage mdF q := fun q hq => (r4 q hq).symm
      rw [← e4, ← e3, ← e2]
      refine ⟨by rw [r8]; exact r6, ⟨bF, size, r9, r10, r11⟩, r12, mdF, r1, r2, r3, r4, ?_, ?_⟩
      · show -1 ≤ sdA.id.slot
        omega
      · intro _
        exact OnChain_view hvFs r6

set_option maxRecDepth 1000000 in
theorem scannedState_ok :
    (next 4 insertedState.1 startedScan (testRecord 0)).map Prod.fst = some RC.RC_OK
      ∧ scannedState.2.2.id = { page := 1, slot := 0 }
      ∧ scannedState.2.2.data.take 4 = [7, 7, 7, 7] := by
  decide!

theorem next_congr {fuel : Nat} {s s1 : RMState} {scan scan1 : RM_ScanHandle} {r : Record}
    {x : Option (RC × RMState × RM_ScanHandle × Record)} (hs : s1 = s) (hsc : scan1 = scan)
    (h : next fuel s scan r = x) : next fuel s1 scan1 r = x := by
  subst hs
  subst hsc
  exact h

theorem startedScan_eq : ∃ t hm, OpenState insertedState.1 openedState.2 t hm
    ∧ startedScan = ⟨openedState.2, ⟨⟨t.pageNum, -1⟩, some (firstByteIs 7)⟩⟩ := by
  obtain ⟨t, hm, os⟩ := insertedState_open
  refine ⟨t, hm, os, ?_⟩
  have e := (startScan_spec os.ctx os.tbl (some (firstByteIs 7))).1
  rw [withMd_self os.live] at e
  unfold startedScan
  rw [e]

theorem next_returns_stored_record_witness :
    next 4 insertedState.1 startedScan (testRecord 0)
        = some (RC.RC_OK, scannedState.1, scannedState.2.1, scannedState.2.2)
      ∧ scannedState.2.2.id = { page := 1, slot := 0 }
      ∧ ∃ t hm, OpenState insertedState.1 openedState.2 t hm
        ∧ OnChain (liveMd insertedState.1) t.pageNum scannedState.2.2.id.page
        ∧ (∃ b size, bytesOf (liveMd insertedState.1) scannedState.2.2.id.page = some b
            ∧ recordSizeOf (liveMd insertedState.1) openedState.2.schema = some size
            ∧ StoredAt b size scannedState.2.2)
        ∧ CondHolds (some (firstByteIs 7))
            (schemaOf (liveMd insertedState.1) openedState.2.schema) scannedState.2.2 := by
  obtain ⟨t, hm, os, hsc⟩ := startedScan_eq
  have hrun0 : next 4 insertedState.1 startedScan (testRecord 0)
      = some (RC.RC_OK, scannedState) :=
    eq_of_map_fst (insertedState.1, startedScan, testRecord 0) scannedState_ok.1
  have hrun : next 4 insertedState.1 startedScan (testRecord 0)
      = some (RC.RC_OK, scannedState.1, scannedState.2.1, scannedState.2.2) := by
    rw [Prod.mk.eta]
    exact hrun0
  refine ⟨hrun, scannedState_ok.2.1, t, hm, os, ?_⟩
  generalize openedState.2 = rel at os hsc ⊢
  have hres : next 4 (withMd insertedState.1 (liveMd insertedState.1))
      ⟨rel, ⟨⟨t.pageNum, -1⟩, some (firstByteIs 7)⟩⟩ (testRecord 0)
      = some (RC.RC_OK, scannedState.1, scannedState.2.1, scannedState.2.2) :=
    @next_congr 4 insertedState.1 (withMd insertedState.1 (liveMd insertedState.1)) startedScan
      ⟨rel, ⟨⟨t.pageNum, -1⟩, some (firstByteIs 7)⟩⟩ (testRecord 0) _
      (withMd_self os.live) hsc.symm hrun
  have key := next_returns_stored_record 4 insertedState.1 (liveMd insertedState.1) os.ctx
    ⟨rel, ⟨⟨t.pageNum, -1⟩, some (firstByteIs 7)⟩⟩
    t hm os.tbl ⟨le_refl _, fun _ => OnChain_main os.tbl⟩ (testRecord 0) _ _ _ hres
  exact ⟨key.1, key.2.1, key.2.2.1⟩

/-! ## Reading and writing blocks -/

/-- C28: for every file handle and page number `n`, `readBlock` and `writeBlock` return
`RC_READ_NON_EXISTING_PAGE` when `n < 0` or `n ≥ totalNumPages`, the buffer and the
handle with the file being as before; on an open handle whose file holds `totalNumPages`
pages and for `0 ≤ n < totalNumPages`, `writeBlock(n, src)` returns `RC_OK`, a following
`readBlock(n, dst)` returns `RC_OK` and delivers `src`, the file has the same number of
pages and every other page is as before, and the handle keeps `totalNumPages`,
`curPagePos` and the file name. -/
theorem writeBlock_readBlock (fh : SM_FileHandle) (n : Int) (src dst : PageContent) :
    ((n < 0 ∨ n ≥ fh.totalNumPages) →
        readBlock n fh dst = some (RC.RC_READ_NON_EXISTING_PAGE, dst)
          ∧ writeBlock n fh src = some (RC.RC_READ_NON_EXISTING_PAGE, fh))
      ∧ (FileOK fh → 0 ≤ n → n < fh.totalNumPages →
          ∃ pages fh1, fh.mgmtInfo = some pages
            ∧ writeBlock n fh src = some (RC.RC_OK, fh1)
            ∧ readBlock n fh1 dst = some (RC.RC_OK, src)
            ∧ fh1 = { fh with mgmtInfo := some (pages.set n.toNat src) }
            ∧ (pages.set n.toNat src).length = pages.length
            ∧ (∀ j : Nat, j ≠ n.toNat → (pages.set n.toNat src)[j]? = pages[j]?)
            ∧ fh1.totalNumPages = fh.totalNumPages ∧ fh1.curPagePos = fh.curPagePos
            ∧ fh1.fileName = fh.fileName) := by
  refine ⟨?_, ?_⟩
  · intro h
    unfold readBlock writeBlock
    rw [if_pos h, if_pos h]
    exact ⟨rfl, rfl⟩
  · intro hf h0 h1
    obtain ⟨pages, hp, ht⟩ := hf
    have hlt : n.toNat < pages.length := by omega
    have hr : ¬ (n < 0 ∨ n ≥ fh.totalNumPages) := by omega
    refine ⟨pages, { fh with mgmtInfo := some (pages.set n.toNat src) }, hp, ?_, ?_, rfl,
      List.length_set _ _ _, ?_, rfl, rfl, rfl⟩
    · unfold writeBlock
      rw [if_neg hr]
      simp only [hp, writeAt, hlt, if_true]
    · unfold readBlock
      rw [if_neg hr]
      simp only [List.getElem?_set_self hlt]
    · intro j hj
      exact List.getElem?_set_ne (fun e => hj e.symm)

theorem writeBlock_readBlock_witness :
    (readBlock 2 twoPageFile emptyPage = some (RC.RC_READ_NON_EXISTING_PAGE, emptyPage)
        ∧ writeBlock 2 twoPageFile somePage
            = some (RC.RC_READ_NON_EXISTING_PAGE, twoPageFile))
      ∧ ∃ pages fh1, twoPageFile.mgmtInfo = some pages
          ∧ writeBlock 1 twoPageFile somePage = some (RC.RC_OK, fh1)
          ∧ readBlock 1 fh1 emptyPage = some (RC.RC_OK, somePage)
          ∧ fh1 = { twoPageFile with mgmtInfo := some (pages.set (1 : Int).toNat somePage) }
          ∧ (pages.set (1 : Int).toNat somePage).length = pages.length
          ∧ (∀ j : Nat, j ≠ (1 : Int).toNat →
              (pages.set (1 : Int).toNat somePage)[j]? = pages[j]?)
          ∧ fh1.totalNumPages = twoPageFile.totalNumPages
          ∧ fh1.curPagePos = twoPageFile.curPagePos
          ∧ fh1.fileName = twoPageFile.fileName :=
  ⟨(writeBlock_readBlock twoPageFile 2 somePage emptyPage).1 (Or.inr (by decide)),
    (writeBlock_readBlock twoPageFile 1 somePage emptyPage).2 ⟨_, rfl, rfl⟩ (by decide)
      (by decide)⟩

/-! ## Single calls of the pool on a cached page -/

theorem frameOfPage_lookup {md : BM_Metadata} {p : Int} {f : BM_PageFrame}
    (h : frameOfPage md p = some f) :
    ∃ i, getValue md.pageTable p = some (some i) ∧ frameAt md i = some f := by
  unfold frameOfPage at h
  split at h
  · rename_i i hg
    exact ⟨i, hg, h⟩
  · cases h

/-- The pool of a disciplined run on a new pool is well formed. -/
theorem poolAfter_ok (bm0 : BM_BufferPool) (n : Nat) (hn : n < 4294967296)
    (strategy : ReplacementStrategy) (ops : List PoolOp) (hd : Disciplined [] ops)
    (hrun : (runOps (newPool bm0 (n : Int) strategy) ops).isSome = true) :
    PoolOK (poolAfter (newPool bm0 (n : Int) strategy) ops)
      (poolMd (poolAfter (newPool bm0 (n : Int) strategy) ops)) := by
  cases hr : runOps (newPool bm0 (n : Int) strategy) ops with
  | none => rw [hr] at hrun; cases hrun
  | some bm1 =>
    obtain ⟨md0, r0⟩ := RunInv_init bm0 "file" [emptyPage] n hn strategy
    obtain ⟨md1, r1⟩ := run_inv ops _ bm1 md0 _ [] r0 hd hr
    have e : poolAfter (newPool bm0 (n : Int) strategy) ops = bm1 := by
      unfold poolAfter
      rw [hr]
    rw [e, poolMd_of_live r1.ok.live]
    exact r1.ok

set_option maxRecDepth 1000000 in
theorem dirtyPool_runs :
    (runOps (newPool zeroPool ((3 : Nat) : Int) ReplacementStrategy.RS_LRU) dirtyRun).isSome
      = true := by
  decide!

theorem dirtyPool_ok : PoolOK dirtyPool (poolMd dirtyPool) :=
  poolAfter_ok zeroPool 3 (by norm_num) ReplacementStrategy.RS_LRU dirtyRun
    (by simp [dirtyRun, Disciplined]) dirtyPool_runs

set_option maxRecDepth 1000000 in
theorem dirtyPool_frames :
    frameFlags dirtyPool = [(1, true, 0), (2, true, 1), (-1, false, 0)]
      ∧ ((frameOfPage (poolMd dirtyPool) 1).map (fun f => (f.dirty, f.fixCount))
          = some (true, 0))
      ∧ ((frameOfPage (poolMd dirtyPool) 2).map (fun f => (f.dirty, f.fixCount))
          = some (true, 1))
      ∧ frameOfPage (poolMd dirtyPool) 5 = none := by
  decide!

/-- C24: `unpinPage` of a cached page returns `RC_OK`; the frame of the page gets the fix
count `max (old - 1) 0` and a new time stamp and keeps its page number, data, dirty flag
and the rest; every other frame, the page table, the file and the counters are as before.
A fix count of 0 stays 0. -/
theorem unpinPage_cached (bm : BM_BufferPool) (md : BM_Metadata)
    (hlive : bm.mgmtData = MgmtPtr.live md) (page : BM_PageHandle) (f : BM_PageFrame)
    (hc : frameOfPage md page.pageNum = some f) :
    ∃ i md1, getValue md.pageTable page.pageNum = some (some i) ∧ frameAt md i = some f
      ∧ unpinPage bm page = some (RC.RC_OK, { bm with mgmtData := MgmtPtr.live md1 })
      ∧ frameAt md1 i
          = some { f with timeStamp := md.timeStamp, fixCount := max (f.fixCount - 1) 0 }
      ∧ (∀ j, j ≠ i → frameAt md1 j = frameAt md j)
      ∧ md1.pageFrames.length = md.pageFrames.length
      ∧ md1.pageTable = md.pageTable ∧ md1.pageFile = md.pageFile
      ∧ md1.numRead = md.numRead ∧ md1.numWrite = md.numWrite
      ∧ md1.queueIndex = md.queueIndex
      ∧ (f.fixCount = 0 → max (f.fixCount - 1) 0 = 0) := by
  obtain ⟨i, hg, hf⟩ := frameOfPage_lookup hc
  have hmax : (if f.fixCount - 1 < 0 then 0 else f.fixCount - 1) = max (f.fixCount - 1) 0 := by
    split
    · rw [max_eq_right (by omega)]
    · rw [max_eq_left (by omega)]
  refine ⟨i, setFrame (getTimeStamp md).2 i
    { f with timeStamp := md.timeStamp, fixCount := max (f.fixCount - 1) 0 }, hg, hf, ?_, ?_, ?_,
    ?_, rfl, rfl, rfl, rfl, rfl, ?_⟩
  · unfold unpinPage
    rw [hlive]
    simp only [hg, hf, getTimeStamp, hmax]
  · rw [@frameAt_setFrame (getTimeStamp md).2 i f hf, if_pos rfl]
  · intro j hj
    rw [@frameAt_setFrame (getTimeStamp md).2 i f hf, if_neg hj]
    rfl
  · rw [setFrame_pageFrames, List.length_set]
    rfl
  · intro h0
    rw [h0]
    rfl

theorem unpinPage_cached_witness :
    ∃ i md1, getValue (poolMd dirtyPool).pageTable 1 = some (some i)
      ∧ unpinPage dirtyPool ⟨1, none⟩
          = some (RC.RC_OK, { dirtyPool with mgmtData := MgmtPtr.live md1 })
      ∧ (frameAt md1 i).map (fun f => (f.pageNum, f.dirty, f.fixCount)) = some (1, true, 0) := by
  cases hfp : frameOfPage (poolMd dirtyPool) 1 with
  | none =>
    have := dirtyPool_frames.2.1
    rw [hfp] at this
    cases this
  | some f =>
    have hd := dirtyPool_frames.2.1
    rw [hfp] at hd
    simp only [Option.map_some', Option.some.injEq, Prod.mk.injEq] at hd
    obtain ⟨_, _, _, _, hpn⟩ := frameOfPage_some dirtyPool_ok.inv (by decide) hfp
    obtain ⟨i, md1, h1, _, h3, h4, _⟩ :=
      unpinPage_cached dirtyPool (poolMd dirtyPool) dirtyPool_ok.live ⟨1, none⟩ f hfp
    refine ⟨i, md1, h1, h3, ?_⟩
    rw [h4]
    simp only [Option.map_some', hpn, hd.1, hd.2]
    rfl

/-! ## Forcing a page, and calls on a page that is not cached -/

/-- C23: `forcePage` of a cached page of a well-formed pool. When the frame of the page
has fix count 0 it returns `RC_OK`, the file's page is the frame's bytes, the frame is
clean and the write counter is one higher; the other pages of the file are as before.
When the fix count is not 0 it returns `RC_WRITE_FAILED` and the file, the dirty flag and
the write counter are as before. In both cases the frame has a new time stamp and nothing
else of the pool changes. -/
theorem forcePage_cached (bm : BM_BufferPool) (md : BM_Metadata) (hok : PoolOK bm md)
    (page : BM_PageHandle) (hp : 0 ≤ page.pageNum) (f : BM_PageFrame)
    (hc : frameOfPage md page.pageNum = some f) :
    ∃ i md1, getValue md.pageTable page.pageNum = some (some i) ∧ frameAt md i = some f
      ∧ (∀ j, j ≠ i → frameAt md1 j = frameAt md j)
      ∧ md1.pageTable = md.pageTable ∧ md1.numRead = md.numRead
      ∧ (f.fixCount = 0 →
          forcePage bm page = some (RC.RC_OK, { bm with mgmtData := MgmtPtr.live md1 })
            ∧ fhPage md1.pageFile page.pageNum = f.data
            ∧ (∀ q, 0 ≤ q → q ≠ page.pageNum → fhPage md1.pageFile q = fhPage md.pageFile q)
            ∧ frameAt md1 i = some { f with timeStamp := md.timeStamp, dirty := false }
            ∧ md1.numWrite = md.numWrite + 1)
      ∧ (f.fixCount ≠ 0 →
          forcePage bm page
              = some (RC.RC_WRITE_FAILED, { bm with mgmtData := MgmtPtr.live md1 })
            ∧ md1.pageFile = md.pageFile
            ∧ frameAt md1 i = some { f with timeStamp := md.timeStamp }
            ∧ md1.numWrite = md.numWrite) := by
  obtain ⟨i, hg, hf, ho, hpn⟩ := frameOfPage_some hok.inv hp hc
  obtain ⟨_, _, hocc⟩ := hok.inv.frames i f hf
  obtain ⟨hp0, hplt, _⟩ := hocc ho
  obtain ⟨fh, hw, _, _, hpg⟩ := fhPage_writeBlock hok.inv.file hp0 hplt f.data
  rw [hpn] at hw hpg
  have hf1 : frameAt (getTimeStamp md).2 i = some f := hf
  by_cases hz : f.fixCount = 0
  · have hf2 : frameAt { (setFrame (getTimeStamp md).2 i { f with timeStamp := md.timeStamp })
        with pageFile := fh, numWrite := md.numWrite + 1 } i
        = some { f with timeStamp := md.timeStamp } := by
      show frameAt (setFrame (getTimeStamp md).2 i { f with timeStamp := md.timeStamp }) i = _
      rw [frameAt_setFrame hf1, if_pos rfl]
    refine ⟨i, setFrame { (setFrame (getTimeStamp md).2 i { f with timeStamp := md.timeStamp })
        with pageFile := fh, numWrite := md.numWrite + 1 } i
        { f with timeStamp := md.timeStamp, dirty := false }, hg, hf, ?_, rfl, rfl, ?_, ?_⟩
    · intro j hj
      rw [frameAt_setFrame hf2, if_neg hj]
      show frameAt (setFrame (getTimeStamp md).2 i { f with timeStamp := md.timeStamp }) j = _
      rw [frameAt_setFrame hf1, if_neg hj]
      rfl
    · intro _
      refine ⟨?_, ?_, ?_, ?_, rfl⟩
      · unfold forcePage
        rw [hok.live]
        simp only [hg, hf, getTimeStamp]
        rw [if_pos hz]
        have hw2 : writeBlock page.pageNum
            (setFrame { md with timeStamp := (md.timeStamp + 1) % 4294967296 } i
              { f with timeStamp := md.timeStamp }).pageFile f.data = some (RC.RC_OK, fh) := hw
        simp only [hw2]
        rfl
      · show fhPage fh page.pageNum = f.data
        rw [hpg _ hp, if_pos rfl]
      · intro q hq hne
        show fhPage fh q = fhPage md.pageFile q
        rw [hpg _ hq, if_neg hne]
      · rw [frameAt_setFrame hf2, if_pos rfl]
    · intro hne
      exact absurd hz hne
  · refine ⟨i, setFrame (getTimeStamp md).2 i { f with timeStamp := md.timeStamp }, hg, hf, ?_,
      rfl, rfl, ?_, ?_⟩
    · intro j hj
      rw [frameAt_setFrame hf1, if_neg hj]
      rfl
    · intro h0
      exact absurd h0 hz
    · intro _
      refine ⟨?_, rfl, ?_, rfl⟩
      · unfold forcePage
        rw [hok.live]
        simp only [hg, hf, getTimeStamp]
        rw [if_neg hz]
      · rw [frameAt_setFrame hf1, if_pos rfl]

theorem forcePage_cached_witness :
    (∃ md1, forcePage dirtyPool ⟨1, none⟩
          = some (RC.RC_OK, { dirtyPool with mgmtData := MgmtPtr.live md1 })
        ∧ md1.numWrite = (poolMd dirtyPool).numWrite + 1
        ∧ (frameOfPage (poolMd dirtyPool) 1).map (fun f => f.data)
            = some (fhPage md1.pageFile 1))
      ∧ ∃ md1, forcePage dirtyPool ⟨2, none⟩
          = some (RC.RC_WRITE_FAILED, { dirtyPool with mgmtData := MgmtPtr.live md1 })
        ∧ md1.pageFile = (poolMd dirtyPool).pageFile
        ∧ md1.numWrite = (poolMd dirtyPool).numWrite := by
  refine ⟨?_, ?_⟩
  · cases hfp : frameOfPage (poolMd dirtyPool) 1 with
    | none =>
      have := dirtyPool_frames.2.1
      rw [hfp] at this
      cases this
    | some f =>
      have hd := dirtyPool_frames.2.1
      rw [hfp] at hd
      simp only [Option.map_some', Option.some.injEq, Prod.mk.injEq] at hd
      obtain ⟨i, md1, _, _, _, _, _, h1, _⟩ :=
        forcePage_cached dirtyPool (poolMd dirtyPool) dirtyPool_ok ⟨1, none⟩ (by decide) f hfp
      obtain ⟨a, b, _, _, e⟩ := h1 hd.2
      exact ⟨md1, a, e, by rw [Option.map_some', b]⟩
  · cases hfp : frameOfPage (poolMd dirtyPool) 2 with
    | none =>
      have := dirtyPool_frames.2.2.1
      rw [hfp] at this
      cases this
    | some f =>
      have hd := dirtyPool_frames.2.2.1
      rw [hfp] at hd
      simp only [Option.map_some', Option.some.injEq, Prod.mk.injEq] at hd
      obtain ⟨i, md1, _, _, _, _, _, _, h2⟩ :=
        forcePage_cached dirtyPool (poolMd dirtyPool) dirtyPool_ok ⟨2, none⟩ (by decide) f hfp
      obtain ⟨a, b, _, e⟩ := h2 (by rw [hd.2]; decide)
      exact ⟨md1, a, b, e⟩

/-- On a well-formed pool, `unpinPage`, `markDirty` and `forcePage` of a page with a
non-negative number that is not cached return `RC_IM_KEY_NOT_FOUND` and the pool
structure, with its metadata, is as before. -/
theorem uncached_page_calls (bm : BM_BufferPool) (md : BM_Metadata) (hok : PoolOK bm md)
    (page : BM_PageHandle) (hp : 0 ≤ page.pageNum) (hc : frameOfPage md page.pageNum = none) :
    unpinPage bm page = some (RC.RC_IM_KEY_NOT_FOUND, bm)
      ∧ markDirty bm page = some (RC.RC_IM_KEY_NOT_FOUND, bm)
      ∧ forcePage bm page = some (RC.RC_IM_KEY_NOT_FOUND, bm) := by
  have hg := frameOfPage_none hok.inv hp hc
  refine ⟨?_, ?_, ?_⟩
  · unfold unpinPage
    rw [hok.live]
    simp only [hg]
  · unfold markDirty
    rw [hok.live]
    simp only [hg]
  · unfold forcePage
    rw [hok.live]
    simp only [hg]

set_option maxRecDepth 1000000 in
/-- C25 (the code at the failing input): on the new pool of three frames, whose page table
has 256 buckets, the bucket index of the page number -1 is `-1 % 256 = -1`, not the index
of a bucket; `unpinPage`, `markDirty` and `forcePage` of page -1 pass it to `getValue`
and have no defined result, while `pinPage` returns `RC_IM_KEY_NOT_FOUND` before any
lookup. For page 5, which is not cached either, the three calls return
`RC_IM_KEY_NOT_FOUND` and the pool is as before. -/
theorem unpinPage_negative_page :
    Int.tmod (-1) (poolMd (newPool zeroPool 3 ReplacementStrategy.RS_LRU)).pageTable.size = -1
      ∧ bucketIndex (poolMd (newPool zeroPool 3 ReplacementStrategy.RS_LRU)).pageTable (-1)
          = none
      ∧ unpinPage (newPool zeroPool 3 ReplacementStrategy.RS_LRU) ⟨-1, none⟩ = none
      ∧ markDirty (newPool zeroPool 3 ReplacementStrategy.RS_LRU) ⟨-1, none⟩ = none
      ∧ forcePage (newPool zeroPool 3 ReplacementStrategy.RS_LRU) ⟨-1, none⟩ = none
      ∧ pinPage (newPool zeroPool 3 ReplacementStrategy.RS_LRU) uninitHandle (-1)
          = some (RC.RC_IM_KEY_NOT_FOUND, newPool zeroPool 3 ReplacementStrategy.RS_LRU,
              uninitHandle)
      ∧ unpinPage (newPool zeroPool 3 ReplacementStrategy.RS_LRU) ⟨5, none⟩
          = some (RC.RC_IM_KEY_NOT_FOUND, newPool zeroPool 3 ReplacementStrategy.RS_LRU)
      ∧ markDirty (newPool zeroPool 3 ReplacementStrategy.RS_LRU) ⟨5, none⟩
          = some (RC.RC_IM_KEY_NOT_FOUND, newPool zeroPool 3 ReplacementStrategy.RS_LRU)
      ∧ forcePage (newPool zeroPool 3 ReplacementStrategy.RS_LRU) ⟨5, none⟩
          = some (RC.RC_IM_KEY_NOT_FOUND, newPool zeroPool 3 ReplacementStrategy.RS_LRU) := by
  decide!

/-! ## Marking a page dirty twice -/

theorem markDirty_eval (bm : BM_BufferPool) (md : BM_Metadata)
    (hlive : bm.mgmtData = MgmtPtr.live md) (page : BM_PageHandle) {i : Int}
    {f : BM_PageFrame} (hg : getValue md.pageTable page.pageNum = some (some i))
    (hf : frameAt md i = some f) :
    ∃ md1, md1 = setFrame (getTimeStamp md).2 i { f with timeStamp := md.timeStamp, dirty := true }
      ∧ markDirty bm page = some (RC.RC_OK, { bm with mgmtData := MgmtPtr.live md1 }) := by
  refine ⟨_, rfl, ?_⟩
  unfold markDirty
  rw [hlive]
  simp only [hg, hf, getTimeStamp]

/-- C26: on a pool with live metadata, `markDirty` of a cached page returns `RC_OK`, and
so does a second `markDirty` right after it; the pool after the second call is the pool
after the first but for time stamps: the frame of the page is stamped one stamp later
and the counter is one further, and with the time stamps erased the two are equal. -/
theorem markDirty_twice (bm : BM_BufferPool) (md : BM_Metadata)
    (hlive : bm.mgmtData = MgmtPtr.live md) (page : BM_PageHandle) (f : BM_PageFrame)
    (hc : frameOfPage md page.pageNum = some f) :
    ∃ i md1 md2, getValue md.pageTable page.pageNum = some (some i)
      ∧ markDirty bm page = some (RC.RC_OK, { bm with mgmtData := MgmtPtr.live md1 })
      ∧ markDirty { bm with mgmtData := MgmtPtr.live md1 } page
          = some (RC.RC_OK, { bm with mgmtData := MgmtPtr.live md2 })
      ∧ frameAt md1 i = some { f with timeStamp := md.timeStamp, dirty := true }
      ∧ frameAt md2 i = some { f with timeStamp := md1.timeStamp, dirty := true }
      ∧ (∀ j, j ≠ i → frameAt md2 j = frameAt md1 j)
      ∧ eraseStamps md2 = eraseStamps md1 := by
  obtain ⟨i, hg, hf⟩ := frameOfPage_lookup hc
  have hf0 : frameAt (getTimeStamp md).2 i = some f := hf
  obtain ⟨md1, e1, h1⟩ := markDirty_eval bm md hlive page hg hf
  have hg1 : getValue md1.pageTable page.pageNum = some (some i) := by
    rw [e1]; exact hg
  have hf1 : frameAt md1 i = some { f with timeStamp := md.timeStamp, dirty := true } := by
    rw [e1, frameAt_setFrame hf0, if_pos rfl]
  have hf1b : frameAt (getTimeStamp md1).2 i
      = some { f with timeStamp := md.timeStamp, dirty := true } := hf1
  obtain ⟨md2, e2, h2⟩ := markDirty_eval { bm with mgmtData := MgmtPtr.live md1 } md1 rfl page
    hg1 hf1
  refine ⟨i, md1, md2, hg, h1, h2, hf1, ?_, ?_, ?_⟩
  · rw [e2, frameAt_setFrame hf1b, if_pos rfl]
  · intro j hj
    rw [e2, frameAt_setFrame hf1b, if_neg hj]
    rfl
  · rw [e2, e1]
    unfold eraseStamps
    simp only [setFrame_pageFrames, List.set_set, getTimeStamp]
    congr 1
    simp only [List.map_set]

set_option maxRecDepth 1000000 in
theorem markDirty_twice_witness :
    ∃ i md1 md2, getValue (poolMd dirtyPool).pageTable 2 = some (some i)
      ∧ markDirty dirtyPool ⟨2, none⟩
          = some (RC.RC_OK, { dirtyPool with mgmtData := MgmtPtr.live md1 })
      ∧ markDirty { dirtyPool with mgmtData := MgmtPtr.live md1 } ⟨2, none⟩
          = some (RC.RC_OK, { dirtyPool with mgmtData := MgmtPtr.live md2 })
      ∧ eraseStamps md2 = eraseStamps md1 := by
  cases hfp : frameOfPage (poolMd dirtyPool) 2 with
  | none =>
    have := dirtyPool_frames.2.2.1
    rw [hfp] at this
    cases this
  | some f =>
    obtain ⟨i, md1, md2, h1, h2, h3, _, _, _, h7⟩ :=
      markDirty_twice dirtyPool (poolMd dirtyPool) dirtyPool_ok.live ⟨2, none⟩ f hfp
    exact ⟨i, md1, md2, h1, h2, h3, h7⟩

/-! ## Flushing the pool -/

theorem flushable_iff (f : BM_PageFrame) :
    flushable f = true ↔ f.occupied = true ∧ f.dirty = true ∧ f.fixCount = 0 := by
  unfold flushable
  simp only [Bool.and_eq_true, decide_eq_true_eq, and_assoc]

theorem frameAt_nat (md : BM_Metadata) (j : Nat) : frameAt md (j : Int) = md.pageFrames[j]? := by
  unfold frameAt
  exact getI?_ofNat _ _

/-- One write-back of `forceFlushPool`: the file gets the frame's bytes at its page, and
the pool stays well formed. -/
theorem flushStep {md : BM_Metadata} (hi : PoolInv md) {i : Nat} {f : BM_PageFrame}
    (hf : frameAt md (i : Int) = some f) (ho : f.occupied = true) :
    ∃ fh md2, writeBlock f.pageNum md.pageFile f.data = some (RC.RC_OK, fh)
      ∧ md2 = setFrame { md with pageFile := fh, numWrite := md.numWrite + 1, timeStamp := (md.timeStamp + 1) % 4294967296 } (i : Int) { f with timeStamp := md.timeStamp, dirty := false }
      ∧ PoolInv md2
      ∧ (∀ q, 0 ≤ q → fhPage fh q = if q = f.pageNum then f.data else fhPage md.pageFile q)
      ∧ frameAt md2 (i : Int) = some { f with timeStamp := md.timeStamp, dirty := false }
      ∧ (∀ j : Int, j ≠ (i : Int) → frameAt md2 j = frameAt md j) := by
  obtain ⟨fh, md2, hw, hmd2, hinv2, _, _⟩ :=
    flushFrame_inv hi hf ho md.timeStamp ((md.timeStamp + 1) % 4294967296)
  obtain ⟨_, _, hocc⟩ := hi.frames _ f hf
  obtain ⟨hp0, hplt, _⟩ := hocc ho
  obtain ⟨fh1, hw1, _, _, hpg⟩ := fhPage_writeBlock hi.file hp0 hplt f.data
  have hfh : fh1 = fh := by
    rw [hw1] at hw
    exact (Prod.mk.inj (Option.some.inj hw)).2
  subst hfh
  have hfA : frameAt { md with pageFile := fh1, numWrite := md.numWrite + 1, timeStamp := (md.timeStamp + 1) % 4294967296 } (i : Int) = some f := hf
  refine ⟨fh1, md2, hw, hmd2, hinv2, hpg, ?_, ?_⟩
  · rw [hmd2, frameAt_setFrame hfA, if_pos rfl]
  · intro j hj
    rw [hmd2, frameAt_setFrame hfA, if_neg hj]
    rfl

/-- The loop of `forceFlushPool` over the frames `i, ..., i + k - 1` of a well-formed
pool: it has a result; the frames of that range that are occupied, dirty and unpinned are
clean, with a new time stamp, and their bytes are in the file; every other frame and every
other page of the file is as before; the write counter counts the frames written. -/
theorem forceFlushLoop_full :
    ∀ (k i : Nat) (md : BM_Metadata), PoolInv md → i + k ≤ md.pageFrames.length →
      ∃ md1, forceFlushLoop k i md = some md1 ∧ PoolInv md1
        ∧ md1.pageFrames.length = md.pageFrames.length ∧ md1.pageTable = md.pageTable
        ∧ md1.numRead = md.numRead ∧ md1.queueIndex = md.queueIndex
        ∧ md1.numWrite = md.numWrite + ((md.pageFrames.drop i).take k).countP flushable
        ∧ (∀ (j : Nat) (f : BM_PageFrame), frameAt md (j : Int) = some f →
            ∃ f1, frameAt md1 (j : Int) = some f1
              ∧ ((i ≤ j ∧ j < i + k ∧ flushable f = true) →
                  f1.dirty = false ∧ f1.data = f.data ∧ f1.pageNum = f.pageNum
                    ∧ f1.fixCount = f.fixCount ∧ f1.occupied = f.occupied
                    ∧ f1.frameIndex = f.frameIndex
                    ∧ fhPage md1.pageFile f.pageNum = f.data)
              ∧ (¬ (i ≤ j ∧ j < i + k ∧ flushable f = true) → f1 = f))
        ∧ ∀ q, 0 ≤ q →
            (∀ (j : Nat) (g : BM_PageFrame), i ≤ j → j < i + k → frameAt md (j : Int) = some g →
              flushable g = true → g.pageNum ≠ q) →
            fhPage md1.pageFile q = fhPage md.pageFile q
  | 0, i, md, hi, _ => by
    refine ⟨md, rfl, hi, rfl, rfl, rfl, rfl, by simp, ?_, fun _ _ _ => rfl⟩
    intro j f hf
    exact ⟨f, hf, fun h => by omega, fun _ => rfl⟩
  | k + 1, i, md, hi, hlen => by
    have hil : i < md.pageFrames.length := by omega
    have hfr : md.pageFrames[i]? = some (md.pageFrames[i]) := List.getElem?_eq_getElem hil
    generalize md.pageFrames[i] = f at hfr
    have hf : frameAt md (i : Int) = some f := by
      rw [frameAt_nat]; exact hfr
    have hdrop : md.pageFrames.drop i = f :: md.pageFrames.drop (i + 1) := by
      rw [List.drop_eq_getElem_cons hil]
      congr 1
      have := List.getElem?_eq_getElem hil
      rw [hfr] at this
      exact (Option.some.inj this).symm
    unfold forceFlushLoop
    rw [hfr]
    simp only
    by_cases hc : f.occupied = true ∧ f.dirty = true ∧ f.fixCount = 0
    · have hfl : flushable f = true := (flushable_iff f).2 hc
      rw [if_pos hc]
      obtain ⟨fh, md2, hw, hmd2, hinv2, hpg, hnew, hoth⟩ := flushStep hi hf hc.1
      rw [hw]
      simp only [getTimeStamp]
      rw [← hmd2]
      have hfr2 : md2.pageFrames = md.pageFrames.set i { f with timeStamp := md.timeStamp, dirty := false } := by
        rw [hmd2]
        simp only [setFrame_pageFrames, Int.toNat_ofNat]
      have hlen2 : md2.pageFrames.length = md.pageFrames.length := by
        rw [hfr2, List.length_set]
      obtain ⟨md1, e, a1, a2, a3, a4, a5, a6, a7, a8⟩ :=
        forceFlushLoop_full k (i + 1) md2 hinv2 (by rw [hlen2]; omega)
      have hdrop2 : md2.pageFrames.drop (i + 1) = md.pageFrames.drop (i + 1) := by
        rw [hfr2]
        exact List.drop_set_of_lt _ _ (Nat.lt_succ_self i)
      refine ⟨md1, e, a1, by rw [a2, hlen2], ?_, ?_, ?_, ?_, ?_, ?_⟩
      · rw [a3, hmd2]; rfl
      · rw [a4, hmd2]; rfl
      · rw [a5, hmd2]; rfl
      · rw [a6, hdrop2, hdrop, List.take_succ_cons, List.countP_cons_of_pos _ _ hfl]
        have : md2.numWrite = md.numWrite + 1 := by rw [hmd2]; rfl
        rw [this]
        omega
      · intro j g hg
        by_cases hji : j = i
        · subst hji
          rw [hf] at hg
          cases hg
          obtain ⟨f1, b1, _, b3⟩ := a7 j _ hnew
          have hf1 := b3 (by omega)
          subst hf1
          refine ⟨_, b1, fun _ => ⟨rfl, rfl, rfl, rfl, rfl, rfl, ?_⟩, fun h => ?_⟩
          · have hq0 : 0 ≤ f.pageNum := ((hi.frames _ f hf).2.2 hc.1).1
            rw [a8 f.pageNum hq0 ?_]
            · have : md2.pageFile = fh := by rw [hmd2]; rfl
              rw [this, hpg _ hq0, if_pos rfl]
            · intro j2 g2 h1 h2 hg2 hfl2 he
              have hocc2 := ((flushable_iff g2).1 hfl2).1
              have := frame_unique hinv2 hnew hg2 hc.1 hocc2 he
              omega
          · exact absurd ⟨le_refl _, by omega, hfl⟩ h
        · have hg2 : frameAt md2 (j : Int) = some g := by
            rw [hoth _ (by omega)]; exact hg
          obtain ⟨f1, b1, b2, b3⟩ := a7 j g hg2
          refine ⟨f1, b1, fun h => b2 ⟨by omega, by omega, h.2.2⟩, fun h => b3 ?_⟩
          intro h2
          exact h ⟨by omega, by omega, h2.2.2⟩
      · intro q hq hno
        have hqf : f.pageNum ≠ q := hno i f (le_refl i) (by omega) hf hfl
        rw [a8 q hq ?_]
        · have : md2.pageFile = fh := by rw [hmd2]; rfl
          rw [this, hpg _ hq, if_neg (fun e => hqf e.symm)]
        · intro j g h1 h2 hg hflg
          rw [hoth _ (by omega)] at hg
          exact hno j g (by omega) (by omega) hg hflg
    · have hfl : ¬ flushable f = true := fun h => hc ((flushable_iff f).1 h)
      rw [if_neg hc]
      obtain ⟨md1, e, a1, a2, a3, a4, a5, a6, a7, a8⟩ :=
        forceFlushLoop_full k (i + 1) md hi (by omega)
      refine ⟨md1, e, a1, a2, a3, a4, a5, ?_, ?_, ?_⟩
      · rw [a6, hdrop, List.take_succ_cons, List.countP_cons_of_neg _ _ hfl]
      · intro j g hg
        obtain ⟨f1, b1, b2, b3⟩ := a7 j g hg
        by_cases hji : j = i
        · subst hji
          rw [hf] at hg
          cases hg
          exact ⟨f1, b1, fun h => absurd h.2.2 hfl, fun _ => b3 (by omega)⟩
        · refine ⟨f1, b1, fun h => b2 ⟨by omega, by omega, h.2.2⟩, fun h => b3 ?_⟩
          intro h2
          exact h ⟨by omega, by omega, h2.2.2⟩
      · intro q hq hno
        exact a8 q hq (fun j g h1 h2 hg hflg => hno j g (by omega) (by omega) hg hflg)

/-! ## `forceFlushPool` and `shutdownBufferPool` -/

/-- C22: on a well-formed pool `forceFlushPool` returns `RC_OK`. Every frame keeps its
page number, data, fix count and occupancy. A frame that was occupied, dirty and unpinned
is clean and the file's page at its page number holds the frame's bytes; every other
frame is exactly as before (a dirty frame with a positive fix count is still dirty), and
the file's page of every other occupied frame is as before. The write counter has grown
by the number of frames written (`flushCount`), and the page table is as before. -/
theorem forceFlushPool_spec (bm : BM_BufferPool) (md : BM_Metadata) (hok : PoolOK bm md) :
    ∃ md1, forceFlushPool bm = some (RC.RC_OK, { bm with mgmtData := MgmtPtr.live md1 })
      ∧ PoolOK { bm with mgmtData := MgmtPtr.live md1 } md1
      ∧ md1.numWrite = md.numWrite + flushCount md
      ∧ md1.pageTable = md.pageTable ∧ md1.numRead = md.numRead
      ∧ ∀ (i : Int) (f : BM_PageFrame), frameAt md i = some f →
          ∃ f1, frameAt md1 i = some f1
            ∧ f1.pageNum = f.pageNum ∧ f1.data = f.data ∧ f1.fixCount = f.fixCount
            ∧ f1.occupied = f.occupied
            ∧ (flushable f = true →
                f1.dirty = false ∧ fhPage md1.pageFile f.pageNum = f.data)
            ∧ (flushable f = false → f1 = f)
            ∧ (f.occupied = true → flushable f = false →
                fhPage md1.pageFile f.pageNum = fhPage md.pageFile f.pageNum) := by
  have hn : bm.numPages.toNat = md.pageFrames.length := by
    rw [hok.numPages]; rfl
  obtain ⟨md1, e, a1, a2, a3, a4, _, a6, a7, a8⟩ :=
    forceFlushLoop_full md.pageFrames.length 0 md hok.inv (by omega)
  refine ⟨md1, ?_, ⟨rfl, by show bm.numPages = _; rw [a2]; exact hok.numPages, a1⟩, ?_, a3, a4, ?_⟩
  · unfold forceFlushPool
    rw [hok.live]
    simp only [hn, e]
  · rw [a6]
    unfold flushCount
    rw [List.drop_zero, List.take_length]
  · intro i f hf
    obtain ⟨h0, hl, _⟩ := frameAt_eq_some hf
    have hcast : ((i.toNat : Nat) : Int) = i := Int.toNat_of_nonneg h0
    have hfn : frameAt md ((i.toNat : Nat) : Int) = some f := by rw [hcast]; exact hf
    obtain ⟨f1, b1, b2, b3⟩ := a7 i.toNat f hfn
    rw [hcast] at b1
    by_cases hfl : flushable f = true
    · obtain ⟨c1, c2, c3, c4, c5, _, c7⟩ := b2 ⟨Nat.zero_le _, by omega, hfl⟩
      refine ⟨f1, b1, c3, c2, c4, c5, fun _ => ⟨c1, c7⟩, fun h => ?_, fun _ h => ?_⟩
      · rw [hfl] at h; cases h
      · rw [hfl] at h; cases h
    · have hf1 := b3 (fun h => hfl h.2.2)
      subst hf1
      refine ⟨_, b1, rfl, rfl, rfl, rfl, fun h => absurd h hfl, fun _ => rfl, fun ho _ => ?_⟩
      have hq0 : 0 ≤ f1.pageNum := ((hok.inv.frames i f1 hf).2.2 ho).1
      apply a8 _ hq0
      intro j g _ _ hg hflg he
      have hgo := ((flushable_iff g).1 hflg).1
      have hji := frame_unique hok.inv hf hg ho hgo he
      rw [hji, hf] at hg
      cases hg
      exact hfl hflg

set_option maxRecDepth 1000000 in
theorem dirtyPool_flush :
    flushCount (poolMd dirtyPool) = 1
      ∧ frameFlags (poolOf dirtyPool (forceFlushPool dirtyPool))
          = [(1, false, 0), (2, true, 1), (-1, false, 0)] := by
  decide!

theorem forceFlushPool_spec_witness :
    ∃ md1, forceFlushPool dirtyPool
        = some (RC.RC_OK, { dirtyPool with mgmtData := MgmtPtr.live md1 })
      ∧ md1.numWrite = (poolMd dirtyPool).numWrite + 1
      ∧ frameFlags { dirtyPool with mgmtData := MgmtPtr.live md1 }
          = [(1, false, 0), (2, true, 1), (-1, false, 0)] := by
  obtain ⟨md1, e, _, hw, _⟩ := forceFlushPool_spec dirtyPool (poolMd dirtyPool) dirtyPool_ok
  refine ⟨md1, e, by rw [hw, dirtyPool_flush.1]; rfl, ?_⟩
  have := dirtyPool_flush.2
  rw [e] at this
  exact this

/-- The first loop of `shutdownBufferPool` on a well-formed pool: it finds a pinned frame
exactly when there is one. -/
theorem anyPinned_spec {md : BM_Metadata} : ∀ (k i : Nat), i + k ≤ md.pageFrames.length →
    ∃ b, anyPinned md k i = some b
      ∧ (b = true ↔ ∃ (j : Nat) (f : BM_PageFrame), i ≤ j ∧ j < i + k
          ∧ frameAt md (j : Int) = some f ∧ 0 < f.fixCount)
  | 0, i, _ => ⟨false, rfl, by
      constructor
      · intro h; cases h
      · rintro ⟨j, f, h1, h2, _⟩; omega⟩
  | k + 1, i, hlen => by
    have hil : i < md.pageFrames.length := by omega
    have hfr : md.pageFrames[i]? = some (md.pageFrames[i]) := List.getElem?_eq_getElem hil
    generalize md.pageFrames[i] = f at hfr
    have hf : frameAt md (i : Int) = some f := by
      rw [frameAt_nat]; exact hfr
    unfold anyPinned
    rw [hfr]
    simp only
    by_cases hc : f.fixCount > 0
    · rw [if_pos hc]
      exact ⟨true, rfl, fun _ => ⟨i, f, le_refl _, by omega, hf, hc⟩, fun _ => rfl⟩
    · rw [if_neg hc]
      obtain ⟨b, e, hb⟩ := @anyPinned_spec md k (i + 1) (by omega)
      refine ⟨b, e, hb.trans ⟨?_, ?_⟩⟩
      · rintro ⟨j, g, h1, h2, h3, h4⟩
        exact ⟨j, g, by omega, by omega, h3, h4⟩
      · rintro ⟨j, g, h1, h2, h3, h4⟩
        by_cases hji : j = i
        · subst hji
          rw [hf] at h3
          cases h3
          exact absurd h4 hc
        · exact ⟨j, g, by omega, by omega, h3, h4⟩

/-- C27: `shutdownBufferPool` on a well-formed pool. When some frame has a positive fix
count it returns `RC_WRITE_FAILED` and the pool structure with its metadata (frames,
dirty flags, page table, counters, file handle) and the file are what they were. When no
frame is pinned it returns `RC_OK`, and the file it leaves holds, for every page, the
bytes the pool held for it: the bytes of the frame of every cached page, dirty or not. -/
theorem shutdownBufferPool_spec (bm : BM_BufferPool) (md : BM_Metadata) (hok : PoolOK bm md)
    (disk : Disk) :
    ((∃ (i : Int) (f : BM_PageFrame), frameAt md i = some f ∧ 0 < f.fixCount) →
        shutdownBufferPool bm disk = some (RC.RC_WRITE_FAILED, bm, disk))
      ∧ ((∀ (i : Int) (f : BM_PageFrame), frameAt md i = some f → f.fixCount = 0) →
          ∃ pages, shutdownBufferPool bm disk
              = some (RC.RC_OK, { bm with mgmtData := MgmtPtr.freed }, some pages)
            ∧ (∀ q, 0 ≤ q → pages.getD q.toNat emptyPage = viewPage md q)
            ∧ ∀ (i : Int) (f : BM_PageFrame), frameAt md i = some f → f.occupied = true →
                pages.getD f.pageNum.toNat emptyPage = f.data) := by
  have hn : bm.numPages.toNat = md.pageFrames.length := by
    rw [hok.numPages]; rfl
  obtain ⟨b, eb, hb⟩ := @anyPinned_spec md md.pageFrames.length 0 (by omega)
  refine ⟨?_, ?_⟩
  · rintro ⟨i, f, hf, hfix⟩
    obtain ⟨h0, hl, _⟩ := frameAt_eq_some hf
    have hcast : ((i.toNat : Nat) : Int) = i := Int.toNat_of_nonneg h0
    have hbt : b = true :=
      hb.2 ⟨i.toNat, f, Nat.zero_le _, by omega, by rw [hcast]; exact hf, hfix⟩
    subst hbt
    unfold shutdownBufferPool
    rw [hok.live]
    simp only [hn, eb]
  · intro hall
    have hbf : b = false := by
      cases b with
      | false => rfl
      | true =>
        obtain ⟨j, f, _, _, hf, hfix⟩ := hb.1 rfl
        have := hall _ f hf
        omega
    subst hbf
    obtain ⟨md1, e, hinv1, hlen1, _, _, _, _, _, _⟩ :=
      forceFlushLoop_full md.pageFrames.length 0 md hok.inv (by omega)
    obtain ⟨_, _, hview, hclean⟩ := forceFlushLoop_clean md.pageFrames.length 0 md md1 hok.inv
      (fun j f hj _ => by omega) (fun j f _ _ hf => hall _ f hf) e
    have hfile := file_of_clean hinv1 (fun j f hj hf => hclean j f (by rw [← hlen1]; omega) hf)
    obtain ⟨pages, hpg, _⟩ := hinv1.file
    have hpages : ∀ q, 0 ≤ q → pages.getD q.toNat emptyPage = viewPage md q := by
      intro q hq
      rw [← hview q hq, ← hfile q hq]
      unfold fhPage
      rw [hpg]
    refine ⟨pages, ?_, hpages, ?_⟩
    · unfold shutdownBufferPool
      rw [hok.live]
      simp only [hn, eb, forceFlushPool, hok.live, e]
      rw [if_neg (by rw [hlen1]; omega)]
      unfold closePageFile
      rw [hpg]
    · intro i f hf ho
      have hp0 := ((hok.inv.frames i f hf).2.2 ho).1
      rw [hpages _ hp0]
      exact viewPage_of_frame hok.inv hf ho hp0

set_option maxRecDepth 1000000 in
theorem idlePool_runs :
    (runOps (newPool zeroPool ((3 : Nat) : Int) ReplacementStrategy.RS_LRU)
        (dirtyRun ++ [PoolOp.unpin 2])).isSome = true
      ∧ (poolMd idlePool).pageFrames.all (fun f => decide (f.fixCount = 0)) = true
      ∧ frameFlags idlePool = [(1, true, 0), (2, true, 0), (-1, false, 0)] := by
  decide!

theorem idlePool_ok : PoolOK idlePool (poolMd idlePool) :=
  poolAfter_ok zeroPool 3 (by norm_num) ReplacementStrategy.RS_LRU
    (dirtyRun ++ [PoolOp.unpin 2]) (by simp [dirtyRun, Disciplined]) idlePool_runs.1

theorem shutdownBufferPool_spec_witness :
    shutdownBufferPool dirtyPool (some [emptyPage])
        = some (RC.RC_WRITE_FAILED, dirtyPool, some [emptyPage])
      ∧ ∃ pages, shutdownBufferPool idlePool (some [emptyPage])
          = some (RC.RC_OK, { idlePool with mgmtData := MgmtPtr.freed }, some pages)
        ∧ (∀ q, 0 ≤ q → pages.getD q.toNat emptyPage = viewPage (poolMd idlePool) q) := by
  refine ⟨?_, ?_⟩
  · apply (shutdownBufferPool_spec dirtyPool (poolMd dirtyPool) dirtyPool_ok
      (some [emptyPage])).1
    cases hfp : frameOfPage (poolMd dirtyPool) 2 with
    | none =>
      have := dirtyPool_frames.2.2.1
      rw [hfp] at this
      cases this
    | some f =>
      have hd := dirtyPool_frames.2.2.1
      rw [hfp] at hd
      simp only [Option.map_some', Option.some.injEq, Prod.mk.injEq] at hd
      obtain ⟨i, _, hf⟩ := frameOfPage_lookup hfp
      exact ⟨i, f, hf, by rw [hd.2]; decide⟩
  · obtain ⟨pages, e, hp, _⟩ := (shutdownBufferPool_spec idlePool (poolMd idlePool) idlePool_ok
      (some [emptyPage])).2 (by
        intro i f hf
        obtain ⟨_, _, hfe⟩ := frameAt_eq_some hf
        have hmem : f ∈ (poolMd idlePool).pageFrames := List.getElem?_mem hfe
        have := List.all_eq_true.1 idlePool_runs.2.1 f hmem
        exact of_decide_eq_true this)
    exact ⟨pages, e, hp⟩

/-! ## The frame `replacementLRU` chooses -/

/-- The loop of `replacementLRU` over the frames `i, ..., i + k - 1`, entered with the
running minimum `min`: it keeps `minIndex` when no unpinned frame of the range is stamped
below `min`; otherwise it returns the first frame of the range that carries the smallest
time stamp among the unpinned frames of the range. -/
theorem lruLoop_min (md : BM_Metadata) : ∀ (k i min : Nat) (minIndex : Int),
    i + k ≤ md.pageFrames.length →
    ∃ r, lruLoop md k i min minIndex = some r ∧
      ((r = minIndex ∧ ∀ (j : Nat) (f : BM_PageFrame), i ≤ j → j < i + k →
          md.pageFrames[j]? = some f → f.fixCount = 0 → min ≤ f.timeStamp)
       ∨ ∃ (j : Nat) (f : BM_PageFrame), r = (j : Int) ∧ i ≤ j ∧ j < i + k
          ∧ md.pageFrames[j]? = some f ∧ f.fixCount = 0 ∧ f.timeStamp < min
          ∧ (∀ (j1 : Nat) (g : BM_PageFrame), i ≤ j1 → j1 < i + k →
              md.pageFrames[j1]? = some g → g.fixCount = 0 → f.timeStamp ≤ g.timeStamp)
          ∧ ∀ (j1 : Nat) (g : BM_PageFrame), i ≤ j1 → j1 < j →
              md.pageFrames[j1]? = some g → g.fixCount = 0 → f.timeStamp < g.timeStamp)
  | 0, i, min, minIndex, _ => ⟨minIndex, rfl, Or.inl ⟨rfl, fun j f h1 h2 => by omega⟩⟩
  | k + 1, i, min, minIndex, hlen => by
    have hil : i < md.pageFrames.length := by omega
    have hfr : md.pageFrames[i]? = some (md.pageFrames[i]) := List.getElem?_eq_getElem hil
    generalize md.pageFrames[i] = g at hfr
    unfold lruLoop
    rw [hfr]
    simp only
    by_cases hc : g.fixCount = 0 ∧ g.timeStamp < min
    · rw [if_pos hc]
      obtain ⟨r, e, hr⟩ := lruLoop_min md k (i + 1) g.timeStamp (i : Int) (by omega)
      refine ⟨r, e, Or.inr ?_⟩
      rcases hr with ⟨hri, hall⟩ | ⟨j, f, hrj, h1, h2, hjf, hfix, hts, hmin, hfirst⟩
      · refine ⟨i, g, hri, le_refl _, by omega, hfr, hc.1, hc.2, ?_, fun j1 _ h1 h2 => by omega⟩
        intro j1 f h1 h2 hf hfix
        by_cases hji : j1 = i
        · subst hji
          rw [hfr] at hf
          cases hf
          exact le_refl _
        · exact hall j1 f (by omega) (by omega) hf hfix
      · refine ⟨j, f, hrj, by omega, by omega, hjf, hfix, by omega, ?_, ?_⟩
        · intro j1 f1 h3 h4 hf1 hfix1
          by_cases hji : j1 = i
          · subst hji
            rw [hfr] at hf1
            cases hf1
            omega
          · exact hmin j1 f1 (by omega) (by omega) hf1 hfix1
        · intro j1 f1 h3 h4 hf1 hfix1
          by_cases hji : j1 = i
          · subst hji
            rw [hfr] at hf1
            cases hf1
            exact hts
          · exact hfirst j1 f1 (by omega) h4 hf1 hfix1
    · rw [if_neg hc]
      obtain ⟨r, e, hr⟩ := lruLoop_min md k (i + 1) min minIndex (by omega)
      refine ⟨r, e, ?_⟩
      have hg : g.fixCount = 0 → min ≤ g.timeStamp := by
        intro h0
        by_contra hlt
        exact hc ⟨h0, by omega⟩
      rcases hr with ⟨hri, hall⟩ | ⟨j, f, hrj, h1, h2, hjf, hfix, hts, hmin, hfirst⟩
      · left
        refine ⟨hri, ?_⟩
        intro j1 f h1 h2 hf hfix
        by_cases hji : j1 = i
        · subst hji
          rw [hfr] at hf
          cases hf
          exact hg hfix
        · exact hall j1 f (by omega) (by omega) hf hfix
      · right
        refine ⟨j, f, hrj, by omega, by omega, hjf, hfix, hts, ?_, ?_⟩
        · intro j1 f1 h3 h4 hf1 hfix1
          by_cases hji : j1 = i
          · subst hji
            rw [hfr] at hf1
            cases hf1
            have := hg hfix1
            omega
          · exact hmin j1 f1 (by omega) (by omega) hf1 hfix1
        · intro j1 f1 h3 h4 hf1 hfix1
          by_cases hji : j1 = i
          · subst hji
            rw [hfr] at hf1
            cases hf1
            have := hg hfix1
            omega
          · exact hfirst j1 f1 (by omega) h4 hf1 hfix1

/-- The frame `replacementLRU` takes: with `n` frames, when some unpinned frame is
stamped below `UINT_MAX`, it evicts the first frame that carries the smallest time stamp
among the unpinned frames; when no unpinned frame is stamped below `UINT_MAX` it returns
`NULL` and the metadata is as before. -/
theorem replacementLRU_min (md : BM_Metadata) (n : Nat) (hn : n ≤ md.pageFrames.length) :
    (replacementLRU (n : Int) md = some (none, md)
        ∧ ∀ (j : Nat) (f : BM_PageFrame), j < n → md.pageFrames[j]? = some f →
            f.fixCount = 0 → UINT_MAX ≤ f.timeStamp)
      ∨ ∃ (j : Nat) (f : BM_PageFrame), j < n ∧ md.pageFrames[j]? = some f ∧ f.fixCount = 0
          ∧ f.timeStamp < UINT_MAX
          ∧ (∀ (j1 : Nat) (g : BM_PageFrame), j1 < n → md.pageFrames[j1]? = some g →
              g.fixCount = 0 → f.timeStamp ≤ g.timeStamp)
          ∧ (∀ (j1 : Nat) (g : BM_PageFrame), j1 < j → md.pageFrames[j1]? = some g →
              g.fixCount = 0 → f.timeStamp < g.timeStamp)
          ∧ replacementLRU (n : Int) md
              = (getAfterEviction md (j : Int)).map (fun md1 => (some (j : Int), md1)) := by
  obtain ⟨r, e, hr⟩ := lruLoop_min md n 0 UINT_MAX (-1) (by omega)
  rcases hr with ⟨hri, hall⟩ | ⟨j, f, hrj, _, h2, hjf, hfix, hts, hmin, hfirst⟩
  · left
    refine ⟨?_, fun j f hj hf hfix => hall j f (Nat.zero_le _) (by omega) hf hfix⟩
    unfold replacementLRU
    simp only [Int.toNat_ofNat, e, hri, if_true]
  · right
    refine ⟨j, f, by omega, hjf, hfix, hts,
      fun j1 g h1 hg hg0 => hmin j1 g (Nat.zero_le _) (by omega) hg hg0,
      fun j1 g h1 hg hg0 => hfirst j1 g (Nat.zero_le _) h1 hg hg0, ?_⟩
    unfold replacementLRU
    simp only [Int.toNat_ofNat, e, hrj]
    have hne : ¬ ((j : Int) = -1) := by omega
    rw [if_neg hne]
    cases getAfterEviction md (j : Int) <;> rfl

set_option maxRecDepth 1000000 in
/-- C21 (the code at the failing input): in `wrapPool`, a pool of one frame under LRU, the
frame has fix count 0 and the time stamp `UINT_MAX`; it is the only unpinned frame, and
`replacementLRU` returns `NULL` and takes no frame. On the new pool of three frames, whose
frames carry the stamps 0, 1, 2 of `initBufferPool`, `replacementLRU` takes frame 0; and
after pin 1, 2, 3, unpin 1, 2, 3 and pin 1, `pinPage` of page 4 replaces page 2. -/
theorem replacementLRU_skips_max_stamp :
    frameInfo wrapPool = [(0, 0, 4294967295)]
      ∧ replacementLRU 1 (poolMd wrapPool) = some (none, poolMd wrapPool)
      ∧ frameInfo (newPool zeroPool 3 ReplacementStrategy.RS_LRU)
          = [(-1, 0, 0), (-1, 0, 1), (-1, 0, 2)]
      ∧ (replacementLRU 3 (poolMd (newPool zeroPool 3 ReplacementStrategy.RS_LRU))).map
          Prod.fst = some (some 0)
      ∧ frameInfo lruPool = [(1, 1, 9), (2, 0, 7), (3, 0, 8)]
      ∧ (replacementLRU 3 (poolMd lruPool)).map Prod.fst = some (some 1)
      ∧ framePages (poolAfter lruPool [PoolOp.pin 4]) = [1, 4, 3] := by
  decide!

/-! ## The hash table refines a finite map -/

/-- A new table with at least one bucket is well formed. -/
theorem HTInv_init (size : Int) (h : 1 ≤ size) : HTInv (initHashTable size) := by
  refine ⟨by show 0 < size; omega, ?_, ?_, ?_⟩
  · show ((List.replicate _ _).length : Int) = size
    rw [List.length_replicate]
    exact Int.toNat_of_nonneg (by omega)
  · intro i al h
    simp only [initHashTable] at h
    rw [List.getElem?_replicate] at h
    split at h
    · cases h; simp
    · cases h
  · intro i al h
    simp only [initHashTable] at h
    rw [List.getElem?_replicate] at h
    split at h
    · cases h; simp
    · cases h

theorem getValue_init (size : Int) (h : 1 ≤ size) {k : Int} (hk : 0 ≤ k) :
    getValue (initHashTable size) k = some none := by
  obtain ⟨al, hal, hg⟩ := getValue_of_inv (HTInv_init size h) hk
  rw [hg]
  simp only [initHashTable] at hal
  rw [List.getElem?_replicate] at hal
  split at hal
  · cases hal; rfl
  · cases hal

/-- What `removePair` returns: 1, with the table as it is, when the key is absent, and 0
when it is present. -/
theorem removePair_result {ht : HT_TableHandle} (hi : HTInv ht) {k : Int} (hk : 0 ≤ k) :
    (getValue ht k = some none → removePair ht k = some (1, ht))
      ∧ (∀ v, getValue ht k = some (some v) → ∃ ht1, removePair ht k = some (0, ht1)) := by
  obtain ⟨hb, hlt, _⟩ := bucketIndex_of_inv hi hk
  obtain ⟨al, hal, hg⟩ := getValue_of_inv hi hk
  refine ⟨?_, ?_⟩
  · intro h
    rw [hg] at h
    have hnone : al.list.find? (fun p => p.key == k) = none := by
      cases hf : al.list.find? (fun p => p.key == k) with
      | none => rfl
      | some x => rw [hf] at h; cases h
    have hidx : ¬ al.list.findIdx (fun p => p.key == k) < al.list.length := by
      intro hlt2
      have := List.findIdx_getElem (w := hlt2)
      have hmem : al.list[al.list.findIdx (fun p => p.key == k)] ∈ al.list :=
        List.getElem_mem _
      exact absurd this (List.find?_eq_none.1 hnone _ hmem)
    unfold removePair
    rw [hb]
    simp only [hal]
    rw [if_neg hidx]
  · intro v h
    rw [hg] at h
    have hsome : ∃ x, al.list.find? (fun p => p.key == k) = some x := by
      cases hf : al.list.find? (fun p => p.key == k) with
      | none => rw [hf] at h; cases h
      | some x => exact ⟨x, rfl⟩
    obtain ⟨x, hx⟩ := hsome
    have hidx : al.list.findIdx (fun p => p.key == k) < al.list.length :=
      List.findIdx_lt_length_of_exists ⟨x, List.mem_of_find?_eq_some hx,
        @List.find?_some _ (fun p => p.key == k) x al.list hx⟩
    unfold removePair
    rw [hb]
    simp only [hal]
    rw [if_pos hidx]
    exact ⟨_, rfl⟩

/-- A run of `setValue` and `removePair` calls with non-negative keys on a well-formed table
that holds the map `m`: every call has a result and the table holds the map after the
calls. -/
theorem runHT_refines : ∀ (ops : List HTOp) (ht : HT_TableHandle) (m : Int → Option Int),
    HTInv ht → (∀ k, 0 ≤ k → getValue ht k = some (m k)) → (∀ op ∈ ops, 0 ≤ op.key) →
    ∃ ht1, runHT ht ops = some ht1 ∧ HTInv ht1 ∧ ht1.size = ht.size
      ∧ ∀ k, 0 ≤ k → getValue ht1 k = some (mapAfter m ops k)
  | [], ht, m, hi, hm, _ => ⟨ht, rfl, hi, rfl, hm⟩
  | op :: ops, ht, m, hi, hm, hk => by
    have hk0 : 0 ≤ op.key := hk op (List.mem_cons_self _ _)
    have hrest : ∀ o ∈ ops, 0 ≤ o.key := fun o ho => hk o (List.mem_cons_of_mem _ ho)
    cases op with
    | set k v =>
      obtain ⟨ht1, e, hi1, hs1, hg1⟩ := setValue_spec hi hk0 v
      obtain ⟨ht2, e2, hi2, hs2, hg2⟩ := runHT_refines ops ht1 (mapStep m (HTOp.set k v)) hi1
        (by
          intro p hp
          have hg : getValue ht1 p = if p = k then some (some v) else getValue ht p := hg1 p hp
          rw [hg]
          show _ = some (if p = k then some v else m p)
          by_cases hpk : p = k
          · rw [if_pos hpk, if_pos hpk]
          · rw [if_neg hpk, if_neg hpk]
            exact hm p hp) hrest
      refine ⟨ht2, ?_, hi2, hs2.trans hs1, hg2⟩
      unfold runHT applyHT
      have e1 : setValue ht k v = some (0, ht1) := e
      simp only [e1, Option.map_some']
      exact e2
    | remove k =>
      obtain ⟨r, ht1, e, hi1, hs1, hg1⟩ := removePair_spec hi hk0
      obtain ⟨ht2, e2, hi2, hs2, hg2⟩ := runHT_refines ops ht1 (mapStep m (HTOp.remove k)) hi1
        (by
          intro p hp
          have hg : getValue ht1 p = if p = k then some none else getValue ht p := hg1 p hp
          rw [hg]
          show _ = some (if p = k then none else m p)
          by_cases hpk : p = k
          · rw [if_pos hpk, if_pos hpk]
          · rw [if_neg hpk, if_neg hpk]
            exact hm p hp) hrest
      refine ⟨ht2, ?_, hi2, hs2.trans hs1, hg2⟩
      unfold runHT applyHT
      have e1 : removePair ht k = some (r, ht1) := e
      simp only [e1, Option.map_some']
      exact e2

/-- C29 (as amended): on a table initialised with at least one bucket, every sequence of
`setValue` and `removePair` calls with non-negative keys has a result, and the table
refines the finite map of the specification: for every key `k ≥ 0`, `getValue` returns the
value of the most recent `setValue(k, v)` that no `removePair(k)` follows, and reports the
key absent otherwise. A further `setValue(k, v)` returns 0, makes `getValue(k)` return `v`
and leaves `getValue` of every other key as it is; a further `removePair(k)` makes
`getValue(k)` report absent and leaves every other key, and it returns 1 and leaves the
table unchanged when `k` is absent, 0 when it is present. -/
theorem hashTable_refines_map (size : Int) (hsize : 1 ≤ size) (ops : List HTOp)
    (hkeys : ∀ op ∈ ops, 0 ≤ op.key) :
    ∃ ht, runHT (initHashTable size) ops = some ht
      ∧ (∀ k, 0 ≤ k → getValue ht k = some (mapAfter emptyMap ops k))
      ∧ (∀ k v, 0 ≤ k → ∃ ht1, setValue ht k v = some (0, ht1)
          ∧ getValue ht1 k = some (some v)
          ∧ ∀ k1, 0 ≤ k1 → k1 ≠ k → getValue ht1 k1 = getValue ht k1)
      ∧ ∀ k, 0 ≤ k → ∃ r ht1, removePair ht k = some (r, ht1)
          ∧ getValue ht1 k = some none
          ∧ (∀ k1, 0 ≤ k1 → k1 ≠ k → getValue ht1 k1 = getValue ht k1)
          ∧ (mapAfter emptyMap ops k = none → r = 1 ∧ ht1 = ht)
          ∧ (mapAfter emptyMap ops k ≠ none → r = 0) := by
  obtain ⟨ht, e, hi, _, hg⟩ := runHT_refines ops (initHashTable size) emptyMap
    (HTInv_init size hsize) (fun k hk => getValue_init size hsize hk) hkeys
  refine ⟨ht, e, hg, ?_, ?_⟩
  · intro k v hk
    obtain ⟨ht1, e1, _, _, hg1⟩ := setValue_spec hi hk v
    refine ⟨ht1, e1, by rw [hg1 k hk, if_pos rfl], ?_⟩
    intro k1 hk1 hne
    rw [hg1 k1 hk1, if_neg hne]
  · intro k hk
    obtain ⟨r, ht1, e1, _, _, hg1⟩ := removePair_spec hi hk
    obtain ⟨habs, hpres⟩ := removePair_result hi hk
    refine ⟨r, ht1, e1, by rw [hg1 k hk, if_pos rfl], ?_, ?_, ?_⟩
    · intro k1 hk1 hne
      rw [hg1 k1 hk1, if_neg hne]
    · intro hnone
      have := habs (by rw [hg k hk, hnone])
      rw [e1] at this
      simp only [Option.some.injEq, Prod.mk.injEq] at this
      exact this
    · intro hsome
      cases hv : mapAfter emptyMap ops k with
      | none => exact absurd hv hsome
      | some v =>
        obtain ⟨ht2, e2⟩ := hpres v (by rw [hg k hk, hv])
        rw [e1] at e2
        simp only [Option.some.injEq, Prod.mk.injEq] at e2
        exact e2.1

set_option maxRecDepth 1000000 in
theorem bucketRun_facts :
    (∀ op ∈ bucketRun, 0 ≤ op.key)
      ∧ mapAfter emptyMap bucketRun 4 = some 100
      ∧ mapAfter emptyMap bucketRun 6 = none
      ∧ mapAfter emptyMap bucketRun 34 = some 17
      ∧ mapAfter emptyMap bucketRun 7 = some 70
      ∧ ((runHT (initHashTable 2) bucketRun).map
          (fun ht => ht.mgmt.map (fun al => (al.capacity, al.list.length))))
          = some [(32, 17), (16, 1)] := by
  decide!

theorem hashTable_refines_map_witness :
    ∃ ht, runHT (initHashTable 2) bucketRun = some ht
      ∧ getValue ht 4 = some (some 100) ∧ getValue ht 6 = some none
      ∧ getValue ht 34 = some (some 17) ∧ getValue ht 7 = some (some 70)
      ∧ removePair ht 6 = some (1, ht) := by
  obtain ⟨ht, e, hg, _, hr⟩ := hashTable_refines_map 2 (by decide) bucketRun bucketRun_facts.1
  obtain ⟨h4, h6, h34, h7, _⟩ := bucketRun_facts.2
  refine ⟨ht, e, by rw [hg 4 (by decide), h4], by rw [hg 6 (by decide), h6],
    by rw [hg 34 (by decide), h34], by rw [hg 7 (by decide), h7], ?_⟩
  obtain ⟨r, ht1, e1, _, _, habs, _⟩ := hr 6 (by decide)
  obtain ⟨hr1, hht⟩ := habs h6
  rw [e1, hr1, hht]

set_option maxRecDepth 1000000 in
/-- C29 fails as stated: on the new table of 256 buckets the key -1 has the bucket index
`-1 % 256 = -1`, which is no bucket; `getValue(-1)` does not report the key absent, it has
no defined result, and so have `setValue` and `removePair`. -/
theorem getValue_negative_key :
    Int.tmod (-1) (initHashTable 256).size = -1
      ∧ bucketIndex (initHashTable 256) (-1) = none
      ∧ getValue (initHashTable 256) (-1) ≠ some none
      ∧ getValue (initHashTable 256) (-1) = none
      ∧ setValue (initHashTable 256) (-1) 5 = none
      ∧ removePair (initHashTable 256) (-1) = none
      ∧ runHT (initHashTable 256) [HTOp.set (-1) 5] = none := by
  decide!

set_option maxRecDepth 1000000 in
/-- C30 (the code at the failing input): in `fiveState` the catalog page 0 and the main
page 1 of the open table have fix count 1 and the overflow page 2 has fix count 0.
`getRecord`, `updateRecord` and `deleteRecord` of RID `(2, 1)`, a free slot of page 2,
return `RC_WRITE_FAILED` and leave page 2 with fix count 1; in a scan without condition
the fifth `next`, which returns `RC_OK` with the record of RID `(2, 0)`, leaves page 2
with fix count 1 as well, and the pin stays after the scan has ended. `getRecord` of the
occupied slot `(2, 0)` returns `RC_OK` and leaves the fix count 0. After `closeTable`,
`shutdownRecordManager` returns `RC_OK` from `fiveState` and `RC_WRITE_FAILED` from the
state the failed `getRecord` left. -/
theorem getRecord_failure_keeps_pin :
    pinCounts fiveState = [1, 1, 0]
      ∧ (getRecord fiveState openedState.2 ⟨2, 1⟩ (testRecord 0)).map
          (fun r => (r.1, pinCounts r.2.1)) = some (RC.RC_WRITE_FAILED, [1, 1, 1])
      ∧ (updateRecord fiveState openedState.2 ⟨⟨2, 1⟩, (testRecord 0).data⟩).map
          (fun r => (r.1, pinCounts r.2)) = some (RC.RC_WRITE_FAILED, [1, 1, 1])
      ∧ (deleteRecord fiveState openedState.2 ⟨2, 1⟩).map
          (fun r => (r.1, pinCounts r.2)) = some (RC.RC_WRITE_FAILED, [1, 1, 1])
      ∧ scanPins 6 fiveState fiveScan (testRecord 0)
          = [(RC.RC_OK, ⟨1, 0⟩, [1, 1, 0]), (RC.RC_OK, ⟨1, 1⟩, [1, 1, 0]),
             (RC.RC_OK, ⟨1, 2⟩, [1, 1, 0]), (RC.RC_OK, ⟨1, 3⟩, [1, 1, 0]),
             (RC.RC_OK, ⟨2, 0⟩, [1, 1, 1]), (RC.RC_RM_NO_MORE_TUPLES, ⟨2, 0⟩, [1, 1, 1])]
      ∧ (getRecord fiveState openedState.2 ⟨2, 0⟩ (testRecord 0)).map
          (fun r => (r.1, pinCounts r.2.1)) = some (RC.RC_OK, [1, 1, 0])
      ∧ pinCounts leakState = [1, 1, 1]
      ∧ closeAndShutdown fiveState openedState.2 = some RC.RC_OK
      ∧ closeAndShutdown leakState openedState.2 = some RC.RC_WRITE_FAILED := by
  decide!

set_option maxRecDepth 1000000 in
/-- C31 (the code at the failing input): for the schema `a STRING(1021)` the record size
is 1022 and the claim's value `(PAGE_SIZE - sizeof(RM_PageHeader)) / (1022 + 1)` is 3, but
`initNewPage` computes 4 and `createTable` leaves `numSlots = 4` on the main page: the
code subtracts `sizeof(pageHeader)`, the 4 bytes of its `int` variable, not the 12 bytes
of the header. For the schema `a STRING(4090)` (records of 4091 bytes) the claim's
quotient is 0, yet `createTable` returns `RC_OK` with `numSlots = 1`. -/
theorem initNewPage_numSlots_small_header :
    getRecordSize edgeSchema = some 1022
      ∧ Int.tdiv ((PAGE_SIZE : Int) - sizeofPageHeader) (1022 + sizeofBool) = 3
      ∧ recordsPerPageOf 1022 = some 4
      ∧ (createTable freshState testName edgeSchema).map Prod.fst = some RC.RC_OK
      ∧ (tableOf (liveMd edgeState) 0).map (fun t => t.pageNum) = some 1
      ∧ slotsOf (liveMd edgeState) 1 = some 4
      ∧ getRecordSize wideSchema = some 4091
      ∧ Int.tdiv ((PAGE_SIZE : Int) - sizeofPageHeader) (4091 + sizeofBool) = 0
      ∧ (createTable freshState testName wideSchema).map Prod.fst = some RC.RC_OK
      ∧ slotsOf (liveMd wideState) 1 = some 1 := by
  decide!

set_option maxRecDepth 1000000 in
/-- C32 (the code at the failing input): `createTable` succeeds for the schema
`a STRING(4090)`; the main page, page 1, has 4096 bytes and `numSlots = 1`, and the
payload of slot 0 ends at byte `12 + 1 + 4091 = 4104`, past the end of the page, so that
the `memcpy` of `insertRecord` has no defined result. For the schema `a STRING(1021)`
the page has 4 slots and the payload of slot 3 ends at byte `12 + 4 + 4 * 1022 = 4104`. -/
theorem layout_exceeds_page :
    (createTable freshState testName wideSchema).map Prod.fst = some RC.RC_OK
      ∧ (openTable wideState testRel testName).map Prod.fst = some RC.RC_OK
      ∧ (bytesOf (liveMd wideOpen.1) 1).map List.length = some 4096
      ∧ slotsOf (liveMd wideOpen.1) 1 = some 1
      ∧ (bytesOf (liveMd wideOpen.1) 1).bind (fun b => getSlot b 0) = some 0
      ∧ tupleOffset 1 4091 0 + 4091 = 4104
      ∧ (bytesOf (liveMd wideOpen.1) 1).bind
          (fun b => storeTuple b 1 4091 0 (wideRecord 7).data) = none
      ∧ insertRecord 4 wideOpen.1 wideOpen.2 (wideRecord 7) = none
      ∧ slotsOf (liveMd edgeState) 1 = some 4
      ∧ tupleOffset 4 1022 3 + 1022 = 4104 := by
  decide!

set_option maxRecDepth 1000000 in
/-- C33 (the code at the failing input): on the new page file the catalog has
`totalNumPages = 1`, `freePage = NO_PAGE` and `numTables = 0`.
`createTable("table", a STRING(5000))` returns `RC_WRITE_FAILED`, and afterwards
`totalNumPages` is 2 and `numTables` is 1, descriptor 0 carries the name "table" and the
page number 1, and a further `createTable("table", testSchema)` returns `RC_WRITE_FAILED`
because the name exists. -/
theorem createTable_failure_keeps_table :
    pageCounts freshState = some (1, NO_PAGE, 0, 1)
      ∧ getRecordSize hugeSchema = some 5001
      ∧ (createTable freshState testName hugeSchema).map Prod.fst = some RC.RC_WRITE_FAILED
      ∧ pageCounts hugeState = some (2, NO_PAGE, 1, 2)
      ∧ storedName hugeState 0 = some testName
      ∧ (tableOf (liveMd hugeState) 0).map (fun t => t.pageNum) = some 1
      ∧ getTableByName hugeState testName = some (some 0)
      ∧ (createTable hugeState testName testSchema).map Prod.fst
          = some RC.RC_WRITE_FAILED := by
  decide!

set_option maxRecDepth 1000000 in
/-- C35 (the code at the failing input): after `createTable` of "a" and "b" and
`deleteTable("b")` the free list is page 2 alone, with `prevPage = 0` and
`nextPage = NO_PAGE`. With the table "a" open, `deleteRecord(&rel, (2, -12))` returns
`RC_OK` and page 2, still the head of the free list, has `nextPage = -256`: the list does
not end at `NO_PAGE`. `getFreePage` then returns `NO_PAGE` and leaves
`catalog.freePage = -256`. -/
theorem deleteRecord_breaks_free_list :
    pageCounts freedState = some (3, 2, 1, 3)
      ∧ nextOf (liveMd freedState) 2 = some NO_PAGE
      ∧ prevOf (liveMd freedState) 2 = some 0
      ∧ (openTable freedState testRel "a".toList).map Prod.fst = some RC.RC_OK
      ∧ (tableOf (liveMd freedOpen.1) 0).map (fun t => t.pageNum) = some 1
      ∧ (deleteRecord freedOpen.1 freedOpen.2 ⟨2, -12⟩).map Prod.fst = some RC.RC_OK
      ∧ pageCounts brokenState = some (3, 2, 1, 3)
      ∧ nextOf (liveMd brokenState) 2 = some (-256)
      ∧ (getFreePage brokenState).map (fun r => (r.1, pageCounts r.2))
          = some (NO_PAGE, some (3, -256, 1, 3)) := by
  decide!

set_option maxRecDepth 1000000 in
/-- C36 (the code at the failing input): on the table that was just opened, whose main
page 1 has `nextPage = NO_PAGE`, the four calls `deleteRecord(&rel, (1, s))` for
`s = -12, -11, -10, -9` return `RC_OK`; each clears one byte of the header's `nextPage`,
and page 1 then has `nextPage = 0`: the chain of the table leads to page 0, the catalog
page. -/
theorem deleteRecord_links_catalog_page :
    (tableOf (liveMd openedState.1) 0).map (fun t => t.pageNum) = some 1
      ∧ nextOf (liveMd openedState.1) 1 = some NO_PAGE
      ∧ deleteCodes openedState.2 openedState.1 linkSlots
          = [some RC.RC_OK, some RC.RC_OK, some RC.RC_OK, some RC.RC_OK]
      ∧ (tableOf (liveMd loopState) 0).map (fun t => t.pageNum) = some 1
      ∧ nextOf (liveMd loopState) 1 = some 0
      ∧ IsChain (liveMd loopState) 1 [1] 0 := by
  refine ⟨by decide!, by decide!, by decide!, by decide!, by decide!, ?_⟩
  exact ⟨rfl, by decide, 0, by decide!, rfl⟩

set_option maxRecDepth 1000000 in
/-- C37 (the code at the failing input): in `crowdedState` the catalog counts 17 pages and
the file has 17 pages; all sixteen frames are pinned. `createTable("p", testSchema)`
returns `RC_WRITE_FAILED`, and afterwards `totalNumPages` is 18 while the file still has
17 pages. Also `getRecord(&rel, (5, 0), &record)` on the table that was just opened
returns `RC_WRITE_FAILED` and leaves a file of 6 pages with `totalNumPages = 2`. -/
theorem totalNumPages_exceeds_file :
    pageCounts crowdedState = some (17, NO_PAGE, 15, 17)
      ∧ (createTable crowdedState "p".toList testSchema).map Prod.fst
          = some RC.RC_WRITE_FAILED
      ∧ pageCounts fullState = some (18, NO_PAGE, 16, 17)
      ∧ pageCounts openedState.1 = some (2, NO_PAGE, 1, 2)
      ∧ (getRecord openedState.1 openedState.2 ⟨5, 0⟩ (testRecord 0)).map Prod.fst
          = some RC.RC_WRITE_FAILED
      ∧ pageCounts farState = some (2, NO_PAGE, 1, 6) := by
  decide!

set_option maxRecDepth 1000000 in
/-- C39 (the code at the failing input): `initBufferPool` with `N = 5` and FIFO on a pool
structure whose `numPages` field held 3 leaves the cursor at 2, not at 4, and the first
miss loads its page into frame 3. On a zeroed pool structure the cursor is -1 for
`N = 3`; there the first three misses load into the frames 0, 1, 2. -/
theorem initBufferPool_cursor_from_old_numPages :
    threePool.numPages = 3
      ∧ (poolMd (newPool threePool 5 ReplacementStrategy.RS_FIFO)).queueIndex = 2
      ∧ framePages (poolAfter (newPool threePool 5 ReplacementStrategy.RS_FIFO) [PoolOp.pin 7])
          = [-1, -1, -1, 7, -1]
      ∧ (poolMd (newPool zeroPool 3 ReplacementStrategy.RS_FIFO)).queueIndex = -1
      ∧ framePages (poolAfter (newPool zeroPool 3 ReplacementStrategy.RS_FIFO)
          [PoolOp.pin 7, PoolOp.unpin 7, PoolOp.pin 8, PoolOp.unpin 8, PoolOp.pin 9])
          = [7, 8, 9] := by
  decide!

/-- A sequence of the five calls, without stores of the client, is a disciplined run. -/
theorem disciplined_of_calls : ∀ (ops : List PoolOp), (∀ op ∈ ops, op.isCall = true) →
    Disciplined [] ops
  | [], _ => trivial
  | op :: ops, h => by
    have hrest := disciplined_of_calls ops (fun o ho => h o (List.mem_cons_of_mem _ ho))
    have hop := h op (List.mem_cons_self _ _)
    cases op with
    | pin p => exact hrest
    | unpin p => exact ⟨by simp, hrest⟩
    | dirty p => exact hrest
    | force p => exact hrest
    | flush => exact hrest
    | store p d => cases hop

/-- C38: in every state that a sequence of `pinPage`, `unpinPage`, `markDirty`,
`forcePage` and `forceFlushPool` calls reaches from the pool `initBufferPool` built (any
number of frames, either strategy, any prior content of the pool structure), the page
table maps page `p` to frame `i` if and only if frame `i` is occupied and holds page `p`.
Hence no frame is the image of two pages, every occupied frame is the image of the page
it holds, no two occupied frames hold the same page number, and the keys of the page
table and the pages of the occupied frames are non-negative. -/
theorem pageTable_frame_bijection (bm0 : BM_BufferPool) (name : String)
    (pages : List PageContent) (n : Nat) (hn : n < 4294967296)
    (strategy : ReplacementStrategy) (ops : List PoolOp)
    (hcalls : ∀ op ∈ ops, op.isCall = true) (bm1 : BM_BufferPool)
    (hrun : runOps (initBufferPool bm0 name (some pages) (n : Int) strategy).2 ops = some bm1) :
    ∃ md, bm1.mgmtData = MgmtPtr.live md
      ∧ (∀ p i, 0 ≤ p → (getValue md.pageTable p = some (some i) ↔
          ∃ f, frameAt md i = some f ∧ f.occupied = true ∧ f.pageNum = p))
      ∧ (∀ p q i, 0 ≤ p → 0 ≤ q → getValue md.pageTable p = some (some i) →
          getValue md.pageTable q = some (some i) → p = q)
      ∧ (∀ i f, frameAt md i = some f → f.occupied = true →
          0 ≤ f.pageNum ∧ getValue md.pageTable f.pageNum = some (some i))
      ∧ (∀ i j f g, frameAt md i = some f → frameAt md j = some g → f.occupied = true →
          g.occupied = true → f.pageNum = g.pageNum → i = j)
      ∧ ∀ (k : Nat) (al : HT_ArrayList), md.pageTable.mgmt[k]? = some al →
          ∀ kv ∈ al.list, 0 ≤ kv.key := by
  obtain ⟨md0, r0⟩ := RunInv_init bm0 name pages n hn strategy
  obtain ⟨md, r⟩ := run_inv ops _ bm1 md0 _ [] r0 (disciplined_of_calls ops hcalls) hrun
  have hinv := r.ok.inv
  have himg : ∀ i f, frameAt md i = some f → f.occupied = true →
      0 ≤ f.pageNum ∧ getValue md.pageTable f.pageNum = some (some i) := by
    intro i f hf ho
    have h0 := ((hinv.frames i f hf).2.2 ho).1
    exact ⟨h0, (hinv.lookup f.pageNum i h0).mpr ⟨f, hf, ho, rfl⟩⟩
  refine ⟨md, r.ok.live, hinv.lookup, ?_, himg, ?_, ?_⟩
  · intro p q i hp hq h1 h2
    obtain ⟨f, hf, _, hfp⟩ := (hinv.lookup p i hp).mp h1
    obtain ⟨g, hg, _, hgq⟩ := (hinv.lookup q i hq).mp h2
    rw [hf] at hg
    cases hg
    rw [← hfp, ← hgq]
  · intro i j f g hf hg ho1 ho2 he
    have h1 := (himg i f hf ho1).2
    have h2 := (himg j g hg ho2).2
    rw [he, h2] at h1
    simp only [Option.some.injEq] at h1
    exact h1.symm
  · intro k al hk kv hkv
    exact (hinv.ht.keys k al hk kv hkv).1

set_option maxRecDepth 1000000 in
theorem pageTable_frame_bijection_witness :
    (∀ op ∈ touchRun, op.isCall = true)
      ∧ framePages (poolAfter (newPool zeroPool 3 ReplacementStrategy.RS_LRU) touchRun)
          = [1, 2, 4]
      ∧ ∃ md, (poolAfter (newPool zeroPool 3 ReplacementStrategy.RS_LRU) touchRun).mgmtData
          = MgmtPtr.live md
        ∧ (∀ p i, 0 ≤ p → (getValue md.pageTable p = some (some i) ↔
            ∃ f, frameAt md i = some f ∧ f.occupied = true ∧ f.pageNum = p))
        ∧ ∀ i j f g, frameAt md i = some f → frameAt md j = some g → f.occupied = true →
            g.occupied = true → f.pageNum = g.pageNum → i = j := by
  refine ⟨by decide, by decide!, ?_⟩
  obtain ⟨md, h1, h2, _, _, h5, _⟩ := pageTable_frame_bijection zeroPool "file" [emptyPage] 3
    (by norm_num) ReplacementStrategy.RS_LRU touchRun (by decide)
    (poolAfter (newPool zeroPool 3 ReplacementStrategy.RS_LRU) touchRun) (by decide!)
  exact ⟨md, h1, h2, h5⟩

/-! ## Time stamps along a run -/

theorem stamps_set (l : List BM_PageFrame) (i : Nat) (g : BM_PageFrame) :
    (l.set i g).map (fun f => f.timeStamp)
      = (l.map (fun f => f.timeStamp)).set i g.timeStamp := by
  rw [List.map_set]

theorem stamps_set_same {l : List BM_PageFrame} {i : Nat} {f g : BM_PageFrame}
    (hf : l[i]? = some f) (hg : g.timeStamp = f.timeStamp) :
    (l.set i g).map (fun f => f.timeStamp) = l.map (fun f => f.timeStamp) := by
  rw [stamps_set, hg]
  apply List.ext_getElem?
  intro j
  rw [List.getElem?_set]
  by_cases hij : i = j
  · subst hij
    rw [if_pos rfl, List.getElem?_map, hf]
    have hlt : i < l.length := by
      by_contra hc
      rw [List.getElem?_eq_none (by omega)] at hf
      cases hf
    simp [hlt]
  · rw [if_neg hij]

theorem SameStamps.keeps {md md1 : BM_Metadata} (h : SameStamps md md1) (hi : StampInv md) :
    StampInv md1 := by
  unfold StampInv
  rw [h.1, h.2]
  exact hi

theorem Drawn.advances {md md1 : BM_Metadata} (h : Drawn md md1) (hi : StampInv md)
    (hT : md.timeStamp + 1 < 4294967296) :
    StampInv md1 ∧ md1.timeStamp = md.timeStamp + 1 := by
  obtain ⟨i, _, hs, ht⟩ := h
  rw [Nat.mod_eq_of_lt hT] at ht
  refine ⟨⟨?_, ?_⟩, ht⟩
  · intro t hm
    rw [hs] at hm
    rw [ht]
    rcases List.mem_or_eq_of_mem_set hm with h1 | h1
    · have := hi.1 t h1
      omega
    · omega
  · rw [hs]
    apply hi.2.set
    intro hm
    have := hi.1 _ hm
    omega

theorem drawn_of_set {md md1 : BM_Metadata} {i : Int} {f g : BM_PageFrame}
    (hf : frameAt md i = some f) (hp : md1.pageFrames = md.pageFrames.set i.toNat g)
    (hg : g.timeStamp = md.timeStamp)
    (ht : md1.timeStamp = (md.timeStamp + 1) % 4294967296) : Drawn md md1 := by
  obtain ⟨_, hlt, _⟩ := frameAt_eq_some hf
  refine ⟨i.toNat, hlt, ?_, ht⟩
  unfold stampsOf
  rw [hp, stamps_set, hg]

theorem same_of_set {md md1 : BM_Metadata} {i : Int} {f g : BM_PageFrame}
    (hf : frameAt md i = some f) (hp : md1.pageFrames = md.pageFrames.set i.toNat g)
    (hg : g.timeStamp = f.timeStamp) (ht : md1.timeStamp = md.timeStamp) :
    SameStamps md md1 := by
  obtain ⟨_, _, he⟩ := frameAt_eq_some hf
  refine ⟨?_, ht⟩
  unfold stampsOf
  rw [hp, stamps_set_same he hg]

theorem getAfterEviction_drawn {md md2 : BM_Metadata} {j : Int}
    (h : getAfterEviction md j = some md2) : Drawn md md2 := by
  unfold getAfterEviction at h
  cases hf : frameAt md j with
  | none => rw [hf] at h; cases h
  | some f0 =>
    rw [hf] at h
    simp only [getTimeStamp] at h
    split at h
    · split at h
      · cases h
      · split at h
        · split at h
          · cases h
          · cases h
            exact drawn_of_set hf rfl rfl rfl
        · cases h
          exact drawn_of_set hf rfl rfl rfl
    · cases h
      exact drawn_of_set hf rfl rfl rfl

theorem replacementFIFO_stamps {md md2 : BM_Metadata} {n : Int} {r : Option Int}
    (h : replacementFIFO n md = some (r, md2)) : SameStamps md md2 ∨ Drawn md md2 := by
  unfold replacementFIFO at h
  split at h
  · cases h
  · simp only at h
    split at h
    · cases h
    · split at h
      · split at h
        · cases h
        · next md3 he =>
          cases h
          have hd := getAfterEviction_drawn he
          exact Or.inr hd
      · cases h
        left
        exact ⟨rfl, rfl⟩

theorem replacementLRU_stamps {md md2 : BM_Metadata} {n : Int} {r : Option Int}
    (h : replacementLRU n md = some (r, md2)) : SameStamps md md2 ∨ Drawn md md2 := by
  unfold replacementLRU at h
  split at h
  · cases h
  · split at h
    · cases h
      left
      exact ⟨rfl, rfl⟩
    · split at h
      · cases h
      · next md3 he =>
        cases h
        right
        exact getAfterEviction_drawn he

theorem loadPage_same {md1 md2 : BM_Metadata} {i p : Int}
    (h : loadPage md1 i p = some md2) : SameStamps md1 md2 := by
  unfold loadPage at h
  cases hf : frameAt md1 i with
  | none => rw [hf] at h; cases h
  | some f =>
    rw [hf] at h
    simp only at h
    split at h
    · cases h
    · split at h
      · cases h
      · split at h
        · cases h
        · cases h
          exact same_of_set hf rfl rfl rfl

theorem SameStamps.andDrawn {md md1 md2 : BM_Metadata} (a : SameStamps md md1)
    (b : Drawn md1 md2) : Drawn md md2 := by
  obtain ⟨i, hi, hs, ht⟩ := b
  have hl : md1.pageFrames.length = md.pageFrames.length := by
    have := congrArg List.length a.1
    unfold stampsOf at this
    simpa using this
  exact ⟨i, by omega, by rw [hs, a.1, a.2], by rw [ht, a.2]⟩

theorem Drawn.andSame {md md1 md2 : BM_Metadata} (a : Drawn md md1)
    (b : SameStamps md1 md2) : Drawn md md2 := by
  obtain ⟨i, hi, hs, ht⟩ := a
  exact ⟨i, hi, by rw [b.1, hs], by rw [b.2, ht]⟩

theorem SameStamps.thenSame {md md1 md2 : BM_Metadata} (a : SameStamps md md1)
    (b : SameStamps md1 md2) : SameStamps md md2 :=
  ⟨by rw [b.1, a.1], by rw [b.2, a.2]⟩

theorem SameStamps.frames {md md1 : BM_Metadata} (a : SameStamps md md1) :
    md1.pageFrames.length = md.pageFrames.length := by
  have := congrArg List.length a.1
  unfold stampsOf at this
  simpa using this

theorem Drawn.frameCount {md md1 : BM_Metadata} (a : Drawn md md1) :
    md1.pageFrames.length = md.pageFrames.length := by
  obtain ⟨i, _, hs, _⟩ := a
  have := congrArg List.length hs
  unfold stampsOf at this
  simpa using this

/-- What a call of the pool does to the time stamps: it draws none or one. -/
theorem pinPage_stamps {bm bm1 : BM_BufferPool} {md : BM_Metadata}
    (hlive : bm.mgmtData = MgmtPtr.live md) {page h : BM_PageHandle} {p : Int} {rc : RC}
    (hr : pinPage bm page p = some (rc, bm1, h)) :
    ∃ md1, bm1.mgmtData = MgmtPtr.live md1 ∧ bm1.numPages = bm.numPages
      ∧ (SameStamps md md1 ∨ Drawn md md1) := by
  unfold pinPage at hr
  rw [hlive] at hr
  simp only at hr
  split at hr
  · split at hr
    · cases hr
    · next fi hg =>
      cases hf : frameAt md fi with
      | none => rw [hf] at hr; cases hr
      | some f =>
        rw [hf] at hr
        simp only [getTimeStamp, Option.some.injEq, Prod.mk.injEq] at hr
        obtain ⟨_, hb, _⟩ := hr
        subst hb
        exact ⟨_, rfl, rfl, Or.inr (drawn_of_set hf rfl rfl rfl)⟩
    · have hrep : ∀ {r : Option Int} {mdx : BM_Metadata},
          (if bm.strategy = ReplacementStrategy.RS_FIFO then replacementFIFO bm.numPages md
            else replacementLRU bm.numPages md) = some (r, mdx) →
          SameStamps md mdx ∨ Drawn md mdx := by
        intro r mdx he
        split at he
        · exact replacementFIFO_stamps he
        · exact replacementLRU_stamps he
      split at hr
      · cases hr
      · next md1 he =>
        simp only [Option.some.injEq, Prod.mk.injEq] at hr
        obtain ⟨_, hb, _⟩ := hr
        subst hb
        exact ⟨md1, rfl, rfl, hrep he⟩
      · next i md1 he =>
        split at hr
        · cases hr
        · next md2 hl =>
          simp only [Option.some.injEq, Prod.mk.injEq] at hr
          obtain ⟨_, hb, _⟩ := hr
          subst hb
          refine ⟨md2, rfl, rfl, ?_⟩
          rcases hrep he with h1 | h1
          · exact Or.inl (h1.thenSame (loadPage_same hl))
          · exact Or.inr (h1.andSame (loadPage_same hl))
  · simp only [Option.some.injEq, Prod.mk.injEq] at hr
    obtain ⟨_, hb, _⟩ := hr
    subst hb
    exact ⟨md, hlive, rfl, Or.inl ⟨rfl, rfl⟩⟩

theorem unpinPage_stamps {bm bm1 : BM_BufferPool} {md : BM_Metadata}
    (hlive : bm.mgmtData = MgmtPtr.live md) {page : BM_PageHandle} {rc : RC}
    (hr : unpinPage bm page = some (rc, bm1)) :
    ∃ md1, bm1.mgmtData = MgmtPtr.live md1 ∧ bm1.numPages = bm.numPages
      ∧ (SameStamps md md1 ∨ Drawn md md1) := by
  unfold unpinPage at hr
  rw [hlive] at hr
  simp only at hr
  split at hr
  · cases hr
  · simp only [Option.some.injEq, Prod.mk.injEq] at hr
    obtain ⟨_, hb⟩ := hr
    subst hb
    exact ⟨md, hlive, rfl, Or.inl ⟨rfl, rfl⟩⟩
  · next fi hg =>
    cases hf : frameAt md fi with
    | none => rw [hf] at hr; cases hr
    | some f =>
      rw [hf] at hr
      simp only [getTimeStamp, Option.some.injEq, Prod.mk.injEq] at hr
      obtain ⟨_, hb⟩ := hr
      subst hb
      exact ⟨_, rfl, rfl, Or.inr (drawn_of_set hf rfl rfl rfl)⟩

theorem markDirty_stamps {bm bm1 : BM_BufferPool} {md : BM_Metadata}
    (hlive : bm.mgmtData = MgmtPtr.live md) {page : BM_PageHandle} {rc : RC}
    (hr : markDirty bm page = some (rc, bm1)) :
    ∃ md1, bm1.mgmtData = MgmtPtr.live md1 ∧ bm1.numPages = bm.numPages
      ∧ (SameStamps md md1 ∨ Drawn md md1) := by
  unfold markDirty at hr
  rw [hlive] at hr
  simp only at hr
  split at hr
  · cases hr
  · simp only [Option.some.injEq, Prod.mk.injEq] at hr
    obtain ⟨_, hb⟩ := hr
    subst hb
    exact ⟨md, hlive, rfl, Or.inl ⟨rfl, rfl⟩⟩
  · next fi hg =>
    cases hf : frameAt md fi with
    | none => rw [hf] at hr; cases hr
    | some f =>
      rw [hf] at hr
      simp only [getTimeStamp, Option.some.injEq, Prod.mk.injEq] at hr
      obtain ⟨_, hb⟩ := hr
      subst hb
      exact ⟨_, rfl, rfl, Or.inr (drawn_of_set hf rfl rfl rfl)⟩

theorem forcePage_stamps {bm bm1 : BM_BufferPool} {md : BM_Metadata}
    (hlive : bm.mgmtData = MgmtPtr.live md) {page : BM_PageHandle} {rc : RC}
    (hr : forcePage bm page = some (rc, bm1)) :
    ∃ md1, bm1.mgmtData = MgmtPtr.live md1 ∧ bm1.numPages = bm.numPages
      ∧ (SameStamps md md1 ∨ Drawn md md1) := by
  unfold forcePage at hr
  rw [hlive] at hr
  simp only at hr
  split at hr
  · cases hr
  · simp only [Option.some.injEq, Prod.mk.injEq] at hr
    obtain ⟨_, hb⟩ := hr
    subst hb
    exact ⟨md, hlive, rfl, Or.inl ⟨rfl, rfl⟩⟩
  · next fi hg =>
    cases hf : frameAt md fi with
    | none => rw [hf] at hr; cases hr
    | some f =>
      rw [hf] at hr
      simp only [getTimeStamp] at hr
      split at hr
      · split at hr
        · cases hr
        · simp only [Option.some.injEq, Prod.mk.injEq] at hr
          obtain ⟨_, hb⟩ := hr
          subst hb
          refine ⟨_, rfl, rfl, Or.inr ?_⟩
          refine @drawn_of_set md _ fi f { f with timeStamp := md.timeStamp, dirty := false }
            hf ?_ rfl rfl
          simp only [setFrame, List.set_set]
      · simp only [Option.some.injEq, Prod.mk.injEq] at hr
        obtain ⟨_, hb⟩ := hr
        subst hb
        exact ⟨_, rfl, rfl, Or.inr (drawn_of_set hf rfl rfl rfl)⟩

theorem storePage_stamps {bm bm1 : BM_BufferPool} {md : BM_Metadata}
    (hlive : bm.mgmtData = MgmtPtr.live md) {p : Int} {d : PageContent}
    (hr : storePage bm p d = some bm1) :
    ∃ md1, bm1.mgmtData = MgmtPtr.live md1 ∧ bm1.numPages = bm.numPages
      ∧ SameStamps md md1 := by
  unfold storePage at hr
  rw [hlive] at hr
  simp only at hr
  split at hr
  · next fi hg =>
    cases hf : frameAt md fi with
    | none => rw [hf] at hr; cases hr
    | some f =>
      rw [hf] at hr
      simp only at hr
      split at hr
      · cases hr
        exact ⟨_, rfl, rfl, same_of_set hf rfl rfl rfl⟩
      · cases hr
  · cases hr

/-- The loop of `forceFlushPool` draws one stamp for each frame it writes, at most `k`. -/
theorem forceFlushLoop_stamps : ∀ (k i : Nat) (md md1 : BM_Metadata) (B : Nat),
    forceFlushLoop k i md = some md1 → StampInv md → md.timeStamp ≤ B →
    B + k < 4294967296 →
    StampInv md1 ∧ md1.timeStamp ≤ B + k ∧ md1.pageFrames.length = md.pageFrames.length
  | 0, _, md, md1, B, h, hi, hB, _ => by
    unfold forceFlushLoop at h
    cases h
    exact ⟨hi, hB, rfl⟩
  | k + 1, i, md, md1, B, h, hi, hB, hk => by
    unfold forceFlushLoop at h
    cases hf : md.pageFrames[i]? with
    | none => rw [hf] at h; cases h
    | some f =>
      rw [hf] at h
      simp only at h
      split at h
      · split at h
        · cases h
        · next fh hw =>
          simp only [getTimeStamp] at h
          have hfa : frameAt md (i : Int) = some f := by
            unfold frameAt getI?
            simp [hf]
          have hd : Drawn md (setFrame
              { md with pageFile := fh, numWrite := md.numWrite + 1,
                        timeStamp := (md.timeStamp + 1) % 4294967296 } (i : Int)
              { f with timeStamp := md.timeStamp, dirty := false }) :=
            drawn_of_set hfa rfl rfl rfl
          obtain ⟨hi1, ht1⟩ := hd.advances hi (by omega)
          obtain ⟨h1, h2, h3⟩ := forceFlushLoop_stamps k (i + 1) _ md1 (B + 1) h hi1
            (by rw [ht1]; omega) (by omega)
          refine ⟨h1, by omega, ?_⟩
          rw [h3, hd.frameCount]
      · obtain ⟨h1, h2, h3⟩ := forceFlushLoop_stamps k (i + 1) md md1 B h hi hB (by omega)
        exact ⟨h1, by omega, h3⟩

theorem initFrames_stamps : ∀ (k i : Nat) (md : BM_Metadata),
    md.timeStamp + k < 4294967296 →
    stampsOf (initFrames k i md) = stampsOf md ++ List.range' md.timeStamp k
      ∧ (initFrames k i md).timeStamp = md.timeStamp + k
  | 0, _, md, _ => by
    unfold initFrames
    simp
  | k + 1, i, md, h => by
    unfold initFrames
    simp only [getTimeStamp]
    rw [Nat.mod_eq_of_lt (by omega)]
    obtain ⟨h1, h2⟩ := initFrames_stamps k (i + 1)
      { md with timeStamp := md.timeStamp + 1,
                pageFrames := md.pageFrames ++
                  [{ data := emptyPage, pageNum := NO_PAGE, frameIndex := (i : Int),
                     fixCount := 0, dirty := false, occupied := false,
                     timeStamp := md.timeStamp }] } (by simp only; omega)
    refine ⟨?_, ?_⟩
    · rw [h1]
      simp only [stampsOf, List.map_append, List.map_cons, List.map_nil, List.append_assoc,
        List.singleton_append, List.range'_succ]
    · rw [h2]
      simp only
      omega

theorem stamps_step {md md1 : BM_Metadata} {B : Nat} (h : SameStamps md md1 ∨ Drawn md md1)
    (hi : StampInv md) (hB : md.timeStamp ≤ B) (hlt : B + 1 < 4294967296) :
    StampInv md1 ∧ md1.timeStamp ≤ B + 1 ∧ md1.pageFrames.length = md.pageFrames.length := by
  rcases h with h | h
  · exact ⟨h.keeps hi, by rw [h.2]; omega, h.frames⟩
  · obtain ⟨h1, h2⟩ := h.advances hi (by omega)
    exact ⟨h1, by omega, h.frameCount⟩

/-- Along a run that draws fewer time stamps than the counter can count, the stamps of
the frames stay pairwise distinct and below the counter. -/
theorem run_stamps (n : Nat) : ∀ (ops : List PoolOp) (bm bm1 : BM_BufferPool)
    (md : BM_Metadata) (B : Nat), bm.mgmtData = MgmtPtr.live md → bm.numPages = (n : Int) →
    StampInv md → md.timeStamp ≤ B → B + drawBound n ops < 4294967296 →
    runOps bm ops = some bm1 →
    ∃ md1, bm1.mgmtData = MgmtPtr.live md1 ∧ StampInv md1
      ∧ md1.timeStamp ≤ B + drawBound n ops
      ∧ md1.pageFrames.length = md.pageFrames.length
  | [], bm, bm1, md, B, hl, _, hi, hB, _, h => by
    unfold runOps at h
    cases h
    exact ⟨md, hl, hi, by simp only [drawBound]; omega, rfl⟩
  | op :: ops, bm, bm1, md, B, hl, hn, hi, hB, hb, h => by
    unfold runOps at h
    cases ha : applyOp bm op with
    | none => rw [ha] at h; cases h
    | some bm2 =>
      rw [ha] at h
      simp only at h
      have one : ∀ (md2 : BM_Metadata), bm2.mgmtData = MgmtPtr.live md2 →
          bm2.numPages = bm.numPages → (SameStamps md md2 ∨ Drawn md md2) →
          B + (1 + drawBound n ops) < 4294967296 →
          ∃ md1, bm1.mgmtData = MgmtPtr.live md1 ∧ StampInv md1
            ∧ md1.timeStamp ≤ B + (1 + drawBound n ops)
            ∧ md1.pageFrames.length = md.pageFrames.length := by
        intro md2 hl2 hn2 hs hb1
        obtain ⟨hi2, hB2, hlen2⟩ := stamps_step hs hi hB (by omega)
        obtain ⟨md1, h1, h2, h3, h4⟩ := run_stamps n ops bm2 bm1 md2 (B + 1) hl2
          (by rw [hn2, hn]) hi2 hB2 (by omega) h
        exact ⟨md1, h1, h2, by omega, by rw [h4, hlen2]⟩
      cases op with
      | pin p =>
        simp only [applyOp] at ha
        cases hpin : pinPage bm uninitHandle p with
        | none => rw [hpin] at ha; cases ha
        | some res =>
          obtain ⟨rc, bm3, hh⟩ := res
          rw [hpin] at ha
          cases ha
          obtain ⟨md2, hl2, hn2, hs⟩ := pinPage_stamps hl hpin
          exact one md2 hl2 hn2 hs hb
      | unpin p =>
        simp only [applyOp] at ha
        cases hc : unpinPage bm ⟨p, none⟩ with
        | none => rw [hc] at ha; cases ha
        | some res =>
          obtain ⟨rc, bm3⟩ := res
          rw [hc] at ha
          cases ha
          obtain ⟨md2, hl2, hn2, hs⟩ := unpinPage_stamps hl hc
          exact one md2 hl2 hn2 hs hb
      | dirty p =>
        simp only [applyOp] at ha
        cases hc : markDirty bm ⟨p, none⟩ with
        | none => rw [hc] at ha; cases ha
        | some res =>
          obtain ⟨rc, bm3⟩ := res
          rw [hc] at ha
          cases ha
          obtain ⟨md2, hl2, hn2, hs⟩ := markDirty_stamps hl hc
          exact one md2 hl2 hn2 hs hb
      | force p =>
        simp only [applyOp] at ha
        cases hc : forcePage bm ⟨p, none⟩ with
        | none => rw [hc] at ha; cases ha
        | some res =>
          obtain ⟨rc, bm3⟩ := res
          rw [hc] at ha
          cases ha
          obtain ⟨md2, hl2, hn2, hs⟩ := forcePage_stamps hl hc
          exact one md2 hl2 hn2 hs hb
      | flush =>
        simp only [applyOp] at ha
        have hb1 : B + (n + drawBound n ops) < 4294967296 := hb
        unfold forceFlushPool at ha
        rw [hl] at ha
        simp only at ha
        cases hloop : forceFlushLoop bm.numPages.toNat 0 md with
        | none => rw [hloop] at ha; cases ha
        | some md2 =>
          rw [hloop] at ha
          simp only [Option.map_some', Option.some.injEq] at ha
          subst ha
          rw [hn, Int.toNat_ofNat] at hloop
          obtain ⟨hi2, hB2, hlen2⟩ := forceFlushLoop_stamps n 0 md md2 B hloop hi hB
            (by omega)
          obtain ⟨md1, h1, h2, h3, h4⟩ := run_stamps n ops { bm with mgmtData := MgmtPtr.live md2 } bm1 md2 (B + n) rfl hn hi2 hB2
            (by omega) h
          exact ⟨md1, h1, h2, by show md1.timeStamp ≤ B + (n + drawBound n ops); omega,
            by rw [h4, hlen2]⟩
      | store p d =>
        simp only [applyOp] at ha
        have hb1 : B + drawBound n ops < 4294967296 := hb
        obtain ⟨md2, hl2, hn2, hs⟩ := storePage_stamps hl ha
        obtain ⟨md1, h1, h2, h3, h4⟩ := run_stamps n ops bm2 bm1 md2 B hl2
          (by rw [hn2, hn]) (hs.keeps hi) (by rw [hs.2]; exact hB) hb1 h
        exact ⟨md1, h1, h2, h3, by rw [h4, hs.frames]⟩

/-- The pool `initBufferPool` builds: the frames carry the stamps `0, ..., n - 1` and the
counter is `n`. -/
theorem initBufferPool_stamps (bm0 : BM_BufferPool) (name : String)
    (pages : List PageContent) (n : Nat) (hn : n < 4294967296)
    (strategy : ReplacementStrategy) :
    ∃ md, (initBufferPool bm0 name (some pages) (n : Int) strategy).2.mgmtData
        = MgmtPtr.live md
      ∧ (initBufferPool bm0 name (some pages) (n : Int) strategy).2.numPages = (n : Int)
      ∧ StampInv md ∧ md.timeStamp = n ∧ md.pageFrames.length = n := by
  obtain ⟨h1, h2⟩ := initFrames_stamps n 0
    ⟨[], initHashTable PAGE_TABLE_SIZE, ⟨name, (pages.length : Int), 0, some pages⟩, 0,
      bm0.numPages - 1, 0, 0⟩ (by simpa using hn)
  refine ⟨initFrames n 0
    ⟨[], initHashTable PAGE_TABLE_SIZE, ⟨name, (pages.length : Int), 0, some pages⟩, 0,
      bm0.numPages - 1, 0, 0⟩, ?_, ?_, ⟨?_, ?_⟩, ?_, ?_⟩
  · unfold initBufferPool openPageFile
    simp only [Int.toNat_ofNat]
  · unfold initBufferPool openPageFile
    simp only
  · intro t ht
    rw [h1] at ht
    rw [h2]
    simp only [stampsOf, List.map_nil, List.nil_append, List.mem_range'_1] at ht
    simp only
    omega
  · rw [h1]
    simp only [stampsOf, List.map_nil, List.nil_append]
    exact List.nodup_range' _ _
  · rw [h2]
    simp
  · have := congrArg List.length h1
    simpa [stampsOf] using this

/-- C40 (as amended): in every state reached from the pool `initBufferPool` built with
`n` frames by a sequence of pool operations that can draw fewer than `2^32` time stamps
in all (the `n` stamps of the frames at initialisation, one for each `pinPage`,
`unpinPage`, `markDirty` and `forcePage`, `n` for each `forceFlushPool`), so that the
`unsigned int` counter has not wrapped around, the time stamps of the `n` frames are
pairwise distinct and each is strictly less than the pool's time stamp counter; hence
the smallest time stamp among the unpinned frames is carried by one frame only. -/
theorem timeStamps_unique_before_wrap (bm0 : BM_BufferPool) (name : String)
    (pages : List PageContent) (n : Nat) (strategy : ReplacementStrategy)
    (ops : List PoolOp) (hbound : n + drawBound n ops < 4294967296) (bm1 : BM_BufferPool)
    (hrun : runOps (initBufferPool bm0 name (some pages) (n : Int) strategy).2 ops = some bm1) :
    ∃ md, bm1.mgmtData = MgmtPtr.live md ∧ md.pageFrames.length = n
      ∧ md.timeStamp ≤ n + drawBound n ops
      ∧ (∀ i f, frameAt md i = some f → f.timeStamp < md.timeStamp)
      ∧ (∀ i j f g, frameAt md i = some f → frameAt md j = some g →
          f.timeStamp = g.timeStamp → i = j)
      ∧ ∀ i j f g, frameAt md i = some f → frameAt md j = some g →
          f.fixCount = 0 → g.fixCount = 0 →
          (∀ k h, frameAt md k = some h → h.fixCount = 0 → f.timeStamp ≤ h.timeStamp) →
          (∀ k h, frameAt md k = some h → h.fixCount = 0 → g.timeStamp ≤ h.timeStamp) →
          i = j := by
  obtain ⟨md0, hl0, hn0, hi0, ht0, hlen0⟩ :=
    initBufferPool_stamps bm0 name pages n (by omega) strategy
  obtain ⟨md, hl, hi, hB, hlen⟩ := run_stamps n ops _ bm1 md0 n hl0 hn0 hi0 (by omega)
    hbound hrun
  have hdist : ∀ i j f g, frameAt md i = some f → frameAt md j = some g →
      f.timeStamp = g.timeStamp → i = j := by
    intro i j f g hf hg he
    obtain ⟨hi0', hil, hie⟩ := frameAt_eq_some hf
    obtain ⟨hj0', hjl, hje⟩ := frameAt_eq_some hg
    have h1 : (stampsOf md)[i.toNat]? = some f.timeStamp := by
      unfold stampsOf
      rw [List.getElem?_map, hie]
      rfl
    have h2 : (stampsOf md)[j.toNat]? = some f.timeStamp := by
      unfold stampsOf
      rw [List.getElem?_map, hje, he]
      rfl
    have hli : i.toNat < (stampsOf md).length := by
      unfold stampsOf; rw [List.length_map]; exact hil
    have hlj : j.toNat < (stampsOf md).length := by
      unfold stampsOf; rw [List.length_map]; exact hjl
    rw [List.getElem?_eq_getElem hli] at h1
    rw [List.getElem?_eq_getElem hlj] at h2
    have h3 : (stampsOf md)[i.toNat] = (stampsOf md)[j.toNat] := by
      rw [Option.some.inj h1, Option.some.inj h2]
    have h4 := (hi.2.getElem_inj_iff).mp h3
    omega
  refine ⟨md, hl, by rw [hlen, hlen0], hB, ?_, hdist, ?_⟩
  · intro i f hf
    obtain ⟨_, _, hie⟩ := frameAt_eq_some hf
    apply hi.1
    unfold stampsOf
    exact List.mem_map.mpr ⟨f, List.getElem?_mem hie, rfl⟩
  · intro i j f g hf hg hf0 hg0 hmf hmg
    exact hdist i j f g hf hg (Nat.le_antisymm (hmf j g hg hg0) (hmg i f hf hf0))

set_option maxRecDepth 1000000 in
theorem timeStamps_unique_before_wrap_witness :
    3 + drawBound 3 touchRun < 4294967296
      ∧ frameInfo (poolAfter (newPool zeroPool 3 ReplacementStrategy.RS_LRU) touchRun)
          = [(1, 1, 10), (2, 0, 11), (4, 1, 12)]
      ∧ ∃ md, (poolAfter (newPool zeroPool 3 ReplacementStrategy.RS_LRU) touchRun).mgmtData
          = MgmtPtr.live md
        ∧ md.timeStamp ≤ 3 + drawBound 3 touchRun
        ∧ (∀ i f, frameAt md i = some f → f.timeStamp < md.timeStamp)
        ∧ ∀ i j f g, frameAt md i = some f → frameAt md j = some g →
            f.timeStamp = g.timeStamp → i = j := by
  refine ⟨by decide, by decide!, ?_⟩
  obtain ⟨md, h1, _, h3, h4, h5, _⟩ := timeStamps_unique_before_wrap zeroPool "file"
    [emptyPage] 3 ReplacementStrategy.RS_LRU touchRun (by decide)
    (poolAfter (newPool zeroPool 3 ReplacementStrategy.RS_LRU) touchRun) (by decide!)
  exact ⟨md, h1, h3, h4, h5⟩

/-! ## A run that wraps the time stamp counter -/

theorem runOps_cons (bm : BM_BufferPool) (op : PoolOp) (ops : List PoolOp) :
    runOps bm (op :: ops) = (applyOp bm op).bind (fun b => runOps b ops) := by
  rw [runOps]
  cases applyOp bm op with
  | none => rfl
  | some b => rfl

theorem runOps_single (bm : BM_BufferPool) (op : PoolOp) : runOps bm [op] = applyOp bm op := by
  rw [runOps_cons]
  cases applyOp bm op with
  | none => rfl
  | some b => rfl

theorem runOps_append : ∀ (ops1 ops2 : List PoolOp) (bm : BM_BufferPool),
    runOps bm (ops1 ++ ops2) = (runOps bm ops1).bind (fun b => runOps b ops2)
  | [], ops2, bm => rfl
  | op :: ops1, ops2, bm => by
    rw [List.cons_append, runOps_cons, runOps_cons]
    cases applyOp bm op with
    | none => rfl
    | some b => exact runOps_append ops1 ops2 b

/-- A sequence of `k + 1` calls `markDirty(p)` on a cached page: the frame carries the stamp
of the last call and the counter has advanced by `k + 1`, in `unsigned int` arithmetic. -/
theorem markDirty_repeat (p i : Int) : ∀ (k : Nat) (bm : BM_BufferPool) (md : BM_Metadata)
    (f : BM_PageFrame), bm.mgmtData = MgmtPtr.live md →
    getValue md.pageTable p = some (some i) → frameAt md i = some f →
    md.timeStamp < 4294967296 →
    ∃ mdk, mdk = setFrame { md with timeStamp := (md.timeStamp + k + 1) % 4294967296 } i
        { f with timeStamp := (md.timeStamp + k) % 4294967296, dirty := true }
      ∧ runOps bm (List.replicate (k + 1) (PoolOp.dirty p))
        = some { bm with mgmtData := MgmtPtr.live mdk }
  | 0, bm, md, f, hl, hg, hf, hT => by
    obtain ⟨md1, e1, e2⟩ := markDirty_eval bm md hl ⟨p, none⟩ hg hf
    refine ⟨_, rfl, ?_⟩
    show runOps bm [PoolOp.dirty p] = _
    rw [runOps_single]
    simp only [applyOp, e2, Option.map_some', e1, getTimeStamp]
    rw [show (md.timeStamp + 0) % 4294967296 = md.timeStamp from by
      rw [Nat.add_zero, Nat.mod_eq_of_lt hT]]
  | k + 1, bm, md, f, hl, hg, hf, hT => by
    obtain ⟨md1, e1, e2⟩ := markDirty_eval bm md hl ⟨p, none⟩ hg hf
    refine ⟨_, rfl, ?_⟩
    rw [List.replicate_succ, runOps_cons]
    simp only [applyOp, e2, Option.map_some', Option.some_bind]
    have hf1 : frameAt md1 i = some { f with timeStamp := md.timeStamp, dirty := true } := by
      rw [e1]
      have hf0 : frameAt (getTimeStamp md).2 i = some f := hf
      rw [frameAt_setFrame hf0, if_pos rfl]
    have hg1 : getValue md1.pageTable p = some (some i) := by
      rw [e1]
      exact hg
    have hT1 : md1.timeStamp < 4294967296 := by
      rw [e1]
      exact Nat.mod_lt _ (by norm_num)
    obtain ⟨mdk, ek, er⟩ := markDirty_repeat p i k { bm with mgmtData := MgmtPtr.live md1 }
      md1 _ rfl hg1 hf1 hT1
    rw [er, ek]
    have et : md1.timeStamp = (md.timeStamp + 1) % 4294967296 := by rw [e1]; rfl
    have a1 : (md1.timeStamp + k + 1) % 4294967296 = (md.timeStamp + (k + 1) + 1) % 4294967296 := by
      rw [et]; omega
    have a2 : (md1.timeStamp + k) % 4294967296 = (md.timeStamp + (k + 1)) % 4294967296 := by
      rw [et]; omega
    rw [a1, a2, e1]
    simp only [setFrame, getTimeStamp, List.set_set]

theorem unpinPage_eval (bm : BM_BufferPool) (md : BM_Metadata)
    (hlive : bm.mgmtData = MgmtPtr.live md) (page : BM_PageHandle) {i : Int}
    {f : BM_PageFrame} (hg : getValue md.pageTable page.pageNum = some (some i))
    (hf : frameAt md i = some f) :
    ∃ md1, md1 = setFrame (getTimeStamp md).2 i { f with timeStamp := md.timeStamp, fixCount := if f.fixCount - 1 < 0 then 0 else f.fixCount - 1 }
      ∧ unpinPage bm page = some (RC.RC_OK, { bm with mgmtData := MgmtPtr.live md1 }) := by
  refine ⟨_, rfl, ?_⟩
  unfold unpinPage
  rw [hlive]
  simp only [hg, hf, getTimeStamp]

set_option maxRecDepth 1000000 in
theorem pinnedPair_facts :
    runOps (newPool zeroPool 2 ReplacementStrategy.RS_LRU) [PoolOp.pin 0] = some pinnedPair
      ∧ pinnedPair.mgmtData = MgmtPtr.live (poolMd pinnedPair)
      ∧ getValue (poolMd pinnedPair).pageTable 0 = some (some 0)
      ∧ (poolMd pinnedPair).timeStamp = 3
      ∧ (frameAt (poolMd pinnedPair) 0).map (fun f => f.fixCount) = some 1
      ∧ (frameAt (poolMd pinnedPair) 1).map (fun f => (f.fixCount, f.timeStamp))
          = some (0, 1) := by
  decide!

/-- C40 fails as stated: on the pool of two frames under LRU, `pinPage(0)` followed by
`2^32 - 2` calls `markDirty(0)` and `unpinPage(0)` wraps the `unsigned int` counter around;
in the state reached both frames are unpinned and both carry the time stamp 1, so the
stamps are not pairwise distinct and the smallest stamp among the unpinned frames is
carried by two frames. -/
theorem timeStamps_collide_after_wrap :
    ∃ bm md f g,
      runOps (newPool zeroPool 2 ReplacementStrategy.RS_LRU)
          ([PoolOp.pin 0] ++ (List.replicate 4294967294 (PoolOp.dirty 0) ++ [PoolOp.unpin 0]))
        = some bm
      ∧ bm.mgmtData = MgmtPtr.live md ∧ frameAt md 0 = some f ∧ frameAt md 1 = some g
      ∧ f.fixCount = 0 ∧ g.fixCount = 0 ∧ f.timeStamp = 1 ∧ g.timeStamp = 1
      ∧ md.timeStamp = 2 := by
  obtain ⟨h1, h2, h3, h4, h5, h6⟩ := pinnedPair_facts
  generalize poolMd pinnedPair = md0 at h2 h3 h4 h5 h6
  generalize pinnedPair = P at h1 h2
  cases hf0 : frameAt md0 0 with
  | none => rw [hf0] at h5; cases h5
  | some f0 =>
    cases hg0 : frameAt md0 1 with
    | none => rw [hg0] at h6; cases h6
    | some g0 =>
      rw [hf0] at h5
      rw [hg0] at h6
      simp only [Option.map_some', Option.some.injEq, Prod.mk.injEq] at h5 h6
      obtain ⟨mdk, ek, hrep⟩ := markDirty_repeat 0 0 4294967293 P md0 f0 h2 h3 hf0
        (by rw [h4]; norm_num)
      rw [h4] at ek
      have n1 : (3 + 4294967293 + 1) % 4294967296 = 1 := by norm_num
      have n2 : (3 + 4294967293) % 4294967296 = 0 := by norm_num
      have n3 : 4294967293 + 1 = 4294967294 := by norm_num
      rw [n1, n2] at ek
      rw [n3] at hrep
      subst ek
      rw [runOps_append, h1, Option.some_bind, runOps_append, hrep, Option.some_bind,
        runOps_single]
      have hf0' : frameAt { md0 with timeStamp := 1 } 0 = some f0 := hf0
      have hfq : frameAt (setFrame { md0 with timeStamp := 1 } 0
          { f0 with timeStamp := 0, dirty := true }) 0
          = some { f0 with timeStamp := 0, dirty := true } := by
        rw [frameAt_setFrame hf0', if_pos rfl]
      have hgq : frameAt (setFrame { md0 with timeStamp := 1 } 0
          { f0 with timeStamp := 0, dirty := true }) 1 = some g0 := by
        rw [frameAt_setFrame hf0', if_neg (by decide)]
        exact hg0
      have hpt : getValue (setFrame { md0 with timeStamp := 1 } 0
          { f0 with timeStamp := 0, dirty := true }).pageTable 0 = some (some 0) := h3
      obtain ⟨mdF, eF, hu⟩ := unpinPage_eval { P with mgmtData := MgmtPtr.live (setFrame
        { md0 with timeStamp := 1 } 0 { f0 with timeStamp := 0, dirty := true }) } _ rfl
        ⟨0, none⟩ hpt hfq
      have hfq' : frameAt (getTimeStamp (setFrame { md0 with timeStamp := 1 } 0
          { f0 with timeStamp := 0, dirty := true })).2 0
          = some { f0 with timeStamp := 0, dirty := true } := hfq
      have key : ∃ fF, frameAt mdF 0 = some fF ∧ fF.fixCount = 0 ∧ fF.timeStamp = 1 := by
        rw [eF, frameAt_setFrame hfq', if_pos rfl]
        refine ⟨_, rfl, ?_, rfl⟩
        simp only [h5]
        decide
      obtain ⟨fF, hF, hFfix, hFts⟩ := key
      refine ⟨{ P with mgmtData := MgmtPtr.live mdF }, mdF, fF, g0, ?_, rfl, hF, ?_, hFfix, h6.1,
        hFts, h6.2, ?_⟩
      · simp only [applyOp, hu, Option.map_some']
      · rw [eF, frameAt_setFrame hfq', if_neg (by decide)]
        exact hgq
      · rw [eF]
        rfl

/-! ## `getFreePage` in detail -/

/-- Marking the catalog page dirty keeps every page pinnable that was pinnable. -/
theorem markSystemCatalogDirty_canPin {s : RMState} {md md1 : BM_Metadata} (c : Ctx s md)
    (e : markSystemCatalogDirty (withMd s md) = some (RC.RC_OK, withMd s md1)) :
    ∀ q, CanPin md q → CanPin md1 q := by
  obtain ⟨i, f, _, hf, ho, hpn, hfp⟩ := c.cat.1.frame c.base.inv
  obtain ⟨mdx, hmd, _, u⟩ := markDirty_spec c.base.poolOK s.catalogPageHandle c.cat.1.1 hf ho hpn
  have hx : mdx = md1 := by
    unfold markSystemCatalogDirty rmMarkDirty at e
    have hmd' : markDirty (withMd s md).bufferPool (withMd s md).catalogPageHandle
        = some (RC.RC_OK, { (withMd s md).bufferPool with mgmtData := MgmtPtr.live mdx }) := hmd
    rw [hmd'] at e
    simp only [Option.some.injEq, Prod.mk.injEq, true_and] at e
    exact withMd_inj e
  subst hx
  have hfix : 1 ≤ f.fixCount := by
    have := c.cat.2
    rw [fixOf_of_frameOfPage hfp] at this
    exact this
  intro q hq
  rcases hq with hq | ⟨j, g, hg, hg0, hgt⟩
  · left
    intro hn
    apply hq
    unfold frameOfPage at hn ⊢
    rw [u.table] at hn
    cases hv : getValue md.pageTable q with
    | none => rfl
    | some o =>
      cases o with
      | none => rfl
      | some k =>
        rw [hv] at hn
        simp only at hn ⊢
        by_cases hk : k = i
        · subst hk
          rw [u.new] at hn
          cases hn
        · rw [u.others k hk] at hn
          exact hn
  · right
    have hji : j ≠ i := by
      intro e1
      subst e1
      rw [hf] at hg
      cases hg
      omega
    exact ⟨j, g, by rw [u.others j hji]; exact hg, hg0, hgt⟩

/-- Following the links of pages whose `nextPage` is unchanged gives the same chain. -/
theorem IsChain_keep {md md1 : BM_Metadata} {h : Int}
    (hk : ∀ q v, 0 ≤ q → q ≠ h → nextOf md q = some v → nextOf md1 q = some v) :
    ∀ (rest : List Int) (p e : Int), IsChain md p rest e → h ∉ rest → IsChain md1 p rest e
  | [], _, _, hc, _ => hc
  | q :: rest, p, e, hc, hn => by
    obtain ⟨h1, h2, nx, h3, h4⟩ := hc
    have hq : q ≠ h := fun e1 => hn (by rw [e1]; exact List.mem_cons_self _ _)
    exact ⟨h1, h2, nx, hk q nx h2 hq h3,
      IsChain_keep hk rest nx e h4 (fun hm => hn (List.mem_cons_of_mem _ hm))⟩

theorem NO_PAGE_range : -2147483648 ≤ NO_PAGE ∧ NO_PAGE < 2147483648 := by
  unfold NO_PAGE
  omega

/-- The branch of `getFreePage` for an empty free list. -/
theorem getFreePage_new {s : RMState} {md : BM_Metadata} (c : Ctx s md) (ty : CatTyped md)
    {cat : RM_SystemCatalog} (hcat : catalogOf md = some cat) (hfp : cat.freePage = NO_PAGE)
    (hp0 : 0 ≤ cat.totalNumPages) {b : List Nat}
    (hb : bytesOf md cat.totalNumPages = some b) (hl : 8 ≤ b.length) :
    ∃ r md1, getFreePage (withMd s md) = some (r, withMd s md1)
      ∧ (r = cat.totalNumPages ∨ r = NO_PAGE)
      ∧ (CanPin md cat.totalNumPages → r = cat.totalNumPages)
      ∧ (r = cat.totalNumPages → FreshTaken md md1 cat b) := by
  have hT0 : cat.totalNumPages ≠ 0 := ty.ne_zero hb
  unfold getFreePage
  rw [getSystemCatalog_eq c, hcat]
  simp only
  rw [if_pos hfp]
  obtain ⟨md1, e1, u1⟩ := setSystemCatalog_spec c hcat
    { cat with totalNumPages := cat.totalNumPages + 1 }
  rw [e1]
  simp only
  have c1 : Ctx s md1 := Ctx_upd c u1
  obtain ⟨md2, e2, t2, hpts2, _, _⟩ := markSystemCatalogDirty_spec c1
  rw [e2]
  simp only
  have c2 : Ctx s md2 := Ctx_touch c1 t2 (Or.inl (le_refl 0))
  have hv2 : ∀ q, 0 ≤ q → viewPage md2 q
      = if q = 0 then PageContent.catalog { cat with totalNumPages := cat.totalNumPages + 1 }
        else viewPage md q := by
    intro q hq
    rw [t2.view q hq, u1.view q hq]
  have hfix2 : ∀ q, 0 ≤ q → fixOf md2 q = fixOf md q := by
    intro q hq
    rw [t2.fix q hq, u1.fix q hq]; simp
  rcases Temp.pin c2.base uninitHandle hp0 with ⟨md3, hd, e3, tm3, hv3, _, _⟩ | ⟨e3, hncp⟩
  · rw [e3]
    simp only [ne_eq, not_true_eq_false, if_false]
    have hb3 : bytesOf md3 hd.pageNum = some b := by
      unfold bytesOf
      rw [tm3.page, hv3 _ hp0, hv2 _ hp0, if_neg hT0]
      exact hb
    obtain ⟨b0, hw0⟩ := @writeInt_isSome b 4 NO_PAGE (by omega) (by omega)
    obtain ⟨md4, e4, u4⟩ := writeHeaderField_spec tm3.base tm3.held hb3 hw0
    rw [tm3.page] at u4
    rw [e4]
    simp only
    have tm4 := tm3.upd u4
    have hb4 : bytesOf md4 hd.pageNum = some b0 := by
      rw [tm3.page]
      exact bytesOf_upd u4 hp0
    have hl0 : b0.length = b.length := writeInt_length hw0
    obtain ⟨b1, hw1⟩ := @writeInt_isSome b0 0 NO_PAGE (by omega) (by omega)
    obtain ⟨md5, e5, u5⟩ := writeHeaderField_spec tm4.base tm4.held hb4 hw1
    rw [tm3.page] at u5
    rw [e5]
    simp only
    have tm5 := tm4.upd u5
    obtain ⟨md6, e6, tm6, hv6, hs6, _⟩ := tm5.markDirty
    rw [e6]
    simp only
    obtain ⟨md7, e7, hb7, hv7, hf7, hk7, _⟩ := tm6.unpin hs6
    rw [e7]
    simp only [ne_eq, not_true_eq_false, if_false]
    have hv : ∀ q, 0 ≤ q → viewPage md7 q
        = if q = cat.totalNumPages then PageContent.bytes b1
          else if q = 0
            then PageContent.catalog { cat with totalNumPages := cat.totalNumPages + 1 }
            else viewPage md q := by
      intro q hq
      rw [hv7 q hq, hv6 q hq, u5.view q hq]
      by_cases hqT : q = cat.totalNumPages
      · rw [if_pos hqT, if_pos hqT]
      · rw [if_neg hqT, if_neg hqT, u4.view q hq, if_neg hqT, hv3 q hq, hv2 q hq]
    have hbT : bytesOf md7 cat.totalNumPages = some b1 := by
      unfold bytesOf
      rw [hv _ hp0, if_pos rfl]
      rfl
    refine ⟨cat.totalNumPages, md7, rfl, Or.inl rfl, fun _ => rfl, fun _ => ⟨?_, ?_, ?_, ?_, ?_, ?_⟩⟩
    · unfold catalogOf
      rw [hv 0 (le_refl 0), if_neg (fun e => hT0 e.symm), if_pos rfl]
      rfl
    · exact ⟨b0, b1, hw0, hw1, hbT⟩
    · unfold nextOf
      rw [hbT]
      exact readInt_writeInt_same hw1 NO_PAGE_range.1 NO_PAGE_range.2
    · unfold prevOf
      rw [hbT]
      show readInt b1 4 = some NO_PAGE
      rw [readInt_writeInt_other hw1 4 (Or.inr (by omega))]
      exact readInt_writeInt_same hw0 NO_PAGE_range.1 NO_PAGE_range.2
    · intro q hq hq0 hqT
      rw [hv q hq, if_neg hqT, if_neg hq0]
    · intro q hq
      rw [hf7 q hq, hfix2 q hq]
  · rw [e3]
    simp only [ne_eq, reduceCtorEq, not_false_eq_true, if_true]
    refine ⟨NO_PAGE, md2, rfl, Or.inr rfl, fun hcp => ?_, fun hr => ?_⟩
    · exact absurd (markSystemCatalogDirty_canPin c1 e2 _ (u1.canPin _ hcp)) hncp
    · rw [← hr] at hp0
      unfold NO_PAGE at hp0
      omega

/-- The tail of `getFreePage` that sets the `prevPage` of the new head `nx` to 0. -/
theorem getFreePageFixNext_detail {s : RMState} {md : BM_Metadata} (c : Ctx s md)
    (handle : BM_PageHandle) (np : Int) {nx : Int} (hnx : 0 ≤ nx) {bn : List Nat}
    (hbn : bytesOf md nx = some bn) (hl : 8 ≤ bn.length) (hnp : np ≠ NO_PAGE) :
    ∃ r md1, getFreePageFixNext (withMd s md) handle np nx = some (r, withMd s md1)
      ∧ (r = np ∨ (r = NO_PAGE ∧ md1 = md ∧ ¬ CanPin md nx))
      ∧ (r = np → ∃ bn1, writeInt bn 4 0 = some bn1
          ∧ (∀ q, 0 ≤ q → viewPage md1 q
              = if q = nx then PageContent.bytes bn1 else viewPage md q)
          ∧ ∀ q, 0 ≤ q → fixOf md1 q = fixOf md q) := by
  unfold getFreePageFixNext
  rcases Temp.pin c.base handle hnx with ⟨md1, hd, e, tm, hv, _, _⟩ | ⟨e, hncp⟩
  · rw [e]
    simp only [ne_eq, not_true_eq_false, if_false]
    have hb1 : bytesOf md1 hd.pageNum = some bn := by
      unfold bytesOf
      rw [tm.page, hv _ hnx]
      exact hbn
    obtain ⟨bn1, hw⟩ := @writeInt_isSome bn 4 0 (by omega) (by omega)
    obtain ⟨md2, e2, u2⟩ := writeHeaderField_spec tm.base tm.held hb1 hw
    rw [tm.page] at u2
    rw [e2]
    simp only
    have tm2 := tm.upd u2
    obtain ⟨md3, e3, tm3, hv3, hs3, _⟩ := tm2.markDirty
    rw [e3]
    simp only
    obtain ⟨md4, e4, _, hv4, hf4, _, _⟩ := tm3.unpin hs3
    rw [e4]
    simp only [ne_eq, not_true_eq_false, if_false]
    refine ⟨np, md4, rfl, Or.inl rfl, fun _ => ⟨bn1, hw, ?_, hf4⟩⟩
    intro q hq
    rw [hv4 q hq, hv3 q hq, u2.view q hq]
    by_cases hqn : q = nx
    · rw [if_pos hqn, if_pos hqn]
    · rw [if_neg hqn, if_neg hqn, hv q hq]
  · rw [e]
    simp only [ne_eq, reduceCtorEq, not_false_eq_true, if_true]
    exact ⟨NO_PAGE, md, rfl, Or.inr ⟨rfl, rfl, hncp⟩, fun hr => absurd hr.symm hnp⟩

theorem nextOf_of_view {md md1 : BM_Metadata} {q : Int}
    (h : viewPage md1 q = viewPage md q) : nextOf md1 q = nextOf md q := by
  unfold nextOf bytesOf
  rw [h]

/-- The branch of `getFreePage` for a free list with head `cat.freePage`. -/
theorem getFreePage_head {s : RMState} {md : BM_Metadata} (c : Ctx s md) (ty : CatTyped md)
    {cat : RM_SystemCatalog} (hcat : catalogOf md = some cat) (hfp : cat.freePage ≠ NO_PAGE)
    (hp0 : 0 ≤ cat.freePage) {b : List Nat} (hb : bytesOf md cat.freePage = some b)
    (hl : 8 ≤ b.length) {nx : Int} (hnext : headerNextPage b = some nx)
    (hnx : nx ≠ NO_PAGE →
      0 ≤ nx ∧ nx ≠ cat.freePage ∧ ∃ bn, bytesOf md nx = some bn ∧ 8 ≤ bn.length) :
    ∃ r md1, getFreePage (withMd s md) = some (r, withMd s md1)
      ∧ (r = cat.freePage ∨ r = NO_PAGE)
      ∧ (CanPin md cat.freePage → nx = NO_PAGE → r = cat.freePage)
      ∧ (CanPin md cat.freePage → r = NO_PAGE →
          (∀ q, 0 ≤ q → fixOf md1 q = fixOf md q) ∧ ¬ CanPin md1 nx)
      ∧ (r = cat.freePage → HeadTaken md md1 cat nx) := by
  have hh0 : cat.freePage ≠ 0 := ty.ne_zero hb
  unfold getFreePage
  rw [getSystemCatalog_eq c, hcat]
  simp only
  rw [if_neg hfp]
  rcases Temp.pin c.base uninitHandle hp0 with ⟨md1, hd, e1, tm1, hv1, _, _⟩ | ⟨e1, hncp⟩
  · rw [e1]
    simp only [ne_eq, not_true_eq_false, if_false]
    have ty1 : CatTyped md1 := CatTyped_view hv1 ty
    have hb1 : bytesOf md1 hd.pageNum = some b := by
      unfold bytesOf
      rw [tm1.page, hv1 _ hp0]
      exact hb
    rw [pageBytes_eq tm1.base.inv tm1.held.1, hb1]
    simp only [Option.some_bind, hnext]
    obtain ⟨b0, hw0⟩ := @writeInt_isSome b 4 NO_PAGE (by omega) (by omega)
    obtain ⟨md2, e2, u2⟩ := writeHeaderField_spec tm1.base tm1.held hb1 hw0
    rw [tm1.page] at u2
    rw [e2]
    simp only
    have tm2 := tm1.upd u2
    have hb2 : bytesOf md2 hd.pageNum = some b0 := by
      rw [tm1.page]
      exact bytesOf_upd u2 hp0
    have hl0 : b0.length = b.length := writeInt_length hw0
    obtain ⟨b1, hw1⟩ := @writeInt_isSome b0 0 NO_PAGE (by omega) (by omega)
    obtain ⟨md3, e3, u3⟩ := writeHeaderField_spec tm2.base tm2.held hb2 hw1
    rw [tm1.page] at u3
    rw [e3]
    simp only
    have tm3 := tm2.upd u3
    have hb1' : bytesOf md1 cat.freePage = some b := by rw [← tm1.page]; exact hb1
    have hb2' : bytesOf md2 cat.freePage = some b0 := by rw [← tm1.page]; exact hb2
    have ty2 : CatTyped md2 := CatTyped_upd_bytes ty1 hb1' u2
    have ty3 : CatTyped md3 := CatTyped_upd_bytes ty2 hb2' u3
    have c3 : Ctx s md3 := tm3.ctx c
    have hcat3 : catalogOf md3 = some cat := by
      rw [catalogOf_upd_bytes ty2 hb2' u3, catalogOf_upd_bytes ty1 hb1' u2, catalogOf_view hv1]
      exact hcat
    rw [getSystemCatalog_eq c3, hcat3]
    simp only
    obtain ⟨md4, e4, u4⟩ := setSystemCatalog_spec c3 hcat3 { cat with freePage := nx }
    rw [e4]
    simp only
    have tm4 := tm3.upd u4
    obtain ⟨md5, e5, tm5, hv5, hs5, _⟩ := tm4.markDirty
    rw [e5]
    simp only
    have c5 : Ctx s md5 := tm5.ctx c
    obtain ⟨md6, e6, t6, hpts6, _, _⟩ := markSystemCatalogDirty_spec c5
    rw [e6]
    simp only
    have tm6 := tm5.touch t6 hpts6
    have hs6 : Safe md6 cat.freePage :=
      t6.step.safe _ hp0 hs5 (by rw [t6.fix _ hp0]; simp) (t6.view _ hp0)
    obtain ⟨md7, e7, hb7, hv7, hf7, hk7, _⟩ := tm6.unpin hs6
    rw [e7]
    simp only [ne_eq, not_true_eq_false, if_false]
    have c7 : Ctx s md7 := Ctx_of_keep c hb7 hk7
    have hv : ∀ q, 0 ≤ q → viewPage md7 q
        = if q = 0 then PageContent.catalog { cat with freePage := nx }
          else if q = cat.freePage then PageContent.bytes b1 else viewPage md q := by
      intro q hq
      rw [hv7 q hq, t6.view q hq, hv5 q hq, u4.view q hq]
      by_cases hq0 : q = 0
      · rw [if_pos hq0, if_pos hq0]
      · rw [if_neg hq0, if_neg hq0, u3.view q hq]
        by_cases hqh : q = cat.freePage
        · rw [if_pos hqh, if_pos hqh]
        · rw [if_neg hqh, if_neg hqh, u2.view q hq, if_neg hqh, hv1 q hq]
    have hcat7 : catalogOf md7 = some { cat with freePage := nx } := by
      unfold catalogOf
      rw [hv 0 (le_refl 0), if_pos rfl]
      rfl
    have hbh7 : bytesOf md7 cat.freePage = some b1 := by
      unfold bytesOf
      rw [hv _ hp0, if_neg hh0, if_pos rfl]
      rfl
    have hr1 : readInt b1 0 = some NO_PAGE :=
      readInt_writeInt_same hw1 NO_PAGE_range.1 NO_PAGE_range.2
    have hr2 : readInt b1 4 = some NO_PAGE := by
      rw [readInt_writeInt_other hw1 4 (Or.inr (by omega))]
      exact readInt_writeInt_same hw0 NO_PAGE_range.1 NO_PAGE_range.2
    by_cases hnn : nx = NO_PAGE
    · rw [if_pos hnn]
      refine ⟨cat.freePage, md7, rfl, Or.inl rfl, fun _ _ => rfl,
        fun _ hr => absurd hr hfp, fun _ => ⟨hcat7, ?_, ?_, fun h => absurd hnn h, ?_, hf7, ?_⟩⟩
      · unfold nextOf
        rw [hbh7]
        exact hr1
      · unfold prevOf
        rw [hbh7]
        exact hr2
      · intro q hq hq0 hqh _
        rw [hv q hq, if_neg hq0, if_neg hqh]
      · intro rest hch hnot
        refine @IsChain_keep md md7 cat.freePage ?_ rest nx NO_PAGE hch hnot
        intro q v hq hqh hnq
        have hq0 : q ≠ 0 := by
          intro e
          subst e
          unfold nextOf at hnq
          cases hbq : bytesOf md 0 with
          | none => rw [hbq] at hnq; cases hnq
          | some bq => exact ty.ne_zero hbq rfl
        rw [@nextOf_of_view md md7 q (by rw [hv q hq, if_neg hq0, if_neg hqh])]
        exact hnq
    · rw [if_neg hnn]
      obtain ⟨hnx0, hnxh, bn, hbn, hln⟩ := hnx hnn
      have hn0 : nx ≠ 0 := ty.ne_zero hbn
      have hbn7 : bytesOf md7 nx = some bn := by
        unfold bytesOf
        rw [hv _ hnx0, if_neg hn0, if_neg hnxh]
        exact hbn
      obtain ⟨r, md8, e8, hr8, hd8⟩ := getFreePageFixNext_detail c7 hd cat.freePage hnx0 hbn7
        hln hfp
      rw [e8]
      refine ⟨r, md8, rfl, ?_, fun _ h => absurd h hnn, ?_, ?_⟩
      · rcases hr8 with h | ⟨h, _, _⟩
        · exact Or.inl h
        · exact Or.inr h
      · intro _ hr
        rcases hr8 with h | ⟨_, hmd, hncp⟩
        · exact absurd (h.symm.trans hr) hfp
        · rw [hmd]
          exact ⟨hf7, hncp⟩
      · intro hr
        obtain ⟨bn1, hwn, hv8, hf8⟩ := hd8 hr
        have hbn8 : bytesOf md8 nx = some bn1 := by
          unfold bytesOf
          rw [hv8 _ hnx0, if_pos rfl]
          rfl
        have hnext8 : nextOf md8 nx = nextOf md nx := by
          unfold nextOf
          rw [hbn8, hbn]
          show readInt bn1 0 = readInt bn 0
          exact readInt_writeInt_other hwn 0 (Or.inl (by omega))
        refine ⟨?_, ?_, ?_, fun _ => ⟨?_, hnext8⟩, ?_, ?_, ?_⟩
        · unfold catalogOf
          rw [hv8 0 (le_refl 0), if_neg (fun e => hn0 e.symm)]
          exact hcat7
        · unfold nextOf bytesOf
          rw [hv8 _ hp0, if_neg (fun e => hnxh e.symm)]
          have := hbh7
          unfold bytesOf at this
          rw [this]
          exact hr1
        · unfold prevOf bytesOf
          rw [hv8 _ hp0, if_neg (fun e => hnxh e.symm)]
          have := hbh7
          unfold bytesOf at this
          rw [this]
          exact hr2
        · unfold prevOf
          rw [hbn8]
          exact readInt_writeInt_same hwn (by omega) (by omega)
        · intro q hq hq0 hqh hqn
          rw [hv8 q hq, if_neg hqn, hv q hq, if_neg hq0, if_neg hqh]
        · intro q hq
          rw [hf8 q hq, hf7 q hq]
        · intro rest hch hnot
          refine @IsChain_keep md md8 cat.freePage ?_ rest nx NO_PAGE hch hnot
          intro q v hq hqh hnq
          have hq0 : q ≠ 0 := by
            intro e
            subst e
            unfold nextOf at hnq
            cases hbq : bytesOf md 0 with
            | none => rw [hbq] at hnq; cases hnq
            | some bq => exact ty.ne_zero hbq rfl
          by_cases hqn : q = nx
          · rw [hqn, hnext8, ← hqn]
            exact hnq
          · rw [@nextOf_of_view md md8 q
              (by rw [hv8 q hq, if_neg hqn, hv q hq, if_neg hq0, if_neg hqh])]
            exact hnq
  · rw [e1]
    simp only [ne_eq, reduceCtorEq, not_false_eq_true, if_true]
    exact ⟨NO_PAGE, md, rfl, Or.inr rfl, fun hcp => absurd hcp hncp,
      fun hcp => absurd hcp hncp, fun hr => absurd hr.symm hfp⟩

/-- C34 (as amended): on an initialised record manager with catalog `cat`, where the pages
the call touches are data pages. When `cat.freePage = NO_PAGE`, `getFreePage` returns the
old `totalNumPages` or `NO_PAGE`; it returns the old `totalNumPages` whenever the buffer
pool can pin that page (the page is cached or a frame can be taken), and then
`totalNumPages` is one higher and the returned page has `nextPage = prevPage = NO_PAGE`
(`FreshTaken`). When the free list is not empty and its head `h = cat.freePage` has the
`nextPage` `nx`, it returns `h` or `NO_PAGE`; it returns `h` whenever the pool can pin `h`
and `nx = NO_PAGE`, and `NO_PAGE` only when the pool refuses a pin; when it returns `h`,
`totalNumPages` is unchanged, `catalog.freePage` is `nx`, `h` has
`nextPage = prevPage = NO_PAGE`, the new head `nx`, if there is one, has `prevPage = 0`,
and the free list is the old free list without `h` (`HeadTaken`). In both cases every
other page and every fix count is as before. -/
theorem getFreePage_result (s : RMState) (md : BM_Metadata) (c : Ctx s md) (ty : CatTyped md)
    (cat : RM_SystemCatalog) (hcat : catalogOf md = some cat) :
    (cat.freePage = NO_PAGE → 0 ≤ cat.totalNumPages →
        ∀ b, bytesOf md cat.totalNumPages = some b → 8 ≤ b.length →
        ∃ r md1, getFreePage (withMd s md) = some (r, withMd s md1)
          ∧ (r = cat.totalNumPages ∨ r = NO_PAGE)
          ∧ (CanPin md cat.totalNumPages → r = cat.totalNumPages)
          ∧ (r = cat.totalNumPages → FreshTaken md md1 cat b))
      ∧ (cat.freePage ≠ NO_PAGE → 0 ≤ cat.freePage →
          ∀ b nx, bytesOf md cat.freePage = some b → 8 ≤ b.length →
          headerNextPage b = some nx →
          (nx ≠ NO_PAGE →
            0 ≤ nx ∧ nx ≠ cat.freePage ∧ ∃ bn, bytesOf md nx = some bn ∧ 8 ≤ bn.length) →
          ∃ r md1, getFreePage (withMd s md) = some (r, withMd s md1)
            ∧ (r = cat.freePage ∨ r = NO_PAGE)
            ∧ (CanPin md cat.freePage → nx = NO_PAGE → r = cat.freePage)
            ∧ (CanPin md cat.freePage → r = NO_PAGE →
                (∀ q, 0 ≤ q → fixOf md1 q = fixOf md q) ∧ ¬ CanPin md1 nx)
            ∧ (r = cat.freePage → HeadTaken md md1 cat nx)) :=
  ⟨fun hfp hp0 _ hb hl => getFreePage_new c ty hcat hfp hp0 hb hl,
    fun hfp hp0 _ _ hb hl hnext hnx => getFreePage_head c ty hcat hfp hp0 hb hl hnext hnx⟩

set_option maxRecDepth 1000000 in
/-- C34 fails as stated: in `crowdedState` the free list is empty and the catalog counts
17 pages, but `getFreePage` returns `NO_PAGE`, not 17: all sixteen frames of the pool are
pinned, so the new page cannot be pinned. -/
theorem getFreePage_fails_when_pool_pinned :
    pageCounts crowdedState = some (17, NO_PAGE, 15, 17)
      ∧ (getFreePage crowdedState).map Prod.fst = some NO_PAGE := by
  decide!

set_option maxRecDepth 1000000 in
theorem createdState_free_facts :
    createdCatalog.totalNumPages = 2
      ∧ createdCatalog.freePage = NO_PAGE
      ∧ (bytesOf (liveMd createdState) 2).map (fun b => decide (8 ≤ b.length)) = some true
      ∧ (frameAt (liveMd createdState) 15).map
          (fun f => decide (f.fixCount = 0 ∧ f.timeStamp < UINT_MAX)) = some true := by
  decide!

set_option maxRecDepth 1000000 in
theorem oneFreeState_facts :
    (deleteTable 4 createdState testName).map Prod.fst = some RC.RC_OK
      ∧ (catalogOf (liveMd oneFreeState)).map (fun c => (c.freePage, c.totalNumPages))
          = some (1, 2)
      ∧ (bytesOf (liveMd oneFreeState) 1).map
          (fun b => (decide (8 ≤ b.length), headerNextPage b)) = some (true, some NO_PAGE)
      ∧ (frameOfPage (liveMd oneFreeState) 1).isSome = true
      ∧ isCatalog (viewPage (liveMd oneFreeState) 0) = true := by
  decide!

theorem CatTyped_of_isCatalog {md : BM_Metadata}
    (h : isCatalog (viewPage md 0) = true) : CatTyped md := by
  cases hv : viewPage md 0 with
  | bytes b => rw [hv] at h; cases h
  | catalog c0 => exact ⟨c0, hv⟩

/-- The state after `createTable` and `deleteTable` on the new page file is initialised. -/
theorem oneFreeState_ready :
    oneFreeState = withMd freshState (liveMd oneFreeState)
      ∧ Ctx freshState (liveMd oneFreeState) ∧ CatTyped (liveMd oneFreeState) := by
  obtain ⟨cat, catF, tF, _, hs1, cr⟩ := createdState_created
  obtain ⟨h1, h2, h3, h4, h5, h6, h7, h8, h9⟩ := createdCatalog_facts
  have hty : Typed (liveMd createdState) [1] := by
    intro q hq
    rw [List.mem_singleton.1 hq]
    cases hb : bytesOf (liveMd createdState) 1 with
    | none => rw [hb] at h8; cases h8
    | some b =>
      rw [hb] at h8
      exact ⟨b, rfl, by simpa using h8⟩
  have hch : IsChain (liveMd createdState) createdTable.pageNum [1] NO_PAGE :=
    ⟨h6, by decide, NO_PAGE, h7, rfl⟩
  obtain ⟨rc, md1, e, hres, _⟩ := @deleteTableAt_spec freshState (liveMd createdState)
    createdCatalog cr.ctx cr.typed createdCatalog_eq 0 createdTable h3 h2 [1] hch (by decide)
    hty 4 (by decide) (Or.inl h9)
  have hdel : deleteTable 4 createdState testName = some (rc, withMd freshState md1) := by
    rw [hs1]
    unfold deleteTable
    rw [getSystemCatalog_eq cr.ctx, createdCatalog_eq]
    simp only
    rw [deleteTableLoop_found 4 _ createdCatalog testName h4 h5 createdCatalog.numTables.toNat 0
      (Nat.zero_le _) (by omega) (fun j u _ h3 _ => by omega)]
    exact e
  have hok := oneFreeState_facts.1
  rw [hdel] at hok
  simp only [Option.map_some', Option.some.injEq] at hok
  have hone : oneFreeState = withMd freshState md1 := by
    unfold oneFreeState
    rw [hdel]
    rfl
  rcases hres with h | ⟨_, hc, cat1, hcat1, _⟩
  · rw [h] at hok
    cases hok
  · have hty1 := CatTyped_of_isCatalog oneFreeState_facts.2.2.2.2
    rw [hone, liveMd_withMd] at hty1 ⊢
    exact ⟨rfl, hc, hty1⟩

theorem getFreePage_result_witness :
    (∃ b md1, bytesOf (liveMd createdState) 2 = some b
        ∧ getFreePage createdState = some (2, withMd freshState md1)
        ∧ FreshTaken (liveMd createdState) md1 createdCatalog b)
      ∧ ∃ cat md1, catalogOf (liveMd oneFreeState) = some cat ∧ cat.freePage = 1
        ∧ getFreePage oneFreeState = some (1, withMd freshState md1)
        ∧ HeadTaken (liveMd oneFreeState) md1 cat NO_PAGE := by
  constructor
  · obtain ⟨cat, catF, tF, _, hs1, cr⟩ := createdState_created
    obtain ⟨f1, f2, f3, f4⟩ := createdState_free_facts
    have hceq := createdCatalog_eq
    have hctx := cr.ctx
    have hty := cr.typed
    generalize liveMd createdState = md at hs1 hctx hty hceq f3 f4 ⊢
    cases hb : bytesOf md 2 with
    | none => rw [hb] at f3; cases f3
    | some b =>
      rw [hb] at f3
      simp only [Option.map_some', Option.some.injEq, decide_eq_true_eq] at f3
      cases hfr : frameAt md 15 with
      | none => rw [hfr] at f4; cases f4
      | some f =>
        rw [hfr] at f4
        simp only [Option.map_some', Option.some.injEq, decide_eq_true_eq] at f4
        have hcp : CanPin md createdCatalog.totalNumPages := Or.inr ⟨15, f, hfr, f4.1, f4.2⟩
        obtain ⟨r, md1, e, _, hcan, hdet⟩ := (getFreePage_result freshState md hctx hty
          createdCatalog hceq).1 f2 (by rw [f1]; decide) b (by rw [f1]; exact hb) f3
        have hr := hcan hcp
        rw [← hs1, hr, f1] at e
        exact ⟨b, md1, rfl, e, hdet hr⟩
  · obtain ⟨hs, c, ty⟩ := oneFreeState_ready
    obtain ⟨_, g2, g3, g4, _⟩ := oneFreeState_facts
    generalize liveMd oneFreeState = md at hs c ty g2 g3 g4 ⊢
    cases hc : catalogOf md with
    | none => rw [hc] at g2; cases g2
    | some cat =>
      rw [hc] at g2
      simp only [Option.map_some', Option.some.injEq, Prod.mk.injEq] at g2
      cases hb : bytesOf md 1 with
      | none => rw [hb] at g3; cases g3
      | some b =>
        rw [hb] at g3
        simp only [Option.map_some', Option.some.injEq, Prod.mk.injEq, decide_eq_true_eq] at g3
        have hcp : CanPin md cat.freePage := by
          left
          rw [g2.1]
          intro hn
          rw [hn] at g4
          cases g4
        obtain ⟨r, md1, e, _, hcan, _, hdet⟩ := (getFreePage_result freshState md c ty cat hc).2
          (by rw [g2.1]; decide) (by rw [g2.1]; decide) b NO_PAGE (by rw [g2.1]; exact hb)
          g3.1 g3.2 (fun h => absurd rfl h)
        have hr := hcan hcp rfl
        rw [← hs, hr, g2.1] at e
        exact ⟨cat, md1, rfl, g2.1, e, hdet hr⟩

end RecMgr
